import Mathlib

/-!
# Forwarding core of an NDN node

A shallow embedding of the forwarding strategy (`ndn-forwarding-strategy.cc`),
the flooding variant (`flooding.cc`) and the PIT (`ndn-pit-impl.cc`), with
explicit state passing.  An object reached through a `Ptr` in the source (a PIT
entry) is held in a local value while a handler runs and is stored back into
the table under its name when the handler leaves it alive.

External collaborators (faces, the content store) are parameters: every theorem
holds for all of their behaviours.  Calls to them are recorded in the event log
next to the trace sources, so that "send is invoked on face f" is a statement
about the log.

The accessors of the Interest header (`ndn-interest-header.cc`), the producer
application (`ndn-producer.cc`) and the stack helper (`ndn-stack-helper.cc`) are
embedded after the forwarding core.
-/

namespace Ndn

/-! ## Data model -/

/-- One name component; components are opaque to the forwarding core. -/
abbrev Component := Nat

/-- A name: an ordered sequence of components (`NameComponents`). -/
abbrev Name := List Component

/-- A face, identified by its unique id. -/
abbrev Face := Nat

/-- Simulation time (`ns3::Time`), in ticks. -/
abbrev Time := Int

/-- Raised by `InterestHeader::GetName` and `GetExclude` on an unset field. -/
inductive InterestHeaderException where
  | mk
  deriving DecidableEq, Repr

/-- Fields of `InterestHeader`; the constructor defaults are those of the source. -/
structure InterestHeader where
  name : Option Name := none
  locator : Option Name := none
  minSuffixComponents : Int := -1
  maxSuffixComponents : Int := -1
  exclude : Option Name := none
  childSelector : Bool := false
  answerOriginKind : Bool := false
  scope : Int := -1
  interestLifetime : Time := 0
  nonce : Nat := 0
  nackType : Nat := 0
  agent : Int := 0
  deriving DecidableEq, Repr

/-- Source `InterestHeader::GetName`: throws when the name was never set. -/
def InterestHeader.GetName (h : InterestHeader) : Except InterestHeaderException Name :=
  match h.name with
  | none => .error .mk
  | some n => .ok n

/-- Source `InterestHeader::IsEnabledLocator`. -/
def InterestHeader.IsEnabledLocator (h : InterestHeader) : Bool :=
  h.locator.isSome

/-- Source `InterestHeader::GetNonce`. -/
def InterestHeader.GetNonce (h : InterestHeader) : Nat := h.nonce

/-- Source `InterestHeader::GetInterestLifetime`. -/
def InterestHeader.GetInterestLifetime (h : InterestHeader) : Time := h.interestLifetime

/-- Fields of the Content Object header that the core refers to. -/
structure ContentObjectHeader where
  name : Name
  locator : Option Name := none
  position : Int := 0
  timestamp : Time := 0
  signatureBits : Nat := 0
  deriving DecidableEq, Repr

/-- A header carried by a packet. -/
inductive Header where
  | interest (h : InterestHeader)
  | content (h : ContentObjectHeader)
  deriving DecidableEq, Repr

/-- A trailer carried by a packet. -/
inductive Trailer where
  | contentObjectTail
  deriving DecidableEq, Repr

/-- An `ns3::Packet`: the headers added to it (outermost first), the size of
its payload in bytes and the trailers added to it (outermost last). -/
structure Packet where
  headers : List Header := []
  size : Nat := 0
  trailers : List Trailer := []
  deriving DecidableEq, Repr

/-- Source `Packet::AddTrailer`. -/
def Packet.AddTrailer (p : Packet) (t : Trailer) : Packet :=
  { p with trailers := p.trailers ++ [t] }

/-- Source `Packet::Copy`. -/
def Packet.Copy (p : Packet) : Packet := p

/-- Source `Packet::AddHeader`. -/
def Packet.AddHeader (p : Packet) (h : Header) : Packet :=
  { p with headers := h :: p.headers }

/-- Status colour of a FIB face (`fib::FaceMetric::Status`). -/
inductive Status where
  | green
  | yellow
  | red
  deriving DecidableEq, Repr

/-- A face of a FIB entry.  The RTT estimator is kept as the samples fed to it,
newest last: the formula of the estimate is not part of the forwarding core. -/
structure FaceMetric where
  face : Face
  routingCost : Int := 0
  status : Status := .yellow
  rttSamples : List Time := []
  deriving DecidableEq, Repr

/-- A FIB entry: a registered name and its faces in the metric-ordered view
(`m_faces.get<i_metric> ()`), the order in which a strategy iterates them. -/
structure FibEntry where
  name : Name
  faces : List FaceMetric
  deriving DecidableEq, Repr

/-- The FIB: its entries, one per registered name. -/
abbrev Fib := List FibEntry

/-- A record of the outgoing set of a PIT entry (`pit::OutgoingFace`). -/
structure OutgoingFace where
  face : Face
  sendTime : Time
  retxCount : Nat
  deriving DecidableEq, Repr

/-- A PIT entry (`pit::Entry`).  `fibEntry` is the back-reference to the FIB,
held as the name of the FIB entry. -/
structure Entry where
  name : Name
  fibEntry : Name
  incoming : List Face := []
  outgoing : List OutgoingFace := []
  nonces : List Nat := []
  expireTime : Time := 0
  maxRetxCount : Nat := 1
  deriving DecidableEq, Repr

/-- Replacement policies of the PIT container. -/
inductive Policy where
  | persistent
  | lru
  | random
  deriving DecidableEq, Repr

/-- The PIT (`PitImpl<Policy>`): the stored entries in the order kept by the
policy (for `lru`: least recently used first), the size bound (0: unbounded),
the policy, and the draws the `random` policy will make. -/
structure Pit where
  entries : List Entry := []
  maxSize : Nat := 0
  policy : Policy := .persistent
  draws : List Nat := []
  deriving DecidableEq, Repr

/-- What `ContentStore::Lookup` returns on a hit: the packet, its header and
the payload. -/
structure CsHit where
  packet : Packet
  header : ContentObjectHeader
  payload : Packet
  deriving DecidableEq, Repr

/-- Trace sources of the strategy, and the calls made to collaborators. -/
inductive Event where
  | inInterests (h : InterestHeader) (f : Face)
  | outInterests (h : InterestHeader) (f : Face)
  | dropInterests (h : InterestHeader) (f : Face)
  | inData (h : ContentObjectHeader) (payload : Packet) (f : Face)
  | outData (h : ContentObjectHeader) (payload : Packet) (fromCache : Bool) (f : Face)
  | dropData (h : ContentObjectHeader) (payload : Packet) (f : Face)
  | send (f : Face) (p : Packet) (ok : Bool)
  | isBelowLimit (f : Face) (ok : Bool)
  | csLookup (h : InterestHeader)
  | csAdd (h : ContentObjectHeader) (payload : Packet)
  | doPropagate (f : Face) (h : InterestHeader)
  deriving DecidableEq, Repr

/-- The collaborators of the core: faces with state `σ` (`Face::Send`,
`Face::IsBelowLimit`) and a content store with state `κ`
(`ContentStore::Lookup`, `ContentStore::Add`). -/
structure Collab (σ κ : Type) where
  send : σ → Face → Packet → Bool × σ
  isBelowLimit : σ → Face → Bool × σ
  csLookup : κ → InterestHeader → Option CsHit × κ
  csAdd : κ → ContentObjectHeader → Packet → κ

/-- State of a node: faces, FIB, PIT, content store, clock and event log. -/
structure State (σ κ : Type) where
  faces : σ
  fib : Fib
  pit : Pit
  cs : κ
  now : Time
  log : List Event := []

/-- Fire a trace source / record a call. -/
def State.trace {σ κ : Type} (st : State σ κ) (ev : Event) : State σ κ :=
  { st with log := st.log ++ [ev] }

/-! ## PIT entry operations -/

/-- Modelled from the spec: `pit::Entry::AddIncoming` (ndn-pit-entry.cc is not
part of the sources); the incoming faces form a set. -/
def Entry.AddIncoming (e : Entry) (f : Face) : Entry :=
  { e with incoming := if f ∈ e.incoming then e.incoming else e.incoming ++ [f] }

/-- Modelled from the spec: `pit::Entry::RemoveIncoming`, removal of a face
from the incoming set. -/
def Entry.RemoveIncoming (e : Entry) (f : Face) : Entry :=
  { e with incoming := e.incoming.filter (fun g => g ≠ f) }

/-- Modelled from the spec: `pit::Entry::ClearIncoming`. -/
def Entry.ClearIncoming (e : Entry) : Entry :=
  { e with incoming := [] }

/-- Modelled from the spec: `pit::Entry::ClearOutgoing`. -/
def Entry.ClearOutgoing (e : Entry) : Entry :=
  { e with outgoing := [] }

/-- Modelled from the spec: `pit::Entry::IsNonceSeen`. -/
def Entry.IsNonceSeen (e : Entry) (nonce : Nat) : Bool :=
  decide (nonce ∈ e.nonces)

/-- Modelled from the spec: `pit::Entry::AddSeenNonce`; the nonces form a set. -/
def Entry.AddSeenNonce (e : Entry) (nonce : Nat) : Entry :=
  { e with nonces := if nonce ∈ e.nonces then e.nonces else e.nonces ++ [nonce] }

/-- Modelled from the spec: `pit::Entry::UpdateLifetime`,
`expire_at = max(expire_at, now + lifetime)`. -/
def Entry.UpdateLifetime (e : Entry) (now lifetime : Time) : Entry :=
  { e with expireTime := max e.expireTime (now + lifetime) }

/-- The outgoing record of a face (`GetOutgoing ().find (face)`). -/
def Entry.findOutgoing (e : Entry) (f : Face) : Option OutgoingFace :=
  e.outgoing.find? (fun o => o.face = f)

/-- Modelled from the spec: `pit::Entry::AddOutgoing`, insert a record for the
face with `send_time = now`, or increment the retransmission count (a `u32`) of
the record already there and refresh its send time. -/
def Entry.AddOutgoing (e : Entry) (f : Face) (now : Time) : Entry :=
  match e.findOutgoing f with
  | some _ =>
    { e with outgoing := e.outgoing.map (fun o =>
        if o.face = f then { o with sendTime := now, retxCount := (o.retxCount + 1) % 2 ^ 32 }
        else o) }
  | none => { e with outgoing := e.outgoing ++ [{ face := f, sendTime := now, retxCount := 0 }] }

/-- Modelled from the spec: `pit::Entry::IncreaseAllowedRetxCount`, an
increment of the `u32` bound. -/
def Entry.IncreaseAllowedRetxCount (e : Entry) : Entry :=
  { e with maxRetxCount := (e.maxRetxCount + 1) % 2 ^ 32 }

/-! ## Longest-prefix match and the FIB -/

/-- Modelled from the spec: longest-prefix match of the name trie (utils/trie.h
is not part of the sources), the item with the longest key that is a prefix of
the queried name. -/
def longestPrefixMatch {α : Type} (key : α → Name) : List α → Name → Option α
  | [], _ => none
  | x :: xs, n =>
    match longestPrefixMatch key xs n with
    | some y =>
      if (key x).isPrefixOf n && decide ((key y).length < (key x).length) then some x
      else some y
    | none => if (key x).isPrefixOf n then some x else none

/-- Modelled from the spec: `Fib::LongestPrefixMatch` on the name of the
Interest. -/
def Fib.LongestPrefixMatch (fib : Fib) (n : Name) : Option FibEntry :=
  longestPrefixMatch FibEntry.name fib n

/-- Modelled from the spec: `Fib::LongestPrefixMatchOfLocator`, the
longest-prefix match on the locator of the Interest (the FIB module is not part
of the sources). -/
def Fib.LongestPrefixMatchOfLocator (fib : Fib) (locator : Name) : Option FibEntry :=
  longestPrefixMatch FibEntry.name fib locator

/-- Modelled from the spec: `fib::Entry::UpdateFaceRtt`, feed a sample to the
estimator of the face in the FIB entry of the given name. -/
def Fib.UpdateFaceRtt (fib : Fib) (entryName : Name) (f : Face) (sample : Time) : Fib :=
  fib.map (fun fe =>
    if fe.name = entryName then
      { fe with faces := fe.faces.map (fun m =>
          if m.face = f then { m with rttSamples := m.rttSamples ++ [sample] } else m) }
    else fe)

/-- The FIB entry a PIT entry refers to (`pit::Entry::GetFibEntry`). -/
def Fib.GetFibEntry (fib : Fib) (e : Entry) : Option FibEntry :=
  fib.find? (fun fe => fe.name = e.fibEntry)

/-! ## PIT -/

/-- Source `PitImpl::GetSize`: the size kept by the policy. -/
def PitImpl.GetSize (p : Pit) : Nat := p.entries.length

/-- Source `PitImpl::Lookup (const InterestHeader &)`: `find` on the trie; an entry is
returned only when the whole name was reached and a payload is stored there. -/
def PitImpl.Lookup (p : Pit) (n : Name) : Option Entry :=
  p.entries.find? (fun e => e.name = n)

/-- Modelled from the spec: `on_hit` of the replacement policy; `lru` moves the
entry to the most recently used end, the other policies keep no recency. -/
def Pit.touch (p : Pit) (n : Name) : Pit :=
  match p.policy with
  | .lru =>
    { p with entries := p.entries.filter (fun e => e.name ≠ n) ++
                        p.entries.filter (fun e => e.name = n) }
  | _ => p

/-- Source `PitImpl::Lookup (const ContentObjectHeader &)`: longest-prefix match on the
name of the content through the container, which reports the hit to the
policy. -/
def PitImpl.LookupContent (p : Pit) (n : Name) : Option Entry × Pit :=
  match longestPrefixMatch Entry.name p.entries n with
  | some e => (some e, p.touch e.name)
  | none => (none, p)

/-- Modelled from the spec: `insert` of the replacement policy (§4.6).  Below
the bound (or unbounded) the entry is added; at the bound `persistent` rejects,
`lru` evicts the least recently used entry and `random` evicts the entry picked
by its next draw. -/
def Pit.policyInsert (p : Pit) (e : Entry) : Option Pit :=
  if p.maxSize ≠ 0 ∧ p.maxSize ≤ p.entries.length then
    match p.policy with
    | .persistent => none
    | .lru => some { p with entries := p.entries.tail ++ [e] }
    | .random =>
      some { p with entries := p.entries.eraseIdx (p.draws.headD 0 % p.entries.length) ++ [e]
                    draws := p.draws.tail }
  else some { p with entries := p.entries ++ [e] }

/-- Modelled from the spec: the constructor of `pit::Entry`, with
`expire_at = now + lifetime`, no faces, no nonces and `max_retx_allowed = 1`. -/
def Entry.create (n : Name) (lifetime : Time) (fibName : Name) (now : Time) : Entry :=
  { name := n, fibEntry := fibName, expireTime := now + lifetime }

/-- Modelled from the spec: `insert` of the policy-aware trie
(utils/trie-with-policy.h): an existing key is returned as it is, a new key is
offered to the policy and dropped again when the policy rejects it.  The result
is the item now stored under the key, whether it was inserted, and the table. -/
def Pit.insert (p : Pit) (e : Entry) : Option (Entry × Bool) × Pit :=
  match PitImpl.Lookup p e.name with
  | some old => (some (old, false), p)
  | none =>
    match p.policyInsert e with
    | some p' => (some (e, true), p')
    | none => (none, p)

/-- Source `PitImpl::Create`: the FIB entry comes from the locator when the Interest
has a non-empty one and from the name otherwise; both branches then insert the
new entry under the name of the Interest. -/
def PitImpl.Create (fib : Fib) (p : Pit) (now : Time) (header : InterestHeader) (n : Name) :
    Option Entry × Pit :=
  if header.IsEnabledLocator && decide ((header.locator.getD []).length > 0) then
    match fib.LongestPrefixMatchOfLocator (header.locator.getD []) with
    | none => (none, p)
    | some fibEntry =>
      let newEntry := Entry.create n header.GetInterestLifetime fibEntry.name now
      match p.insert newEntry with
      | (some (_, true), p') => (some newEntry, p')
      | (some (old, false), p') => (some old, p')
      | (none, p') => (none, p')
  else
    match fib.LongestPrefixMatch n with
    | none => (none, p)
    | some fibEntry =>
      let newEntry := Entry.create n header.GetInterestLifetime fibEntry.name now
      match p.insert newEntry with
      | (some (_, true), p') => (some newEntry, p')
      | (some (old, false), p') => (some old, p')
      | (none, p') => (none, p')

/-- Source `PitImpl::MarkErased`: `super::erase` of the entry, at once. -/
def PitImpl.MarkErased (p : Pit) (e : Entry) : Pit :=
  { p with entries := p.entries.filter (fun x => x.name ≠ e.name) }

/-- Store the current value of an entry object back under its name; an entry
that is no longer in the table stays out of it. -/
def Pit.store (p : Pit) (e : Entry) : Pit :=
  { p with entries := p.entries.map (fun x => if x.name = e.name then e else x) }

/-- Names are keys: the trie holds one entry per name. -/
def Pit.WF (p : Pit) : Prop := (p.entries.map Entry.name).Nodup

instance (p : Pit) : Decidable p.WF := by
  unfold Pit.WF; infer_instance

/-! ## Forwarding strategy (base) -/

/-- What `DoPropagateInterest` leaves behind: its return value, the node, the
Interest header (a variant may rewrite it) and the PIT entry it worked on. -/
structure Propagated (σ κ : Type) where
  ok : Bool
  st : State σ κ
  header : InterestHeader
  entry : Entry

/-- The strategy object: its two attributes and the variant-specific
`DoPropagateInterest` (pure virtual in the base class). -/
structure ForwardingStrategy (σ κ : Type) where
  cacheUnsolicitedData : Bool := false
  detectRetransmissions : Bool := true
  DoPropagateInterest : State σ κ → Face → InterestHeader → Packet → Entry → Propagated σ κ

section Strategy

variable {σ κ : Type}

/-- Call of `Face::Send` on a face, recorded in the log with its result. -/
def faceSend (X : Collab σ κ) (st : State σ κ) (f : Face) (p : Packet) : Bool × State σ κ :=
  let r := X.send st.faces f p
  (r.1, { st with faces := r.2, log := st.log ++ [.send f p r.1] })

/-- Source `ForwardingStrategy::DidReceiveDuplicateInterest`. -/
def ForwardingStrategy.DidReceiveDuplicateInterest (st : State σ κ) (incomingFace : Face)
    (header : InterestHeader) (pitEntry : Entry) : State σ κ × Entry :=
  let pitEntry := pitEntry.AddIncoming incomingFace
  (st.trace (.dropInterests header incomingFace), pitEntry)

/-- Source `ForwardingStrategy::DidExhaustForwardingOptions`. -/
def ForwardingStrategy.DidExhaustForwardingOptions (st : State σ κ) (incomingFace : Face)
    (header : InterestHeader) : State σ κ :=
  st.trace (.dropInterests header incomingFace)

/-- Source `ForwardingStrategy::FailedToCreatePitEntry`. -/
def ForwardingStrategy.FailedToCreatePitEntry (st : State σ κ) (incomingFace : Face)
    (header : InterestHeader) : State σ κ :=
  st.trace (.dropInterests header incomingFace)

/-- Source `ForwardingStrategy::DidCreatePitEntry`: empty in the base class. -/
def ForwardingStrategy.DidCreatePitEntry (st : State σ κ) : State σ κ := st

/-- Source `ForwardingStrategy::DetectRetransmittedInterest`. -/
def ForwardingStrategy.DetectRetransmittedInterest (incomingFace : Face) (pitEntry : Entry) :
    Bool :=
  decide (incomingFace ∈ pitEntry.incoming)

/-- The loop of `SatisfyPendingInterest` over the incoming faces. -/
def ForwardingStrategy.satisfyFaces (X : Collab σ κ) (incomingFace : Option Face)
    (header : ContentObjectHeader) (payload packet : Packet) :
    List Face → State σ κ → State σ κ
  | [], st => st
  | f :: fs, st =>
    let r := faceSend X st f packet.Copy
    let st :=
      if r.1 then r.2.trace (.outData header payload incomingFace.isNone f)
      else r.2.trace (.dropData header payload f)
    satisfyFaces X incomingFace header payload packet fs st

/-- Source `ForwardingStrategy::SatisfyPendingInterest`; `incomingFace` is `none` for
the null face.  Returns the node and the (cleared) entry object. -/
def ForwardingStrategy.SatisfyPendingInterest (X : Collab σ κ) (st : State σ κ)
    (incomingFace : Option Face) (header : ContentObjectHeader) (payload packet : Packet)
    (pitEntry : Entry) : State σ κ × Entry :=
  let pitEntry :=
    match incomingFace with
    | some f => pitEntry.RemoveIncoming f
    | none => pitEntry
  let st := satisfyFaces X incomingFace header payload packet pitEntry.incoming st
  let pitEntry := pitEntry.ClearIncoming
  let pitEntry := pitEntry.ClearOutgoing
  ({ st with pit := PitImpl.MarkErased st.pit pitEntry }, pitEntry)

/-- Source `ForwardingStrategy::DidReceiveUnsolicitedData`. -/
def ForwardingStrategy.DidReceiveUnsolicitedData (S : ForwardingStrategy σ κ) (X : Collab σ κ)
    (st : State σ κ) (incomingFace : Face) (header : ContentObjectHeader) (payload : Packet) :
    State σ κ :=
  if S.cacheUnsolicitedData then
    { st with cs := X.csAdd st.cs header payload, log := st.log ++ [.csAdd header payload] }
  else st.trace (.dropData header payload incomingFace)

/-- Source `ForwardingStrategy::WillSatisfyPendingInterest`: an RTT sample for the
arrival face when an Interest was sent out through it. -/
def ForwardingStrategy.WillSatisfyPendingInterest (st : State σ κ) (incomingFace : Option Face)
    (pitEntry : Entry) : State σ κ :=
  match incomingFace with
  | none => st
  | some f =>
    match pitEntry.findOutgoing f with
    | some out => { st with fib := st.fib.UpdateFaceRtt pitEntry.fibEntry f (st.now - out.sendTime) }
    | none => st

/-- Source `ForwardingStrategy::ShouldSuppressIncomingInterest`. -/
def ForwardingStrategy.ShouldSuppressIncomingInterest (S : ForwardingStrategy σ κ)
    (incomingFace : Face) (pitEntry : Entry) : Bool :=
  let isNew := pitEntry.incoming.length == 0 && pitEntry.outgoing.length == 0
  if isNew then false
  else
    let isRetransmitted :=
      S.detectRetransmissions && DetectRetransmittedInterest incomingFace pitEntry
    if (pitEntry.findOutgoing incomingFace).isSome then false
    else if !isNew && !isRetransmitted then true
    else false

/-- Source `ForwardingStrategy::PropagateInterest`.  Each call of `DoPropagateInterest`
is recorded in the log; the entry is stored back on return. -/
def ForwardingStrategy.PropagateInterest (S : ForwardingStrategy σ κ) (st : State σ κ)
    (incomingFace : Face) (header : InterestHeader) (packet : Packet) (pitEntry : Entry) :
    State σ κ :=
  let isRetransmitted :=
    S.detectRetransmissions && DetectRetransmittedInterest incomingFace pitEntry
  let pitEntry := pitEntry.AddIncoming incomingFace
  let pitEntry := pitEntry.UpdateLifetime st.now header.GetInterestLifetime
  let r := S.DoPropagateInterest (st.trace (.doPropagate incomingFace header))
    incomingFace header packet pitEntry
  let r :=
    if !r.ok && isRetransmitted then
      let pitEntry := r.entry.IncreaseAllowedRetxCount
      S.DoPropagateInterest (r.st.trace (.doPropagate incomingFace r.header))
        incomingFace r.header packet pitEntry
    else r
  let st :=
    if !r.ok && r.entry.outgoing.length == 0 then
      DidExhaustForwardingOptions r.st incomingFace r.header
    else r.st
  { st with pit := st.pit.store r.entry }

/-- Source `ForwardingStrategy::WillSendOutInterest`. -/
def ForwardingStrategy.WillSendOutInterest (X : Collab σ κ) (st : State σ κ)
    (outgoingFace : Face) (pitEntry : Entry) : Bool × State σ κ × Entry :=
  match pitEntry.findOutgoing outgoingFace with
  | some outgoing =>
    if outgoing.retxCount ≥ pitEntry.maxRetxCount then (false, st, pitEntry)
    else
      let r := X.isBelowLimit st.faces outgoingFace
      let st := { st with faces := r.2, log := st.log ++ [.isBelowLimit outgoingFace r.1] }
      if !r.1 then (false, st, pitEntry)
      else (true, st, pitEntry.AddOutgoing outgoingFace st.now)
  | none =>
    let r := X.isBelowLimit st.faces outgoingFace
    let st := { st with faces := r.2, log := st.log ++ [.isBelowLimit outgoingFace r.1] }
    if !r.1 then (false, st, pitEntry)
    else (true, st, pitEntry.AddOutgoing outgoingFace st.now)

/-- Source `ForwardingStrategy::DidSendOutInterest`. -/
def ForwardingStrategy.DidSendOutInterest (st : State σ κ) (outgoingFace : Face)
    (header : InterestHeader) : State σ κ :=
  st.trace (.outInterests header outgoingFace)

/-- The part of `OnInterest` that finds the PIT entry of the Interest or creates
it; `none` when there is no entry and none could be created. -/
def ForwardingStrategy.acquire (st : State σ κ) (header : InterestHeader) (n : Name) :
    Option (Entry × State σ κ) :=
  match PitImpl.Lookup st.pit n with
  | some pitEntry => some (pitEntry, st)
  | none =>
    match PitImpl.Create st.fib st.pit st.now header n with
    | (some pitEntry, pit) => some (pitEntry, DidCreatePitEntry { st with pit := pit })
    | (none, _) => none

/-- Source `ForwardingStrategy::OnInterest` after the `in_interests` trace, for a
header whose name is `n`. -/
def ForwardingStrategy.onInterestNamed (S : ForwardingStrategy σ κ) (X : Collab σ κ)
    (st : State σ κ) (incomingFace : Face) (header : InterestHeader) (n : Name)
    (packet : Packet) : State σ κ :=
  match acquire st header n with
  | none => FailedToCreatePitEntry st incomingFace header
  | some (pitEntry, st) =>
    if pitEntry.IsNonceSeen header.GetNonce then
      let r := DidReceiveDuplicateInterest st incomingFace header pitEntry
      { r.1 with pit := r.1.pit.store r.2 }
    else
      let pitEntry := pitEntry.AddSeenNonce header.GetNonce
      let r := X.csLookup st.cs header
      let st := { st with cs := r.2, log := st.log ++ [.csLookup header] }
      match r.1 with
      | some hit =>
        let pitEntry := pitEntry.AddIncoming incomingFace
        let st := WillSatisfyPendingInterest st none pitEntry
        (SatisfyPendingInterest X st none hit.header hit.payload hit.packet pitEntry).1
      | none =>
        if S.ShouldSuppressIncomingInterest incomingFace pitEntry then
          let pitEntry := pitEntry.AddIncoming incomingFace
          let pitEntry := pitEntry.UpdateLifetime st.now header.GetInterestLifetime
          let st := st.trace (.dropInterests header incomingFace)
          { st with pit := st.pit.store pitEntry }
        else S.PropagateInterest st incomingFace header packet pitEntry

/-- Source `ForwardingStrategy::OnInterest`.  The first use of the name, in
`m_pit->Lookup (*header)`, throws when the header has none: the exception leaves the
handler, and the node is then as the statements before the throw left it. -/
def ForwardingStrategy.OnInterest (S : ForwardingStrategy σ κ) (X : Collab σ κ)
    (st : State σ κ) (incomingFace : Face) (header : InterestHeader) (packet : Packet) :
    Except (InterestHeaderException × State σ κ) (State σ κ) :=
  let st := st.trace (.inInterests header incomingFace)
  match header.GetName with
  | .error ex => .error (ex, st)
  | .ok n => .ok (S.onInterestNamed X st incomingFace header n packet)

/-- The `while (pitEntry != 0)` loop of `OnData`, with a bound on the number of
iterations; `none` when the bound is reached with an entry still matching. -/
def ForwardingStrategy.satisfyAll (X : Collab σ κ) (incomingFace : Face)
    (header : ContentObjectHeader) (payload packet : Packet) :
    Nat → State σ κ → Option Entry → Option (State σ κ)
  | _, st, none => some st
  | 0, _, some _ => none
  | fuel + 1, st, some pitEntry =>
    let st := WillSatisfyPendingInterest st (some incomingFace) pitEntry
    let st := (SatisfyPendingInterest X st (some incomingFace) header payload packet pitEntry).1
    let r := PitImpl.LookupContent st.pit header.name
    satisfyAll X incomingFace header payload packet fuel { st with pit := r.2 } r.1

/-- Source `ForwardingStrategy::OnData`.  Every iteration of the loop erases the entry
it matched, so the size of the PIT bounds the number of iterations. -/
def ForwardingStrategy.OnData (S : ForwardingStrategy σ κ) (X : Collab σ κ) (st : State σ κ)
    (incomingFace : Face) (header : ContentObjectHeader) (payload packet : Packet) :
    Option (State σ κ) :=
  let st := st.trace (.inData header payload incomingFace)
  let r := PitImpl.LookupContent st.pit header.name
  let st := { st with pit := r.2 }
  match r.1 with
  | none => some (S.DidReceiveUnsolicitedData X st incomingFace header payload)
  | some pitEntry =>
    let st := { st with cs := X.csAdd st.cs header payload, log := st.log ++ [.csAdd header payload] }
    satisfyAll X incomingFace header payload packet (PitImpl.GetSize st.pit) st (some pitEntry)

end Strategy

/-! ## Flooding -/

section Flooding

variable {σ κ : Type}

/-- The loop of `Flooding::DoPropagateInterest` over the faces of the FIB entry
in metric order; the last component counts the faces sent to. -/
def Flooding.floodFaces (X : Collab σ κ) (incomingFace : Face) (packet : Packet) :
    List FaceMetric → State σ κ → InterestHeader → Entry → Nat →
    State σ κ × InterestHeader × Entry × Nat
  | [], st, header, pitEntry, propagatedCount => (st, header, pitEntry, propagatedCount)
  | metricFace :: rest, st, header, pitEntry, propagatedCount =>
    if metricFace.status = .red then (st, header, pitEntry, propagatedCount)
    else if metricFace.face = incomingFace then
      floodFaces X incomingFace packet rest st header pitEntry propagatedCount
    else
      let w := ForwardingStrategy.WillSendOutInterest X st metricFace.face pitEntry
      if !w.1 then floodFaces X incomingFace packet rest w.2.1 header w.2.2 propagatedCount
      else
        let header' : InterestHeader := if header.agent = 1 then { header with agent := 2 } else header
        let toSend : Packet :=
          if header.agent = 1 then ({} : Packet).AddHeader (.interest header') else packet.Copy
        let st := (faceSend X w.2.1 metricFace.face toSend).2
        let st := ForwardingStrategy.DidSendOutInterest st metricFace.face header'
        floodFaces X incomingFace packet rest st header' w.2.2 (propagatedCount + 1)

/-- Source `Flooding::DoPropagateInterest`. -/
def Flooding.DoPropagateInterest (X : Collab σ κ) (st : State σ κ) (incomingFace : Face)
    (header : InterestHeader) (packet : Packet) (pitEntry : Entry) : Propagated σ κ :=
  let faces :=
    match st.fib.GetFibEntry pitEntry with
    | some fibEntry => fibEntry.faces
    | none => []
  let r := floodFaces X incomingFace packet faces st header pitEntry 0
  { ok := decide (r.2.2.2 > 0), st := r.1, header := r.2.1, entry := r.2.2.1 }

/-- The flooding strategy with the given attribute values. -/
def Flooding (X : Collab σ κ) (cacheUnsolicitedData detectRetransmissions : Bool) :
    ForwardingStrategy σ κ :=
  { cacheUnsolicitedData := cacheUnsolicitedData
    detectRetransmissions := detectRetransmissions
    DoPropagateInterest := Flooding.DoPropagateInterest X }

end Flooding

/-! ## Sequences of arrivals -/

/-- The same Interest delivered to `OnInterest` once per face of the list, in order. -/
def ForwardingStrategy.OnInterests {σ κ : Type} (S : ForwardingStrategy σ κ) (X : Collab σ κ)
    (header : InterestHeader) (packet : Packet) :
    List Face → State σ κ → Except (InterestHeaderException × State σ κ) (State σ κ)
  | [], st => .ok st
  | f :: fs, st =>
    match S.OnInterest X st f header packet with
    | .ok st' => OnInterests S X header packet fs st'
    | .error ex => .error ex

/-! ## Reading the log -/

/-- Holds when `Face::Send` was invoked on `f`. -/
def Event.isSendOn (f : Face) : Event → Bool
  | .send g _ _ => decide (g = f)
  | _ => false

/-- A `Face::Send` call. -/
def Event.isSend : Event → Bool
  | .send _ _ _ => true
  | _ => false

/-- An `out_data` trace. -/
def Event.isOutData : Event → Bool
  | .outData _ _ _ _ => true
  | _ => false

/-- A `drop_data` trace. -/
def Event.isDropData : Event → Bool
  | .dropData _ _ _ => true
  | _ => false

/-- An `out_interests` trace. -/
def Event.isOutInterests : Event → Bool
  | .outInterests _ _ => true
  | _ => false

/-- A `drop_interests` trace. -/
def Event.isDropInterests : Event → Bool
  | .dropInterests _ _ => true
  | _ => false

/-- A call of `DoPropagateInterest`. -/
def Event.isDoPropagate : Event → Bool
  | .doPropagate _ _ => true
  | _ => false

/-- A `ContentStore::Lookup` call. -/
def Event.isCsLookup : Event → Bool
  | .csLookup _ => true
  | _ => false

/-- What `Flooding::DoPropagateInterest` leaves in the log: limit queries, sends
and `out_interests` traces. -/
def Event.isFloodStep : Event → Bool
  | .send _ _ _ => true
  | .isBelowLimit _ _ => true
  | .outInterests _ _ => true
  | _ => false

/-- Number of `Face::Send` calls on `f` in a log. -/
def sendsOn (f : Face) (log : List Event) : Nat := log.countP (Event.isSendOn f)

/-- What one attempt of `SatisfyPendingInterest` on a face leaves in the log:
the send with its result, then `out_data` or `drop_data`. -/
def satisfyAttempt (incomingFace : Option Face) (header : ContentObjectHeader)
    (payload packet : Packet) (a : Face × Bool) : List Event :=
  [.send a.1 packet a.2,
   if a.2 then .outData header payload incomingFace.isNone a.1
   else .dropData header payload a.1]

/-- The log of a run of attempts, one per face, with the given send results. -/
def satisfyEvents (incomingFace : Option Face) (header : ContentObjectHeader)
    (payload packet : Packet) (fs : List Face) (oks : List Bool) : List Event :=
  (fs.zip oks).flatMap (satisfyAttempt incomingFace header payload packet)

/-- What `floodFaces` leaves unchanged, and how its log relates to its count. -/
structure FloodSpec {σ κ : Type} (st st' : State σ κ) (e e' : Entry) (cnt cnt' : Nat) : Prop where
  pit : st'.pit = st.pit
  fib : st'.fib = st.fib
  cs : st'.cs = st.cs
  now : st'.now = st.now
  name : e'.name = e.name
  fibEntry : e'.fibEntry = e.fibEntry
  incoming : e'.incoming = e.incoming
  nonces : e'.nonces = e.nonces
  expireTime : e'.expireTime = e.expireTime
  maxRetxCount : e'.maxRetxCount = e.maxRetxCount
  log : ∃ evs, st'.log = st.log ++ evs ∧ (∀ ev ∈ evs, ev.isFloodStep = true) ∧
    evs.countP Event.isOutInterests + cnt = cnt' ∧ evs.countP Event.isSend + cnt = cnt'
  same : cnt' = cnt → e'.outgoing = e.outgoing
  more : cnt < cnt' → e'.outgoing ≠ []
  keep : e.outgoing ≠ [] → e'.outgoing ≠ []

/-! ## Parts of the handlers, and the flooding of the spec -/

/-- The calls of `DoPropagateInterest` made by `PropagateInterest`: the first one and, for
a retransmission whose first call returned false, a second one with the increased bound.
The value is what the last call returned. -/
def ForwardingStrategy.propagateAttempts {σ κ : Type} (S : ForwardingStrategy σ κ)
    (st : State σ κ) (incomingFace : Face) (header : InterestHeader) (packet : Packet)
    (pitEntry : Entry) : Propagated σ κ :=
  let isRetransmitted :=
    S.detectRetransmissions && DetectRetransmittedInterest incomingFace pitEntry
  let pitEntry := pitEntry.AddIncoming incomingFace
  let pitEntry := pitEntry.UpdateLifetime st.now header.GetInterestLifetime
  let r := S.DoPropagateInterest (st.trace (.doPropagate incomingFace header))
    incomingFace header packet pitEntry
  if !r.ok && isRetransmitted then
    S.DoPropagateInterest (r.st.trace (.doPropagate incomingFace r.header))
      incomingFace r.header packet r.entry.IncreaseAllowedRetxCount
  else r

/-- The face an event is about, when it is about one. -/
def Event.face : Event → Option Face
  | .inInterests _ f => some f
  | .outInterests _ f => some f
  | .dropInterests _ f => some f
  | .inData _ _ f => some f
  | .outData _ _ _ f => some f
  | .dropData _ _ f => some f
  | .send f _ _ => some f
  | .isBelowLimit f _ => some f
  | .doPropagate f _ => some f
  | .csLookup _ => none
  | .csAdd _ _ => none

/-- The faces `Flooding::DoPropagateInterest` iterates over: those of the FIB entry of the
PIT entry, in metric order. -/
def Flooding.facesOf (fib : Fib) (pitEntry : Entry) : List FaceMetric :=
  match fib.GetFibEntry pitEntry with
  | some fibEntry => fibEntry.faces
  | none => []

/-- Following the words of the spec: the eligible faces of a FIB entry, those that are not
RED and are not the arrival face, in metric order. -/
def Flooding.eligible (faces : List FaceMetric) (incomingFace : Face) : List Face :=
  (faces.filter (fun m => m.status ≠ .red ∧ m.face ≠ incomingFace)).map (fun m => m.face)

/-- Following the words of the spec: what flooding does with one eligible face.  If
`WillSendOutInterest` accepts the face, the packet is sent on it (a fresh packet with the
rewritten header when `agent` is 1), `DidSendOutInterest` is called and the face is
counted. -/
def Flooding.forwardTo {σ κ : Type} (X : Collab σ κ) (packet : Packet)
    (acc : State σ κ × InterestHeader × Entry × Nat) (g : Face) :
    State σ κ × InterestHeader × Entry × Nat :=
  let w := ForwardingStrategy.WillSendOutInterest X acc.1 g acc.2.2.1
  if w.1 then
    let header' : InterestHeader :=
      if acc.2.1.agent = 1 then { acc.2.1 with agent := 2 } else acc.2.1
    let toSend : Packet :=
      if acc.2.1.agent = 1 then ({} : Packet).AddHeader (.interest header') else packet.Copy
    let st := (faceSend X w.2.1 g toSend).2
    (ForwardingStrategy.DidSendOutInterest st g header', header', w.2.2, acc.2.2.2 + 1)
  else (w.2.1, acc.2.1, w.2.2, acc.2.2.2)

/-- Following the words of the spec: flooding forwards to all eligible faces of the
matched FIB entry and returns whether it sent on at least one. -/
def Flooding.forwardToEligible {σ κ : Type} (X : Collab σ κ) (st : State σ κ)
    (incomingFace : Face) (header : InterestHeader) (packet : Packet) (pitEntry : Entry) :
    Propagated σ κ :=
  let r := (Flooding.eligible (Flooding.facesOf st.fib pitEntry) incomingFace).foldl
    (Flooding.forwardTo X packet) (st, header, pitEntry, 0)
  { ok := decide (r.2.2.2 > 0), st := r.1, header := r.2.1, entry := r.2.2.1 }

/-- The packet handed to `Face::Send`, for a send event. -/
def Event.sentPacket : Event → Option Packet
  | .send _ p _ => some p
  | _ => none

/-- Source `ForwardingStrategy::OnData`, with the bound on the iterations of its loop given
by the caller (`OnData` is the case of the bound `GetSize ()`). -/
def ForwardingStrategy.onDataWithin {σ κ : Type} (S : ForwardingStrategy σ κ) (X : Collab σ κ)
    (fuel : Nat) (st : State σ κ) (incomingFace : Face) (header : ContentObjectHeader)
    (payload packet : Packet) : Option (State σ κ) :=
  let st := st.trace (.inData header payload incomingFace)
  let r := PitImpl.LookupContent st.pit header.name
  let st := { st with pit := r.2 }
  match r.1 with
  | none => some (S.DidReceiveUnsolicitedData X st incomingFace header payload)
  | some pitEntry =>
    let st := { st with cs := X.csAdd st.cs header payload, log := st.log ++ [.csAdd header payload] }
    ForwardingStrategy.satisfyAll X incomingFace header payload packet fuel st (some pitEntry)

/-! ## The trie of the PIT, the expiry cleaner and runs of operations -/

/-- Modelled from the spec: the walk of `Find` of the name trie (utils/trie.h is not part
of the sources) from the node `node` along the components of the rest of the key, for a
trie that holds the given entries.  A child node exists when a stored name passes through
it (empty nodes are pruned).  The result is the last node on the path, as its name, and
whether the whole key was walked. -/
def trieWalk (entries : List Entry) : Name → Name → Name × Bool
  | node, [] => (node, true)
  | node, subkey :: rest =>
    if entries.any (fun e => (node ++ [subkey]).isPrefixOf e.name) then
      trieWalk entries (node ++ [subkey]) rest
    else (node, false)

/-- Modelled from the spec: `Find` of the name trie, reduced to what `PitImpl::Lookup`
uses of it: `reachLast` and the payload of `lastItem`. -/
def trieFind (entries : List Entry) (key : Name) : Bool × Option Entry :=
  let r := trieWalk entries [] key
  (r.2, entries.find? (fun e => e.name = r.1))

/-- Source `PitImpl::Lookup (const InterestHeader &)`, written over `Find` as in the source:
nothing when the name was not reached in full, else the payload of the last node, which
may be empty. -/
def PitImpl.lookupByFind (p : Pit) (n : Name) : Option Entry :=
  let r := trieFind p.entries n
  if !r.1 then none else r.2

/-- Source `PitImpl::Create` as it was before the locator was added (the body the source
keeps in a comment): the FIB entry always comes from the name of the Interest. -/
def PitImpl.CreateOriginal (fib : Fib) (p : Pit) (now : Time) (header : InterestHeader)
    (n : Name) : Option Entry × Pit :=
  match fib.LongestPrefixMatch n with
  | none => (none, p)
  | some fibEntry =>
    let newEntry := Entry.create n header.GetInterestLifetime fibEntry.name now
    match p.insert newEntry with
    | (some (_, true), p') => (some newEntry, p')
    | (some (old, false), p') => (some old, p')
    | (none, p') => (none, p')

/-- What both branches of `PitImpl::Create` do once the FIB entry is resolved: nothing
without a FIB entry, else the insertion of a new entry under the name of the Interest. -/
def PitImpl.createFrom (fibEntry : Option FibEntry) (p : Pit) (now : Time)
    (header : InterestHeader) (n : Name) : Option Entry × Pit :=
  match fibEntry with
  | none => (none, p)
  | some fibEntry =>
    let newEntry := Entry.create n header.GetInterestLifetime fibEntry.name now
    match p.insert newEntry with
    | (some (_, true), p') => (some newEntry, p')
    | (some (old, false), p') => (some old, p')
    | (none, p') => (none, p')

/-- Calls that the PIT makes to the strategy, to its container and to the simulator. -/
inductive PitCall where
  | willErase (e : Entry)
  | erase (e : Entry)
  | simRemove (ev : Option Nat)
  | simSchedule (delay : Time)
  deriving DecidableEq, Repr

/-- The members of `PitImpl` next to the trie, with the part of the simulator they use: the
time index `i_time` (first element: `i_time.begin ()`), the handle `m_cleanEvent` (the uid
of its event, `none` for a handle that was never assigned), the events in the queue of
the simulator that will run `CleanExpired` (uid and time), the next uid of the simulator,
and the calls made so far. -/
structure Cleaning where
  i_time : List Entry := []
  m_cleanEvent : Option Nat := none
  pending : List (Nat × Time) := []
  nextUid : Nat := 0
  calls : List PitCall := []
  deriving DecidableEq, Repr

/-- Source `PitImpl::RescheduleCleaning`, at simulation time `now`.  `Simulator::Remove`
takes the event of the handle out of the queue; `Simulator::Schedule` queues a new event
`nextEvent` from now and returns its handle. -/
def PitImpl.RescheduleCleaning (now : Time) (c : Cleaning) : Cleaning :=
  let c := { c with pending := c.pending.filter (fun ev => some ev.1 ≠ c.m_cleanEvent)
                    calls := c.calls ++ [PitCall.simRemove c.m_cleanEvent] }
  match c.i_time with
  | [] => c
  | first :: _ =>
    let nextEvent := first.expireTime - now
    let nextEvent := if nextEvent ≤ 0 then 0 else nextEvent
    { c with m_cleanEvent := some c.nextUid
             pending := c.pending ++ [(c.nextUid, now + nextEvent)]
             nextUid := c.nextUid + 1
             calls := c.calls ++ [PitCall.simSchedule nextEvent] }

/-- The `while (!i_time.empty ())` loop of `PitImpl::CleanExpired` over the time index:
a stale first entry is announced to the strategy and erased (`super::erase`, which also
takes it out of the time index), the first entry that is not stale ends the loop.  The
result is the table, the time index and the calls. -/
def PitImpl.cleanLoop (now : Time) : List Entry → Pit → List PitCall →
    Pit × List Entry × List PitCall
  | [], p, calls => (p, [], calls)
  | entry :: rest, p, calls =>
    if entry.expireTime ≤ now then
      cleanLoop now rest (PitImpl.MarkErased p entry) (calls ++ [.willErase entry, .erase entry])
    else (p, entry :: rest, calls)

/-- Source `PitImpl::CleanExpired`, run at simulation time `now`. -/
def PitImpl.CleanExpired (now : Time) (p : Pit) (c : Cleaning) : Pit × Cleaning :=
  let r := cleanLoop now c.i_time p c.calls
  (r.1, RescheduleCleaning now { c with i_time := r.2.1, calls := r.2.2 })

/-- Holds when every event of the queue that will run `CleanExpired` is the one that
`m_cleanEvent` refers to. -/
def Cleaning.Tracked (c : Cleaning) : Prop :=
  ∀ ev ∈ c.pending, c.m_cleanEvent = some ev.1

instance (c : Cleaning) : Decidable c.Tracked := by
  unfold Cleaning.Tracked; infer_instance

/-- The simulator runs the event with the given uid: the event leaves the queue and
`CleanExpired` is run. -/
def PitImpl.fire (uid : Nat) (now : Time) (p : Pit) (c : Cleaning) : Pit × Cleaning :=
  PitImpl.CleanExpired now p { c with pending := c.pending.filter (fun ev => ev.1 ≠ uid) }

/-- An operation on the PIT: `Create`, `MarkErased` or a run of `CleanExpired`. -/
inductive PitOp where
  | create (fib : Fib) (now : Time) (header : InterestHeader) (n : Name)
  | markErased (e : Entry)
  | cleanExpired (now : Time) (c : Cleaning)

/-- The PIT after one operation. -/
def PitOp.apply (p : Pit) : PitOp → Pit
  | .create fib now header n => (PitImpl.Create fib p now header n).2
  | .markErased e => PitImpl.MarkErased p e
  | .cleanExpired now c => (PitImpl.CleanExpired now p c).1

/-- The PIT after a sequence of operations. -/
def Pit.after (p : Pit) (ops : List PitOp) : Pit := ops.foldl PitOp.apply p

/-- The states of a node reached from one with an empty PIT through calls of `OnInterest`,
at any times. -/
inductive ForwardingStrategy.ReachedByInterests {σ κ : Type} (S : ForwardingStrategy σ κ)
    (X : Collab σ κ) : State σ κ → Prop where
  | start (st : State σ κ) (hpit : st.pit.entries = []) : ReachedByInterests S X st
  | onInterest (st st' : State σ κ) (incomingFace : Face) (header : InterestHeader)
      (packet : Packet) (hst : ReachedByInterests S X st)
      (hrun : S.OnInterest X st incomingFace header packet = .ok st') :
      ReachedByInterests S X st'
  | later (st : State σ κ) (t : Time) (hst : ReachedByInterests S X st) :
      ReachedByInterests S X { st with now := t }

/-- An `IsBelowLimit` call that returned true: the query that makes `WillSendOutInterest`
accept. -/
def Event.isAccepted : Event → Bool
  | .isBelowLimit _ true => true
  | _ => false

/-- An `in_interests` trace. -/
def Event.isInInterests : Event → Bool
  | .inInterests _ _ => true
  | _ => false

/-! ## The accessors of the Interest header, and the producer -/

/-- What ends a call on an Interest header early: the exception thrown by `GetName` and
`GetExclude`, or the dereference of a null pointer. -/
inductive Fault where
  | interestHeaderException
  | nullDereference
  deriving DecidableEq, Repr

/-- Source `InterestHeader::GetLocator`: `return *m_locator;`, the check before it being
commented out.  For a locator that was never set this dereferences a null pointer. -/
def InterestHeader.GetLocator (h : InterestHeader) : Except Fault Name :=
  match h.locator with
  | none => .error .nullDereference
  | some l => .ok l

/-- Source `InterestHeader::IsEnabledExclude`. -/
def InterestHeader.IsEnabledExclude (h : InterestHeader) : Bool :=
  h.exclude.isSome

/-- Source `InterestHeader::GetExclude`: throws when the field was never set. -/
def InterestHeader.GetExclude (h : InterestHeader) : Except Fault Name :=
  match h.exclude with
  | none => .error .interestHeaderException
  | some x => .ok x

/-- The condition `IsEnabledLocator () && GetLocator ().size () > 0` as `PitImpl::Create`,
`Producer::OnInterest` and `InterestHeader::Print` write it; `&&` evaluates its right side
only when the left side is true. -/
def InterestHeader.carriesLocator (h : InterestHeader) : Except Fault Bool :=
  if h.IsEnabledLocator then
    match h.GetLocator with
    | .error ex => .error ex
    | .ok l => .ok (decide (l.length > 0))
  else .ok false

/-- What `InterestHeader::Print` writes to the stream. -/
inductive PrintItem where
  | text (s : String)
  | name (n : Name)
  deriving DecidableEq, Repr

/-- Source `InterestHeader::Print`: it writes the name and returns; the statements after
the `return` are never run. -/
def InterestHeader.Print (h : InterestHeader) : Except Fault (List PrintItem) :=
  match h.GetName with
  | .error _ => .error .interestHeaderException
  | .ok n => .ok [.text "I: ", .name n]

/-- The statement of `InterestHeader::Print` on the locator, which stands after the
`return` of `Print`. -/
def InterestHeader.printLocator (h : InterestHeader) : Except Fault (List PrintItem) :=
  match h.carriesLocator with
  | .error ex => .error ex
  | .ok true =>
    match h.GetLocator with
    | .error ex => .error ex
    | .ok l => .ok [.text "  <LocatorName>", .name l, .text "</LocatorName>\n"]
  | .ok false => .ok []

/-- `PitImpl::Create` with the condition on the locator evaluated as the source writes
it. -/
def PitImpl.createChecked (fib : Fib) (p : Pit) (now : Time) (header : InterestHeader)
    (n : Name) : Except Fault (Option Entry × Pit) :=
  match header.carriesLocator with
  | .error ex => .error ex
  | .ok b =>
    .ok (PitImpl.createFrom
      (if b then fib.LongestPrefixMatchOfLocator (header.locator.getD [])
       else fib.LongestPrefixMatch n) p now header n)

/-- The producer application: `m_active` of `App`, the configured locator, payload size
and signature bits, and `m_positionPoint`. -/
structure Producer where
  active : Bool := false
  locatorName : Name := []
  virtualPayloadSize : Nat := 1024
  signatureBits : Nat := 0
  positionPoint : Int := -1
  deriving DecidableEq, Repr

/-- What a call of `Producer::OnInterest` does to the outside: the trace of `App::OnInterest`,
the packet handed to `m_protocolHandler` and the trace `m_transmittedContentObjects`. -/
inductive AppEvent where
  | receivedInterest (h : InterestHeader)
  | protocolHandler (p : Packet)
  | transmittedContentObject (h : ContentObjectHeader) (p : Packet)
  deriving DecidableEq, Repr

/-- Source `Producer::OnInterest`, at simulation time `now`. -/
def Producer.OnInterest (P : Producer) (now : Time) (interest : InterestHeader)
    (_origPacket : Packet) : Except Fault (Producer × List AppEvent) :=
  let log : List AppEvent := [.receivedInterest interest]
  if !P.active then .ok (P, log)
  else
    match interest.GetName with
    | .error _ => .error .interestHeaderException
    | .ok n =>
      let header : ContentObjectHeader := { name := n }
      match interest.carriesLocator with
      | .error ex => .error ex
      | .ok c1 =>
        let header :=
          if c1 then
            if P.locatorName.length > 0 then { header with locator := some P.locatorName }
            else header
          else header
        match interest.carriesLocator with
        | .error ex => .error ex
        | .ok c2 =>
          let P := if c2 then { P with positionPoint := 1 } else { P with positionPoint := -1 }
          let header := { header with position := P.positionPoint }
          let header := { header with timestamp := now }
          let header := { header with signatureBits := P.signatureBits }
          let packet : Packet := { size := P.virtualPayloadSize }
          let packet := packet.AddHeader (.content header)
          let packet := packet.AddTrailer .contentObjectTail
          .ok (P, log ++ [.protocolHandler packet, .transmittedContentObject header packet])

/-! ## The stack helper -/

/-- A `double` in exact rational arithmetic; `none` stands for a value that is not finite
(the result of a division by zero). -/
abbrev Double := Option ℚ

/-- Division of doubles. -/
def Double.div (a b : Double) : Double :=
  match a, b with
  | some x, some y => if y = 0 then none else some (x / y)
  | _, _ => none

/-- Product of doubles. -/
def Double.mul (a b : Double) : Double :=
  match a, b with
  | some x, some y => some (x * y)
  | _, _ => none

/-- What `Install` looks at in a net device: whether it is a `PointToPointNetDevice`, and
the bit rate of its `DataRate` attribute. -/
structure NetDevice where
  isPointToPoint : Bool := false
  bitRate : Nat := 0
  deriving DecidableEq, Repr

/-- A `NetDeviceFace`: its device, the bucket parameters (`none` while the setter was not
called) and whether it is up. -/
structure NetDeviceFace where
  device : NetDevice
  bucketMax : Option Double := none
  bucketLeak : Option Double := none
  isUp : Bool := false
  deriving DecidableEq, Repr

/-- The objects aggregated to the `L3Protocol` object. -/
inductive Aggregate where
  | fib
  | pit
  | forwardingStrategy
  | contentStore
  deriving DecidableEq, Repr

/-- The `L3Protocol` object of a node: the objects aggregated to it, its faces (the id of a
face is its position) and the routes added to its FIB (name, face id, metric). -/
structure L3Protocol where
  aggregated : List Aggregate := []
  faces : List NetDeviceFace := []
  routes : List (Name × Nat × Int) := []
  deriving DecidableEq, Repr

/-- A node: its net devices and its NDN stack, if one is installed. -/
structure Node where
  devices : List NetDevice := []
  ndn : Option L3Protocol := none
  deriving DecidableEq, Repr

/-- The members of `StackHelper` that `Install` reads; `avgRtt` is
`m_avgRtt.ToDouble (Time::S)`, the two sizes are `uint32_t`. -/
structure StackHelper where
  limitsEnabled : Bool := false
  needSetDefaultRoutes : Bool := false
  avgRtt : ℚ := 0
  avgContentObjectSize : Nat := 0
  avgInterestSize : Nat := 0
  deriving DecidableEq, Repr

/-- Fatal error of the installer (`NS_FATAL_ERROR`): the run ends. -/
inductive InstallError where
  | fatal
  deriving DecidableEq, Repr

/-- Source `StackHelper::EnableLimits`. -/
def StackHelper.EnableLimits (h : StackHelper) (enable : Bool) (avgRtt : ℚ)
    (avgContentObject avgInterest : Nat) : StackHelper :=
  { h with limitsEnabled := enable, avgRtt := avgRtt
           avgContentObjectSize := avgContentObject % 2 ^ 32
           avgInterestSize := avgInterest % 2 ^ 32 }

/-- The part of the loop body of `StackHelper::Install` on the limits of the new face, and
`SetUp`.  The sum of the two sizes is a sum of `uint32_t`. -/
def StackHelper.setupFace (h : StackHelper) (face : NetDeviceFace) : NetDeviceFace :=
  let face :=
    if h.limitsEnabled then
      if face.device.isPointToPoint then
        let maxInterestPackets : Double :=
          Double.div (Double.div (Double.mul (some 1) (some (face.device.bitRate : ℚ))) (some 8))
            (some (((h.avgContentObjectSize + h.avgInterestSize) % 2 ^ 32 : Nat) : ℚ))
        let face := { face with bucketMax := some (Double.mul (some h.avgRtt) maxInterestPackets) }
        { face with bucketLeak := some maxInterestPackets }
      else face
    else face
  { face with isUp := true }

/-- The loop of `StackHelper::Install` over the net devices of the node: a face per device,
added to the stack, given the default route when asked for, set up and added to the
result.  The stack and the result hold the same face object. -/
def StackHelper.installDevices (h : StackHelper) :
    List NetDevice → L3Protocol → List NetDeviceFace → L3Protocol × List NetDeviceFace
  | [], ndn, faces => (ndn, faces)
  | device :: rest, ndn, faces =>
    let face : NetDeviceFace := { device := device }
    let faceId := ndn.faces.length
    let ndn :=
      if h.needSetDefaultRoutes then
        { ndn with routes := ndn.routes ++ [([], faceId, 2147483647)] }
      else ndn
    let face := h.setupFace face
    let ndn := { ndn with faces := ndn.faces ++ [face] }
    installDevices h rest ndn (faces ++ [face])

/-- Source `StackHelper::Install (Ptr<Node>)`: the node after the call, and the fatal error
or the faces returned. -/
def StackHelper.Install (h : StackHelper) (node : Node) :
    Node × Except InstallError (List NetDeviceFace) :=
  if node.ndn.isSome then (node, .error .fatal)
  else
    let ndn : L3Protocol := {}
    let ndn := { ndn with aggregated := ndn.aggregated ++ [Aggregate.fib] }
    let ndn := { ndn with aggregated := ndn.aggregated ++ [Aggregate.pit] }
    let ndn := { ndn with aggregated := ndn.aggregated ++ [Aggregate.forwardingStrategy] }
    let ndn := { ndn with aggregated := ndn.aggregated ++ [Aggregate.contentStore] }
    let r := h.installDevices node.devices ndn []
    ({ node with ndn := some r.1 }, .ok r.2)

/-! ## A concrete node, for evaluating the definitions -/

/-- Modelled from the spec: a content store with exact match on the name, kept
as the list of stored objects (the content store is not part of the sources). -/
def SimpleCs.lookup (cs : List CsHit) (h : InterestHeader) : Option CsHit × List CsHit :=
  (cs.find? (fun c => some c.header.name = h.name), cs)

/-- Modelled from the spec: `Add` of the content store, add or update the
object stored under the name. -/
def SimpleCs.add (cs : List CsHit) (h : ContentObjectHeader) (payload : Packet) : List CsHit :=
  cs.filter (fun c => c.header.name ≠ h.name) ++
    [{ packet := payload.AddHeader (.content h), header := h, payload := payload }]

/-- Collaborators for evaluation: the face state is the list of faces whose
queue is full (they reject `Send` and are above their limit). -/
def simpleCollab : Collab (List Face) (List CsHit) :=
  { send := fun full f _ => (decide (f ∉ full), full)
    isBelowLimit := fun full f => (decide (f ∉ full), full)
    csLookup := SimpleCs.lookup
    csAdd := SimpleCs.add }

/-! ## Lemmas: the satisfy loop -/

section Proofs

variable {σ κ : Type}

open ForwardingStrategy

theorem satisfyFaces_frame (X : Collab σ κ) (inc : Option Face) (h : ContentObjectHeader)
    (payload packet : Packet) (fs : List Face) (st : State σ κ) :
    (satisfyFaces X inc h payload packet fs st).pit = st.pit ∧
    (satisfyFaces X inc h payload packet fs st).fib = st.fib ∧
    (satisfyFaces X inc h payload packet fs st).cs = st.cs ∧
    (satisfyFaces X inc h payload packet fs st).now = st.now := by
  induction fs generalizing st with
  | nil => simp [satisfyFaces]
  | cons f fs ih =>
    simp only [satisfyFaces]
    split <;> simp [ih, State.trace, faceSend]

theorem satisfyFaces_log (X : Collab σ κ) (inc : Option Face) (h : ContentObjectHeader)
    (payload packet : Packet) (fs : List Face) (st : State σ κ) :
    ∃ oks : List Bool, oks.length = fs.length ∧
      (satisfyFaces X inc h payload packet fs st).log =
        st.log ++ satisfyEvents inc h payload packet fs oks := by
  induction fs generalizing st with
  | nil => exact ⟨[], rfl, by simp [satisfyFaces, satisfyEvents]⟩
  | cons f fs ih =>
    simp only [satisfyFaces]
    cases hok : (faceSend X st f packet.Copy).1
    · obtain ⟨oks, hlen, hlog⟩ := ih ((faceSend X st f packet.Copy).2.trace (.dropData h payload f))
      refine ⟨false :: oks, by simp [hlen], ?_⟩
      simp only [Bool.false_eq_true, if_false]
      rw [hlog]
      simp [satisfyEvents, satisfyAttempt, State.trace, faceSend, Packet.Copy] at hok ⊢
      simp [hok]
    · obtain ⟨oks, hlen, hlog⟩ := ih ((faceSend X st f packet.Copy).2.trace (.outData h payload inc.isNone f))
      refine ⟨true :: oks, by simp [hlen], ?_⟩
      simp only [if_true]
      rw [hlog]
      simp [satisfyEvents, satisfyAttempt, State.trace, faceSend, Packet.Copy] at hok ⊢
      simp [hok]

theorem sendsOn_satisfyEvents (inc : Option Face) (h : ContentObjectHeader)
    (payload packet : Packet) (f : Face) (fs : List Face) (oks : List Bool)
    (hlen : oks.length = fs.length) :
    sendsOn f (satisfyEvents inc h payload packet fs oks) = fs.count f := by
  induction fs generalizing oks with
  | nil => simp [satisfyEvents, sendsOn]
  | cons g fs ih =>
    cases oks with
    | nil => simp at hlen
    | cons ok oks =>
      have hlen' : oks.length = fs.length := by simpa using hlen
      have := ih oks hlen'
      simp only [satisfyEvents, sendsOn] at this ⊢
      simp only [List.zip_cons_cons, List.flatMap_cons, List.countP_append, this]
      cases ok <;> by_cases hg : g = f <;>
        simp [satisfyAttempt, Event.isSendOn, hg, List.count_cons, Nat.add_comm]

theorem sendsOn_append (f : Face) (l₁ l₂ : List Event) :
    sendsOn f (l₁ ++ l₂) = sendsOn f l₁ + sendsOn f l₂ := by
  simp [sendsOn]

/-- Counting the traces of a run of attempts. -/
theorem satisfyEvents_counts (inc : Option Face) (h : ContentObjectHeader)
    (payload packet : Packet) (fs : List Face) (oks : List Bool)
    (hlen : oks.length = fs.length) :
    (satisfyEvents inc h payload packet fs oks).countP Event.isSend = fs.length ∧
    (satisfyEvents inc h payload packet fs oks).countP Event.isOutData = oks.count true ∧
    (satisfyEvents inc h payload packet fs oks).countP Event.isDropData = oks.count false := by
  induction fs generalizing oks with
  | nil => cases oks <;> simp_all [satisfyEvents]
  | cons g fs ih =>
    cases oks with
    | nil => simp at hlen
    | cons ok oks =>
      have hlen' : oks.length = fs.length := by simpa using hlen
      obtain ⟨h1, h2, h3⟩ := ih oks hlen'
      simp only [satisfyEvents] at h1 h2 h3 ⊢
      simp only [List.zip_cons_cons, List.flatMap_cons, List.countP_append, h1, h2, h3]
      cases ok <;>
        simp [satisfyAttempt, Event.isSend, Event.isOutData, Event.isDropData, List.count_cons,
          Nat.add_comm]

theorem count_true_add_count_false (oks : List Bool) :
    oks.count true + oks.count false = oks.length := by
  induction oks with
  | nil => rfl
  | cons b bs ih => cases b <;> simp [List.count_cons] <;> omega

/-! ## Lemmas: the PIT as a table keyed by name -/

theorem erase_length (l : List Entry) (n : Name) (hnd : (l.map Entry.name).Nodup)
    (hin : ∃ x ∈ l, x.name = n) :
    (l.filter (fun x => x.name ≠ n)).length + 1 = l.length := by
  induction l with
  | nil => obtain ⟨x, hx, _⟩ := hin; simp at hx
  | cons a l ih =>
    simp only [List.map_cons, List.nodup_cons, List.mem_map, not_exists, not_and] at hnd
    by_cases ha : a.name = n
    · have hnone : ∀ x ∈ l, x.name ≠ n := fun x hx hxn => hnd.1 x hx (hxn.trans ha.symm)
      have hl : l.filter (fun x => x.name ≠ n) = l := by
        rw [List.filter_eq_self]; intro x hx; simpa using hnone x hx
      rw [List.filter_cons_of_neg (by simpa using ha), hl]
      rfl
    · have hin' : ∃ x ∈ l, x.name = n := by
        obtain ⟨x, hx, hxn⟩ := hin
        rcases List.mem_cons.mp hx with rfl | hx
        · exact absurd hxn ha
        · exact ⟨x, hx, hxn⟩
      have := ih hnd.2 hin'
      rw [List.filter_cons_of_pos (by simpa using ha)]
      simp only [List.length_cons]
      omega

theorem lookup_markErased (p : Pit) (e : Entry) :
    PitImpl.Lookup (PitImpl.MarkErased p e) e.name = none := by
  simp [PitImpl.Lookup, PitImpl.MarkErased, List.find?_eq_none]

/-! ## Claims -/

/-- C1 (as stated, refuted): with incoming faces 1 and 2 recorded and the data arriving on
face 1, `SatisfyPendingInterest` does not invoke send once on every recorded incoming
face: face 1 gets no send. -/
theorem satisfy_skips_arrival_face :
    ¬ (∀ f ∈ ({ name := [10, 1], fibEntry := [10], incoming := [1, 2] } : Entry).incoming,
        sendsOn f (SatisfyPendingInterest simpleCollab
          ({ faces := [], fib := [], pit := { entries := [{ name := [10, 1], fibEntry := [10], incoming := [1, 2] }] }, cs := [], now := 0 } : State (List Face) (List CsHit))
          (some 1) { name := [10, 1] } {} {}
          { name := [10, 1], fibEntry := [10], incoming := [1, 2] }).1.log = 1) := by
  intro h
  have := h 1 (by decide)
  revert this
  decide

/-- C1 (amended): `SatisfyPendingInterest` run for data that arrived on `face_in` invokes
send exactly once on each recorded incoming face other than `face_in`, and on no other
face; `face_in` itself gets no send. -/
theorem satisfy_sends_once_to_other_incoming_faces (X : Collab σ κ) (st : State σ κ)
    (face_in : Face) (header : ContentObjectHeader) (payload packet : Packet) (e : Entry)
    (hnd : e.incoming.Nodup) (f : Face) :
    sendsOn f (SatisfyPendingInterest X st (some face_in) header payload packet e).1.log =
      sendsOn f st.log + (if f ∈ e.incoming ∧ f ≠ face_in then 1 else 0) := by
  obtain ⟨oks, hlen, hlog⟩ := satisfyFaces_log X (some face_in) header payload packet
    (e.RemoveIncoming face_in).incoming st
  simp only [SatisfyPendingInterest, hlog, sendsOn_append,
    sendsOn_satisfyEvents _ _ _ _ _ _ _ hlen]
  congr 1
  simp only [Entry.RemoveIncoming]
  by_cases hf : f ∈ e.incoming ∧ f ≠ face_in
  · rw [if_pos hf]
    apply List.count_eq_one_of_mem (hnd.filter _)
    simp [List.mem_filter, hf.1, hf.2]
  · rw [if_neg hf]
    apply List.count_eq_zero_of_not_mem
    simpa [List.mem_filter] using hf

/-- Witness of C1 (amended): incoming faces 1, 2 and 3, data from face 1; face 2 gets one send. -/
theorem satisfy_sends_once_to_other_incoming_faces_witness :
    [1, 2, 3].Nodup ∧
    sendsOn 2 (SatisfyPendingInterest simpleCollab
      ({ faces := [], fib := [], pit := {}, cs := [], now := 0 } : State (List Face) (List CsHit))
      (some 1) { name := [10, 1] } {} {}
      { name := [10, 1], fibEntry := [10], incoming := [1, 2, 3] }).1.log =
      sendsOn 2 [] + (if 2 ∈ [1, 2, 3] ∧ 2 ≠ 1 then 1 else 0) :=
  ⟨by decide, satisfy_sends_once_to_other_incoming_faces simpleCollab _ 1 _ _ _
    { name := [10, 1], fibEntry := [10], incoming := [1, 2, 3] } (by decide) 2⟩

/-- C2: for an entry stored in a PIT that holds one entry per name, after
`SatisfyPendingInterest` the entry object has no incoming and no outgoing faces, the PIT
is one entry smaller and an exact-match lookup of the name finds nothing. -/
theorem satisfy_clears_and_erases_entry (X : Collab σ κ) (st : State σ κ)
    (incomingFace : Option Face) (header : ContentObjectHeader) (payload packet : Packet)
    (e : Entry) (hwf : st.pit.WF) (hin : ∃ x ∈ st.pit.entries, x.name = e.name) :
    (SatisfyPendingInterest X st incomingFace header payload packet e).2.incoming = [] ∧
    (SatisfyPendingInterest X st incomingFace header payload packet e).2.outgoing = [] ∧
    PitImpl.GetSize (SatisfyPendingInterest X st incomingFace header payload packet e).1.pit + 1 =
      PitImpl.GetSize st.pit ∧
    PitImpl.Lookup (SatisfyPendingInterest X st incomingFace header payload packet e).1.pit
      e.name = none := by
  cases incomingFace with
  | none =>
    refine ⟨rfl, rfl, ?_, ?_⟩
    · simp only [SatisfyPendingInterest, PitImpl.GetSize, PitImpl.MarkErased,
        (satisfyFaces_frame X _ _ _ _ _ _).1, Entry.ClearIncoming, Entry.ClearOutgoing]
      exact erase_length _ _ hwf hin
    · simp only [SatisfyPendingInterest, (satisfyFaces_frame X _ _ _ _ _ _).1]
      exact lookup_markErased st.pit e.ClearIncoming.ClearOutgoing
  | some g =>
    refine ⟨rfl, rfl, ?_, ?_⟩
    · simp only [SatisfyPendingInterest, PitImpl.GetSize, PitImpl.MarkErased,
        (satisfyFaces_frame X _ _ _ _ _ _).1, Entry.ClearIncoming, Entry.ClearOutgoing,
        Entry.RemoveIncoming]
      exact erase_length _ _ hwf hin
    · simp only [SatisfyPendingInterest, (satisfyFaces_frame X _ _ _ _ _ _).1]
      exact lookup_markErased st.pit (e.RemoveIncoming g).ClearIncoming.ClearOutgoing

/-- Witness of C2: a PIT with entries for /10/1 and /10; after the entry for /10/1 is satisfied
an exact-match lookup of /10/1 finds nothing. -/
theorem satisfy_clears_and_erases_entry_witness :
    (∃ x ∈ [({ name := [10, 1], fibEntry := [10], incoming := [1] } : Entry),
        { name := [10], fibEntry := [10] }],
      x.name = ({ name := [10, 1], fibEntry := [10], incoming := [1, 2] } : Entry).name) ∧
    PitImpl.Lookup (SatisfyPendingInterest simpleCollab
      ({ faces := [], fib := [], cs := [], now := 0,
         pit := { entries := [{ name := [10, 1], fibEntry := [10], incoming := [1] },
                              { name := [10], fibEntry := [10] }] } } :
        State (List Face) (List CsHit))
      none { name := [10, 1] } {} {}
      { name := [10, 1], fibEntry := [10], incoming := [1, 2] }).1.pit [10, 1] = none :=
  ⟨by decide,
   (satisfy_clears_and_erases_entry simpleCollab _ none { name := [10, 1] } {} {}
      { name := [10, 1], fibEntry := [10], incoming := [1, 2] } (by decide) (by decide)).2.2.2⟩

theorem satisfy_log_of_run (X : Collab σ κ) (st : State σ κ)
    (incomingFace : Option Face) (header : ContentObjectHeader) (payload packet : Packet)
    (e : Entry) (fs : List Face)
    (hrun : (SatisfyPendingInterest X st incomingFace header payload packet e).1.log =
      (satisfyFaces X incomingFace header payload packet fs st).log) :
    ∃ oks : List Bool,
      oks.length = fs.length ∧
      (SatisfyPendingInterest X st incomingFace header payload packet e).1.log =
        st.log ++ satisfyEvents incomingFace header payload packet fs oks ∧
      (satisfyEvents incomingFace header payload packet fs oks).countP Event.isOutData +
        (satisfyEvents incomingFace header payload packet fs oks).countP Event.isDropData =
        fs.length ∧
      (satisfyEvents incomingFace header payload packet fs oks).countP Event.isSend =
        fs.length := by
  obtain ⟨oks, hlen, hlog⟩ := satisfyFaces_log X incomingFace header payload packet fs st
  obtain ⟨h1, h2, h3⟩ := satisfyEvents_counts incomingFace header payload packet fs oks hlen
  exact ⟨oks, hlen, hrun.trans hlog, by rw [h2, h3, count_true_add_count_false, hlen], h1⟩

/-- C3: the log of `SatisfyPendingInterest` is, face by face over all the faces it
attempts (the recorded incoming faces other than the arrival face), the send with its
result followed by `out_data` when the send returned true and by `drop_data` when it
returned false; a rejected send does not end the run, and the `out_data` and `drop_data`
traces together number the faces attempted. -/
theorem satisfy_traces_follow_send_results (X : Collab σ κ) (st : State σ κ)
    (incomingFace : Option Face) (header : ContentObjectHeader) (payload packet : Packet)
    (e : Entry) :
    ∃ oks : List Bool,
      oks.length = (e.incoming.filter (fun g => some g ≠ incomingFace)).length ∧
      (SatisfyPendingInterest X st incomingFace header payload packet e).1.log =
        st.log ++ satisfyEvents incomingFace header payload packet
          (e.incoming.filter (fun g => some g ≠ incomingFace)) oks ∧
      (satisfyEvents incomingFace header payload packet
          (e.incoming.filter (fun g => some g ≠ incomingFace)) oks).countP Event.isOutData +
        (satisfyEvents incomingFace header payload packet
          (e.incoming.filter (fun g => some g ≠ incomingFace)) oks).countP Event.isDropData =
        (e.incoming.filter (fun g => some g ≠ incomingFace)).length ∧
      (satisfyEvents incomingFace header payload packet
          (e.incoming.filter (fun g => some g ≠ incomingFace)) oks).countP Event.isSend =
        (e.incoming.filter (fun g => some g ≠ incomingFace)).length := by
  cases incomingFace with
  | none =>
    have hfs : e.incoming.filter (fun g => some g ≠ (none : Option Face)) = e.incoming := by simp
    rw [hfs]
    exact satisfy_log_of_run X st none header payload packet e e.incoming rfl
  | some f =>
    have hfs : e.incoming.filter (fun g => some g ≠ some f) =
        (e.RemoveIncoming f).incoming := by simp [Entry.RemoveIncoming]
    rw [hfs]
    exact satisfy_log_of_run X st (some f) header payload packet e _ rfl

/-! ## Lemmas: finding or creating the PIT entry -/

theorem lookup_name (p : Pit) (n : Name) (e : Entry) (h : PitImpl.Lookup p n = some e) :
    e.name = n := by
  have := List.find?_some h
  simpa using this

theorem lookup_mem (p : Pit) (n : Name) (e : Entry) (h : PitImpl.Lookup p n = some e) :
    e ∈ p.entries :=
  List.mem_of_find?_eq_some h

theorem lookup_isSome_iff (p : Pit) (n : Name) :
    (∃ x ∈ p.entries, x.name = n) ↔ ∃ e, PitImpl.Lookup p n = some e := by
  constructor
  · rintro ⟨x, hx, hn⟩
    cases h : PitImpl.Lookup p n with
    | some e => exact ⟨e, rfl⟩
    | none =>
      have := List.find?_eq_none.mp h x hx
      simp [hn] at this
  · rintro ⟨e, he⟩
    exact ⟨e, lookup_mem p n e he, lookup_name p n e he⟩

theorem policyInsert_mem (p p' : Pit) (e : Entry) (h : p.policyInsert e = some p') :
    e ∈ p'.entries := by
  unfold Pit.policyInsert at h
  split at h
  · split at h
    · simp at h
    · simp only [Option.some.injEq] at h; subst h; simp
    · simp only [Option.some.injEq] at h; subst h; simp
  · simp only [Option.some.injEq] at h; subst h; simp

theorem insert_spec (p p' : Pit) (e x : Entry) (b : Bool)
    (h : p.insert e = (some (x, b), p')) :
    x.name = e.name ∧ x ∈ p'.entries ∧ (b = true → x = e) := by
  unfold Pit.insert at h
  split at h
  · next old hold =>
    simp only [Prod.mk.injEq, Option.some.injEq] at h
    obtain ⟨⟨rfl, rfl⟩, rfl⟩ := h
    exact ⟨lookup_name _ _ _ hold, lookup_mem _ _ _ hold, by simp⟩
  · split at h
    · next p'' hp =>
      simp only [Prod.mk.injEq, Option.some.injEq] at h
      obtain ⟨⟨rfl, rfl⟩, rfl⟩ := h
      exact ⟨rfl, policyInsert_mem _ _ _ hp, fun _ => rfl⟩
    · simp at h

theorem create_spec (fib : Fib) (p p' : Pit) (now : Time) (header : InterestHeader) (n : Name)
    (e : Entry) (h : PitImpl.Create fib p now header n = (some e, p')) :
    e.name = n ∧ e ∈ p'.entries := by
  unfold PitImpl.Create at h
  split at h
  · split at h
    · simp at h
    · next fe _ =>
      dsimp only at h
      split at h
      · next x q hins =>
        simp only [Prod.mk.injEq, Option.some.injEq] at h
        obtain ⟨rfl, rfl⟩ := h
        have := insert_spec _ _ _ _ _ hins
        exact ⟨rfl, by rw [← this.2.2 rfl]; exact this.2.1⟩
      · next x q hins =>
        simp only [Prod.mk.injEq, Option.some.injEq] at h
        obtain ⟨rfl, rfl⟩ := h
        have := insert_spec _ _ _ _ _ hins
        exact ⟨this.1, this.2.1⟩
      · simp at h
  · split at h
    · simp at h
    · next fe _ =>
      dsimp only at h
      split at h
      · next x q hins =>
        simp only [Prod.mk.injEq, Option.some.injEq] at h
        obtain ⟨rfl, rfl⟩ := h
        have := insert_spec _ _ _ _ _ hins
        exact ⟨rfl, by rw [← this.2.2 rfl]; exact this.2.1⟩
      · next x q hins =>
        simp only [Prod.mk.injEq, Option.some.injEq] at h
        obtain ⟨rfl, rfl⟩ := h
        have := insert_spec _ _ _ _ _ hins
        exact ⟨this.1, this.2.1⟩
      · simp at h

theorem acquire_spec (st st1 : State σ κ) (header : InterestHeader) (n : Name) (e : Entry)
    (h : acquire st header n = some (e, st1)) :
    e.name = n ∧ e ∈ st1.pit.entries ∧ st1.faces = st.faces ∧ st1.fib = st.fib ∧
      st1.cs = st.cs ∧ st1.now = st.now ∧ st1.log = st.log := by
  unfold acquire at h
  split at h
  · next pe hl =>
    simp only [Option.some.injEq, Prod.mk.injEq] at h
    obtain ⟨rfl, rfl⟩ := h
    exact ⟨lookup_name _ _ _ hl, lookup_mem _ _ _ hl, rfl, rfl, rfl, rfl, rfl⟩
  · split at h
    · next pe pit hc =>
      simp only [Option.some.injEq, Prod.mk.injEq] at h
      obtain ⟨rfl, rfl⟩ := h
      have := create_spec _ _ _ _ _ _ _ hc
      exact ⟨this.1, this.2, rfl, rfl, rfl, rfl, rfl⟩
    · simp at h

theorem acquire_trace (st : State σ κ) (header : InterestHeader) (n : Name) (ev : Event) :
    acquire (st.trace ev) header n =
      (acquire st header n).map (fun r => (r.1, r.2.trace ev)) := by
  unfold acquire
  simp only [State.trace]
  split
  · rfl
  · split <;> rfl

/-! ## Lemmas: the paths of `OnInterest` -/

theorem lookup_store (p : Pit) (e x : Entry) (h : PitImpl.Lookup p e.name = some x) :
    PitImpl.Lookup (p.store e) e.name = some e := by
  obtain ⟨l, m, k, d⟩ := p
  simp only [PitImpl.Lookup, Pit.store] at h ⊢
  induction l with
  | nil => simp at h
  | cons a l ih =>
    by_cases ha : a.name = e.name
    · simp [List.find?_cons, ha]
    · simp only [List.find?_cons, ha, decide_False] at h
      simp only [List.map_cons, ha, if_false, List.find?_cons, decide_False]
      exact ih h

theorem onInterest_named (S : ForwardingStrategy σ κ) (X : Collab σ κ) (st : State σ κ)
    (f : Face) (header : InterestHeader) (n : Name) (packet : Packet)
    (hname : header.name = some n) :
    S.OnInterest X st f header packet =
      .ok (S.onInterestNamed X (st.trace (.inInterests header f)) f header n packet) := by
  simp [OnInterest, InterestHeader.GetName, hname]

theorem onInterestNamed_failed (S : ForwardingStrategy σ κ) (X : Collab σ κ) (st : State σ κ)
    (f : Face) (header : InterestHeader) (n : Name) (packet : Packet)
    (hacq : acquire st header n = none) :
    S.onInterestNamed X st f header n packet = st.trace (.dropInterests header f) := by
  simp [onInterestNamed, hacq, FailedToCreatePitEntry]

theorem onInterestNamed_duplicate (S : ForwardingStrategy σ κ) (X : Collab σ κ)
    (st st1 : State σ κ) (f : Face) (header : InterestHeader) (n : Name) (packet : Packet)
    (e : Entry) (hacq : acquire st header n = some (e, st1)) (hseen : header.nonce ∈ e.nonces) :
    S.onInterestNamed X st f header n packet =
      { st1.trace (.dropInterests header f) with pit := st1.pit.store (e.AddIncoming f) } := by
  simp [onInterestNamed, hacq, Entry.IsNonceSeen, InterestHeader.GetNonce, hseen,
    DidReceiveDuplicateInterest, State.trace]

theorem onInterestNamed_hit (S : ForwardingStrategy σ κ) (X : Collab σ κ)
    (st st1 : State σ κ) (f : Face) (header : InterestHeader) (n : Name) (packet : Packet)
    (e : Entry) (hit : CsHit) (cs' : κ)
    (hacq : acquire st header n = some (e, st1)) (hfresh : header.nonce ∉ e.nonces)
    (hhit : X.csLookup st1.cs header = (some hit, cs')) :
    S.onInterestNamed X st f header n packet =
      (SatisfyPendingInterest X { st1 with cs := cs', log := st1.log ++ [.csLookup header] }
        none hit.header hit.payload hit.packet
        ((e.AddSeenNonce header.nonce).AddIncoming f)).1 := by
  simp [onInterestNamed, hacq, Entry.IsNonceSeen, InterestHeader.GetNonce, hfresh, hhit,
    WillSatisfyPendingInterest]

theorem satisfyEvents_mem (inc : Option Face) (h : ContentObjectHeader)
    (payload packet : Packet) (fs : List Face) (oks : List Bool) (ev : Event)
    (hev : ev ∈ satisfyEvents inc h payload packet fs oks) :
    ev.isSend = true ∨ ev.isOutData = true ∨ ev.isDropData = true := by
  simp only [satisfyEvents, List.mem_flatMap] at hev
  obtain ⟨a, _, ha⟩ := hev
  simp only [satisfyAttempt, List.mem_cons, List.mem_singleton, List.not_mem_nil, or_false] at ha
  rcases ha with rfl | rfl
  · left; rfl
  · cases a.2
    · right; right; rfl
    · right; left; rfl

/-! ## Claims on `OnInterest` -/

/-- C4: when the nonce is new to the PIT entry of the Interest (found or just created) and
the content store lookup hits, `OnInterest` sends the cached packet once to each face of the
incoming set with `face_in` added to it, erases the PIT entry and returns; next to
`in_interests` and the lookup, the log gets only these sends and their `out_data` or
`drop_data` traces: no call of `DoPropagateInterest`, no `out_interests`, no
`drop_interests`. -/
theorem onInterest_answers_from_content_store (S : ForwardingStrategy σ κ) (X : Collab σ κ)
    (st st1 : State σ κ) (face_in : Face) (header : InterestHeader) (n : Name)
    (packet : Packet) (e : Entry) (hit : CsHit) (cs' : κ)
    (hname : header.name = some n)
    (hacq : acquire st header n = some (e, st1))
    (hfresh : header.nonce ∉ e.nonces)
    (hhit : X.csLookup st.cs header = (some hit, cs')) :
    ∃ (st' : State σ κ) (oks : List Bool),
      S.OnInterest X st face_in header packet = .ok st' ∧
      face_in ∈ (e.AddIncoming face_in).incoming ∧
      oks.length = (e.AddIncoming face_in).incoming.length ∧
      st'.log = st.log ++ [.inInterests header face_in, .csLookup header] ++
        satisfyEvents none hit.header hit.payload hit.packet
          (e.AddIncoming face_in).incoming oks ∧
      (∀ f, sendsOn f (satisfyEvents none hit.header hit.payload hit.packet
          (e.AddIncoming face_in).incoming oks) = (e.AddIncoming face_in).incoming.count f) ∧
      (∀ ev ∈ satisfyEvents none hit.header hit.payload hit.packet
          (e.AddIncoming face_in).incoming oks,
        ev.isDoPropagate = false ∧ ev.isOutInterests = false ∧ ev.isDropInterests = false) ∧
      PitImpl.Lookup st'.pit n = none := by
  obtain ⟨hen, -, -, -, hcs, -, hlog1⟩ := acquire_spec st st1 header n e hacq
  have hacq' := acquire_trace st header n (.inInterests header face_in)
  rw [hacq] at hacq'
  simp only [Option.map_some'] at hacq'
  have hhit' : X.csLookup (st1.trace (.inInterests header face_in)).cs header = (some hit, cs') := by
    simpa [State.trace, hcs] using hhit
  have hrun := onInterestNamed_hit S X _ _ face_in header n packet e hit cs' hacq' hfresh hhit'
  obtain ⟨oks, hlen, hlog, -, -⟩ := satisfy_log_of_run X
    { st1.trace (.inInterests header face_in) with
      cs := cs', log := (st1.trace (.inInterests header face_in)).log ++ [.csLookup header] }
    none hit.header hit.payload hit.packet
    ((e.AddSeenNonce header.nonce).AddIncoming face_in)
    ((e.AddSeenNonce header.nonce).AddIncoming face_in).incoming rfl
  have hinc : ((e.AddSeenNonce header.nonce).AddIncoming face_in).incoming =
      (e.AddIncoming face_in).incoming := rfl
  rw [hinc] at hlen hlog
  refine ⟨_, oks, onInterest_named S X st face_in header n packet hname, ?_, hlen, ?_, ?_, ?_, ?_⟩
  · simp only [Entry.AddIncoming]
    split <;> simp [*]
  · rw [hrun, hlog]
    simp [State.trace, hlog1]
  · intro f
    exact sendsOn_satisfyEvents _ _ _ _ f _ oks hlen
  · intro ev hev
    rcases satisfyEvents_mem _ _ _ _ _ _ ev hev with h | h | h <;>
      cases ev <;> simp_all [Event.isSend, Event.isOutData, Event.isDropData,
        Event.isDoPropagate, Event.isOutInterests, Event.isDropInterests]
  · rw [hrun]
    have := lookup_markErased
      (satisfyFaces X none hit.header hit.payload hit.packet
        ((e.AddSeenNonce header.nonce).AddIncoming face_in).incoming
        { st1.trace (.inInterests header face_in) with
          cs := cs', log := (st1.trace (.inInterests header face_in)).log ++ [.csLookup header] }).pit
      ((e.AddSeenNonce header.nonce).AddIncoming face_in).ClearIncoming.ClearOutgoing
    rw [← hen]
    exact this

/-- Witness of C4: an Interest for /10/1 arrives on face 1 at a node that caches /10/1. -/
theorem onInterest_answers_from_content_store_witness :
    ∃ (st' : State (List Face) (List CsHit)) (oks : List Bool),
      (Flooding simpleCollab false true).OnInterest simpleCollab
        { faces := [], fib := [{ name := [10], faces := [{ face := 9 }] }], pit := {},
          cs := [{ packet := { size := 5 }, header := { name := [10, 1] }, payload := { size := 5 } }],
          now := 0 }
        1 { name := some [10, 1], nonce := 7 } {} = .ok st' ∧
      1 ∈ (({ name := [10, 1], fibEntry := [10] } : Entry).AddIncoming 1).incoming ∧
      oks.length = (({ name := [10, 1], fibEntry := [10] } : Entry).AddIncoming 1).incoming.length ∧
      st'.log = [] ++ [.inInterests { name := some [10, 1], nonce := 7 } 1,
          .csLookup { name := some [10, 1], nonce := 7 }] ++
        satisfyEvents none { name := [10, 1] } { size := 5 } { size := 5 }
          (({ name := [10, 1], fibEntry := [10] } : Entry).AddIncoming 1).incoming oks ∧
      (∀ f, sendsOn f (satisfyEvents none { name := [10, 1] } { size := 5 } { size := 5 }
          (({ name := [10, 1], fibEntry := [10] } : Entry).AddIncoming 1).incoming oks) =
        (({ name := [10, 1], fibEntry := [10] } : Entry).AddIncoming 1).incoming.count f) ∧
      (∀ ev ∈ satisfyEvents none { name := [10, 1] } { size := 5 } { size := 5 }
          (({ name := [10, 1], fibEntry := [10] } : Entry).AddIncoming 1).incoming oks,
        ev.isDoPropagate = false ∧ ev.isOutInterests = false ∧ ev.isDropInterests = false) ∧
      PitImpl.Lookup st'.pit [10, 1] = none :=
  onInterest_answers_from_content_store (Flooding simpleCollab false true) simpleCollab
    { faces := [], fib := [{ name := [10], faces := [{ face := 9 }] }], pit := {},
      cs := [{ packet := { size := 5 }, header := { name := [10, 1] }, payload := { size := 5 } }],
      now := 0 }
    { faces := [], fib := [{ name := [10], faces := [{ face := 9 }] }],
      pit := { entries := [{ name := [10, 1], fibEntry := [10] }] },
      cs := [{ packet := { size := 5 }, header := { name := [10, 1] }, payload := { size := 5 } }],
      now := 0 }
    1 { name := some [10, 1], nonce := 7 } [10, 1] {} { name := [10, 1], fibEntry := [10] }
    { packet := { size := 5 }, header := { name := [10, 1] }, payload := { size := 5 } }
    [{ packet := { size := 5 }, header := { name := [10, 1] }, payload := { size := 5 } }]
    rfl rfl (by decide) rfl

/-- C5 (as stated, refuted): the content store holds an object named like the Interest, but
the node has no FIB route for the name, so no PIT entry can be created: `OnInterest` drops
the Interest, sends nothing to the arrival face and never consults the content store. -/
theorem onInterest_drops_despite_cached_object :
    (SimpleCs.lookup
        [{ packet := { size := 5 }, header := { name := [10, 1] }, payload := { size := 5 } }]
        { name := some [10, 1], nonce := 7 }).1.isSome = true ∧
    ∃ st' : State (List Face) (List CsHit),
      (Flooding simpleCollab false true).OnInterest simpleCollab
        { faces := [], fib := [], pit := {},
          cs := [{ packet := { size := 5 }, header := { name := [10, 1] }, payload := { size := 5 } }],
          now := 0 }
        1 { name := some [10, 1], nonce := 7 } {} = .ok st' ∧
      sendsOn 1 st'.log = 0 ∧ st'.log.countP Event.isCsLookup = 0 ∧
      st'.log = [.inInterests { name := some [10, 1], nonce := 7 } 1,
                 .dropInterests { name := some [10, 1], nonce := 7 } 1] :=
  ⟨by decide, _, rfl, by decide, by decide, by decide⟩

/-- C5 (amended): for an Interest whose name has a content store hit, `OnInterest` turns to
the PIT first.  When no PIT entry exists and none can be created, or when the nonce was
already seen, it traces `drop_interests` and returns: the content store is not consulted
and nothing is sent.  When an entry is found or created and the nonce is new to it, the
content store is consulted and the cached packet is sent to `face_in`. -/
theorem onInterest_consults_pit_before_content_store (S : ForwardingStrategy σ κ)
    (X : Collab σ κ) (st : State σ κ) (face_in : Face) (header : InterestHeader) (n : Name)
    (packet : Packet) (hit : CsHit) (cs' : κ)
    (hname : header.name = some n)
    (hhit : X.csLookup st.cs header = (some hit, cs')) :
    ∃ st' : State σ κ,
      S.OnInterest X st face_in header packet = .ok st' ∧
      (acquire st header n = none →
        st'.log = st.log ++ [.inInterests header face_in, .dropInterests header face_in] ∧
        st'.cs = st.cs ∧ st'.faces = st.faces ∧ st'.pit = st.pit) ∧
      (∀ e st1, acquire st header n = some (e, st1) → header.nonce ∈ e.nonces →
        st'.log = st.log ++ [.inInterests header face_in, .dropInterests header face_in] ∧
        st'.cs = st.cs ∧ st'.faces = st.faces) ∧
      (∀ e st1, acquire st header n = some (e, st1) → header.nonce ∉ e.nonces →
        ∃ (oks : List Bool) (fs : List Face),
          st'.log = st.log ++ [.inInterests header face_in, .csLookup header] ++
            satisfyEvents none hit.header hit.payload hit.packet fs oks ∧
          0 < sendsOn face_in (satisfyEvents none hit.header hit.payload hit.packet fs oks)) := by
  refine ⟨_, onInterest_named S X st face_in header n packet hname, ?_, ?_, ?_⟩
  · intro hacq
    have hacq' := acquire_trace st header n (.inInterests header face_in)
    rw [hacq] at hacq'
    rw [onInterestNamed_failed S X _ face_in header n packet hacq']
    simp [State.trace]
  · intro e st1 hacq hseen
    obtain ⟨-, -, hf, -, hcs, -, hlog1⟩ := acquire_spec st st1 header n e hacq
    have hacq' := acquire_trace st header n (.inInterests header face_in)
    rw [hacq] at hacq'
    rw [onInterestNamed_duplicate S X _ _ face_in header n packet e hacq' hseen]
    simp [State.trace, hlog1, hcs, hf]
  · intro e st1 hacq hfresh
    obtain ⟨-, -, -, -, hcs, -, hlog1⟩ := acquire_spec st st1 header n e hacq
    have hacq' := acquire_trace st header n (.inInterests header face_in)
    rw [hacq] at hacq'
    simp only [Option.map_some'] at hacq'
    have hhit' : X.csLookup (st1.trace (.inInterests header face_in)).cs header =
        (some hit, cs') := by
      simpa [State.trace, hcs] using hhit
    obtain ⟨oks, hlen, hlog, -, -⟩ := satisfy_log_of_run X
      { st1.trace (.inInterests header face_in) with
        cs := cs', log := (st1.trace (.inInterests header face_in)).log ++ [.csLookup header] }
      none hit.header hit.payload hit.packet
      ((e.AddSeenNonce header.nonce).AddIncoming face_in)
      ((e.AddSeenNonce header.nonce).AddIncoming face_in).incoming rfl
    refine ⟨oks, ((e.AddSeenNonce header.nonce).AddIncoming face_in).incoming, ?_, ?_⟩
    · rw [onInterestNamed_hit S X _ _ face_in header n packet e hit cs' hacq' hfresh hhit', hlog]
      simp [State.trace, hlog1]
    · rw [sendsOn_satisfyEvents _ _ _ _ face_in _ oks hlen]
      apply List.count_pos_iff.mpr
      simp only [Entry.AddIncoming, Entry.AddSeenNonce]
      split <;> simp [*]

/-- Witness of C5 (amended): the object is cached but the node has no route, so the Interest is
dropped. -/
theorem onInterest_consults_pit_before_content_store_witness :
    ∃ st' : State (List Face) (List CsHit),
      (Flooding simpleCollab false true).OnInterest simpleCollab
        { faces := [], fib := [], pit := {},
          cs := [{ packet := { size := 5 }, header := { name := [10, 1] }, payload := { size := 5 } }],
          now := 0 }
        1 { name := some [10, 1], nonce := 7 } {} = .ok st' ∧
      st'.log = [.inInterests { name := some [10, 1], nonce := 7 } 1,
                 .dropInterests { name := some [10, 1], nonce := 7 } 1] := by
  obtain ⟨st', hrun, hfail, -, -⟩ :=
    onInterest_consults_pit_before_content_store (Flooding simpleCollab false true) simpleCollab
      { faces := [], fib := [], pit := {},
        cs := [{ packet := { size := 5 }, header := { name := [10, 1] }, payload := { size := 5 } }],
        now := 0 }
      1 { name := some [10, 1], nonce := 7 } [10, 1] {}
      { packet := { size := 5 }, header := { name := [10, 1] }, payload := { size := 5 } }
      [{ packet := { size := 5 }, header := { name := [10, 1] }, payload := { size := 5 } }]
      rfl rfl
  exact ⟨st', hrun, (hfail rfl).1⟩

/-- C6: when the nonce of the Interest is already among the nonces of the PIT entry stored
under its name, `OnInterest` records `face_in` in the incoming set of the entry, traces
`drop_interests` once and returns: nothing is sent, the content store is neither consulted
nor changed, and the nonces, the outgoing set, `expire_at` and `max_retx_allowed` of the
entry are as before. -/
theorem onInterest_duplicate_nonce (S : ForwardingStrategy σ κ) (X : Collab σ κ)
    (st : State σ κ) (face_in : Face) (header : InterestHeader) (n : Name) (packet : Packet)
    (e : Entry)
    (hname : header.name = some n)
    (hlk : PitImpl.Lookup st.pit n = some e)
    (hseen : header.nonce ∈ e.nonces) :
    ∃ (st' : State σ κ) (e' : Entry),
      S.OnInterest X st face_in header packet = .ok st' ∧
      st'.log = st.log ++ [.inInterests header face_in, .dropInterests header face_in] ∧
      st'.faces = st.faces ∧ st'.cs = st.cs ∧ st'.fib = st.fib ∧
      PitImpl.Lookup st'.pit n = some e' ∧
      e'.incoming = (if face_in ∈ e.incoming then e.incoming else e.incoming ++ [face_in]) ∧
      face_in ∈ e'.incoming ∧
      e'.nonces = e.nonces ∧ e'.outgoing = e.outgoing ∧ e'.expireTime = e.expireTime ∧
      e'.maxRetxCount = e.maxRetxCount := by
  have hacq : acquire (st.trace (.inInterests header face_in)) header n =
      some (e, st.trace (.inInterests header face_in)) := by
    simp [acquire, State.trace, hlk]
  have hen := lookup_name _ _ _ hlk
  refine ⟨_, e.AddIncoming face_in, onInterest_named S X st face_in header n packet hname,
    ?_, ?_, ?_, ?_, ?_, rfl, ?_, rfl, rfl, rfl, rfl⟩
  · rw [onInterestNamed_duplicate S X _ _ face_in header n packet e hacq hseen]
    simp [State.trace]
  · rw [onInterestNamed_duplicate S X _ _ face_in header n packet e hacq hseen]
    rfl
  · rw [onInterestNamed_duplicate S X _ _ face_in header n packet e hacq hseen]
    rfl
  · rw [onInterestNamed_duplicate S X _ _ face_in header n packet e hacq hseen]
    rfl
  · rw [onInterestNamed_duplicate S X _ _ face_in header n packet e hacq hseen]
    have hn' : (e.AddIncoming face_in).name = n := hen
    have := lookup_store st.pit (e.AddIncoming face_in) e (by rw [hn']; exact hlk)
    rw [hn'] at this
    exact this
  · simp only [Entry.AddIncoming]
    split <;> simp [*]

/-- Witness of C6: nonce 7 was seen from face 1; the same Interest arrives on face 2. -/
theorem onInterest_duplicate_nonce_witness :
    ∃ (st' : State (List Face) (List CsHit)) (e' : Entry),
      (Flooding simpleCollab false true).OnInterest simpleCollab
        { faces := [], fib := [{ name := [10], faces := [{ face := 9 }] }],
          pit := { entries := [{ name := [10, 1], fibEntry := [10], incoming := [1],
                                 outgoing := [{ face := 9, sendTime := 0, retxCount := 0 }],
                                 nonces := [7], expireTime := 4 }] },
          cs := [], now := 1 }
        2 { name := some [10, 1], nonce := 7 } {} = .ok st' ∧
      PitImpl.Lookup st'.pit [10, 1] = some e' ∧ e'.incoming = [1, 2] := by
  obtain ⟨st', e', hrun, -, -, -, -, hlk, hinc, -⟩ :=
    onInterest_duplicate_nonce (Flooding simpleCollab false true) simpleCollab
      { faces := [], fib := [{ name := [10], faces := [{ face := 9 }] }],
        pit := { entries := [{ name := [10, 1], fibEntry := [10], incoming := [1],
                               outgoing := [{ face := 9, sendTime := 0, retxCount := 0 }],
                               nonces := [7], expireTime := 4 }] },
        cs := [], now := 1 }
      2 { name := some [10, 1], nonce := 7 } [10, 1] {}
      { name := [10, 1], fibEntry := [10], incoming := [1],
        outgoing := [{ face := 9, sendTime := 0, retxCount := 0 }],
        nonces := [7], expireTime := 4 }
      rfl rfl (by decide)
  exact ⟨st', e', hrun, hlk, hinc⟩

/-- C9: `ShouldSuppressIncomingInterest` returns true exactly when the entry is not new
(its incoming or its outgoing set is non-empty), `face_in` has no outgoing record, and the
arrival is not a detected retransmission (`detect_retransmissions` and `face_in` among the
incoming faces); for an entry with both sets empty it returns false. -/
theorem shouldSuppress_iff (S : ForwardingStrategy σ κ) (face_in : Face) (e : Entry) :
    (S.ShouldSuppressIncomingInterest face_in e = true ↔
      (e.incoming ≠ [] ∨ e.outgoing ≠ []) ∧
      (∀ o ∈ e.outgoing, o.face ≠ face_in) ∧
      ¬ (S.detectRetransmissions = true ∧ face_in ∈ e.incoming)) ∧
    (e.incoming = [] → e.outgoing = [] → S.ShouldSuppressIncomingInterest face_in e = false) := by
  have hfind : (e.findOutgoing face_in).isSome = true ↔ ∃ o ∈ e.outgoing, o.face = face_in := by
    simp [Entry.findOutgoing, List.find?_isSome]
  constructor
  · unfold ShouldSuppressIncomingInterest
    by_cases hnew : e.incoming = [] ∧ e.outgoing = []
    · simp [hnew.1, hnew.2]
    · have hnew' : e.incoming ≠ [] ∨ e.outgoing ≠ [] := by
        by_contra hc; push_neg at hc; exact hnew hc
      have hb : (e.incoming.length == 0 && e.outgoing.length == 0) = false := by
        rcases hnew' with h | h
        · simp [h]
        · simp [h]
      simp only [hb, Bool.false_eq_true, if_false, Bool.not_false, Bool.true_and]
      by_cases ho : (e.findOutgoing face_in).isSome = true
      · simp only [ho, if_true, Bool.false_eq_true, false_iff]
        intro hc
        obtain ⟨o, hom, hof⟩ := hfind.mp ho
        exact hc.2.1 o hom hof
      · have ho' : ∀ o ∈ e.outgoing, o.face ≠ face_in := by
          intro o hom hof; exact ho (hfind.mpr ⟨o, hom, hof⟩)
        simp only [ho, if_false]
        simp only [DetectRetransmittedInterest, hnew', true_and]
        constructor
        · intro h
          refine ⟨ho', fun hc => ?_⟩
          simp [hc.1, hc.2] at h
        · intro h
          by_cases hd : S.detectRetransmissions = true <;> by_cases hi : face_in ∈ e.incoming
          · exact absurd ⟨hd, hi⟩ h.2
          · simp [hi]
          · simp [hd]
          · simp [hi]
  · intro h1 h2
    simp [ShouldSuppressIncomingInterest, h1, h2]

/-! ## Lemmas: one entry per name -/

theorem policyInsert_wf (p p' : Pit) (e : Entry) (hwf : p.WF)
    (hnew : ∀ x ∈ p.entries, x.name ≠ e.name) (h : p.policyInsert e = some p') : p'.WF := by
  have happ : ∀ l : List Entry, l.Sublist p.entries →
      ((l ++ [e]).map Entry.name).Nodup := by
    intro l hl
    rw [List.map_append, List.nodup_append]
    refine ⟨(hwf.sublist (hl.map _)), by simp, ?_⟩
    intro a ha hb
    simp only [List.map_cons, List.map_nil, List.mem_singleton] at hb
    obtain ⟨x, hx, rfl⟩ := List.mem_map.mp ha
    exact hnew x (hl.subset hx) hb
  unfold Pit.policyInsert at h
  split at h
  · split at h
    · simp at h
    · simp only [Option.some.injEq] at h; subst h
      exact happ _ (List.tail_sublist _)
    · simp only [Option.some.injEq] at h; subst h
      exact happ _ (List.eraseIdx_sublist _ _)
  · simp only [Option.some.injEq] at h; subst h
    exact happ _ (List.Sublist.refl _)

theorem insert_wf (p p' : Pit) (e : Entry) (r : Option (Entry × Bool)) (hwf : p.WF)
    (h : p.insert e = (r, p')) : p'.WF := by
  unfold Pit.insert at h
  split at h
  · simp only [Prod.mk.injEq] at h; rw [← h.2]; exact hwf
  · next hl =>
    split at h
    · next p'' hp =>
      simp only [Prod.mk.injEq] at h; rw [← h.2]
      refine policyInsert_wf p p'' e hwf ?_ hp
      intro x hx hn
      have := List.find?_eq_none.mp hl x hx
      simp [hn] at this
    · simp only [Prod.mk.injEq] at h; rw [← h.2]; exact hwf

theorem create_wf (fib : Fib) (p p' : Pit) (now : Time) (header : InterestHeader) (n : Name)
    (r : Option Entry) (hwf : p.WF) (h : PitImpl.Create fib p now header n = (r, p')) :
    p'.WF := by
  unfold PitImpl.Create at h
  split at h
  · split at h
    · simp only [Prod.mk.injEq] at h; rw [← h.2]; exact hwf
    · dsimp only at h
      split at h
      all_goals
        next hins =>
        simp only [Prod.mk.injEq] at h; rw [← h.2]
        exact insert_wf _ _ _ _ hwf hins
  · split at h
    · simp only [Prod.mk.injEq] at h; rw [← h.2]; exact hwf
    · dsimp only at h
      split at h
      all_goals
        next hins =>
        simp only [Prod.mk.injEq] at h; rw [← h.2]
        exact insert_wf _ _ _ _ hwf hins

theorem store_names (p : Pit) (e : Entry) :
    (p.store e).entries.map Entry.name = p.entries.map Entry.name := by
  simp only [Pit.store, List.map_map]
  apply List.map_congr_left
  intro x _
  simp only [Function.comp]
  split
  · next h => exact h.symm
  · rfl

theorem store_wf (p : Pit) (e : Entry) (hwf : p.WF) : (p.store e).WF := by
  unfold Pit.WF; rw [store_names]; exact hwf

theorem markErased_wf (p : Pit) (e : Entry) (hwf : p.WF) : (PitImpl.MarkErased p e).WF :=
  hwf.sublist ((List.filter_sublist _).map _)

theorem touch_perm (p : Pit) (n : Name) : (p.touch n).entries.Perm p.entries := by
  unfold Pit.touch
  split
  · have h := List.filter_append_perm (fun e : Entry => decide (e.name = n)) p.entries
    have hf : (fun e : Entry => !decide (e.name = n)) = (fun e : Entry => decide (e.name ≠ n)) := by
      funext e; simp
    rw [hf] at h
    exact (List.perm_append_comm).trans h
  · exact List.Perm.refl _

theorem touch_wf (p : Pit) (n : Name) (hwf : p.WF) : (p.touch n).WF :=
  (((touch_perm p n).map Entry.name).nodup_iff).mpr hwf

theorem acquire_wf (st st1 : State σ κ) (header : InterestHeader) (n : Name) (e : Entry)
    (hwf : st.pit.WF) (h : acquire st header n = some (e, st1)) : st1.pit.WF := by
  unfold acquire at h
  split at h
  · simp only [Option.some.injEq, Prod.mk.injEq] at h
    rw [← h.2]; exact hwf
  · split at h
    · next pe pit hc =>
      simp only [Option.some.injEq, Prod.mk.injEq] at h
      rw [← h.2]
      exact create_wf _ _ _ _ _ _ _ hwf hc
    · simp at h

/-! ## Lemmas: longest-prefix match -/

theorem lpm_spec {α : Type} (key : α → Name) (l : List α) (n : Name) :
    (longestPrefixMatch key l n = none → ∀ x ∈ l, ¬ (key x) <+: n) ∧
    (∀ y, longestPrefixMatch key l n = some y →
      y ∈ l ∧ (key y) <+: n ∧ ∀ x ∈ l, (key x) <+: n → (key x).length ≤ (key y).length) := by
  induction l with
  | nil => simp [longestPrefixMatch]
  | cons a l ih =>
    obtain ⟨ih1, ih2⟩ := ih
    simp only [longestPrefixMatch]
    cases hrec : longestPrefixMatch key l n with
    | none =>
      have hnone := ih1 hrec
      by_cases ha : (key a).isPrefixOf n = true
      · simp only [ha, if_true]
        refine ⟨by simp, ?_⟩
        intro y hy
        simp only [Option.some.injEq] at hy; subst hy
        refine ⟨List.mem_cons_self _ _, List.isPrefixOf_iff_prefix.mp ha, ?_⟩
        intro x hx hpx
        rcases List.mem_cons.mp hx with rfl | hx
        · exact le_refl _
        · exact absurd hpx (hnone x hx)
      · simp only [ha, Bool.false_eq_true, if_false]
        refine ⟨?_, by simp⟩
        intro _ x hx
        rcases List.mem_cons.mp hx with rfl | hx
        · intro hp; exact ha (List.isPrefixOf_iff_prefix.mpr hp)
        · exact hnone x hx
    | some y =>
      obtain ⟨hy1, hy2, hy3⟩ := ih2 y hrec
      by_cases hc : ((key a).isPrefixOf n && decide ((key y).length < (key a).length)) = true
      · simp only [hc, if_true]
        simp only [Bool.and_eq_true, decide_eq_true_eq] at hc
        refine ⟨by simp, ?_⟩
        intro z hz
        simp only [Option.some.injEq] at hz; subst hz
        refine ⟨List.mem_cons_self _ _, List.isPrefixOf_iff_prefix.mp hc.1, ?_⟩
        intro x hx hpx
        rcases List.mem_cons.mp hx with rfl | hx
        · exact le_refl _
        · exact le_trans (hy3 x hx hpx) (le_of_lt hc.2)
      · simp only [hc, Bool.false_eq_true, if_false]
        refine ⟨by simp, ?_⟩
        intro z hz
        simp only [Option.some.injEq] at hz; subst hz
        refine ⟨List.mem_cons_of_mem _ hy1, hy2, ?_⟩
        intro x hx hpx
        rcases List.mem_cons.mp hx with rfl | hx
        · simp only [Bool.and_eq_true, decide_eq_true_eq, not_and, not_lt] at hc
          exact hc (List.isPrefixOf_iff_prefix.mpr hpx)
        · exact hy3 x hx hpx

theorem lpm_exact (l : List Entry) (e : Entry) (hnd : (l.map Entry.name).Nodup) (he : e ∈ l) :
    longestPrefixMatch Entry.name l e.name = some e := by
  obtain ⟨h1, h2⟩ := lpm_spec Entry.name l e.name
  cases hrec : longestPrefixMatch Entry.name l e.name with
  | none => exact absurd (List.prefix_refl _) (h1 hrec e he)
  | some y =>
    obtain ⟨hy1, hy2, hy3⟩ := h2 y hrec
    have hlen := hy3 e he (List.prefix_refl _)
    have hyn : y.name = e.name := List.IsPrefix.eq_of_length_le hy2 hlen
    have := List.inj_on_of_nodup_map hnd hy1 he hyn
    rw [this]

theorem wf_mem_unique (p : Pit) (hwf : p.WF) (x y : Entry) (hx : x ∈ p.entries)
    (hy : y ∈ p.entries) (h : x.name = y.name) : x = y :=
  List.inj_on_of_nodup_map hwf hx hy h

theorem lookup_of_mem (p : Pit) (hwf : p.WF) (e : Entry) (he : e ∈ p.entries) :
    PitImpl.Lookup p e.name = some e := by
  obtain ⟨x, hx⟩ := (lookup_isSome_iff p e.name).mp ⟨e, he, rfl⟩
  have := wf_mem_unique p hwf x e (lookup_mem _ _ _ hx) he (lookup_name _ _ _ hx)
  rw [hx, this]

theorem lookupContent_exact (p : Pit) (hwf : p.WF) (e : Entry) (he : e ∈ p.entries) :
    PitImpl.LookupContent p e.name = (some e, p.touch e.name) := by
  simp [PitImpl.LookupContent, lpm_exact p.entries e hwf he]

theorem store_mem (p : Pit) (e x : Entry) (hx : x ∈ p.entries) (hn : x.name = e.name) :
    e ∈ (p.store e).entries := by
  simp only [Pit.store, List.mem_map]
  exact ⟨x, hx, by simp [hn]⟩

/-! ## Lemmas: flooding -/

theorem addOutgoing_frame (e : Entry) (f : Face) (now : Time) :
    (e.AddOutgoing f now).name = e.name ∧ (e.AddOutgoing f now).fibEntry = e.fibEntry ∧
    (e.AddOutgoing f now).incoming = e.incoming ∧ (e.AddOutgoing f now).nonces = e.nonces ∧
    (e.AddOutgoing f now).expireTime = e.expireTime ∧
    (e.AddOutgoing f now).maxRetxCount = e.maxRetxCount ∧
    (e.AddOutgoing f now).outgoing ≠ [] := by
  unfold Entry.AddOutgoing
  split
  · next o ho =>
    refine ⟨rfl, rfl, rfl, rfl, rfl, rfl, ?_⟩
    have hmem : o ∈ e.outgoing := List.mem_of_find?_eq_some ho
    intro hc
    simp only [List.map_eq_nil_iff] at hc
    rw [hc] at hmem
    simp at hmem
  · exact ⟨rfl, rfl, rfl, rfl, rfl, rfl, by simp⟩

theorem willSend_spec (X : Collab σ κ) (st : State σ κ) (f : Face) (e : Entry) :
    (WillSendOutInterest X st f e).2.1.pit = st.pit ∧
    (WillSendOutInterest X st f e).2.1.fib = st.fib ∧
    (WillSendOutInterest X st f e).2.1.cs = st.cs ∧
    (WillSendOutInterest X st f e).2.1.now = st.now ∧
    (∃ evs, (WillSendOutInterest X st f e).2.1.log = st.log ++ evs ∧
      ∀ ev ∈ evs, ev.isFloodStep = true ∧ ev.isSend = false ∧ ev.isOutInterests = false) ∧
    ((WillSendOutInterest X st f e).1 = false → (WillSendOutInterest X st f e).2.2 = e) ∧
    ((WillSendOutInterest X st f e).1 = true →
      (WillSendOutInterest X st f e).2.2 = e.AddOutgoing f st.now) := by
  have hquery : ∀ b : Bool, ∀ ev ∈ [Event.isBelowLimit f b],
      ev.isFloodStep = true ∧ ev.isSend = false ∧ ev.isOutInterests = false := by
    intro b ev hev
    simp only [List.mem_singleton] at hev; subst hev; exact ⟨rfl, rfl, rfl⟩
  unfold WillSendOutInterest
  split
  · split
    · exact ⟨rfl, rfl, rfl, rfl, ⟨[], by simp, by simp⟩, fun _ => rfl, by simp⟩
    · dsimp only
      generalize X.isBelowLimit st.faces f = r
      obtain ⟨b, s⟩ := r
      cases b
      · exact ⟨rfl, rfl, rfl, rfl, ⟨[.isBelowLimit f false], rfl, hquery false⟩,
          fun _ => rfl, fun h => by simp at h⟩
      · exact ⟨rfl, rfl, rfl, rfl, ⟨[.isBelowLimit f true], rfl, hquery true⟩,
          fun h => by simp at h, fun _ => rfl⟩
  · dsimp only
    generalize X.isBelowLimit st.faces f = r
    obtain ⟨b, s⟩ := r
    cases b
    · exact ⟨rfl, rfl, rfl, rfl, ⟨[.isBelowLimit f false], rfl, hquery false⟩,
        fun _ => rfl, fun h => by simp at h⟩
    · exact ⟨rfl, rfl, rfl, rfl, ⟨[.isBelowLimit f true], rfl, hquery true⟩,
        fun h => by simp at h, fun _ => rfl⟩

theorem floodFaces_spec (X : Collab σ κ) (inc : Face) (packet : Packet) (faces : List FaceMetric) :
    ∀ (st : State σ κ) (header : InterestHeader) (e : Entry) (cnt : Nat),
      FloodSpec st (Flooding.floodFaces X inc packet faces st header e cnt).1 e
        (Flooding.floodFaces X inc packet faces st header e cnt).2.2.1 cnt
        (Flooding.floodFaces X inc packet faces st header e cnt).2.2.2 := by
  induction faces with
  | nil =>
    intro st header e cnt
    exact ⟨rfl, rfl, rfl, rfl, rfl, rfl, rfl, rfl, rfl, rfl, ⟨[], by simp [Flooding.floodFaces]⟩,
      fun _ => rfl, fun h => absurd h (lt_irrefl _), fun h => h⟩
  | cons m rest ih =>
    intro st header e cnt
    simp only [Flooding.floodFaces]
    split
    · exact ⟨rfl, rfl, rfl, rfl, rfl, rfl, rfl, rfl, rfl, rfl, ⟨[], by simp⟩,
        fun _ => rfl, fun h => absurd h (lt_irrefl _), fun h => h⟩
    · split
      · exact ih st header e cnt
      · obtain ⟨w1, w2, w3, w4, ⟨wevs, wlog, wev⟩, wrej, wacc⟩ := willSend_spec X st m.face e
        cases hw : (WillSendOutInterest X st m.face e).1
        · simp only [Bool.not_false, if_true]
          have hrec := ih (WillSendOutInterest X st m.face e).2.1 header
            (WillSendOutInterest X st m.face e).2.2 cnt
          rw [wrej hw] at hrec ⊢
          obtain ⟨evs, hlog, hev, hc1, hc2⟩ := hrec.log
          refine ⟨hrec.pit.trans w1, hrec.fib.trans w2, hrec.cs.trans w3, hrec.now.trans w4,
            hrec.name, hrec.fibEntry, hrec.incoming, hrec.nonces, hrec.expireTime,
            hrec.maxRetxCount, ⟨wevs ++ evs, ?_, ?_, ?_, ?_⟩, hrec.same, hrec.more, hrec.keep⟩
          · rw [hlog, wlog, List.append_assoc]
          · intro ev hm
            rcases List.mem_append.mp hm with h | h
            · exact (wev ev h).1
            · exact hev ev h
          · rw [List.countP_append, ← hc1]
            have : wevs.countP Event.isOutInterests = 0 := by
              rw [List.countP_eq_zero]; intro ev h; simp [(wev ev h).2.2]
            omega
          · rw [List.countP_append, ← hc2]
            have : wevs.countP Event.isSend = 0 := by
              rw [List.countP_eq_zero]; intro ev h; simp [(wev ev h).2.1]
            omega
        · simp only [Bool.not_true, Bool.false_eq_true, if_false]
          obtain ⟨a1, a2, a3, a4, a5, a6, a7⟩ := addOutgoing_frame e m.face st.now
          generalize (if header.agent = 1 then ({ header with agent := 2 } : InterestHeader)
            else header) = h'
          generalize (if header.agent = 1 then ({} : Packet).AddHeader (.interest h')
            else packet.Copy) = pk
          have hrec := ih
            (DidSendOutInterest (faceSend X (WillSendOutInterest X st m.face e).2.1 m.face pk).2
              m.face h')
            h' (WillSendOutInterest X st m.face e).2.2 (cnt + 1)
          rw [wacc hw] at hrec ⊢
          obtain ⟨evs, hlog, hev, hc1, hc2⟩ := hrec.log
          have hmore : cnt < (Flooding.floodFaces X inc packet rest
              (DidSendOutInterest
                (faceSend X (WillSendOutInterest X st m.face e).2.1 m.face pk).2 m.face h')
              h' (e.AddOutgoing m.face st.now) (cnt + 1)).2.2.2 := by omega
          refine ⟨?_, ?_, ?_, ?_, hrec.name.trans a1, hrec.fibEntry.trans a2,
            hrec.incoming.trans a3, hrec.nonces.trans a4, hrec.expireTime.trans a5,
            hrec.maxRetxCount.trans a6,
            ⟨wevs ++ (Event.send m.face pk
                (X.send (WillSendOutInterest X st m.face e).2.1.faces m.face pk).1 ::
              Event.outInterests h' m.face :: evs), ?_, ?_, ?_, ?_⟩,
            fun h => absurd h (ne_of_gt hmore), fun _ => hrec.keep a7, fun _ => hrec.keep a7⟩
          · rw [hrec.pit]; simpa [DidSendOutInterest, State.trace, faceSend] using w1
          · rw [hrec.fib]; simpa [DidSendOutInterest, State.trace, faceSend] using w2
          · rw [hrec.cs]; simpa [DidSendOutInterest, State.trace, faceSend] using w3
          · rw [hrec.now]; simpa [DidSendOutInterest, State.trace, faceSend] using w4
          · rw [hlog]
            simp only [DidSendOutInterest, State.trace, faceSend, wlog, List.append_assoc,
              List.singleton_append, List.cons_append, List.nil_append]
          · intro ev hm
            rcases List.mem_append.mp hm with h | h
            · exact (wev ev h).1
            · rcases List.mem_cons.mp h with rfl | h
              · rfl
              · rcases List.mem_cons.mp h with rfl | h
                · rfl
                · exact hev ev h
          · rw [List.countP_append, ← hc1]
            have : wevs.countP Event.isOutInterests = 0 := by
              rw [List.countP_eq_zero]; intro ev h; simp [(wev ev h).2.2]
            simp [List.countP_cons, Event.isOutInterests, this]
            omega
          · rw [List.countP_append, ← hc2]
            have : wevs.countP Event.isSend = 0 := by
              rw [List.countP_eq_zero]; intro ev h; simp [(wev ev h).2.1]
            simp [List.countP_cons, Event.isSend, this]
            omega

/-! ## Lemmas: propagation of a new Interest by flooding -/

theorem doPropagate_spec (X : Collab σ κ) (st : State σ κ) (f : Face) (header : InterestHeader)
    (packet : Packet) (e : Entry) :
    ∃ cnt, FloodSpec st (Flooding.DoPropagateInterest X st f header packet e).st e
        (Flooding.DoPropagateInterest X st f header packet e).entry 0 cnt ∧
      (Flooding.DoPropagateInterest X st f header packet e).ok = decide (cnt > 0) :=
  ⟨_, floodFaces_spec X f packet _ st header e 0, rfl⟩

theorem floodStep_not_other (ev : Event) (h : ev.isFloodStep = true) :
    ev.isDoPropagate = false ∧ ev.isDropInterests = false ∧ ev.isCsLookup = false ∧
    ev.isOutData = false ∧ ev.isDropData = false := by
  cases ev <;> simp_all [Event.isFloodStep, Event.isDoPropagate, Event.isDropInterests,
    Event.isCsLookup, Event.isOutData, Event.isDropData]

theorem countP_eq_zero_of_flood (p : Event → Bool) (evs : List Event)
    (hev : ∀ ev ∈ evs, ev.isFloodStep = true)
    (hp : ∀ ev, ev.isFloodStep = true → p ev = false) : evs.countP p = 0 := by
  rw [List.countP_eq_zero]
  intro ev h
  simp [hp ev (hev ev h)]

/-- Propagation of an Interest that is not a retransmission, for an entry without outgoing
records. -/
theorem propagate_fresh (X : Collab σ κ) (c d : Bool) (st : State σ κ) (f : Face)
    (header : InterestHeader) (packet : Packet) (e : Entry)
    (hout : e.outgoing = []) (hretx : (d && decide (f ∈ e.incoming)) = false) :
    ∃ (e' : Entry) (evs : List Event),
      ((Flooding X c d).PropagateInterest st f header packet e).pit = st.pit.store e' ∧
      ((Flooding X c d).PropagateInterest st f header packet e).fib = st.fib ∧
      ((Flooding X c d).PropagateInterest st f header packet e).cs = st.cs ∧
      ((Flooding X c d).PropagateInterest st f header packet e).now = st.now ∧
      e'.name = e.name ∧ e'.incoming = (e.AddIncoming f).incoming ∧ e'.nonces = e.nonces ∧
      ((Flooding X c d).PropagateInterest st f header packet e).log =
        st.log ++ .doPropagate f header :: evs ∧
      evs.countP Event.isDoPropagate = 0 ∧ evs.countP Event.isCsLookup = 0 ∧
      evs.countP Event.isDropInterests =
        (if evs.countP Event.isOutInterests = 0 then 1 else 0) := by
  obtain ⟨cnt, hspec, hok⟩ := doPropagate_spec X (st.trace (.doPropagate f header)) f header
    packet ((e.AddIncoming f).UpdateLifetime st.now header.GetInterestLifetime)
  have hrun : (Flooding X c d).PropagateInterest st f header packet e =
      (let r := Flooding.DoPropagateInterest X (st.trace (.doPropagate f header)) f header
          packet ((e.AddIncoming f).UpdateLifetime st.now header.GetInterestLifetime)
       let st2 := if !r.ok && r.entry.outgoing.length == 0 then
           DidExhaustForwardingOptions r.st f r.header else r.st
       { st2 with pit := st2.pit.store r.entry }) := by
    simp [PropagateInterest, Flooding, DetectRetransmittedInterest, hretx]
  rw [hrun]
  dsimp only
  generalize Flooding.DoPropagateInterest X (st.trace (.doPropagate f header)) f header
    packet ((e.AddIncoming f).UpdateLifetime st.now header.GetInterestLifetime) = r
    at hspec hok ⊢
  obtain ⟨evs, hlog, hev, hc1, -⟩ := hspec.log
  have hname : r.entry.name = e.name := hspec.name
  have hinc : r.entry.incoming = (e.AddIncoming f).incoming := hspec.incoming
  have hnon : r.entry.nonces = e.nonces := hspec.nonces
  have hpit : r.st.pit = st.pit := hspec.pit
  have hfib : r.st.fib = st.fib := hspec.fib
  have hcs : r.st.cs = st.cs := hspec.cs
  have hnow : r.st.now = st.now := hspec.now
  have hlog' : r.st.log = st.log ++ .doPropagate f header :: evs := by
    rw [hlog]; simp [State.trace]
  by_cases hcnt : cnt = 0
  · subst hcnt
    have hempty : r.entry.outgoing = [] := (hspec.same rfl).trans hout
    have hokf : r.ok = false := by simpa using hok
    refine ⟨r.entry, evs ++ [.dropInterests r.header f], ?_, ?_, ?_, ?_, hname, hinc, hnon,
      ?_, ?_, ?_, ?_⟩
    · simp [hokf, hempty, DidExhaustForwardingOptions, State.trace, hpit]
    · simp [hokf, hempty, DidExhaustForwardingOptions, State.trace, hfib]
    · simp [hokf, hempty, DidExhaustForwardingOptions, State.trace, hcs]
    · simp [hokf, hempty, DidExhaustForwardingOptions, State.trace, hnow]
    · simp [hokf, hempty, DidExhaustForwardingOptions, State.trace, hlog']
    · rw [List.countP_append, countP_eq_zero_of_flood _ evs hev
        (fun ev h => (floodStep_not_other ev h).1)]
      rfl
    · rw [List.countP_append, countP_eq_zero_of_flood _ evs hev
        (fun ev h => (floodStep_not_other ev h).2.2.1)]
      rfl
    · rw [List.countP_append, List.countP_append, countP_eq_zero_of_flood _ evs hev
        (fun ev h => (floodStep_not_other ev h).2.1)]
      have : evs.countP Event.isOutInterests = 0 := by omega
      simp [this, Event.isDropInterests, Event.isOutInterests]
  · have hpos : 0 < cnt := Nat.pos_of_ne_zero hcnt
    have hokt : r.ok = true := by simpa [hpos] using hok
    refine ⟨r.entry, evs, ?_, ?_, ?_, ?_, hname, hinc, hnon, ?_, ?_, ?_, ?_⟩
    · simp [hokt, hpit]
    · simp [hokt, hfib]
    · simp [hokt, hcs]
    · simp [hokt, hnow]
    · simp [hokt, hlog']
    · exact countP_eq_zero_of_flood _ evs hev (fun ev h => (floodStep_not_other ev h).1)
    · exact countP_eq_zero_of_flood _ evs hev (fun ev h => (floodStep_not_other ev h).2.2.1)
    · rw [countP_eq_zero_of_flood _ evs hev (fun ev h => (floodStep_not_other ev h).2.1)]
      have : evs.countP Event.isOutInterests ≠ 0 := by omega
      simp [this]

theorem create_fresh (fib : Fib) (p p' : Pit) (now : Time) (header : InterestHeader) (n : Name)
    (e : Entry) (hl : PitImpl.Lookup p n = none)
    (h : PitImpl.Create fib p now header n = (some e, p')) :
    e.incoming = [] ∧ e.outgoing = [] ∧ e.nonces = [] := by
  have hins : ∀ (fe : FibEntry) (old : Entry) (q : Pit),
      p.insert (Entry.create n header.GetInterestLifetime fe.name now) ≠ (some (old, false), q) := by
    intro fe old q hc
    unfold Pit.insert at hc
    have hl' : PitImpl.Lookup p (Entry.create n header.GetInterestLifetime fe.name now).name = none := hl
    rw [hl'] at hc
    dsimp only at hc
    split at hc <;> simp at hc
  unfold PitImpl.Create at h
  split at h
  · split at h
    · simp at h
    · next fe _ =>
      dsimp only at h
      split at h
      · simp only [Prod.mk.injEq, Option.some.injEq] at h
        rw [← h.1]; exact ⟨rfl, rfl, rfl⟩
      · next old q hq => exact absurd hq (hins fe old q)
      · simp at h
  · split at h
    · simp at h
    · next fe _ =>
      dsimp only at h
      split at h
      · simp only [Prod.mk.injEq, Option.some.injEq] at h
        rw [← h.1]; exact ⟨rfl, rfl, rfl⟩
      · next old q hq => exact absurd hq (hins fe old q)
      · simp at h

theorem acquire_of_create (st : State σ κ) (header : InterestHeader) (n : Name) (e : Entry)
    (pit1 : Pit) (hl : PitImpl.Lookup st.pit n = none)
    (hc : PitImpl.Create st.fib st.pit st.now header n = (some e, pit1)) :
    acquire st header n = some (e, { st with pit := pit1 }) := by
  simp [acquire, hl, hc, DidCreatePitEntry]

theorem onInterestNamed_propagate (S : ForwardingStrategy σ κ) (X : Collab σ κ)
    (st st1 : State σ κ) (f : Face) (header : InterestHeader) (n : Name) (packet : Packet)
    (e : Entry) (cs' : κ)
    (hacq : acquire st header n = some (e, st1)) (hfresh : header.nonce ∉ e.nonces)
    (hmiss : X.csLookup st1.cs header = (none, cs'))
    (hsup : S.ShouldSuppressIncomingInterest f (e.AddSeenNonce header.nonce) = false) :
    S.onInterestNamed X st f header n packet =
      S.PropagateInterest { st1 with cs := cs', log := st1.log ++ [.csLookup header] }
        f header packet (e.AddSeenNonce header.nonce) := by
  simp [onInterestNamed, hacq, Entry.IsNonceSeen, InterestHeader.GetNonce, hfresh, hmiss, hsup]

theorem onInterestNamed_suppress (S : ForwardingStrategy σ κ) (X : Collab σ κ)
    (st st1 : State σ κ) (f : Face) (header : InterestHeader) (n : Name) (packet : Packet)
    (e : Entry) (cs' : κ)
    (hacq : acquire st header n = some (e, st1)) (hfresh : header.nonce ∉ e.nonces)
    (hmiss : X.csLookup st1.cs header = (none, cs'))
    (hsup : S.ShouldSuppressIncomingInterest f (e.AddSeenNonce header.nonce) = true) :
    S.onInterestNamed X st f header n packet =
      { st1 with
        cs := cs'
        log := st1.log ++ [.csLookup header, .dropInterests header f]
        pit := st1.pit.store
          (((e.AddSeenNonce header.nonce).AddIncoming f).UpdateLifetime st1.now
            header.GetInterestLifetime) } := by
  simp [onInterestNamed, hacq, Entry.IsNonceSeen, InterestHeader.GetNonce, hfresh, hmiss, hsup,
    State.trace]

/-! ## Lemmas: arrivals of the same Interest -/

/-- The first arrival of an Interest for which the PIT has no entry yet, no cached object
exists and an entry can be created: it goes through `PropagateInterest`. -/
theorem first_arrival (X : Collab σ κ) (c d : Bool) (st : State σ κ) (f : Face)
    (header : InterestHeader) (n : Name) (packet : Packet) (e0 : Entry) (pit1 : Pit) (cs1 : κ)
    (hname : header.name = some n)
    (hl : PitImpl.Lookup st.pit n = none)
    (hc : PitImpl.Create st.fib st.pit st.now header n = (some e0, pit1))
    (hmiss : X.csLookup st.cs header = (none, cs1)) :
    ∃ (st1 : State σ κ) (e1 : Entry) (evs : List Event),
      (Flooding X c d).OnInterest X st f header packet = .ok st1 ∧
      st1.log = st.log ++ .inInterests header f :: .csLookup header ::
        .doPropagate f header :: evs ∧
      evs.countP Event.isDoPropagate = 0 ∧ evs.countP Event.isCsLookup = 0 ∧
      evs.countP Event.isDropInterests =
        (if evs.countP Event.isOutInterests = 0 then 1 else 0) ∧
      PitImpl.Lookup st1.pit n = some e1 ∧ e1.name = n ∧
      e1.incoming = [f] ∧ e1.nonces = [header.nonce] ∧
      st1.fib = st.fib ∧ st1.cs = cs1 ∧ st1.now = st.now ∧
      st1.pit = pit1.store e1 := by
  obtain ⟨hinc0, hout0, hnon0⟩ := create_fresh _ _ _ _ _ _ _ hl hc
  obtain ⟨hn0, hmem0⟩ := create_spec _ _ _ _ _ _ _ hc
  have hacq : acquire (st.trace (.inInterests header f)) header n =
      some (e0, { st.trace (.inInterests header f) with pit := pit1 }) :=
    acquire_of_create _ header n e0 pit1 hl hc
  have hfresh : header.nonce ∉ e0.nonces := by rw [hnon0]; simp
  have hsup : (Flooding X c d).ShouldSuppressIncomingInterest f
      (e0.AddSeenNonce header.nonce) = false := by
    simp [ShouldSuppressIncomingInterest, Entry.AddSeenNonce, hinc0, hout0]
  have hrun := onInterestNamed_propagate (Flooding X c d) X _ _ f header n packet e0 cs1
    hacq hfresh hmiss hsup
  obtain ⟨e1, evs, hp, hfib, hcs, hnow, hn1, hinc1, hnon1, hlog, hd1, hd2, hd3⟩ :=
    propagate_fresh X c d
      { st.trace (.inInterests header f) with
        pit := pit1, cs := cs1
        log := (st.trace (.inInterests header f)).log ++ [.csLookup header] }
      f header packet (e0.AddSeenNonce header.nonce) hout0
      (by simp [Entry.AddSeenNonce, hinc0])
  rw [← hrun] at hp hfib hcs hnow hlog
  have hname1 : e1.name = n := hn1.trans hn0
  refine ⟨_, e1, evs, onInterest_named _ X st f header n packet hname, ?_, hd1, hd2, hd3, ?_,
    hname1, ?_, ?_, hfib, hcs, hnow, hp⟩
  · rw [hlog]; simp [State.trace]
  · rw [hp]
    obtain ⟨x, hx⟩ := (lookup_isSome_iff pit1 e1.name).mp ⟨e0, hmem0, hn0.trans hname1.symm⟩
    have := lookup_store pit1 e1 x hx
    rw [hname1] at this
    exact this
  · rw [hinc1]; simp [Entry.AddIncoming, Entry.AddSeenNonce, hinc0]
  · rw [hnon1]; simp [Entry.AddSeenNonce, hnon0]

theorem duplicate_step (S : ForwardingStrategy σ κ) (X : Collab σ κ) (st : State σ κ)
    (f : Face) (header : InterestHeader) (n : Name) (packet : Packet) (e : Entry)
    (hname : header.name = some n) (hlk : PitImpl.Lookup st.pit n = some e)
    (hseen : header.nonce ∈ e.nonces) :
    ∃ st' : State σ κ,
      S.OnInterest X st f header packet = .ok st' ∧
      st'.log = st.log ++ [.inInterests header f, .dropInterests header f] ∧
      st'.pit = st.pit.store (e.AddIncoming f) ∧
      PitImpl.Lookup st'.pit n = some (e.AddIncoming f) ∧
      st'.faces = st.faces ∧ st'.cs = st.cs ∧ st'.fib = st.fib ∧ st'.now = st.now := by
  have hacq : acquire (st.trace (.inInterests header f)) header n =
      some (e, st.trace (.inInterests header f)) := by
    simp [acquire, State.trace, hlk]
  have hen := lookup_name _ _ _ hlk
  have hrun := onInterestNamed_duplicate S X _ _ f header n packet e hacq hseen
  refine ⟨_, onInterest_named S X st f header n packet hname, ?_, ?_, ?_, ?_, ?_, ?_, ?_⟩
  · rw [hrun]; simp [State.trace]
  · rw [hrun]; rfl
  · rw [hrun]
    have hn' : (e.AddIncoming f).name = n := hen
    have := lookup_store st.pit (e.AddIncoming f) e (by rw [hn']; exact hlk)
    rw [hn'] at this
    exact this
  · rw [hrun]; rfl
  · rw [hrun]; rfl
  · rw [hrun]; rfl
  · rw [hrun]; rfl

theorem duplicates_run (S : ForwardingStrategy σ κ) (X : Collab σ κ)
    (header : InterestHeader) (n : Name) (packet : Packet) (hname : header.name = some n)
    (fs : List Face) :
    ∀ (st : State σ κ) (e : Entry), PitImpl.Lookup st.pit n = some e →
      header.nonce ∈ e.nonces →
      ∃ (st' : State σ κ) (e' : Entry),
        S.OnInterests X header packet fs st = .ok st' ∧
        st'.log = st.log ++
          fs.flatMap (fun g => [.inInterests header g, .dropInterests header g]) ∧
        PitImpl.Lookup st'.pit n = some e' ∧ header.nonce ∈ e'.nonces := by
  induction fs with
  | nil =>
    intro st e hlk hseen
    exact ⟨st, e, rfl, by simp, hlk, hseen⟩
  | cons g gs ih =>
    intro st e hlk hseen
    obtain ⟨st1, hrun, hlog, -, hlk1, -⟩ :=
      duplicate_step S X st g header n packet e hname hlk hseen
    obtain ⟨st', e', hrun', hlog', hlk', hseen'⟩ := ih st1 (e.AddIncoming g) hlk1 hseen
    refine ⟨st', e', ?_, ?_, hlk', hseen'⟩
    · simp only [OnInterests, hrun]
      exact hrun'
    · rw [hlog', hlog]
      simp

/-! ## Lemmas: the loop of `OnData` -/

theorem lookupContent_spec (p : Pit) (n : Name) :
    (PitImpl.LookupContent p n).2.entries.Perm p.entries ∧
    (∀ e, (PitImpl.LookupContent p n).1 = some e → e ∈ p.entries) := by
  unfold PitImpl.LookupContent
  cases h : longestPrefixMatch Entry.name p.entries n with
  | none => exact ⟨List.Perm.refl _, by simp⟩
  | some e =>
    refine ⟨touch_perm p e.name, ?_⟩
    intro e' he'
    simp only [Option.some.injEq] at he'
    subst he'
    exact ((lpm_spec Entry.name p.entries n).2 e h).1

theorem satisfy_state (X : Collab σ κ) (st : State σ κ) (inc : Option Face)
    (header : ContentObjectHeader) (payload packet : Packet) (e : Entry) :
    (SatisfyPendingInterest X st inc header payload packet e).1.pit.entries =
      st.pit.entries.filter (fun x => x.name ≠ e.name) ∧
    (SatisfyPendingInterest X st inc header payload packet e).1.fib = st.fib ∧
    (SatisfyPendingInterest X st inc header payload packet e).1.cs = st.cs ∧
    (SatisfyPendingInterest X st inc header payload packet e).1.now = st.now := by
  cases inc <;>
    simp [SatisfyPendingInterest, PitImpl.MarkErased, satisfyFaces_frame, Entry.ClearIncoming,
      Entry.ClearOutgoing, Entry.RemoveIncoming]

theorem willSatisfy_frame (st : State σ κ) (inc : Option Face) (e : Entry) :
    (WillSatisfyPendingInterest st inc e).pit = st.pit ∧
    (WillSatisfyPendingInterest st inc e).cs = st.cs ∧
    (WillSatisfyPendingInterest st inc e).log = st.log ∧
    (WillSatisfyPendingInterest st inc e).now = st.now ∧
    (WillSatisfyPendingInterest st inc e).faces = st.faces := by
  unfold WillSatisfyPendingInterest
  split
  · exact ⟨rfl, rfl, rfl, rfl, rfl⟩
  · split <;> exact ⟨rfl, rfl, rfl, rfl, rfl⟩

theorem satisfyAll_runs (X : Collab σ κ) (f : Face) (header : ContentObjectHeader)
    (payload packet : Packet) (fuel : Nat) :
    ∀ (st : State σ κ) (oe : Option Entry), (∀ e, oe = some e → e ∈ st.pit.entries) →
      st.pit.entries.length ≤ fuel →
      ∃ (st' : State σ κ) (evs : List Event),
        satisfyAll X f header payload packet fuel st oe = some st' ∧
        st'.log = st.log ++ evs ∧ st'.cs = st.cs ∧
        (∀ x ∈ st'.pit.entries, x ∈ st.pit.entries) := by
  induction fuel with
  | zero =>
    intro st oe hoe hlen
    cases oe with
    | none => exact ⟨st, [], rfl, by simp, rfl, fun x hx => hx⟩
    | some e =>
      have := hoe e rfl
      have h0 : st.pit.entries = [] := List.length_eq_zero.mp (Nat.le_zero.mp hlen)
      rw [h0] at this
      simp at this
  | succ k ih =>
    intro st oe hoe hlen
    cases oe with
    | none => exact ⟨st, [], rfl, by simp, rfl, fun x hx => hx⟩
    | some e =>
      have he := hoe e rfl
      simp only [satisfyAll]
      obtain ⟨w1, w2, w3, -, -⟩ := willSatisfy_frame st (some f) e
      obtain ⟨s1, -, s3, -⟩ := satisfy_state X (WillSatisfyPendingInterest st (some f) e)
        (some f) header payload packet e
      obtain ⟨oks, -, slog, -, -⟩ := satisfy_log_of_run X
        (WillSatisfyPendingInterest st (some f) e) (some f) header payload packet e
        (e.RemoveIncoming f).incoming rfl
      rw [w1] at s1
      obtain ⟨l1, l2⟩ := lookupContent_spec
        (SatisfyPendingInterest X (WillSatisfyPendingInterest st (some f) e) (some f) header
          payload packet e).1.pit header.name
      have hlt : (st.pit.entries.filter (fun x => x.name ≠ e.name)).length < st.pit.entries.length := by
        apply List.length_filter_lt_length_iff_exists.mpr
        exact ⟨e, he, by simp⟩
      obtain ⟨st', evs, hrun, hlog, hcs, hsub⟩ := ih
        { (SatisfyPendingInterest X (WillSatisfyPendingInterest st (some f) e) (some f) header
            payload packet e).1 with
          pit := (PitImpl.LookupContent
            (SatisfyPendingInterest X (WillSatisfyPendingInterest st (some f) e) (some f) header
              payload packet e).1.pit header.name).2 }
        (PitImpl.LookupContent
          (SatisfyPendingInterest X (WillSatisfyPendingInterest st (some f) e) (some f) header
            payload packet e).1.pit header.name).1
        (fun e' he' => l1.mem_iff.mpr (l2 e' he'))
        (by
          show (PitImpl.LookupContent _ header.name).2.entries.length ≤ k
          rw [l1.length_eq, s1]
          omega)
      refine ⟨st', satisfyEvents (some f) header payload packet (e.RemoveIncoming f).incoming oks
        ++ evs, hrun, ?_, ?_, ?_⟩
      · rw [hlog]
        show (SatisfyPendingInterest X _ (some f) header payload packet e).1.log ++ evs = _
        rw [slog, w3, List.append_assoc]
      · rw [hcs]
        show (SatisfyPendingInterest X _ (some f) header payload packet e).1.cs = _
        rw [s3, w2]
      · intro x hx
        have h1 := l1.mem_iff.mp (hsub x hx)
        rw [s1] at h1
        exact (List.mem_filter.mp h1).1

theorem satisfyAll_some (X : Collab σ κ) (f : Face) (header : ContentObjectHeader)
    (payload packet : Packet) (fuel : Nat) (st : State σ κ) (e : Entry)
    (he : e ∈ st.pit.entries) (hlen : st.pit.entries.length ≤ fuel) :
    ∃ (st' : State σ κ) (oks : List Bool) (evs : List Event),
      satisfyAll X f header payload packet fuel st (some e) = some st' ∧
      oks.length = (e.RemoveIncoming f).incoming.length ∧
      st'.log = st.log ++
        (satisfyEvents (some f) header payload packet (e.RemoveIncoming f).incoming oks ++ evs) ∧
      st'.cs = st.cs ∧
      (∀ x ∈ st'.pit.entries, x ∈ st.pit.entries ∧ x.name ≠ e.name) := by
  cases fuel with
  | zero =>
    have h0 : st.pit.entries = [] := List.length_eq_zero.mp (Nat.le_zero.mp hlen)
    rw [h0] at he
    simp at he
  | succ k =>
    simp only [satisfyAll]
    obtain ⟨w1, w2, w3, -, -⟩ := willSatisfy_frame st (some f) e
    obtain ⟨s1, -, s3, -⟩ := satisfy_state X (WillSatisfyPendingInterest st (some f) e)
      (some f) header payload packet e
    obtain ⟨oks, hoks, slog, -, -⟩ := satisfy_log_of_run X
      (WillSatisfyPendingInterest st (some f) e) (some f) header payload packet e
      (e.RemoveIncoming f).incoming rfl
    rw [w1] at s1
    obtain ⟨l1, l2⟩ := lookupContent_spec
      (SatisfyPendingInterest X (WillSatisfyPendingInterest st (some f) e) (some f) header
        payload packet e).1.pit header.name
    have hlt : (st.pit.entries.filter (fun x => x.name ≠ e.name)).length <
        st.pit.entries.length := by
      apply List.length_filter_lt_length_iff_exists.mpr
      exact ⟨e, he, by simp⟩
    obtain ⟨st', evs, hrun, hlog, hcs, hsub⟩ := satisfyAll_runs X f header payload packet k
      { (SatisfyPendingInterest X (WillSatisfyPendingInterest st (some f) e) (some f) header
          payload packet e).1 with
        pit := (PitImpl.LookupContent
          (SatisfyPendingInterest X (WillSatisfyPendingInterest st (some f) e) (some f) header
            payload packet e).1.pit header.name).2 }
      (PitImpl.LookupContent
        (SatisfyPendingInterest X (WillSatisfyPendingInterest st (some f) e) (some f) header
          payload packet e).1.pit header.name).1
      (fun e' he' => l1.mem_iff.mpr (l2 e' he'))
      (by
        show (PitImpl.LookupContent _ header.name).2.entries.length ≤ k
        rw [l1.length_eq, s1]
        omega)
    refine ⟨st', oks, evs, hrun, hoks, ?_, ?_, ?_⟩
    · rw [hlog]
      show (SatisfyPendingInterest X _ (some f) header payload packet e).1.log ++ evs = _
      rw [slog, w3, List.append_assoc]
    · rw [hcs]
      show (SatisfyPendingInterest X _ (some f) header payload packet e).1.cs = _
      rw [s3, w2]
    · intro x hx
      have h1 := l1.mem_iff.mp (hsub x hx)
      rw [s1] at h1
      have := List.mem_filter.mp h1
      exact ⟨this.1, by simpa using this.2⟩

/-- Run of `OnData` for content whose name has an entry of its own in the PIT: the entry is the
first one matched. -/
theorem onData_exact (S : ForwardingStrategy σ κ) (X : Collab σ κ) (st : State σ κ)
    (f : Face) (header : ContentObjectHeader) (payload packet : Packet) (e : Entry)
    (hwf : st.pit.WF) (he : e ∈ st.pit.entries) (hn : e.name = header.name) :
    ∃ (st' : State σ κ) (oks : List Bool) (evs : List Event),
      S.OnData X st f header payload packet = some st' ∧
      oks.length = (e.RemoveIncoming f).incoming.length ∧
      st'.log = st.log ++ .inData header payload f :: .csAdd header payload ::
        (satisfyEvents (some f) header payload packet (e.RemoveIncoming f).incoming oks ++ evs) ∧
      PitImpl.Lookup st'.pit header.name = none := by
  have hlk : PitImpl.LookupContent st.pit header.name = (some e, st.pit.touch e.name) := by
    rw [← hn]; exact lookupContent_exact st.pit hwf e he
  have hperm := touch_perm st.pit e.name
  obtain ⟨st', oks, evs, hrun, hoks, hlog, -, hsub⟩ := satisfyAll_some X f header payload packet
    (PitImpl.GetSize (st.pit.touch e.name))
    { st with pit := st.pit.touch e.name, cs := X.csAdd st.cs header payload
              log := st.log ++ [.inData header payload f] ++ [.csAdd header payload] }
    e (hperm.mem_iff.mpr he) (le_refl _)
  refine ⟨st', oks, evs, ?_, hoks, ?_, ?_⟩
  · simp only [OnData, State.trace, hlk]
    exact hrun
  · rw [hlog]; simp
  · apply List.find?_eq_none.mpr
    intro x hx
    have := (hsub x hx).2
    simpa [hn] using this

/-- The bound on the loop of `OnData` is never reached: `OnData` returns for every node,
face and content. -/
theorem onData_returns (S : ForwardingStrategy σ κ) (X : Collab σ κ) (st : State σ κ)
    (f : Face) (header : ContentObjectHeader) (payload packet : Packet) :
    ∃ st' : State σ κ, S.OnData X st f header payload packet = some st' := by
  obtain ⟨l1, l2⟩ := lookupContent_spec st.pit header.name
  cases hlk : (PitImpl.LookupContent st.pit header.name).1 with
  | none =>
    refine ⟨S.DidReceiveUnsolicitedData X
      { st with pit := (PitImpl.LookupContent st.pit header.name).2
                log := st.log ++ [.inData header payload f] } f header payload, ?_⟩
    simp only [OnData, State.trace, hlk]
  | some e =>
    obtain ⟨st', -, -, hrun, -⟩ := satisfyAll_some X f header payload packet
      (PitImpl.GetSize (PitImpl.LookupContent st.pit header.name).2)
      { st with pit := (PitImpl.LookupContent st.pit header.name).2
                cs := X.csAdd st.cs header payload
                log := st.log ++ [.inData header payload f] ++ [.csAdd header payload] }
      e (l1.mem_iff.mpr (l2 e hlk)) (le_refl _)
    refine ⟨st', ?_⟩
    simp only [OnData, State.trace, hlk]
    exact hrun

/-- C7 (as stated, refuted): faces 1 and 2 send the same Interest (nonce 7) for a name routed
through face 9.  The second arrival is dropped, but its face is recorded: the incoming set
of the PIT entry is {1, 2}, not {1}, and the Data coming back on face 9 is sent to face 2. -/
theorem duplicate_arrival_face_is_recorded :
    ∃ (st2 st3 : State (List Face) (List CsHit)) (e : Entry),
      (Flooding simpleCollab false true).OnInterests simpleCollab
        { name := some [10, 1], nonce := 7, interestLifetime := 4 } {} [1, 2]
        { faces := [], fib := [{ name := [10], faces := [{ face := 9 }] }], pit := {}, cs := [],
          now := 0 } = .ok st2 ∧
      PitImpl.Lookup st2.pit [10, 1] = some e ∧ e.incoming = [1, 2] ∧ e.incoming ≠ [1] ∧
      (Flooding simpleCollab false true).OnData simpleCollab st2 9 { name := [10, 1] }
        { size := 5 } { size := 5 } = some st3 ∧
      sendsOn 2 st3.log = 1 :=
  ⟨_, _, _, rfl, rfl, by decide, by decide, rfl, by decide⟩

/-- C7 (amended): two distinct faces C1 and C2 deliver the same Interest (same name, same
nonce) to a node that had no PIT entry for the name and no cached object.  The second call
emits `drop_interests` and records C2: the incoming set of the PIT entry is {C1, C2}, and
the following `OnData` for the name from an upstream face other than C2 invokes send
on C2. -/
theorem duplicate_arrival_is_dropped_and_recorded (X : Collab σ κ) (c d : Bool)
    (st : State σ κ) (C1 C2 P : Face) (header : InterestHeader) (n : Name) (packet : Packet)
    (content : ContentObjectHeader) (payload cpacket : Packet)
    (e0 : Entry) (pit1 : Pit) (cs1 : κ)
    (hne : C1 ≠ C2) (hP : P ≠ C2) (hwf : st.pit.WF)
    (hname : header.name = some n) (hcn : content.name = n)
    (hl : PitImpl.Lookup st.pit n = none)
    (hc : PitImpl.Create st.fib st.pit st.now header n = (some e0, pit1))
    (hmiss : X.csLookup st.cs header = (none, cs1)) :
    ∃ (st1 st2 st3 : State σ κ) (e2 : Entry),
      (Flooding X c d).OnInterest X st C1 header packet = .ok st1 ∧
      (Flooding X c d).OnInterest X st1 C2 header packet = .ok st2 ∧
      st2.log = st1.log ++ [.inInterests header C2, .dropInterests header C2] ∧
      PitImpl.Lookup st2.pit n = some e2 ∧ e2.incoming = [C1, C2] ∧
      (Flooding X c d).OnData X st2 P content payload cpacket = some st3 ∧
      sendsOn C2 st2.log < sendsOn C2 st3.log := by
  obtain ⟨st1, e1, evs1, hrun1, -, -, -, -, hlk1, hn1, hinc1, hnon1, -, -, -, hpit1⟩ :=
    first_arrival X c d st C1 header n packet e0 pit1 cs1 hname hl hc hmiss
  have hseen : header.nonce ∈ e1.nonces := by rw [hnon1]; simp
  obtain ⟨st2, hrun2, hlog2, hpit2, hlk2, -⟩ :=
    duplicate_step (Flooding X c d) X st1 C2 header n packet e1 hname hlk1 hseen
  have hinc2 : (e1.AddIncoming C2).incoming = [C1, C2] := by
    simp [Entry.AddIncoming, hinc1, hne.symm]
  have hwf2 : st2.pit.WF := by
    rw [hpit2, hpit1]
    exact store_wf _ _ (store_wf _ _ (create_wf _ _ _ _ _ _ _ hwf hc))
  obtain ⟨st3, oks, evs, hrun3, hoks, hlog3, -⟩ :=
    onData_exact (Flooding X c d) X st2 P content payload cpacket (e1.AddIncoming C2) hwf2
      (lookup_mem _ _ _ hlk2) (by rw [hcn]; exact hn1)
  have hrem : ((e1.AddIncoming C2).RemoveIncoming P).incoming = [C1, C2].filter (fun g => g ≠ P) := by
    simp only [Entry.RemoveIncoming, hinc2]
  refine ⟨st1, st2, st3, e1.AddIncoming C2, hrun1, hrun2, hlog2, hlk2, hinc2, hrun3, ?_⟩
  rw [hlog3]
  simp only [sendsOn_append, sendsOn, List.countP_cons, List.countP_append] at *
  have hcount := sendsOn_satisfyEvents (some P) content payload cpacket C2 _ oks hoks
  simp only [sendsOn] at hcount
  rw [hcount, hrem]
  have : 0 < ([C1, C2].filter (fun g => g ≠ P)).count C2 := by
    apply List.count_pos_iff.mpr
    simp [List.mem_filter, hP.symm]
  simp only [Event.isSendOn]
  omega

/-- Witness of C7 (amended): faces 1 and 2 send the same Interest, the Data returns on face 9. -/
theorem duplicate_arrival_is_dropped_and_recorded_witness :
    ∃ (st1 st2 st3 : State (List Face) (List CsHit)) (e2 : Entry),
      (Flooding simpleCollab false true).OnInterest simpleCollab
        { faces := [], fib := [{ name := [10], faces := [{ face := 9 }] }], pit := {}, cs := [],
          now := 0 }
        1 { name := some [10, 1], nonce := 7, interestLifetime := 4 } {} = .ok st1 ∧
      (Flooding simpleCollab false true).OnInterest simpleCollab st1 2
        { name := some [10, 1], nonce := 7, interestLifetime := 4 } {} = .ok st2 ∧
      st2.log = st1.log ++
        [.inInterests { name := some [10, 1], nonce := 7, interestLifetime := 4 } 2,
         .dropInterests { name := some [10, 1], nonce := 7, interestLifetime := 4 } 2] ∧
      PitImpl.Lookup st2.pit [10, 1] = some e2 ∧ e2.incoming = [1, 2] ∧
      (Flooding simpleCollab false true).OnData simpleCollab st2 9 { name := [10, 1] }
        { size := 5 } { size := 5 } = some st3 ∧
      sendsOn 2 st2.log < sendsOn 2 st3.log :=
  duplicate_arrival_is_dropped_and_recorded simpleCollab false true
    { faces := [], fib := [{ name := [10], faces := [{ face := 9 }] }], pit := {}, cs := [],
      now := 0 }
    1 2 9 { name := some [10, 1], nonce := 7, interestLifetime := 4 } [10, 1] {}
    { name := [10, 1] } { size := 5 } { size := 5 }
    { name := [10, 1], fibEntry := [10], expireTime := 4 }
    { entries := [{ name := [10, 1], fibEntry := [10], expireTime := 4 }] } []
    (by decide) (by decide) (by decide) rfl rfl rfl rfl rfl

/-- C8 (as stated, refuted): two nodes with a matching FIB route.  On the first the content
store holds the object: the same Interest delivered twice is answered twice, with no call
of `DoPropagateInterest` and no `drop_interests` (not N−1 = 1).  On the second the only
face of the route is the arrival face: one delivery reaches `DoPropagateInterest`, sends
nothing and traces one `drop_interests` (not N−1 = 0). -/
theorem same_interest_counts_differ :
    (∃ st' : State (List Face) (List CsHit),
      (Flooding simpleCollab false true).OnInterests simpleCollab
        { name := some [10, 1], nonce := 7, interestLifetime := 4 } {} [1, 1]
        { faces := [], fib := [{ name := [10], faces := [{ face := 9 }] }], pit := {},
          cs := [{ packet := { size := 5 }, header := { name := [10, 1] }, payload := { size := 5 } }],
          now := 0 } = .ok st' ∧
      st'.log.countP Event.isDoPropagate = 0 ∧ st'.log.countP Event.isDropInterests = 0) ∧
    (∃ st' : State (List Face) (List CsHit),
      (Flooding simpleCollab false true).OnInterests simpleCollab
        { name := some [10, 1], nonce := 7, interestLifetime := 4 } {} [1]
        { faces := [], fib := [{ name := [10], faces := [{ face := 1 }] }], pit := {}, cs := [],
          now := 0 } = .ok st' ∧
      st'.log.countP Event.isDoPropagate = 1 ∧ st'.log.countP Event.isDropInterests = 1) :=
  ⟨⟨_, rfl, by decide, by decide⟩, ⟨_, rfl, by decide, by decide⟩⟩

/-- C8 (amended): the same Interest (same name, same nonce) is delivered N ≥ 1 times to a
flooding node whose PIT has no entry for the name and can create one, and whose content
store has no object for it.  `DoPropagateInterest` is called once, for the first arrival;
each of the N−1 later arrivals leaves `in_interests` and `drop_interests` and nothing else;
the `drop_interests` traces number N−1, plus one for the first arrival when its propagation
sent the Interest on no face. -/
theorem same_interest_n_times (X : Collab σ κ) (c d : Bool) (st : State σ κ)
    (arrivals : List Face) (header : InterestHeader) (n : Name) (packet : Packet)
    (e0 : Entry) (pit1 : Pit) (cs1 : κ)
    (hN : 1 ≤ arrivals.length)
    (hname : header.name = some n)
    (hl : PitImpl.Lookup st.pit n = none)
    (hc : PitImpl.Create st.fib st.pit st.now header n = (some e0, pit1))
    (hmiss : X.csLookup st.cs header = (none, cs1)) :
    ∃ (st1 stN : State σ κ) (first : List Event),
      (Flooding X c d).OnInterest X st (arrivals.headD 0) header packet = .ok st1 ∧
      st1.log = st.log ++ first ∧
      (Flooding X c d).OnInterests X header packet arrivals st = .ok stN ∧
      stN.log = st.log ++ (first ++ arrivals.tail.flatMap
        (fun g => [Event.inInterests header g, Event.dropInterests header g])) ∧
      first.countP Event.isDoPropagate = 1 ∧
      (first ++ arrivals.tail.flatMap
        (fun g => [Event.inInterests header g, Event.dropInterests header g])).countP
          Event.isDoPropagate = 1 ∧
      (first ++ arrivals.tail.flatMap
        (fun g => [Event.inInterests header g, Event.dropInterests header g])).countP
          Event.isDropInterests =
        (arrivals.length - 1) + (if first.countP Event.isOutInterests = 0 then 1 else 0) := by
  cases arrivals with
  | nil => simp at hN
  | cons f fs =>
    obtain ⟨st1, e1, evs1, hrun1, hlog1, hd1, -, hd3, hlk1, -, -, hnon1, -⟩ :=
      first_arrival X c d st f header n packet e0 pit1 cs1 hname hl hc hmiss
    have hseen : header.nonce ∈ e1.nonces := by rw [hnon1]; simp
    obtain ⟨stN, eN, hrunN, hlogN, -, -⟩ :=
      duplicates_run (Flooding X c d) X header n packet hname fs st1 e1 hlk1 hseen
    have hrest : ∀ l : List Face,
        (l.flatMap (fun g => [Event.inInterests header g, Event.dropInterests header g])).countP
          Event.isDoPropagate = 0 ∧
        (l.flatMap (fun g => [Event.inInterests header g, Event.dropInterests header g])).countP
          Event.isDropInterests = l.length := by
      intro l
      induction l with
      | nil => simp
      | cons g gs ih =>
        simp only [List.flatMap_cons, List.countP_append, ih.1, ih.2]
        simp [List.countP_cons, Event.isDoPropagate, Event.isDropInterests]
        omega
    have hfirst : (Event.inInterests header f :: Event.csLookup header ::
        Event.doPropagate f header :: evs1).countP Event.isDoPropagate = 1 := by
      simp [List.countP_cons, Event.isDoPropagate, hd1]
    have hfirstDrop : (Event.inInterests header f :: Event.csLookup header ::
        Event.doPropagate f header :: evs1).countP Event.isDropInterests =
        evs1.countP Event.isDropInterests := by
      simp [List.countP_cons, Event.isDropInterests]
    have hfirstOut : (Event.inInterests header f :: Event.csLookup header ::
        Event.doPropagate f header :: evs1).countP Event.isOutInterests =
        evs1.countP Event.isOutInterests := by
      simp [List.countP_cons, Event.isOutInterests]
    refine ⟨st1, stN, .inInterests header f :: .csLookup header :: .doPropagate f header :: evs1,
      hrun1, hlog1, ?_, ?_, hfirst, ?_, ?_⟩
    · simp only [OnInterests, hrun1]
      exact hrunN
    · simp only [List.tail_cons]
      rw [hlogN, hlog1, List.append_assoc]
    · simp only [List.tail_cons]
      rw [List.countP_append, hfirst, (hrest fs).1]
    · simp only [List.tail_cons]
      rw [List.countP_append, hfirstDrop, hfirstOut, (hrest fs).2, hd3]
      simp only [List.length_cons, Nat.add_sub_cancel]
      omega

/-- Witness of C8 (amended): the same Interest arrives three times, on faces 1, 2 and 1. -/
theorem same_interest_n_times_witness :
    ∃ (st1 stN : State (List Face) (List CsHit)) (first : List Event),
      (Flooding simpleCollab false true).OnInterest simpleCollab
        { faces := [], fib := [{ name := [10], faces := [{ face := 9 }] }], pit := {}, cs := [],
          now := 0 }
        ([1, 2, 1].headD 0) { name := some [10, 1], nonce := 7, interestLifetime := 4 } {} =
          .ok st1 ∧
      st1.log = [] ++ first ∧
      (Flooding simpleCollab false true).OnInterests simpleCollab
        { name := some [10, 1], nonce := 7, interestLifetime := 4 } {} [1, 2, 1]
        { faces := [], fib := [{ name := [10], faces := [{ face := 9 }] }], pit := {}, cs := [],
          now := 0 } = .ok stN ∧
      stN.log = [] ++ (first ++ [1, 2, 1].tail.flatMap
        (fun g => [Event.inInterests { name := some [10, 1], nonce := 7, interestLifetime := 4 } g,
                   Event.dropInterests { name := some [10, 1], nonce := 7, interestLifetime := 4 } g])) ∧
      first.countP Event.isDoPropagate = 1 ∧
      (first ++ [1, 2, 1].tail.flatMap
        (fun g => [Event.inInterests { name := some [10, 1], nonce := 7, interestLifetime := 4 } g,
                   Event.dropInterests { name := some [10, 1], nonce := 7, interestLifetime := 4 } g])).countP
          Event.isDoPropagate = 1 ∧
      (first ++ [1, 2, 1].tail.flatMap
        (fun g => [Event.inInterests { name := some [10, 1], nonce := 7, interestLifetime := 4 } g,
                   Event.dropInterests { name := some [10, 1], nonce := 7, interestLifetime := 4 } g])).countP
          Event.isDropInterests =
        ([1, 2, 1].length - 1) + (if first.countP Event.isOutInterests = 0 then 1 else 0) :=
  same_interest_n_times simpleCollab false true
    { faces := [], fib := [{ name := [10], faces := [{ face := 9 }] }], pit := {}, cs := [],
      now := 0 }
    [1, 2, 1] { name := some [10, 1], nonce := 7, interestLifetime := 4 } [10, 1] {}
    { name := [10, 1], fibEntry := [10], expireTime := 4 }
    { entries := [{ name := [10, 1], fibEntry := [10], expireTime := 4 }] } []
    (by decide) rfl rfl rfl rfl

/-! ## Lemmas: one upstream face -/

/-- Flooding a new Interest over a FIB entry with a single face that admits. -/
theorem propagate_single (X : Collab σ κ) (c d : Bool) (st : State σ κ) (f P : Face)
    (header : InterestHeader) (packet : Packet) (e : Entry) (fe : FibEntry) (m : FaceMetric)
    (s1 : σ)
    (hout : e.outgoing = []) (hinc : e.incoming = [])
    (hfe : st.fib.GetFibEntry e = some fe) (hfaces : fe.faces = [m]) (hm : m.face = P)
    (hred : m.status ≠ .red) (hPf : P ≠ f)
    (hlimit : X.isBelowLimit st.faces P = (true, s1)) :
    ∃ (pk : Packet) (h' : InterestHeader) (ok : Bool) (s2 : σ),
      (Flooding X c d).PropagateInterest st f header packet e =
        { st with
          faces := s2
          log := st.log ++ [.doPropagate f header, .isBelowLimit P true, .send P pk ok,
            .outInterests h' P]
          pit := st.pit.store
            (((e.AddIncoming f).UpdateLifetime st.now header.GetInterestLifetime).AddOutgoing P
              st.now) } := by
  have hfe' : st.fib.GetFibEntry
      ((e.AddIncoming f).UpdateLifetime st.now header.GetInterestLifetime) = some fe := hfe
  have hfind : ((e.AddIncoming f).UpdateLifetime st.now header.GetInterestLifetime).findOutgoing P
      = none := by
    simp [Entry.findOutgoing, Entry.UpdateLifetime, Entry.AddIncoming, hout]
  refine ⟨if header.agent = 1 then
      ({} : Packet).AddHeader (.interest (if header.agent = 1 then { header with agent := 2 } else header))
      else packet.Copy,
    if header.agent = 1 then { header with agent := 2 } else header,
    (X.send s1 P (if header.agent = 1 then
      ({} : Packet).AddHeader (.interest (if header.agent = 1 then { header with agent := 2 } else header))
      else packet.Copy)).1,
    (X.send s1 P (if header.agent = 1 then
      ({} : Packet).AddHeader (.interest (if header.agent = 1 then { header with agent := 2 } else header))
      else packet.Copy)).2, ?_⟩
  simp [PropagateInterest, Flooding, Flooding.DoPropagateInterest, hfe', hfaces,
    Flooding.floodFaces, hm, hred, hPf, WillSendOutInterest, hfind, State.trace, hlimit,
    DetectRetransmittedInterest, hinc, faceSend, DidSendOutInterest]

/-- C10: two distinct consumer faces C1 and C2 ask for the same name with different nonces
at a flooding node that has no PIT entry and no cached object for it, and whose FIB entry
for the name has the single upstream face P, not RED and admitting.  The first arrival
sends one Interest, on P; the second sends none, is traced as `drop_interests` and is
recorded in the incoming set, now {C1, C2}.  The `OnData` for the name arriving on P then
attempts a send of the content on C1 and on C2, and leaves no PIT entry for the name. -/
theorem interest_aggregation (X : Collab σ κ) (c d : Bool) (st : State σ κ) (C1 C2 P : Face)
    (header1 header2 : InterestHeader) (n : Name) (packet1 packet2 : Packet)
    (content : ContentObjectHeader) (payload cpacket : Packet)
    (e0 : Entry) (pit1 : Pit) (cs1 cs2 : κ) (fe : FibEntry) (m : FaceMetric) (s1 : σ)
    (h12 : C1 ≠ C2) (hP1 : P ≠ C1) (hP2 : P ≠ C2) (hwf : st.pit.WF)
    (hname1 : header1.name = some n) (hname2 : header2.name = some n)
    (hnonce : header2.nonce ≠ header1.nonce) (hcn : content.name = n)
    (hl : PitImpl.Lookup st.pit n = none)
    (hc : PitImpl.Create st.fib st.pit st.now header1 n = (some e0, pit1))
    (hfe : st.fib.GetFibEntry e0 = some fe) (hfaces : fe.faces = [m]) (hm : m.face = P)
    (hred : m.status ≠ .red)
    (hlimit : X.isBelowLimit st.faces P = (true, s1))
    (hmiss1 : X.csLookup st.cs header1 = (none, cs1))
    (hmiss2 : X.csLookup cs1 header2 = (none, cs2)) :
    ∃ (st1 st2 st3 : State σ κ) (pk : Packet) (h' : InterestHeader) (ok : Bool) (e2 : Entry)
      (oks : List Bool) (evs : List Event),
      (Flooding X c d).OnInterest X st C1 header1 packet1 = .ok st1 ∧
      st1.log = st.log ++ [.inInterests header1 C1, .csLookup header1,
        .doPropagate C1 header1, .isBelowLimit P true, .send P pk ok, .outInterests h' P] ∧
      (Flooding X c d).OnInterest X st1 C2 header2 packet2 = .ok st2 ∧
      st2.log = st1.log ++ [.inInterests header2 C2, .csLookup header2,
        .dropInterests header2 C2] ∧
      PitImpl.Lookup st2.pit n = some e2 ∧ e2.incoming = [C1, C2] ∧
      e2.outgoing = [{ face := P, sendTime := st.now, retxCount := 0 }] ∧
      (Flooding X c d).OnData X st2 P content payload cpacket = some st3 ∧
      oks.length = 2 ∧
      st3.log = st2.log ++ .inData content payload P :: .csAdd content payload ::
        (satisfyEvents (some P) content payload cpacket [C1, C2] oks ++ evs) ∧
      PitImpl.Lookup st3.pit n = none := by
  obtain ⟨hinc0, hout0, hnon0⟩ := create_fresh _ _ _ _ _ _ _ hl hc
  obtain ⟨hn0, hmem0⟩ := create_spec _ _ _ _ _ _ _ hc
  -- first arrival
  have hacq : acquire (st.trace (.inInterests header1 C1)) header1 n =
      some (e0, { st.trace (.inInterests header1 C1) with pit := pit1 }) :=
    acquire_of_create _ header1 n e0 pit1 hl hc
  have hfresh : header1.nonce ∉ e0.nonces := by rw [hnon0]; simp
  have hsup : (Flooding X c d).ShouldSuppressIncomingInterest C1
      (e0.AddSeenNonce header1.nonce) = false := by
    simp [ShouldSuppressIncomingInterest, Entry.AddSeenNonce, hinc0, hout0]
  have hrun1 := onInterestNamed_propagate (Flooding X c d) X _ _ C1 header1 n packet1 e0 cs1
    hacq hfresh hmiss1 hsup
  obtain ⟨pk, h', ok, s2, hprop⟩ := propagate_single X c d
    { st.trace (.inInterests header1 C1) with
      pit := pit1, cs := cs1
      log := (st.trace (.inInterests header1 C1)).log ++ [.csLookup header1] }
    C1 P header1 packet1 (e0.AddSeenNonce header1.nonce) fe m s1 hout0 hinc0 hfe hfaces hm hred
    hP1 hlimit
  generalize hS1 : (Flooding X c d).onInterestNamed X (st.trace (.inInterests header1 C1)) C1
    header1 n packet1 = st1 at hrun1
  rw [hprop] at hrun1
  have he1 : (((e0.AddSeenNonce header1.nonce).AddIncoming C1).UpdateLifetime st.now
      header1.GetInterestLifetime).AddOutgoing P st.now =
      { e0 with
        nonces := [header1.nonce], incoming := [C1]
        expireTime := max e0.expireTime (st.now + header1.GetInterestLifetime)
        outgoing := [{ face := P, sendTime := st.now, retxCount := 0 }] } := by
    simp [Entry.AddOutgoing, Entry.findOutgoing, Entry.UpdateLifetime, Entry.AddIncoming,
      Entry.AddSeenNonce, hinc0, hout0, hnon0]
  generalize hE1 : ({ e0 with
        nonces := [header1.nonce], incoming := [C1]
        expireTime := max e0.expireTime (st.now + header1.GetInterestLifetime)
        outgoing := [{ face := P, sendTime := st.now, retxCount := 0 }] } : Entry) = e1 at he1
  have hn1 : e1.name = n := by rw [← hE1]; exact hn0
  have hinc1 : e1.incoming = [C1] := by rw [← hE1]
  have hout1 : e1.outgoing = [{ face := P, sendTime := st.now, retxCount := 0 }] := by rw [← hE1]
  have hnon1 : e1.nonces = [header1.nonce] := by rw [← hE1]
  simp only [State.trace] at hrun1
  rw [he1] at hrun1
  have hlk1 : PitImpl.Lookup (pit1.store e1) n = some e1 := by
    obtain ⟨x, hx⟩ := (lookup_isSome_iff pit1 e1.name).mp ⟨e0, hmem0, hn0.trans hn1.symm⟩
    have := lookup_store pit1 e1 x hx
    rw [hn1] at this
    exact this
  -- second arrival
  have hpit1 : st1.pit = pit1.store e1 := by rw [hrun1]
  have hcs1 : st1.cs = cs1 := by rw [hrun1]
  have hnow1 : st1.now = st.now := by rw [hrun1]
  have hacq2 : acquire (st1.trace (.inInterests header2 C2)) header2 n =
      some (e1, st1.trace (.inInterests header2 C2)) := by
    simp [acquire, State.trace, hpit1, hlk1]
  have hfresh2 : header2.nonce ∉ e1.nonces := by rw [hnon1]; simpa using hnonce
  have hsup2 : (Flooding X c d).ShouldSuppressIncomingInterest C2
      (e1.AddSeenNonce header2.nonce) = true := by
    simp [ShouldSuppressIncomingInterest, Entry.AddSeenNonce, hinc1, hout1, Entry.findOutgoing,
      DetectRetransmittedInterest, hP2, h12.symm]
  have hrun2 := onInterestNamed_suppress (Flooding X c d) X _ _ C2 header2 n packet2 e1 cs2
    hacq2 hfresh2 (by simpa [State.trace, hcs1] using hmiss2) hsup2
  generalize hS2 : (Flooding X c d).onInterestNamed X (st1.trace (.inInterests header2 C2)) C2
    header2 n packet2 = st2 at hrun2
  generalize hE2 : ((e1.AddSeenNonce header2.nonce).AddIncoming C2).UpdateLifetime
    (st1.trace (.inInterests header2 C2)).now header2.GetInterestLifetime = e2 at hrun2
  have hn2 : e2.name = n := by rw [← hE2]; exact hn1
  have hinc2 : e2.incoming = [C1, C2] := by
    rw [← hE2]; simp [Entry.UpdateLifetime, Entry.AddIncoming, Entry.AddSeenNonce, hinc1, h12.symm]
  have hout2 : e2.outgoing = [{ face := P, sendTime := st.now, retxCount := 0 }] := by
    rw [← hE2]; exact hout1
  have hpit2 : st2.pit = (pit1.store e1).store e2 := by rw [hrun2]; simp [State.trace, hpit1]
  have hlk2 : PitImpl.Lookup st2.pit n = some e2 := by
    rw [hpit2]
    have := lookup_store (pit1.store e1) e2 e1 (by rw [hn2]; exact hlk1)
    rw [hn2] at this
    exact this
  have hwf2 : st2.pit.WF := by
    rw [hpit2]
    exact store_wf _ _ (store_wf _ _ (create_wf _ _ _ _ _ _ _ hwf hc))
  -- the Data
  obtain ⟨st3, oks, evs, hrun3, hoks, hlog3, hlk3⟩ :=
    onData_exact (Flooding X c d) X st2 P content payload cpacket e2 hwf2
      (lookup_mem _ _ _ hlk2) (by rw [hcn]; exact hn2)
  have hrem : (e2.RemoveIncoming P).incoming = [C1, C2] := by
    simp [Entry.RemoveIncoming, hinc2, hP1.symm, hP2.symm]
  rw [hrem] at hoks hlog3
  rw [hcn] at hlk3
  refine ⟨st1, st2, st3, pk, h', ok, e2, oks, evs, ?_, ?_, ?_, ?_, hlk2, hinc2, hout2, hrun3,
    hoks, hlog3, hlk3⟩
  · rw [onInterest_named _ X st C1 header1 n packet1 hname1, hS1]
  · rw [hrun1]; simp
  · rw [onInterest_named _ X st1 C2 header2 n packet2 hname2, hS2]
  · rw [hrun2]; simp [State.trace]

/-- Witness of C10: consumers on faces 1 and 2, upstream face 9. -/
theorem interest_aggregation_witness :
    ∃ (st1 st2 st3 : State (List Face) (List CsHit)) (pk : Packet) (h' : InterestHeader)
      (ok : Bool) (e2 : Entry) (oks : List Bool) (evs : List Event),
      (Flooding simpleCollab false true).OnInterest simpleCollab
        { faces := [], fib := [{ name := [10], faces := [{ face := 9 }] }], pit := {}, cs := [],
          now := 0 }
        1 { name := some [10, 1], nonce := 5, interestLifetime := 4 } {} = .ok st1 ∧
      st1.log = [] ++ [.inInterests { name := some [10, 1], nonce := 5, interestLifetime := 4 } 1,
        .csLookup { name := some [10, 1], nonce := 5, interestLifetime := 4 },
        .doPropagate 1 { name := some [10, 1], nonce := 5, interestLifetime := 4 },
        .isBelowLimit 9 true, .send 9 pk ok, .outInterests h' 9] ∧
      (Flooding simpleCollab false true).OnInterest simpleCollab st1 2
        { name := some [10, 1], nonce := 6, interestLifetime := 4 } {} = .ok st2 ∧
      st2.log = st1.log ++
        [.inInterests { name := some [10, 1], nonce := 6, interestLifetime := 4 } 2,
         .csLookup { name := some [10, 1], nonce := 6, interestLifetime := 4 },
         .dropInterests { name := some [10, 1], nonce := 6, interestLifetime := 4 } 2] ∧
      PitImpl.Lookup st2.pit [10, 1] = some e2 ∧ e2.incoming = [1, 2] ∧
      e2.outgoing = [{ face := 9, sendTime := 0, retxCount := 0 }] ∧
      (Flooding simpleCollab false true).OnData simpleCollab st2 9 { name := [10, 1] }
        { size := 5 } { size := 5 } = some st3 ∧
      oks.length = 2 ∧
      st3.log = st2.log ++ .inData { name := [10, 1] } { size := 5 } 9 ::
        .csAdd { name := [10, 1] } { size := 5 } ::
        (satisfyEvents (some 9) { name := [10, 1] } { size := 5 } { size := 5 } [1, 2] oks ++
          evs) ∧
      PitImpl.Lookup st3.pit [10, 1] = none :=
  interest_aggregation simpleCollab false true
    { faces := [], fib := [{ name := [10], faces := [{ face := 9 }] }], pit := {}, cs := [],
      now := 0 }
    1 2 9 { name := some [10, 1], nonce := 5, interestLifetime := 4 }
    { name := some [10, 1], nonce := 6, interestLifetime := 4 } [10, 1] {} {}
    { name := [10, 1] } { size := 5 } { size := 5 }
    { name := [10, 1], fibEntry := [10], expireTime := 4 }
    { entries := [{ name := [10, 1], fibEntry := [10], expireTime := 4 }] } [] []
    { name := [10], faces := [{ face := 9 }] } { face := 9 } []
    (by decide) (by decide) (by decide) (by decide) rfl rfl (by decide) rfl rfl rfl rfl rfl rfl
    (by decide) rfl rfl rfl

/-! ## Claims on admission and on failures of `OnInterest` -/

/-- C16: `WillSendOutInterest` accepts exactly when the outgoing record of `face_out`, if
there is one, has a retransmission count below `max_retx_allowed`, and `is_below_limit`
returns true.  The count is tested first: when it rejects, the face is not queried and
nothing changes. -/
theorem willSendOutInterest_accepts_iff (X : Collab σ κ) (st : State σ κ) (face_out : Face)
    (e : Entry) :
    ((WillSendOutInterest X st face_out e).1 = true ↔
      ¬ (∃ o, e.findOutgoing face_out = some o ∧ o.retxCount ≥ e.maxRetxCount) ∧
      (X.isBelowLimit st.faces face_out).1 = true) ∧
    ((∃ o, e.findOutgoing face_out = some o ∧ o.retxCount ≥ e.maxRetxCount) →
      (WillSendOutInterest X st face_out e).2.1.log = st.log ∧
      (WillSendOutInterest X st face_out e).2.1.faces = st.faces ∧
      (WillSendOutInterest X st face_out e).2.2 = e) ∧
    (¬ (∃ o, e.findOutgoing face_out = some o ∧ o.retxCount ≥ e.maxRetxCount) →
      (WillSendOutInterest X st face_out e).2.1.log =
        st.log ++ [.isBelowLimit face_out (X.isBelowLimit st.faces face_out).1] ∧
      (WillSendOutInterest X st face_out e).2.1.faces = (X.isBelowLimit st.faces face_out).2) := by
  unfold WillSendOutInterest
  cases hfind : e.findOutgoing face_out with
  | none =>
    dsimp only
    cases hb : (X.isBelowLimit st.faces face_out).1 <;> simp [hb]
  | some o =>
    dsimp only
    by_cases hr : o.retxCount ≥ e.maxRetxCount
    · simp [hr]
    · cases hb : (X.isBelowLimit st.faces face_out).1 <;> simp [hr, hb]

theorem insert_none (p p' : Pit) (e : Entry) (h : p.insert e = (none, p')) : p' = p := by
  unfold Pit.insert at h
  split at h
  · simp at h
  · split at h
    · simp at h
    · simp only [Prod.mk.injEq, true_and] at h; exact h.symm

theorem create_none_eq (fib : Fib) (p p' : Pit) (now : Time) (header : InterestHeader)
    (n : Name) (h : PitImpl.Create fib p now header n = (none, p')) : p' = p := by
  unfold PitImpl.Create at h
  split at h
  · split at h
    · simp only [Prod.mk.injEq, true_and] at h; exact h.symm
    · dsimp only at h
      split at h
      · simp at h
      · simp at h
      · next q hins =>
        simp only [Prod.mk.injEq, true_and] at h
        rw [← h]; exact insert_none _ _ _ hins
  · split at h
    · simp only [Prod.mk.injEq, true_and] at h; exact h.symm
    · dsimp only at h
      split at h
      · simp at h
      · simp at h
      · next q hins =>
        simp only [Prod.mk.injEq, true_and] at h
        rw [← h]; exact insert_none _ _ _ hins

theorem create_none (fib : Fib) (p : Pit) (now : Time) (header : InterestHeader) (n : Name)
    (h : (PitImpl.Create fib p now header n).1 = none) :
    (PitImpl.Create fib p now header n).2 = p := by
  apply create_none_eq fib p _ now header n
  rw [← h]

theorem create_fib_miss (fib : Fib) (p : Pit) (now : Time) (header : InterestHeader) (n : Name)
    (hmiss : (if header.IsEnabledLocator && decide ((header.locator.getD []).length > 0) then
        fib.LongestPrefixMatchOfLocator (header.locator.getD [])
      else fib.LongestPrefixMatch n) = none) :
    PitImpl.Create fib p now header n = (none, p) := by
  unfold PitImpl.Create
  split
  · next hloc => rw [if_pos hloc] at hmiss; simp [hmiss]
  · next hloc => rw [if_neg hloc] at hmiss; simp [hmiss]

theorem create_full_persistent (fib : Fib) (p : Pit) (now : Time) (header : InterestHeader)
    (n : Name) (hl : PitImpl.Lookup p n = none) (hpol : p.policy = .persistent)
    (hmax : p.maxSize ≠ 0) (hfull : p.maxSize ≤ PitImpl.GetSize p) :
    PitImpl.Create fib p now header n = (none, p) := by
  have hins : ∀ fe : FibEntry,
      p.insert (Entry.create n header.GetInterestLifetime fe.name now) = (none, p) := by
    intro fe
    have hl' : PitImpl.Lookup p
        (Entry.create n header.GetInterestLifetime fe.name now).name = none := hl
    simp only [Pit.insert, hl', Pit.policyInsert, hpol]
    rw [if_pos ⟨hmax, hfull⟩]
  unfold PitImpl.Create
  split
  · split
    · rfl
    · next fe _ => simp only [hins fe]
  · split
    · rfl
    · next fe _ => simp only [hins fe]

/-- C14: an Interest arrives for whose name the PIT has no entry.  When `Create` returns no
entry, `OnInterest` traces `in_interests` and one `drop_interests` and returns: the PIT, the
content store, the FIB and the faces are as before, nothing is sent and the content store
is not consulted.  `Create` returns no entry when the FIB has no match, and when the PIT is
full under the persistent policy. -/
theorem onInterest_failed_to_create (S : ForwardingStrategy σ κ) (X : Collab σ κ)
    (st : State σ κ) (face_in : Face) (header : InterestHeader) (n : Name) (packet : Packet)
    (hname : header.name = some n)
    (hl : PitImpl.Lookup st.pit n = none) :
    ((PitImpl.Create st.fib st.pit st.now header n).1 = none →
      S.OnInterest X st face_in header packet =
        .ok { st with log := st.log ++ [.inInterests header face_in,
                                        .dropInterests header face_in] } ∧
      (PitImpl.Create st.fib st.pit st.now header n).2 = st.pit) ∧
    ((if header.IsEnabledLocator && decide ((header.locator.getD []).length > 0) then
        st.fib.LongestPrefixMatchOfLocator (header.locator.getD [])
      else st.fib.LongestPrefixMatch n) = none →
      (PitImpl.Create st.fib st.pit st.now header n).1 = none) ∧
    (st.pit.policy = .persistent → st.pit.maxSize ≠ 0 →
      st.pit.maxSize ≤ PitImpl.GetSize st.pit →
      (PitImpl.Create st.fib st.pit st.now header n).1 = none) := by
  refine ⟨?_, ?_, ?_⟩
  · intro hc
    refine ⟨?_, create_none _ _ _ _ _ hc⟩
    have hacq : acquire (st.trace (.inInterests header face_in)) header n = none := by
      simp only [acquire, State.trace, hl]
      split
      · next pe pit heq => rw [heq] at hc; simp at hc
      · rfl
    rw [onInterest_named S X st face_in header n packet hname,
      onInterestNamed_failed S X _ face_in header n packet hacq]
    simp [State.trace]
  · intro hmiss
    rw [create_fib_miss _ _ _ _ _ hmiss]
  · intro hpol hmax hfull
    rw [create_full_persistent _ _ _ _ _ hl hpol hmax hfull]

/-- Witness of C14: bounded PIT (persistent, one entry) holding /11; an Interest for /10/1
arrives. -/
theorem onInterest_failed_to_create_witness :
    (Flooding simpleCollab false true).OnInterest simpleCollab
      ({ faces := [], fib := [{ name := [10], faces := [{ face := 9 }] }],
         pit := { entries := [{ name := [11], fibEntry := [11] }], maxSize := 1 },
         cs := [], now := 0 } : State (List Face) (List CsHit))
      1 { name := some [10, 1], nonce := 7 } {} =
    .ok { faces := [], fib := [{ name := [10], faces := [{ face := 9 }] }],
          pit := { entries := [{ name := [11], fibEntry := [11] }], maxSize := 1 },
          cs := [], now := 0,
          log := [] ++ [.inInterests { name := some [10, 1], nonce := 7 } 1,
                  .dropInterests { name := some [10, 1], nonce := 7 } 1] } :=
  ((onInterest_failed_to_create (Flooding simpleCollab false true) simpleCollab
      { faces := [], fib := [{ name := [10], faces := [{ face := 9 }] }],
        pit := { entries := [{ name := [11], fibEntry := [11] }], maxSize := 1 },
        cs := [], now := 0 }
      1 { name := some [10, 1], nonce := 7 } [10, 1] {} rfl rfl).1 rfl).1

/-- C15 (as stated, refuted): an Interest header whose name was never set reaches
`OnInterest`; the call does not return normally. -/
theorem onInterest_without_name_does_not_return :
    ¬ ∃ st' : State (List Face) (List CsHit),
      (Flooding simpleCollab false true).OnInterest simpleCollab
        { faces := [], fib := [{ name := [10], faces := [{ face := 9 }] }], pit := {}, cs := [],
          now := 0 }
        1 { nonce := 7 } {} = .ok st' := by
  rintro ⟨st', h⟩
  simp [OnInterest, InterestHeader.GetName] at h

/-- C15 (amended): for an Interest header that reaches `OnInterest` with its name never
set, the `InterestHeaderException` thrown by `GetName` at the PIT lookup escapes
`OnInterest`, for every strategy.  When it escapes, `in_interests` has been traced for the
Interest and nothing else has happened: the log is the old log with that one trace added
(no `drop_interests`), and faces, FIB, PIT, content store and clock are as before the
call. -/
theorem onInterest_without_name_throws (S : ForwardingStrategy σ κ) (X : Collab σ κ)
    (st : State σ κ) (face_in : Face) (header : InterestHeader) (packet : Packet)
    (hname : header.name = none) :
    header.GetName = .error .mk ∧
    (∀ st' : State σ κ, S.OnInterest X st face_in header packet ≠ .ok st') ∧
    ∃ thrown : State σ κ,
      S.OnInterest X st face_in header packet = .error (.mk, thrown) ∧
      thrown.log = st.log ++ [.inInterests header face_in] ∧
      thrown.log.countP Event.isDropInterests = st.log.countP Event.isDropInterests ∧
      thrown.faces = st.faces ∧ thrown.fib = st.fib ∧ thrown.pit = st.pit ∧
      thrown.cs = st.cs ∧ thrown.now = st.now := by
  have hrun : S.OnInterest X st face_in header packet =
      .error (.mk, st.trace (.inInterests header face_in)) := by
    simp [OnInterest, InterestHeader.GetName, hname]
  refine ⟨?_, ?_, st.trace (.inInterests header face_in), hrun, rfl, ?_, rfl, rfl, rfl, rfl,
    rfl⟩
  · simp [InterestHeader.GetName, hname]
  · intro st' h
    rw [hrun] at h
    cases h
  · simp [State.trace, List.countP_append, Event.isDropInterests]

/-- Witness of C15 (amended): a header with a nonce and no name arrives on face 1 of a
node whose log is empty; the exception escapes with the one `in_interests` trace in the
log. -/
theorem onInterest_without_name_throws_witness :
    ({ nonce := 7 } : InterestHeader).GetName = .error .mk ∧
    ∃ thrown : State (List Face) (List CsHit),
      (Flooding simpleCollab false true).OnInterest simpleCollab
        { faces := [], fib := [], pit := {}, cs := [], now := 0 }
        1 { nonce := 7 } {} = .error (.mk, thrown) ∧
      thrown.log = [.inInterests { nonce := 7 } 1] := by
  obtain ⟨h1, -, thrown, hrun, hlog, -⟩ := onInterest_without_name_throws
    (Flooding simpleCollab false true) simpleCollab
    { faces := [], fib := [], pit := {}, cs := [], now := 0 } 1 { nonce := 7 } {} rfl
  exact ⟨h1, thrown, hrun, hlog⟩

/-! ## Lemmas: the attempts of `PropagateInterest` -/

theorem propagate_eq (S : ForwardingStrategy σ κ) (st : State σ κ) (f : Face)
    (header : InterestHeader) (packet : Packet) (e : Entry) :
    S.PropagateInterest st f header packet e =
      { (if !(S.propagateAttempts st f header packet e).ok &&
            (S.propagateAttempts st f header packet e).entry.outgoing.length == 0 then
          DidExhaustForwardingOptions (S.propagateAttempts st f header packet e).st f
            (S.propagateAttempts st f header packet e).header
        else (S.propagateAttempts st f header packet e).st) with
        pit := (if !(S.propagateAttempts st f header packet e).ok &&
            (S.propagateAttempts st f header packet e).entry.outgoing.length == 0 then
          DidExhaustForwardingOptions (S.propagateAttempts st f header packet e).st f
            (S.propagateAttempts st f header packet e).header
        else (S.propagateAttempts st f header packet e).st).pit.store
          (S.propagateAttempts st f header packet e).entry } := rfl

theorem countP_flood (evs : List Event) (hev : ∀ ev ∈ evs, ev.isFloodStep = true) :
    evs.countP Event.isDoPropagate = 0 ∧ evs.countP Event.isDropInterests = 0 ∧
    evs.countP Event.isCsLookup = 0 :=
  ⟨countP_eq_zero_of_flood _ evs hev (fun ev h => (floodStep_not_other ev h).1),
   countP_eq_zero_of_flood _ evs hev (fun ev h => (floodStep_not_other ev h).2.1),
   countP_eq_zero_of_flood _ evs hev (fun ev h => (floodStep_not_other ev h).2.2.1)⟩

/-- What the attempts of the flooding strategy leave behind. -/
theorem attempts_spec (X : Collab σ κ) (c d : Bool) (st : State σ κ) (f : Face)
    (header : InterestHeader) (packet : Packet) (e : Entry) (retry : Bool)
    (hretry : retry = (!(Flooding.DoPropagateInterest X (st.trace (.doPropagate f header)) f
        header packet ((e.AddIncoming f).UpdateLifetime st.now header.GetInterestLifetime)).ok
      && (d && decide (f ∈ e.incoming)))) :
    ((Flooding X c d).propagateAttempts st f header packet e).st.pit = st.pit ∧
    ((Flooding X c d).propagateAttempts st f header packet e).st.fib = st.fib ∧
    ((Flooding X c d).propagateAttempts st f header packet e).st.cs = st.cs ∧
    ((Flooding X c d).propagateAttempts st f header packet e).st.now = st.now ∧
    ((Flooding X c d).propagateAttempts st f header packet e).entry.name = e.name ∧
    ((Flooding X c d).propagateAttempts st f header packet e).entry.incoming =
      (e.AddIncoming f).incoming ∧
    ((Flooding X c d).propagateAttempts st f header packet e).entry.nonces = e.nonces ∧
    ((Flooding X c d).propagateAttempts st f header packet e).entry.maxRetxCount =
      (if retry then (e.maxRetxCount + 1) % 2 ^ 32 else e.maxRetxCount) ∧
    ∃ evs, ((Flooding X c d).propagateAttempts st f header packet e).st.log = st.log ++ evs ∧
      evs.countP Event.isDoPropagate = (if retry then 2 else 1) ∧
      evs.countP Event.isDropInterests = 0 ∧ evs.countP Event.isCsLookup = 0 ∧
      (evs.countP Event.isOutInterests = 0 ↔
        ((Flooding X c d).propagateAttempts st f header packet e).ok = false) := by
  obtain ⟨cnt, hspec, hok⟩ := doPropagate_spec X (st.trace (.doPropagate f header)) f header
    packet ((e.AddIncoming f).UpdateLifetime st.now header.GetInterestLifetime)
  have hrun : (Flooding X c d).propagateAttempts st f header packet e =
      (let r := Flooding.DoPropagateInterest X (st.trace (.doPropagate f header)) f header
          packet ((e.AddIncoming f).UpdateLifetime st.now header.GetInterestLifetime)
       if !r.ok && (d && decide (f ∈ e.incoming)) then
         Flooding.DoPropagateInterest X (r.st.trace (.doPropagate f r.header)) f r.header packet
           r.entry.IncreaseAllowedRetxCount
       else r) := rfl
  rw [hrun]
  dsimp only
  generalize Flooding.DoPropagateInterest X (st.trace (.doPropagate f header)) f header
    packet ((e.AddIncoming f).UpdateLifetime st.now header.GetInterestLifetime) = r
    at hspec hok hretry ⊢
  obtain ⟨evs, hlog, hev, hc1, -⟩ := hspec.log
  obtain ⟨z1, z2, z3⟩ := countP_flood evs hev
  have hlog' : r.st.log = st.log ++ .doPropagate f header :: evs := by
    rw [hlog]; simp [State.trace]
  cases retry with
  | false =>
    rw [← hretry]
    simp only [Bool.false_eq_true, if_false]
    refine ⟨hspec.pit, hspec.fib, hspec.cs, hspec.now, hspec.name, hspec.incoming, hspec.nonces,
      hspec.maxRetxCount, .doPropagate f header :: evs, hlog', ?_, ?_, ?_, ?_⟩
    · simp [List.countP_cons, Event.isDoPropagate, z1]
    · simp [List.countP_cons, Event.isDropInterests, z2]
    · simp [List.countP_cons, Event.isCsLookup, z3]
    · simp only [List.countP_cons, Event.isOutInterests, Bool.false_eq_true, if_false,
        Nat.add_zero, hok]
      constructor
      · intro h; simp; omega
      · intro h; simp at h; omega
  | true =>
    rw [← hretry]
    simp only [if_true]
    have hokf : r.ok = false := by
      cases h : r.ok
      · rfl
      · rw [h] at hretry; simp at hretry
    have hcnt : cnt = 0 := by
      rw [hok] at hokf; simpa using hokf
    obtain ⟨cnt2, hspec2, hok2⟩ := doPropagate_spec X (r.st.trace (.doPropagate f r.header)) f
      r.header packet r.entry.IncreaseAllowedRetxCount
    generalize Flooding.DoPropagateInterest X (r.st.trace (.doPropagate f r.header)) f
      r.header packet r.entry.IncreaseAllowedRetxCount = r2 at hspec2 hok2 ⊢
    obtain ⟨evs2, hlog2, hev2, hc2, -⟩ := hspec2.log
    obtain ⟨y1, y2, y3⟩ := countP_flood evs2 hev2
    refine ⟨?_, ?_, ?_, ?_, ?_, ?_, ?_, ?_,
      .doPropagate f header :: (evs ++ .doPropagate f r.header :: evs2), ?_, ?_, ?_, ?_, ?_⟩
    · rw [hspec2.pit]; exact hspec.pit
    · rw [hspec2.fib]; exact hspec.fib
    · rw [hspec2.cs]; exact hspec.cs
    · rw [hspec2.now]; exact hspec.now
    · rw [hspec2.name]; exact hspec.name
    · rw [hspec2.incoming]; exact hspec.incoming
    · rw [hspec2.nonces]; exact hspec.nonces
    · rw [hspec2.maxRetxCount]
      simp only [Entry.IncreaseAllowedRetxCount]
      rw [hspec.maxRetxCount]
      rfl
    · rw [hlog2]; simp [State.trace, hlog']
    · simp [List.countP_cons, List.countP_append, Event.isDoPropagate, z1, y1]
    · simp [List.countP_cons, List.countP_append, Event.isDropInterests, z2, y2]
    · simp [List.countP_cons, List.countP_append, Event.isCsLookup, z3, y3]
    · simp only [List.countP_cons, List.countP_append, Event.isOutInterests,
        Bool.false_eq_true, if_false, Nat.add_zero, hok2]
      constructor
      · intro h; simp; omega
      · intro h; simp at h; omega

/-! ## Claims on `PropagateInterest` -/

theorem propagate_state (X : Collab σ κ) (c d : Bool) (st : State σ κ) (f : Face)
    (header : InterestHeader) (packet : Packet) (e : Entry) :
    ((Flooding X c d).PropagateInterest st f header packet e).pit =
      ((Flooding X c d).propagateAttempts st f header packet e).st.pit.store
        ((Flooding X c d).propagateAttempts st f header packet e).entry ∧
    ((Flooding X c d).PropagateInterest st f header packet e).log =
      ((Flooding X c d).propagateAttempts st f header packet e).st.log ++
        (if ((Flooding X c d).propagateAttempts st f header packet e).ok = false ∧
            ((Flooding X c d).propagateAttempts st f header packet e).entry.outgoing = [] then
          [.dropInterests ((Flooding X c d).propagateAttempts st f header packet e).header f]
        else []) ∧
    ((Flooding X c d).PropagateInterest st f header packet e).fib =
      ((Flooding X c d).propagateAttempts st f header packet e).st.fib ∧
    ((Flooding X c d).PropagateInterest st f header packet e).cs =
      ((Flooding X c d).propagateAttempts st f header packet e).st.cs ∧
    ((Flooding X c d).PropagateInterest st f header packet e).now =
      ((Flooding X c d).propagateAttempts st f header packet e).st.now := by
  rw [propagate_eq]
  generalize (Flooding X c d).propagateAttempts st f header packet e = r
  cases hok : r.ok <;> cases hout : r.entry.outgoing <;>
    simp [DidExhaustForwardingOptions, State.trace]

/-- C11: in `PropagateInterest` of the flooding strategy, `DoPropagateInterest` is called a
second time and `max_retx_allowed` goes up by one (as a `u32`) exactly when the first call
returned false and the arrival is a retransmission, which is `detect_retransmissions` with
`face_in` among the incoming faces before this arrival; otherwise there is one call and the
bound is unchanged.  There are never more than two calls.  The entry `e'` whose bound is
read is the entry of the Interest as the call leaves it: it has the name of `e`, the
incoming faces of `e` with `face_in` added and the nonces of `e`, it is what the last call
of `DoPropagateInterest` returned, and it is the entry the PIT holds under that name after
the call (for an entry that is in the PIT, as the one handed over by `OnInterest` is). -/
theorem propagate_retries_once_for_retransmission (X : Collab σ κ) (c d : Bool)
    (st : State σ κ) (face_in : Face) (header : InterestHeader) (packet : Packet) (e : Entry) :
    ∃ (e' : Entry) (evs : List Event),
      ((Flooding X c d).PropagateInterest st face_in header packet e).pit = st.pit.store e' ∧
      ((Flooding X c d).PropagateInterest st face_in header packet e).log = st.log ++ evs ∧
      e' = ((Flooding X c d).propagateAttempts st face_in header packet e).entry ∧
      e'.name = e.name ∧ e'.incoming = (e.AddIncoming face_in).incoming ∧
      e'.nonces = e.nonces ∧
      (∀ old, PitImpl.Lookup st.pit e.name = some old →
        PitImpl.Lookup ((Flooding X c d).PropagateInterest st face_in header packet e).pit
          e.name = some e') ∧
      evs.countP Event.isDoPropagate ≤ 2 ∧
      (((Flooding.DoPropagateInterest X (st.trace (.doPropagate face_in header)) face_in
            header packet ((e.AddIncoming face_in).UpdateLifetime st.now
              header.GetInterestLifetime)).ok = false ∧
          d = true ∧ face_in ∈ e.incoming) →
        evs.countP Event.isDoPropagate = 2 ∧
        e'.maxRetxCount = (e.maxRetxCount + 1) % 2 ^ 32 ∧
        (e.maxRetxCount + 1 < 2 ^ 32 → e'.maxRetxCount = e.maxRetxCount + 1)) ∧
      (¬ ((Flooding.DoPropagateInterest X (st.trace (.doPropagate face_in header)) face_in
            header packet ((e.AddIncoming face_in).UpdateLifetime st.now
              header.GetInterestLifetime)).ok = false ∧
          d = true ∧ face_in ∈ e.incoming) →
        evs.countP Event.isDoPropagate = 1 ∧ e'.maxRetxCount = e.maxRetxCount) := by
  obtain ⟨hpit, hlog, -⟩ := propagate_state X c d st face_in header packet e
  obtain ⟨a1, -, -, -, aname, ainc, anon, amax, evs, alog, acnt, -⟩ :=
    attempts_spec X c d st face_in header packet e _ rfl
  refine ⟨((Flooding X c d).propagateAttempts st face_in header packet e).entry,
    evs ++ (if ((Flooding X c d).propagateAttempts st face_in header packet e).ok = false ∧
            ((Flooding X c d).propagateAttempts st face_in header packet e).entry.outgoing = []
          then [.dropInterests
            ((Flooding X c d).propagateAttempts st face_in header packet e).header face_in]
          else []), ?_, ?_, rfl, aname, ainc, anon, ?_, ?_, ?_, ?_⟩
  · rw [hpit, a1]
  · rw [hlog, alog, List.append_assoc]
  · intro old hold
    rw [hpit, a1, ← aname]
    rw [← aname] at hold
    exact lookup_store _ _ old hold
  · rw [List.countP_append, acnt]
    split <;> split <;> simp [Event.isDoPropagate]
  · intro h
    have hr : (!(Flooding.DoPropagateInterest X (st.trace (.doPropagate face_in header))
        face_in header packet ((e.AddIncoming face_in).UpdateLifetime st.now
          header.GetInterestLifetime)).ok && (d && decide (face_in ∈ e.incoming))) = true := by
      simp [h.1, h.2.1, h.2.2]
    rw [hr] at acnt amax
    simp only [if_true] at acnt amax
    refine ⟨?_, amax, ?_⟩
    · rw [List.countP_append, acnt]
      split <;> simp [Event.isDoPropagate]
    · intro hlt
      rw [amax, Nat.mod_eq_of_lt hlt]
  · intro h
    have hr : (!(Flooding.DoPropagateInterest X (st.trace (.doPropagate face_in header))
        face_in header packet ((e.AddIncoming face_in).UpdateLifetime st.now
          header.GetInterestLifetime)).ok && (d && decide (face_in ∈ e.incoming))) = false := by
      rw [Bool.eq_false_iff]
      intro hc
      apply h
      simp only [Bool.and_eq_true, Bool.not_eq_true', decide_eq_true_eq] at hc
      exact ⟨hc.1, hc.2.1, hc.2.2⟩
    rw [hr] at acnt amax
    simp only [Bool.false_eq_true, if_false] at acnt amax
    refine ⟨?_, amax⟩
    rw [List.countP_append, acnt]
    split <;> simp [Event.isDoPropagate]

/-- Witness of C11: face 1 sends again an Interest whose entry already has face 1 among
its incoming faces; the only route, face 9, is above its limit, so the first call returns
false, there is a second call and the bound of the entry stored under /10/1 goes from 1
to 2. -/
theorem propagate_retries_once_for_retransmission_witness :
    ∃ (e' : Entry) (evs : List Event),
      ((Flooding simpleCollab false true).PropagateInterest
        { faces := [9], fib := [{ name := [10], faces := [{ face := 9 }] }],
          pit := { entries := [{ name := [10, 1], fibEntry := [10], incoming := [1],
                                 nonces := [7] }] },
          cs := [], now := 0 }
        1 { name := some [10, 1], nonce := 8 } {}
        { name := [10, 1], fibEntry := [10], incoming := [1], nonces := [7, 8] }).log =
        [] ++ evs ∧
      PitImpl.Lookup ((Flooding simpleCollab false true).PropagateInterest
        { faces := [9], fib := [{ name := [10], faces := [{ face := 9 }] }],
          pit := { entries := [{ name := [10, 1], fibEntry := [10], incoming := [1],
                                 nonces := [7] }] },
          cs := [], now := 0 }
        1 { name := some [10, 1], nonce := 8 } {}
        { name := [10, 1], fibEntry := [10], incoming := [1], nonces := [7, 8] }).pit
        [10, 1] = some e' ∧
      evs.countP Event.isDoPropagate = 2 ∧ e'.maxRetxCount = 2 := by
  obtain ⟨e', evs, -, hlog, -, -, -, -, hlook, -, hretry, -⟩ :=
    propagate_retries_once_for_retransmission
    simpleCollab false true
    { faces := [9], fib := [{ name := [10], faces := [{ face := 9 }] }],
      pit := { entries := [{ name := [10, 1], fibEntry := [10], incoming := [1],
                             nonces := [7] }] },
      cs := [], now := 0 }
    1 { name := some [10, 1], nonce := 8 } {}
    { name := [10, 1], fibEntry := [10], incoming := [1], nonces := [7, 8] }
  obtain ⟨h2, -, hmax⟩ := hretry ⟨by decide, rfl, by decide⟩
  exact ⟨e', evs, hlog, hlook _ rfl, h2, hmax (by decide)⟩

/-- C12: `PropagateInterest` of the flooding strategy reaches
`DidExhaustForwardingOptions`, which traces one `drop_interests`, exactly when the last
call of `DoPropagateInterest` returned false and the outgoing set of the entry is empty
after it; otherwise (also when the last call returned false and an outgoing record exists)
the whole call traces no `drop_interests`. -/
theorem propagate_exhausted_iff (X : Collab σ κ) (c d : Bool) (st : State σ κ)
    (face_in : Face) (header : InterestHeader) (packet : Packet) (e : Entry) :
    ∃ evs : List Event,
      ((Flooding X c d).PropagateInterest st face_in header packet e).log = st.log ++ evs ∧
      ((Flooding X c d).PropagateInterest st face_in header packet e).log =
        ((Flooding X c d).propagateAttempts st face_in header packet e).st.log ++
          (if ((Flooding X c d).propagateAttempts st face_in header packet e).ok = false ∧
              ((Flooding X c d).propagateAttempts st face_in header packet e).entry.outgoing = []
            then [.dropInterests
              ((Flooding X c d).propagateAttempts st face_in header packet e).header face_in]
            else []) ∧
      evs.countP Event.isDropInterests =
        (if ((Flooding X c d).propagateAttempts st face_in header packet e).ok = false ∧
            ((Flooding X c d).propagateAttempts st face_in header packet e).entry.outgoing = []
          then 1 else 0) := by
  obtain ⟨-, hlog, -⟩ := propagate_state X c d st face_in header packet e
  obtain ⟨-, -, -, -, -, -, -, -, evs, alog, -, adrop, -⟩ :=
    attempts_spec X c d st face_in header packet e _ rfl
  refine ⟨evs ++ (if ((Flooding X c d).propagateAttempts st face_in header packet e).ok = false ∧
            ((Flooding X c d).propagateAttempts st face_in header packet e).entry.outgoing = []
          then [.dropInterests
            ((Flooding X c d).propagateAttempts st face_in header packet e).header face_in]
          else []), ?_, hlog, ?_⟩
  · rw [hlog, alog, List.append_assoc]
  · rw [List.countP_append, adrop]
    split <;> simp [Event.isDropInterests]

/-- C13 (as stated, refuted): the only face of the route is the arrival face, so the
Interest is sent on no face, no outgoing record exists and
`DidExhaustForwardingOptions` is reached (one `drop_interests`); the PIT still holds the
entry under the name of the Interest. -/
theorem exhausted_entry_is_not_erased :
    ∃ (st' : State (List Face) (List CsHit)) (e' : Entry),
      (Flooding simpleCollab false true).OnInterest simpleCollab
        { faces := [], fib := [{ name := [10], faces := [{ face := 1 }] }], pit := {}, cs := [],
          now := 0 }
        1 { name := some [10, 1], nonce := 7, interestLifetime := 4 } {} = .ok st' ∧
      st'.log.countP Event.isSend = 0 ∧ st'.log.countP Event.isDropInterests = 1 ∧
      PitImpl.Lookup st'.pit [10, 1] = some e' ∧ e'.outgoing = [] ∧ e'.incoming = [1] :=
  ⟨_, _, rfl, by decide, by decide, rfl, by decide, by decide⟩

/-- C13 (amended): an `OnInterest` call of the flooding strategy that reaches
`PropagateInterest` leaves the PIT entry stored under the name of the Interest, with
`face_in` among its incoming faces and the nonce recorded, also when no face was sent to
and the outgoing set is empty; in that case, and only then, `DidExhaustForwardingOptions`
traces one `drop_interests`. -/
theorem exhausted_entry_stays (X : Collab σ κ) (c d : Bool) (st st1 : State σ κ)
    (face_in : Face) (header : InterestHeader) (n : Name) (packet : Packet) (e : Entry)
    (cs' : κ)
    (hname : header.name = some n)
    (hacq : acquire st header n = some (e, st1))
    (hfresh : header.nonce ∉ e.nonces)
    (hmiss : X.csLookup st.cs header = (none, cs'))
    (hsup : (Flooding X c d).ShouldSuppressIncomingInterest face_in
      (e.AddSeenNonce header.nonce) = false) :
    ∃ (st' : State σ κ) (e' : Entry) (evs : List Event),
      (Flooding X c d).OnInterest X st face_in header packet = .ok st' ∧
      st'.log = st.log ++ evs ∧
      evs.countP Event.isDropInterests =
        (if evs.countP Event.isOutInterests = 0 ∧ e'.outgoing = [] then 1 else 0) ∧
      PitImpl.Lookup st'.pit n = some e' ∧ face_in ∈ e'.incoming ∧
      header.nonce ∈ e'.nonces := by
  obtain ⟨hen, hmem, -, -, hcs, -, hlog1⟩ := acquire_spec st st1 header n e hacq
  have hacq' := acquire_trace st header n (.inInterests header face_in)
  rw [hacq] at hacq'
  simp only [Option.map_some'] at hacq'
  have hmiss' : X.csLookup (st1.trace (.inInterests header face_in)).cs header =
      (none, cs') := by
    simpa [State.trace, hcs] using hmiss
  have hrun := onInterestNamed_propagate (Flooding X c d) X _ _ face_in header n packet e cs'
    hacq' hfresh hmiss' hsup
  generalize hSt : ({ st1.trace (.inInterests header face_in) with
      cs := cs'
      log := (st1.trace (.inInterests header face_in)).log ++ [.csLookup header] } :
        State σ κ) = stp at hrun
  have hstp_pit : stp.pit = st1.pit := by rw [← hSt]; rfl
  have hstp_log : stp.log = st.log ++ [.inInterests header face_in, .csLookup header] := by
    rw [← hSt]; simp [State.trace, hlog1]
  obtain ⟨hpit, hlog, -⟩ := propagate_state X c d stp face_in header packet
    (e.AddSeenNonce header.nonce)
  obtain ⟨a1, -, -, -, aname, ainc, anon, -, evs, alog, -, adrop, -, aout⟩ :=
    attempts_spec X c d stp face_in header packet (e.AddSeenNonce header.nonce) _ rfl
  generalize (Flooding X c d).propagateAttempts stp face_in header packet
    (e.AddSeenNonce header.nonce) = r at hpit hlog a1 aname ainc anon alog aout
  have hrname : r.entry.name = n := aname.trans hen
  refine ⟨_, r.entry,
    [.inInterests header face_in, .csLookup header] ++ evs ++
      (if r.ok = false ∧ r.entry.outgoing = [] then [.dropInterests r.header face_in] else []),
    onInterest_named _ X st face_in header n packet hname, ?_, ?_, ?_, ?_, ?_⟩
  · rw [hrun, hlog, alog, hstp_log]
    simp
  · have hout : ([Event.inInterests header face_in, Event.csLookup header] ++ evs ++
        (if r.ok = false ∧ r.entry.outgoing = [] then [Event.dropInterests r.header face_in]
          else [])).countP Event.isOutInterests = evs.countP Event.isOutInterests := by
      rw [List.countP_append, List.countP_append]
      split <;> simp [List.countP_cons, Event.isOutInterests]
    rw [hout]
    rw [List.countP_append, List.countP_append, adrop]
    by_cases hok : r.ok = false
    · have h0 : evs.countP Event.isOutInterests = 0 := aout.mpr hok
      by_cases ho : r.entry.outgoing = []
      · simp [hok, ho, h0, List.countP_cons, Event.isDropInterests]
      · simp [hok, ho, h0, List.countP_cons, Event.isDropInterests]
    · have h0 : evs.countP Event.isOutInterests ≠ 0 := fun h => hok (aout.mp h)
      simp [hok, h0, List.countP_cons, Event.isDropInterests]
  · rw [hrun, hpit, a1, hstp_pit]
    obtain ⟨x, hx⟩ := (lookup_isSome_iff st1.pit r.entry.name).mp
      ⟨e, hmem, hen.trans hrname.symm⟩
    have := lookup_store st1.pit r.entry x hx
    rw [hrname] at this
    exact this
  · rw [ainc]
    simp only [Entry.AddIncoming, Entry.AddSeenNonce]
    split <;> simp [*]
  · rw [anon]
    simp only [Entry.AddSeenNonce]
    rw [if_neg hfresh]
    simp

/-- Witness of C13 (amended): the route of /10 offers only the arrival face. -/
theorem exhausted_entry_stays_witness :
    ∃ (st' : State (List Face) (List CsHit)) (e' : Entry) (evs : List Event),
      (Flooding simpleCollab false true).OnInterest simpleCollab
        { faces := [], fib := [{ name := [10], faces := [{ face := 1 }] }], pit := {}, cs := [],
          now := 0 }
        1 { name := some [10, 1], nonce := 7, interestLifetime := 4 } {} = .ok st' ∧
      st'.log = [] ++ evs ∧
      evs.countP Event.isDropInterests =
        (if evs.countP Event.isOutInterests = 0 ∧ e'.outgoing = [] then 1 else 0) ∧
      PitImpl.Lookup st'.pit [10, 1] = some e' ∧ 1 ∈ e'.incoming ∧
      7 ∈ e'.nonces :=
  exhausted_entry_stays simpleCollab false true
    { faces := [], fib := [{ name := [10], faces := [{ face := 1 }] }], pit := {}, cs := [],
      now := 0 }
    { faces := [], fib := [{ name := [10], faces := [{ face := 1 }] }],
      pit := { entries := [{ name := [10, 1], fibEntry := [10], expireTime := 4 }] }, cs := [],
      now := 0 }
    1 { name := some [10, 1], nonce := 7, interestLifetime := 4 } [10, 1] {}
    { name := [10, 1], fibEntry := [10], expireTime := 4 } []
    rfl rfl (by decide) rfl rfl

/-! ## Claims on flooding -/

theorem doPropagate_eq (X : Collab σ κ) (st : State σ κ) (f : Face) (header : InterestHeader)
    (packet : Packet) (e : Entry) :
    Flooding.DoPropagateInterest X st f header packet e =
      { ok := decide ((Flooding.floodFaces X f packet (Flooding.facesOf st.fib e) st header e
            0).2.2.2 > 0)
        st := (Flooding.floodFaces X f packet (Flooding.facesOf st.fib e) st header e 0).1
        header := (Flooding.floodFaces X f packet (Flooding.facesOf st.fib e) st header e 0).2.1
        entry := (Flooding.floodFaces X f packet (Flooding.facesOf st.fib e) st header e
            0).2.2.1 } := by
  unfold Flooding.DoPropagateInterest Flooding.facesOf
  rfl

theorem willSend_events (X : Collab σ κ) (st : State σ κ) (f : Face) (e : Entry) :
    ∃ evs, (WillSendOutInterest X st f e).2.1.log = st.log ++ evs ∧
      ∀ ev ∈ evs, ev.isFloodStep = true ∧ ev.isSend = false ∧ ev.face = some f := by
  have hquery : ∀ b : Bool, ∀ ev ∈ [Event.isBelowLimit f b],
      ev.isFloodStep = true ∧ ev.isSend = false ∧ ev.face = some f := by
    intro b ev hev
    simp only [List.mem_singleton] at hev; subst hev; exact ⟨rfl, rfl, rfl⟩
  unfold WillSendOutInterest
  split
  · split
    · exact ⟨[], by simp, by simp⟩
    · dsimp only
      generalize X.isBelowLimit st.faces f = r
      obtain ⟨b, s⟩ := r
      cases b
      · exact ⟨[.isBelowLimit f false], rfl, hquery false⟩
      · exact ⟨[.isBelowLimit f true], rfl, hquery true⟩
  · dsimp only
    generalize X.isBelowLimit st.faces f = r
    obtain ⟨b, s⟩ := r
    cases b
    · exact ⟨[.isBelowLimit f false], rfl, hquery false⟩
    · exact ⟨[.isBelowLimit f true], rfl, hquery true⟩

/-- Every event of the flooding loop is about a face that stands before the first RED face
of the list and is not the arrival face. -/
theorem floodFaces_faces (X : Collab σ κ) (inc : Face) (packet : Packet)
    (faces : List FaceMetric) :
    ∀ (st : State σ κ) (header : InterestHeader) (e : Entry) (cnt : Nat),
      ∃ evs, (Flooding.floodFaces X inc packet faces st header e cnt).1.log = st.log ++ evs ∧
        ∀ ev ∈ evs, ev.isFloodStep = true ∧
          ∃ m ∈ faces.takeWhile (fun m => m.status ≠ .red),
            m.face ≠ inc ∧ ev.face = some m.face := by
  induction faces with
  | nil =>
    intro st header e cnt
    exact ⟨[], by simp [Flooding.floodFaces], by simp⟩
  | cons m rest ih =>
    intro st header e cnt
    simp only [Flooding.floodFaces]
    by_cases hred : m.status = .red
    · simp only [hred, if_true]
      exact ⟨[], by simp, by simp⟩
    · simp only [hred, if_false]
      have htw : (m :: rest).takeWhile (fun m => decide (m.status ≠ .red)) =
          m :: rest.takeWhile (fun m => decide (m.status ≠ .red)) := by
        simp [List.takeWhile_cons, hred]
      rw [htw]
      by_cases hinc : m.face = inc
      · simp only [hinc, if_true]
        obtain ⟨evs, hlog, hev⟩ := ih st header e cnt
        refine ⟨evs, hlog, ?_⟩
        intro ev hm
        obtain ⟨h1, m', hm', h2⟩ := hev ev hm
        exact ⟨h1, m', List.mem_cons_of_mem _ hm', h2⟩
      · simp only [hinc, if_false]
        obtain ⟨wevs, wlog, wall⟩ := willSend_events X st m.face e
        have wev := fun ev h => (wall ev h).1
        have wface := fun ev h => (wall ev h).2.2
        cases hw : (WillSendOutInterest X st m.face e).1
        · simp only [Bool.not_false, if_true]
          obtain ⟨evs, hlog, hev⟩ := ih (WillSendOutInterest X st m.face e).2.1 header
            (WillSendOutInterest X st m.face e).2.2 cnt
          refine ⟨wevs ++ evs, by rw [hlog, wlog, List.append_assoc], ?_⟩
          intro ev hm
          rcases List.mem_append.mp hm with h | h
          · exact ⟨wev ev h, m, List.mem_cons_self _ _, hinc, wface ev h⟩
          · obtain ⟨h1, m', hm', h2⟩ := hev ev h
            exact ⟨h1, m', List.mem_cons_of_mem _ hm', h2⟩
        · simp only [Bool.not_true, Bool.false_eq_true, if_false]
          generalize (if header.agent = 1 then ({ header with agent := 2 } : InterestHeader)
            else header) = h'
          generalize (if header.agent = 1 then ({} : Packet).AddHeader (.interest h')
            else packet.Copy) = pk
          obtain ⟨evs, hlog, hev⟩ := ih
            (DidSendOutInterest (faceSend X (WillSendOutInterest X st m.face e).2.1 m.face pk).2
              m.face h')
            h' (WillSendOutInterest X st m.face e).2.2 (cnt + 1)
          refine ⟨wevs ++ (Event.send m.face pk
                (X.send (WillSendOutInterest X st m.face e).2.1.faces m.face pk).1 ::
              Event.outInterests h' m.face :: evs), ?_, ?_⟩
          · rw [hlog]
            simp only [DidSendOutInterest, State.trace, faceSend, wlog, List.append_assoc,
              List.singleton_append, List.cons_append, List.nil_append]
          · intro ev hm
            rcases List.mem_append.mp hm with h | h
            · exact ⟨wev ev h, m, List.mem_cons_self _ _, hinc, wface ev h⟩
            · rcases List.mem_cons.mp h with rfl | h
              · exact ⟨rfl, m, List.mem_cons_self _ _, hinc, rfl⟩
              · rcases List.mem_cons.mp h with rfl | h
                · exact ⟨rfl, m, List.mem_cons_self _ _, hinc, rfl⟩
                · obtain ⟨h1, m', hm', h2⟩ := hev ev h
                  exact ⟨h1, m', List.mem_cons_of_mem _ hm', h2⟩

theorem takeWhile_dropWhile_face (faces : List FaceMetric)
    (hnodup : (faces.map (fun m => m.face)).Nodup) (m m' : FaceMetric)
    (hm' : m' ∈ faces.takeWhile (fun m => m.status ≠ .red))
    (hm : m ∈ faces.dropWhile (fun m => m.status ≠ .red)) : m'.face ≠ m.face := by
  intro hface
  have hsplit := List.takeWhile_append_dropWhile (fun m : FaceMetric => decide (m.status ≠ .red))
    faces
  have hnd : (faces.takeWhile (fun m => decide (m.status ≠ .red)) ++
      faces.dropWhile (fun m => decide (m.status ≠ .red))).Nodup := by
    rw [hsplit]; exact List.Nodup.of_map _ hnodup
  have hin1 : m' ∈ faces := by rw [← hsplit]; exact List.mem_append_left _ hm'
  have hin2 : m ∈ faces := by rw [← hsplit]; exact List.mem_append_right _ hm
  have heq : m' = m := List.inj_on_of_nodup_map hnodup hin1 hin2 hface
  subst heq
  exact (List.nodup_append.mp hnd).2.2 hm' hm

theorem red_mem_dropWhile (faces : List FaceMetric) (m : FaceMetric) (hm : m ∈ faces)
    (hred : m.status = .red) : m ∈ faces.dropWhile (fun m => m.status ≠ .red) := by
  have hsplit := List.takeWhile_append_dropWhile (fun m : FaceMetric => decide (m.status ≠ .red))
    faces
  rw [← hsplit] at hm
  rcases List.mem_append.mp hm with h | h
  · have := List.mem_takeWhile_imp h
    simp [hred] at this
  · exact h

/-- C17: for every FIB and PIT entry, every call that `Flooding::DoPropagateInterest`
makes on a face (`IsBelowLimit`, `Send`) and every `out_interests` trace is on a face that
stands before the first RED face of the metric-ordered list and differs from `face_in`;
so no send is on `face_in`, and, the faces of a FIB entry being distinct, nothing is
tried on a RED face or on a face positioned at or after the first RED one. -/
theorem flooding_skips_arrival_face_and_stops_at_red (X : Collab σ κ) (st : State σ κ)
    (face_in : Face) (header : InterestHeader) (packet : Packet) (pitEntry : Entry) :
    ∃ evs,
      (Flooding.DoPropagateInterest X st face_in header packet pitEntry).st.log =
        st.log ++ evs ∧
      (∀ ev ∈ evs, ev.isFloodStep = true ∧
        ∃ m ∈ (Flooding.facesOf st.fib pitEntry).takeWhile (fun m => m.status ≠ .red),
          m.face ≠ face_in ∧ ev.face = some m.face) ∧
      sendsOn face_in evs = 0 ∧
      (((Flooding.facesOf st.fib pitEntry).map (fun m => m.face)).Nodup →
        (∀ m ∈ Flooding.facesOf st.fib pitEntry, m.status = .red →
          sendsOn m.face evs = 0 ∧ ∀ ev ∈ evs, ev.face ≠ some m.face) ∧
        (∀ m ∈ (Flooding.facesOf st.fib pitEntry).dropWhile (fun m => m.status ≠ .red),
          sendsOn m.face evs = 0 ∧ ∀ ev ∈ evs, ev.face ≠ some m.face)) := by
  obtain ⟨evs, hlog, hev⟩ := floodFaces_faces X face_in packet (Flooding.facesOf st.fib pitEntry)
    st header pitEntry 0
  have hsend : ∀ g : Face, (∀ ev ∈ evs, ev.face ≠ some g) → sendsOn g evs = 0 := by
    intro g hg
    unfold sendsOn
    rw [List.countP_eq_zero]
    intro ev hmem hon
    apply hg ev hmem
    cases ev <;> simp [Event.isSendOn] at hon
    simp [Event.face, hon]
  have hdrop : ((Flooding.facesOf st.fib pitEntry).map (fun m => m.face)).Nodup →
      ∀ m ∈ (Flooding.facesOf st.fib pitEntry).dropWhile (fun m => m.status ≠ .red),
        ∀ ev ∈ evs, ev.face ≠ some m.face := by
    intro hnodup m hm ev hmem hface
    obtain ⟨-, m', hm', -, hf'⟩ := hev ev hmem
    rw [hf'] at hface
    exact takeWhile_dropWhile_face _ hnodup m m' hm' hm (Option.some.inj hface)
  refine ⟨evs, ?_, hev, ?_, ?_⟩
  · rw [doPropagate_eq]; exact hlog
  · apply hsend
    intro ev hmem hface
    obtain ⟨-, m', -, hne, hf'⟩ := hev ev hmem
    rw [hf'] at hface
    exact hne (Option.some.inj hface)
  · intro hnodup
    refine ⟨?_, ?_⟩
    · intro m hm hred
      have := hdrop hnodup m (red_mem_dropWhile _ m hm hred)
      exact ⟨hsend _ this, this⟩
    · intro m hm
      have := hdrop hnodup m hm
      exact ⟨hsend _ this, this⟩

/-- Witness of C17: faces 8 (green), 1 (the arrival face), 9 (red), 7 (green); only face 8
is sent to. -/
theorem flooding_skips_arrival_face_and_stops_at_red_witness :
    ∃ evs,
      (Flooding.DoPropagateInterest simpleCollab
        { faces := [], pit := {}, cs := [], now := 0,
          fib := [{ name := [10], faces := [{ face := 8, status := .green }, { face := 1 },
            { face := 9, status := .red }, { face := 7, status := .green }] }] }
        1 { name := some [10, 1], nonce := 7 } {}
        { name := [10, 1], fibEntry := [10] }).st.log = [] ++ evs ∧
      sendsOn 8 evs = 1 ∧ sendsOn 1 evs = 0 ∧ sendsOn 9 evs = 0 ∧ sendsOn 7 evs = 0 := by
  obtain ⟨evs, hlog, -, h1, hrest⟩ := flooding_skips_arrival_face_and_stops_at_red simpleCollab
    { faces := [], pit := {}, cs := [], now := 0,
      fib := [{ name := [10], faces := [{ face := 8, status := .green }, { face := 1 },
        { face := 9, status := .red }, { face := 7, status := .green }] }] }
    1 { name := some [10, 1], nonce := 7 } {} { name := [10, 1], fibEntry := [10] }
  obtain ⟨hred, hafter⟩ := hrest (by decide)
  refine ⟨evs, hlog, ?_, h1, (hred { face := 9, status := .red } (by decide) rfl).1,
    (hafter { face := 7, status := .green } (by decide)).1⟩
  have hevs : evs = (Flooding.DoPropagateInterest simpleCollab
        { faces := [], pit := {}, cs := [], now := 0,
          fib := [{ name := [10], faces := [{ face := 8, status := .green }, { face := 1 },
            { face := 9, status := .red }, { face := 7, status := .green }] }] }
        1 { name := some [10, 1], nonce := 7 } {}
        { name := [10, 1], fibEntry := [10] }).st.log := by
    rw [hlog]; rfl
  rw [hevs]
  decide

theorem forwardTo_sends (X : Collab σ κ) (packet : Packet)
    (acc : State σ κ × InterestHeader × Entry × Nat) (g g' : Face) :
    sendsOn g' (Flooding.forwardTo X packet acc g).1.log =
      sendsOn g' acc.1.log +
        (if g' = g ∧ (WillSendOutInterest X acc.1 g acc.2.2.1).1 = true then 1 else 0) := by
  obtain ⟨wevs, wlog, wall⟩ := willSend_events X acc.1 g acc.2.2.1
  have hw : sendsOn g' wevs = 0 := by
    unfold sendsOn
    rw [List.countP_eq_zero]
    intro ev hmem hon
    have := (wall ev hmem).2.1
    cases ev <;> simp [Event.isSendOn] at hon
    simp [Event.isSend] at this
  unfold Flooding.forwardTo
  dsimp only
  cases hacc : (WillSendOutInterest X acc.1 g acc.2.2.1).1
  · simp only [Bool.false_eq_true, if_false, and_false, Nat.add_zero]
    rw [wlog]
    simp only [sendsOn, List.countP_append] at hw ⊢
    omega
  · simp only [if_true, and_true]
    simp only [DidSendOutInterest, State.trace, faceSend, wlog]
    simp only [sendsOn, List.countP_append, List.countP_cons, List.countP_nil] at hw ⊢
    by_cases hg : g' = g
    · subst hg
      simp [Event.isSendOn, hw]
    · have : (g = g') = False := by
        simp only [eq_iff_iff, iff_false]; exact fun h => hg h.symm
      simp [Event.isSendOn, hw, hg, this]

theorem foldl_forwardTo_sends (X : Collab σ κ) (packet : Packet) (g' : Face) (gs : List Face) :
    ∀ acc : State σ κ × InterestHeader × Entry × Nat, g' ∉ gs →
      sendsOn g' (gs.foldl (Flooding.forwardTo X packet) acc).1.log = sendsOn g' acc.1.log := by
  induction gs with
  | nil => intro acc _; rfl
  | cons g rest ih =>
    intro acc hmem
    simp only [List.foldl_cons]
    rw [ih _ (fun h => hmem (List.mem_cons_of_mem _ h)), forwardTo_sends]
    have : g' ≠ g := fun h => hmem (h ▸ List.mem_cons_self _ _)
    simp [this]

theorem eligible_red (faces : List FaceMetric) (inc : Face)
    (hred : ∀ m ∈ faces, m.status = .red) : Flooding.eligible faces inc = [] := by
  unfold Flooding.eligible
  rw [List.map_eq_nil_iff, List.filter_eq_nil_iff]
  intro m hm
  simp [hred m hm]

theorem floodFaces_eq_foldl (X : Collab σ κ) (inc : Face) (packet : Packet)
    (faces : List FaceMetric)
    (hsorted : faces.Pairwise (fun a b => a.status = .red → b.status = .red)) :
    ∀ (st : State σ κ) (header : InterestHeader) (e : Entry) (cnt : Nat),
      Flooding.floodFaces X inc packet faces st header e cnt =
        (Flooding.eligible faces inc).foldl (Flooding.forwardTo X packet)
          (st, header, e, cnt) := by
  induction faces with
  | nil => intro st header e cnt; rfl
  | cons m rest ih =>
    intro st header e cnt
    obtain ⟨hhead, htail⟩ := List.pairwise_cons.mp hsorted
    simp only [Flooding.floodFaces]
    by_cases hred : m.status = .red
    · simp only [hred, if_true]
      rw [eligible_red]
      · rfl
      · intro m' hm'
        rcases List.mem_cons.mp hm' with rfl | h
        · exact hred
        · exact hhead m' h hred
    · simp only [hred, if_false]
      by_cases hinc : m.face = inc
      · simp only [hinc, if_true]
        rw [ih htail]
        have : Flooding.eligible (m :: rest) inc = Flooding.eligible rest inc := by
          simp [Flooding.eligible, List.filter_cons, hinc]
        rw [this]
      · simp only [hinc, if_false]
        have : Flooding.eligible (m :: rest) inc = m.face :: Flooding.eligible rest inc := by
          simp [Flooding.eligible, List.filter_cons, hinc, hred]
        rw [this, List.foldl_cons]
        cases hw : (WillSendOutInterest X st m.face e).1
        · simp only [Bool.not_false, if_true]
          rw [ih htail]
          simp [Flooding.forwardTo, hw]
        · simp only [Bool.not_true, Bool.false_eq_true, if_false]
          rw [ih htail]
          simp [Flooding.forwardTo, hw]

theorem eligible_nodup (faces : List FaceMetric) (inc : Face)
    (hnodup : (faces.map (fun m => m.face)).Nodup) : (Flooding.eligible faces inc).Nodup :=
  List.Nodup.sublist (List.Sublist.map _ (List.filter_sublist faces)) hnodup

/-- C18: when the metric-ordered faces of the FIB entry have all non-RED faces before all
RED ones (and are distinct), `Flooding::DoPropagateInterest` is the pass over the eligible
faces (non-RED, other than `face_in`) described by the spec: each eligible face gets
exactly one `Send` if `WillSendOutInterest` accepts it at its turn and none otherwise, and
no `Send` is made on any other face. -/
theorem flooding_sends_once_on_each_accepted_eligible_face (X : Collab σ κ) (st : State σ κ)
    (face_in : Face) (header : InterestHeader) (packet : Packet) (pitEntry : Entry)
    (hsorted : (Flooding.facesOf st.fib pitEntry).Pairwise
      (fun a b => a.status = .red → b.status = .red))
    (hnodup : ((Flooding.facesOf st.fib pitEntry).map (fun m => m.face)).Nodup) :
    Flooding.DoPropagateInterest X st face_in header packet pitEntry =
      Flooding.forwardToEligible X st face_in header packet pitEntry ∧
    (∀ (before after : List Face) (g : Face),
      Flooding.eligible (Flooding.facesOf st.fib pitEntry) face_in = before ++ g :: after →
      sendsOn g (Flooding.DoPropagateInterest X st face_in header packet pitEntry).st.log =
        sendsOn g st.log +
          (if (WillSendOutInterest X
                (before.foldl (Flooding.forwardTo X packet) (st, header, pitEntry, 0)).1 g
                (before.foldl (Flooding.forwardTo X packet) (st, header, pitEntry, 0)).2.2.1).1
              = true
            then 1 else 0)) ∧
    (∀ g, g ∉ Flooding.eligible (Flooding.facesOf st.fib pitEntry) face_in →
      sendsOn g (Flooding.DoPropagateInterest X st face_in header packet pitEntry).st.log =
        sendsOn g st.log) := by
  have heq : Flooding.DoPropagateInterest X st face_in header packet pitEntry =
      Flooding.forwardToEligible X st face_in header packet pitEntry := by
    rw [doPropagate_eq, floodFaces_eq_foldl X face_in packet _ hsorted]
    rfl
  refine ⟨heq, ?_, ?_⟩
  · intro before after g hsplit
    have hnd := eligible_nodup _ face_in hnodup
    rw [hsplit] at hnd
    have hnb : g ∉ before := by
      intro h
      exact (List.nodup_append.mp hnd).2.2 h (List.mem_cons_self _ _)
    have hna : g ∉ after := (List.nodup_cons.mp (List.nodup_append.mp hnd).2.1).1
    rw [heq]
    unfold Flooding.forwardToEligible
    dsimp only
    rw [hsplit, List.foldl_append, List.foldl_cons, foldl_forwardTo_sends X packet g after _ hna,
      forwardTo_sends, foldl_forwardTo_sends X packet g before _ hnb]
    simp
  · intro g hg
    rw [heq]
    exact foldl_forwardTo_sends X packet g _ _ hg

/-- Witness of C18: faces 8 and 6 are eligible, 6 is above its limit, 1 is the arrival
face and 9 is RED. -/
theorem flooding_sends_once_on_each_accepted_eligible_face_witness :
    sendsOn 8 (Flooding.DoPropagateInterest simpleCollab
        { faces := [6], pit := {}, cs := [], now := 0,
          fib := [{ name := [10], faces := [{ face := 8, status := .green }, { face := 1 },
            { face := 6 }, { face := 9, status := .red }] }] }
        1 { name := some [10, 1], nonce := 7 } {}
        { name := [10, 1], fibEntry := [10] }).st.log = 0 + 1 ∧
    sendsOn 6 (Flooding.DoPropagateInterest simpleCollab
        { faces := [6], pit := {}, cs := [], now := 0,
          fib := [{ name := [10], faces := [{ face := 8, status := .green }, { face := 1 },
            { face := 6 }, { face := 9, status := .red }] }] }
        1 { name := some [10, 1], nonce := 7 } {}
        { name := [10, 1], fibEntry := [10] }).st.log = 0 + 0 ∧
    sendsOn 9 (Flooding.DoPropagateInterest simpleCollab
        { faces := [6], pit := {}, cs := [], now := 0,
          fib := [{ name := [10], faces := [{ face := 8, status := .green }, { face := 1 },
            { face := 6 }, { face := 9, status := .red }] }] }
        1 { name := some [10, 1], nonce := 7 } {}
        { name := [10, 1], fibEntry := [10] }).st.log = 0 :=
  have h := flooding_sends_once_on_each_accepted_eligible_face simpleCollab
    { faces := [6], pit := {}, cs := [], now := 0,
      fib := [{ name := [10], faces := [{ face := 8, status := .green }, { face := 1 },
        { face := 6 }, { face := 9, status := .red }] }] }
    1 { name := some [10, 1], nonce := 7 } {} { name := [10, 1], fibEntry := [10] }
    (by decide) (by decide)
  ⟨h.2.1 [] [6] 8 (by decide), h.2.1 [8] [] 6 (by decide), h.2.2 9 (by decide)⟩

theorem sentPacket_none (evs : List Event) (h : ∀ ev ∈ evs, ev.isSend = false) :
    evs.filterMap Event.sentPacket = [] := by
  rw [List.filterMap_eq_nil_iff]
  intro ev hmem
  have := h ev hmem
  cases ev <;> simp [Event.isSend] at this <;> rfl

/-- With `agent` other than 1 the loop of flooding leaves the header as it is and every
packet it sends is a copy of the original packet. -/
theorem floodFaces_copies (X : Collab σ κ) (inc : Face) (packet : Packet)
    (faces : List FaceMetric) :
    ∀ (st : State σ κ) (header : InterestHeader) (e : Entry) (cnt : Nat), header.agent ≠ 1 →
      (Flooding.floodFaces X inc packet faces st header e cnt).2.1 = header ∧
      ∃ evs, (Flooding.floodFaces X inc packet faces st header e cnt).1.log = st.log ++ evs ∧
        ∀ p ∈ evs.filterMap Event.sentPacket, p = packet.Copy := by
  induction faces with
  | nil =>
    intro st header e cnt _
    exact ⟨rfl, [], by simp [Flooding.floodFaces], by simp⟩
  | cons m rest ih =>
    intro st header e cnt hagent
    simp only [Flooding.floodFaces]
    by_cases hred : m.status = .red
    · simp only [hred, if_true]
      exact ⟨trivial, [], by simp, by simp⟩
    · simp only [hred, if_false]
      by_cases hinc : m.face = inc
      · simp only [hinc, if_true]
        exact ih st header e cnt hagent
      · simp only [hinc, if_false]
        obtain ⟨wevs, wlog, wall⟩ := willSend_events X st m.face e
        have wnone := sentPacket_none wevs (fun ev h => (wall ev h).2.1)
        cases hw : (WillSendOutInterest X st m.face e).1
        · simp only [Bool.not_false, if_true]
          obtain ⟨hh, evs, hlog, hev⟩ := ih (WillSendOutInterest X st m.face e).2.1 header
            (WillSendOutInterest X st m.face e).2.2 cnt hagent
          refine ⟨hh, wevs ++ evs, by rw [hlog, wlog, List.append_assoc], ?_⟩
          rw [List.filterMap_append, wnone]
          exact hev
        · simp only [Bool.not_true, Bool.false_eq_true, if_false, if_neg hagent]
          obtain ⟨hh, evs, hlog, hev⟩ := ih
            (DidSendOutInterest
              (faceSend X (WillSendOutInterest X st m.face e).2.1 m.face packet.Copy).2
              m.face header)
            header (WillSendOutInterest X st m.face e).2.2 (cnt + 1) hagent
          refine ⟨hh, wevs ++ (Event.send m.face packet.Copy
                (X.send (WillSendOutInterest X st m.face e).2.1.faces m.face packet.Copy).1 ::
              Event.outInterests header m.face :: evs), ?_, ?_⟩
          · rw [hlog]
            simp only [DidSendOutInterest, State.trace, faceSend, wlog, List.append_assoc,
              List.singleton_append, List.cons_append, List.nil_append]
          · rw [List.filterMap_append, wnone]
            intro p hp
            simp only [List.nil_append, List.filterMap_cons, Event.sentPacket,
              List.mem_cons] at hp
            rcases hp with rfl | hp
            · rfl
            · exact hev p hp

/-- With `agent` equal to 1 only the first packet sent by the loop of flooding is the
fresh packet built from the header with `agent` 2: the header is rewritten at that face,
so every later face is sent a copy of the original packet. -/
theorem floodFaces_first_fresh (X : Collab σ κ) (inc : Face) (packet : Packet)
    (faces : List FaceMetric) :
    ∀ (st : State σ κ) (header : InterestHeader) (e : Entry) (cnt : Nat), header.agent = 1 →
      ∃ evs, (Flooding.floodFaces X inc packet faces st header e cnt).1.log = st.log ++ evs ∧
        ((evs.filterMap Event.sentPacket = [] ∧
            (Flooding.floodFaces X inc packet faces st header e cnt).2.1 = header) ∨
          ∃ later, evs.filterMap Event.sentPacket =
              ({} : Packet).AddHeader (.interest { header with agent := 2 }) :: later ∧
            (∀ p ∈ later, p = packet.Copy) ∧
            (Flooding.floodFaces X inc packet faces st header e cnt).2.1 =
              { header with agent := 2 }) := by
  induction faces with
  | nil =>
    intro st header e cnt _
    exact ⟨[], by simp [Flooding.floodFaces], Or.inl ⟨rfl, rfl⟩⟩
  | cons m rest ih =>
    intro st header e cnt hagent
    simp only [Flooding.floodFaces]
    by_cases hred : m.status = .red
    · simp only [hred, if_true]
      exact ⟨[], by simp, Or.inl ⟨rfl, trivial⟩⟩
    · simp only [hred, if_false]
      by_cases hinc : m.face = inc
      · simp only [hinc, if_true]
        exact ih st header e cnt hagent
      · simp only [hinc, if_false]
        obtain ⟨wevs, wlog, wall⟩ := willSend_events X st m.face e
        have wnone := sentPacket_none wevs (fun ev h => (wall ev h).2.1)
        cases hw : (WillSendOutInterest X st m.face e).1
        · simp only [Bool.not_false, if_true]
          obtain ⟨evs, hlog, hev⟩ := ih (WillSendOutInterest X st m.face e).2.1 header
            (WillSendOutInterest X st m.face e).2.2 cnt hagent
          refine ⟨wevs ++ evs, by rw [hlog, wlog, List.append_assoc], ?_⟩
          rw [List.filterMap_append, wnone]
          exact hev
        · simp only [Bool.not_true, Bool.false_eq_true, if_false, if_pos hagent]
          have h2 : ({ header with agent := 2 } : InterestHeader).agent ≠ 1 := by
            show (2 : Int) ≠ 1
            decide
          obtain ⟨hh, evs, hlog, hev⟩ := floodFaces_copies X inc packet rest
            (DidSendOutInterest
              (faceSend X (WillSendOutInterest X st m.face e).2.1 m.face
                (({} : Packet).AddHeader (.interest { header with agent := 2 }))).2
              m.face { header with agent := 2 })
            { header with agent := 2 } (WillSendOutInterest X st m.face e).2.2 (cnt + 1) h2
          refine ⟨wevs ++ (Event.send m.face
                (({} : Packet).AddHeader (.interest { header with agent := 2 }))
                (X.send (WillSendOutInterest X st m.face e).2.1.faces m.face
                  (({} : Packet).AddHeader (.interest { header with agent := 2 }))).1 ::
              Event.outInterests { header with agent := 2 } m.face :: evs), ?_, Or.inr ?_⟩
          · rw [hlog]
            simp only [DidSendOutInterest, State.trace, faceSend, wlog, List.append_assoc,
              List.singleton_append, List.cons_append, List.nil_append]
          · refine ⟨evs.filterMap Event.sentPacket, ?_, hev, hh⟩
            rw [List.filterMap_append, wnone]
            simp [Event.sentPacket]

/-- C19 (divergence): an Interest with `agent` 1 arrives on face 1 and faces 8 and 9 of
the route both accept it.  Face 8 is sent the fresh packet made of the header with `agent`
2, but face 9 is sent a copy of the original packet, whose header still has `agent` 1:
the header was rewritten at face 8, so the test `agent == 1` fails at face 9. -/
theorem flooding_rewrites_agent_for_first_face_only :
    (Flooding.DoPropagateInterest simpleCollab
        { faces := [], pit := {}, cs := [], now := 0,
          fib := [{ name := [10], faces := [{ face := 8 }, { face := 9 }] }] }
        1 { name := some [10, 1], nonce := 7, agent := 1 }
        { headers := [.interest { name := some [10, 1], nonce := 7, agent := 1 }], size := 0 }
        { name := [10, 1], fibEntry := [10] }).st.log.filter Event.isSend =
      [.send 8
          { headers := [.interest { name := some [10, 1], nonce := 7, agent := 2 }], size := 0 }
          true,
       .send 9
          { headers := [.interest { name := some [10, 1], nonce := 7, agent := 1 }], size := 0 }
          true] := by
  decide

/-! ## Claims on the loop of `OnData` -/

theorem satisfyAll_mono (X : Collab σ κ) (f : Face) (header : ContentObjectHeader)
    (payload packet : Packet) (fuel : Nat) :
    ∀ (st st' : State σ κ) (oe : Option Entry),
      satisfyAll X f header payload packet fuel st oe = some st' →
      ∀ k, fuel ≤ k → satisfyAll X f header payload packet k st oe = some st' := by
  induction fuel with
  | zero =>
    intro st st' oe h k _
    cases oe with
    | none =>
      cases k <;> simpa [satisfyAll] using h
    | some e => simp [satisfyAll] at h
  | succ n ih =>
    intro st st' oe h k hk
    cases oe with
    | none =>
      cases k <;> simpa [satisfyAll] using h
    | some e =>
      cases k with
      | zero => omega
      | succ k =>
        simp only [satisfyAll] at h ⊢
        exact ih _ _ _ h k (by omega)

theorem isPrefixOf_false (a n : Name) : a.isPrefixOf n = false ↔ ¬ a <+: n := by
  constructor
  · intro h hp
    rw [List.isPrefixOf_iff_prefix.mpr hp] at h
    cases h
  · intro h
    cases hb : a.isPrefixOf n
    · rfl
    · exact absurd (List.isPrefixOf_iff_prefix.mp hb) h

theorem erase_filter_prefix (l : List Entry) (n : Name) (e : Entry) (hp : e.name <+: n) :
    (l.filter (fun x => x.name ≠ e.name)).filter (fun x => !x.name.isPrefixOf n) =
      l.filter (fun x => !x.name.isPrefixOf n) := by
  rw [List.filter_filter]
  apply List.filter_congr
  intro x _
  by_cases hx : x.name = e.name
  · have : x.name.isPrefixOf n = true := by
      rw [hx]; exact List.isPrefixOf_iff_prefix.mpr hp
    simp [this]
  · simp [hx]

theorem erase_countP_lt (l : List Entry) (n : Name) (e : Entry) (he : e ∈ l)
    (hp : e.name <+: n) :
    (l.filter (fun x => x.name ≠ e.name)).countP (fun x => x.name.isPrefixOf n) <
      l.countP (fun x => x.name.isPrefixOf n) := by
  have hpe : e.name.isPrefixOf n = true := List.isPrefixOf_iff_prefix.mpr hp
  induction l with
  | nil => simp at he
  | cons x xs ih =>
    by_cases hx : x.name = e.name
    · have h1 : (x :: xs).filter (fun x => decide (x.name ≠ e.name)) =
          xs.filter (fun x => decide (x.name ≠ e.name)) := by
        simp [List.filter_cons, hx]
      have h2 := List.Sublist.countP_le (fun x : Entry => x.name.isPrefixOf n)
        (List.filter_sublist (p := fun x : Entry => decide (x.name ≠ e.name)) xs)
      rw [h1, List.countP_cons]
      simp only [hx, hpe, if_true]
      omega
    · have hmem : e ∈ xs := by
        rcases List.mem_cons.mp he with h | h
        · exact absurd (h ▸ rfl) hx
        · exact h
      have := ih hmem
      simp only [ne_eq] at this
      simp only [List.filter_cons, hx, ne_eq, not_false_eq_true, decide_True, if_true,
        List.countP_cons]
      omega

theorem lookupContent_prefix (p : Pit) (n : Name) :
    ((PitImpl.LookupContent p n).1 = none →
      ∀ x ∈ (PitImpl.LookupContent p n).2.entries, ¬ x.name <+: n) ∧
    (∀ e, (PitImpl.LookupContent p n).1 = some e →
      e ∈ (PitImpl.LookupContent p n).2.entries ∧ e.name <+: n) ∧
    (PitImpl.LookupContent p n).2.entries.filter (fun x => !x.name.isPrefixOf n) =
      p.entries.filter (fun x => !x.name.isPrefixOf n) ∧
    (PitImpl.LookupContent p n).2.entries.countP (fun x => x.name.isPrefixOf n) =
      p.entries.countP (fun x => x.name.isPrefixOf n) := by
  obtain ⟨l1, l2⟩ := lpm_spec Entry.name p.entries n
  obtain ⟨hperm, hmem⟩ := lookupContent_spec p n
  refine ⟨?_, ?_, ?_, hperm.countP_eq _⟩
  · intro h x hx
    have hnone : longestPrefixMatch Entry.name p.entries n = none := by
      unfold PitImpl.LookupContent at h
      cases hl : longestPrefixMatch Entry.name p.entries n with
      | none => rfl
      | some e => rw [hl] at h; simp at h
    exact l1 hnone x (hperm.mem_iff.mp hx)
  · intro e h
    refine ⟨hperm.mem_iff.mpr (hmem e h), ?_⟩
    have hsome : longestPrefixMatch Entry.name p.entries n = some e := by
      unfold PitImpl.LookupContent at h
      cases hl : longestPrefixMatch Entry.name p.entries n with
      | none => rw [hl] at h; simp at h
      | some e' => rw [hl] at h; simpa using h
    exact (l2 e hsome).2.1
  · unfold PitImpl.LookupContent
    cases hl : longestPrefixMatch Entry.name p.entries n with
    | none => rfl
    | some e =>
      have hp : e.name.isPrefixOf n = true := List.isPrefixOf_iff_prefix.mpr (l2 e hl).2.1
      show (p.touch e.name).entries.filter _ = _
      unfold Pit.touch
      cases p.policy
      · rfl
      · simp only [List.filter_append, List.filter_filter]
        have h1 : p.entries.filter (fun a => (!a.name.isPrefixOf n) && decide (a.name = e.name))
            = [] := by
          rw [List.filter_eq_nil_iff]
          intro a _
          by_cases ha : a.name = e.name
          · simp [ha, hp]
          · simp [ha]
        have h2 : p.entries.filter (fun a => (!a.name.isPrefixOf n) && decide (a.name ≠ e.name))
            = p.entries.filter (fun a => !a.name.isPrefixOf n) := by
          apply List.filter_congr
          intro a _
          by_cases ha : a.name = e.name
          · simp [ha, hp]
          · simp [ha]
        rw [h1, h2, List.append_nil]
      · rfl

/-- The loop of `OnData` from a lookup result: with a bound of at least the number of
entries whose name is a prefix of the content name it returns, and what is left of the PIT
are the entries whose name is no such prefix. -/
theorem satisfyAll_prefix (X : Collab σ κ) (f : Face) (header : ContentObjectHeader)
    (payload packet : Packet) (fuel : Nat) :
    ∀ (st : State σ κ) (oe : Option Entry),
      (oe = none → ∀ x ∈ st.pit.entries, ¬ x.name <+: header.name) →
      (∀ e, oe = some e → e ∈ st.pit.entries ∧ e.name <+: header.name) →
      st.pit.entries.countP (fun x => x.name.isPrefixOf header.name) ≤ fuel →
      ∃ st' : State σ κ, satisfyAll X f header payload packet fuel st oe = some st' ∧
        st'.pit.entries = st.pit.entries.filter (fun x => !x.name.isPrefixOf header.name) := by
  induction fuel with
  | zero =>
    intro st oe hnone hsome hcount
    cases oe with
    | none =>
      refine ⟨st, rfl, ?_⟩
      symm
      rw [List.filter_eq_self]
      intro x hx
      simp only [Bool.not_eq_true']
      exact (isPrefixOf_false _ _).mpr (hnone rfl x hx)
    | some e =>
      obtain ⟨he, hp⟩ := hsome e rfl
      have : 0 < st.pit.entries.countP (fun x => x.name.isPrefixOf header.name) :=
        List.countP_pos_iff.mpr ⟨e, he, List.isPrefixOf_iff_prefix.mpr hp⟩
      omega
  | succ k ih =>
    intro st oe hnone hsome hcount
    cases oe with
    | none =>
      refine ⟨st, rfl, ?_⟩
      symm
      rw [List.filter_eq_self]
      intro x hx
      simp only [Bool.not_eq_true']
      exact (isPrefixOf_false _ _).mpr (hnone rfl x hx)
    | some e =>
      obtain ⟨he, hp⟩ := hsome e rfl
      simp only [satisfyAll]
      obtain ⟨w1, -, -, -, -⟩ := willSatisfy_frame st (some f) e
      obtain ⟨s1, -, -, -⟩ := satisfy_state X (WillSatisfyPendingInterest st (some f) e)
        (some f) header payload packet e
      rw [w1] at s1
      obtain ⟨p1, p2, p3, p4⟩ := lookupContent_prefix
        (SatisfyPendingInterest X (WillSatisfyPendingInterest st (some f) e) (some f) header
          payload packet e).1.pit header.name
      have hlt := erase_countP_lt st.pit.entries header.name e he hp
      obtain ⟨st', hrun, hent⟩ := ih
        { (SatisfyPendingInterest X (WillSatisfyPendingInterest st (some f) e) (some f) header
            payload packet e).1 with
          pit := (PitImpl.LookupContent
            (SatisfyPendingInterest X (WillSatisfyPendingInterest st (some f) e) (some f) header
              payload packet e).1.pit header.name).2 }
        (PitImpl.LookupContent
          (SatisfyPendingInterest X (WillSatisfyPendingInterest st (some f) e) (some f) header
            payload packet e).1.pit header.name).1
        p1 p2
        (by
          show (PitImpl.LookupContent _ header.name).2.entries.countP _ ≤ k
          rw [p4, s1]
          omega)
      refine ⟨st', hrun, ?_⟩
      rw [hent]
      show (PitImpl.LookupContent _ header.name).2.entries.filter _ = _
      rw [p3, s1]
      exact erase_filter_prefix _ _ e hp

theorem unsolicited_pit (S : ForwardingStrategy σ κ) (X : Collab σ κ) (st : State σ κ)
    (f : Face) (header : ContentObjectHeader) (payload : Packet) :
    (S.DidReceiveUnsolicitedData X st f header payload).pit = st.pit := by
  unfold DidReceiveUnsolicitedData
  split <;> rfl

/-- C20: for every PIT and Content Object `OnData` returns; its loop needs no more
iterations than there are stored entries whose name is a prefix of the content name
(any such bound gives the same result); afterwards the PIT holds exactly the entries
whose name is not a prefix of the content name, each as it was and in the order they
had. -/
theorem onData_loop_terminates_and_erases_prefix_entries (S : ForwardingStrategy σ κ)
    (X : Collab σ κ) (st : State σ κ) (f : Face) (header : ContentObjectHeader)
    (payload packet : Packet) :
    ∃ st' : State σ κ,
      S.OnData X st f header payload packet = some st' ∧
      (∀ fuel, st.pit.entries.countP (fun x => x.name.isPrefixOf header.name) ≤ fuel →
        S.onDataWithin X fuel st f header payload packet = some st') ∧
      st'.pit.entries = st.pit.entries.filter (fun x => !x.name.isPrefixOf header.name) ∧
      (∀ x ∈ st'.pit.entries, ¬ x.name <+: header.name) ∧
      (∀ x ∈ st.pit.entries, ¬ x.name <+: header.name → x ∈ st'.pit.entries) := by
  obtain ⟨p1, p2, p3, p4⟩ := lookupContent_prefix st.pit header.name
  have hfinal : ∀ st' : State σ κ,
      st'.pit.entries = st.pit.entries.filter (fun x => !x.name.isPrefixOf header.name) →
      (∀ x ∈ st'.pit.entries, ¬ x.name <+: header.name) ∧
      (∀ x ∈ st.pit.entries, ¬ x.name <+: header.name → x ∈ st'.pit.entries) := by
    intro st' h
    rw [h]
    refine ⟨?_, ?_⟩
    · intro x hx
      have := (List.mem_filter.mp hx).2
      simp only [Bool.not_eq_true'] at this
      exact (isPrefixOf_false _ _).mp this
    · intro x hx hnp
      refine List.mem_filter.mpr ⟨hx, ?_⟩
      simp only [Bool.not_eq_true']
      exact (isPrefixOf_false _ _).mpr hnp
  cases hlk : (PitImpl.LookupContent st.pit header.name).1 with
  | none =>
    have hent : (S.DidReceiveUnsolicitedData X
        { st with pit := (PitImpl.LookupContent st.pit header.name).2
                  log := st.log ++ [.inData header payload f] } f header payload).pit.entries =
        st.pit.entries.filter (fun x => !x.name.isPrefixOf header.name) := by
      rw [unsolicited_pit, ← p3]
      symm
      rw [List.filter_eq_self]
      intro x hx
      simp only [Bool.not_eq_true']
      exact (isPrefixOf_false _ _).mpr (p1 hlk x hx)
    refine ⟨_, ?_, ?_, hent, hfinal _ hent⟩
    · simp only [OnData, State.trace, hlk]
    · intro fuel _
      simp only [onDataWithin, State.trace, hlk]
  | some e =>
    obtain ⟨st', hrun, hent⟩ := satisfyAll_prefix X f header payload packet
      (st.pit.entries.countP (fun x => x.name.isPrefixOf header.name))
      { st with pit := (PitImpl.LookupContent st.pit header.name).2
                cs := X.csAdd st.cs header payload
                log := st.log ++ [.inData header payload f] ++ [.csAdd header payload] }
      (some e) (by simp) (fun e' he' => p2 e' (by rw [hlk]; exact he')) (by
        show (PitImpl.LookupContent st.pit header.name).2.entries.countP _ ≤ _
        rw [p4])
    have hent' : st'.pit.entries =
        st.pit.entries.filter (fun x => !x.name.isPrefixOf header.name) := by
      rw [hent]; exact p3
    have hmono := satisfyAll_mono X f header payload packet _ _ _ _ hrun
    refine ⟨st', ?_, ?_, hent', hfinal _ hent'⟩
    · simp only [OnData, State.trace, hlk]
      apply hmono
      show _ ≤ (PitImpl.LookupContent st.pit header.name).2.entries.length
      rw [← p4]
      exact List.countP_le_length _
    · intro fuel hfuel
      simp only [onDataWithin, State.trace, hlk]
      exact hmono fuel hfuel

/-- Witness of C20: the PIT holds entries for /10, /10/1 and /11; after Data named /10/1/2
only the entry for /11 is left. -/
theorem onData_loop_terminates_and_erases_prefix_entries_witness :
    ∃ st' : State (List Face) (List CsHit),
      (Flooding simpleCollab false true).OnData simpleCollab
        { faces := [], fib := [{ name := [10], faces := [{ face := 9 }] }],
          pit := { entries := [{ name := [10], fibEntry := [10], incoming := [1] },
                               { name := [10, 1], fibEntry := [10], incoming := [2] },
                               { name := [11], fibEntry := [10], incoming := [3] }] },
          cs := [], now := 0 }
        9 { name := [10, 1, 2] } {} {} = some st' ∧
      (Flooding simpleCollab false true).onDataWithin simpleCollab 2
        { faces := [], fib := [{ name := [10], faces := [{ face := 9 }] }],
          pit := { entries := [{ name := [10], fibEntry := [10], incoming := [1] },
                               { name := [10, 1], fibEntry := [10], incoming := [2] },
                               { name := [11], fibEntry := [10], incoming := [3] }] },
          cs := [], now := 0 }
        9 { name := [10, 1, 2] } {} {} = some st' ∧
      st'.pit.entries = [{ name := [11], fibEntry := [10], incoming := [3] }] := by
  obtain ⟨st', hrun, hfuel, hent, -⟩ := onData_loop_terminates_and_erases_prefix_entries
    (Flooding simpleCollab false true) simpleCollab
    { faces := [], fib := [{ name := [10], faces := [{ face := 9 }] }],
      pit := { entries := [{ name := [10], fibEntry := [10], incoming := [1] },
                           { name := [10, 1], fibEntry := [10], incoming := [2] },
                           { name := [11], fibEntry := [10], incoming := [3] }] },
      cs := [], now := 0 }
    9 { name := [10, 1, 2] } {} {}
  refine ⟨st', hrun, hfuel 2 (by decide), ?_⟩
  rw [hent]
  decide

/-! ## Claims on `OnData` and the content store -/

theorem lookupContent_none (p : Pit) (n : Name) (h : ∀ x ∈ p.entries, ¬ x.name <+: n) :
    PitImpl.LookupContent p n = (none, p) := by
  obtain ⟨-, l2⟩ := lpm_spec Entry.name p.entries n
  unfold PitImpl.LookupContent
  cases hl : longestPrefixMatch Entry.name p.entries n with
  | none => rfl
  | some e => exact absurd (l2 e hl).2.1 (h e (l2 e hl).1)

/-- C21: a Content Object arrives for which the PIT has no matching entry (no stored name
is a prefix of its name).  `OnData` returns, sends nothing, and leaves the PIT, the FIB and
the faces as they were.  With `CacheUnsolicitedData` the object is added to the content
store and `drop_data` is not traced; without it (the default of the attribute) the content
store is unchanged and `drop_data` is traced once. -/
theorem onData_unsolicited (S : ForwardingStrategy σ κ) (X : Collab σ κ) (st : State σ κ)
    (face_in : Face) (header : ContentObjectHeader) (payload packet : Packet)
    (hnone : ∀ x ∈ st.pit.entries, ¬ x.name <+: header.name) :
    ∃ st' : State σ κ,
      S.OnData X st face_in header payload packet = some st' ∧
      st'.pit = st.pit ∧ st'.fib = st.fib ∧ st'.faces = st.faces ∧ st'.now = st.now ∧
      (S.cacheUnsolicitedData = true →
        st'.cs = X.csAdd st.cs header payload ∧
        st'.log = st.log ++ [.inData header payload face_in, .csAdd header payload]) ∧
      (S.cacheUnsolicitedData = false →
        st'.cs = st.cs ∧
        st'.log = st.log ++ [.inData header payload face_in,
          .dropData header payload face_in]) ∧
      (∀ g, sendsOn g st'.log = sendsOn g st.log) ∧
      (∀ d : State σ κ → Face → InterestHeader → Packet → Entry → Propagated σ κ,
        ({ DoPropagateInterest := d } : ForwardingStrategy σ κ).cacheUnsolicitedData =
          false) := by
  have hlk := lookupContent_none st.pit header.name hnone
  cases hc : S.cacheUnsolicitedData
  · refine ⟨{ st with log := st.log ++ [.inData header payload face_in,
        .dropData header payload face_in] }, ?_, rfl, rfl, rfl, rfl, ?_, ?_, ?_, fun _ => rfl⟩
    · simp [OnData, State.trace, hlk, DidReceiveUnsolicitedData, hc]
    · intro h; cases h
    · intro _; exact ⟨rfl, rfl⟩
    · intro g
      simp [sendsOn, List.countP_append, Event.isSendOn]
  · refine ⟨{ st with cs := X.csAdd st.cs header payload
                      log := st.log ++ [.inData header payload face_in,
                        .csAdd header payload] }, ?_, rfl, rfl, rfl, rfl, ?_, ?_, ?_,
      fun _ => rfl⟩
    · simp [OnData, State.trace, hlk, DidReceiveUnsolicitedData, hc]
    · intro _; exact ⟨rfl, rfl⟩
    · intro h; cases h
    · intro g
      simp [sendsOn, List.countP_append, Event.isSendOn]

/-- Witness of C21: the PIT holds an entry for /11 only and Data named /10/1 arrives. -/
theorem onData_unsolicited_witness :
    ∃ st' : State (List Face) (List CsHit),
      (Flooding simpleCollab false true).OnData simpleCollab
        { faces := [], fib := [{ name := [10], faces := [{ face := 9 }] }],
          pit := { entries := [{ name := [11], fibEntry := [10], incoming := [3] }] },
          cs := [], now := 0 }
        9 { name := [10, 1] } {} {} = some st' ∧
      st'.pit.entries = [{ name := [11], fibEntry := [10], incoming := [3] }] ∧
      st'.cs = [] ∧
      st'.log = [.inData { name := [10, 1] } {} 9, .dropData { name := [10, 1] } {} 9] := by
  obtain ⟨st', hrun, hpit, -, -, -, -, hdrop, -⟩ := onData_unsolicited
    (Flooding simpleCollab false true) simpleCollab
    { faces := [], fib := [{ name := [10], faces := [{ face := 9 }] }],
      pit := { entries := [{ name := [11], fibEntry := [10], incoming := [3] }] },
      cs := [], now := 0 }
    9 { name := [10, 1] } {} {} (by decide)
  exact ⟨st', hrun, by rw [hpit], (hdrop rfl).1, (hdrop rfl).2⟩

/-- Run of `OnData` for content that matches a PIT entry: the object is added to the content
store, and the PIT keeps the entries whose name is not a prefix of the content name. -/
theorem onData_matched (S : ForwardingStrategy σ κ) (X : Collab σ κ) (st : State σ κ)
    (f : Face) (header : ContentObjectHeader) (payload packet : Packet) (e : Entry)
    (hlk : (PitImpl.LookupContent st.pit header.name).1 = some e) :
    ∃ (st' : State σ κ) (evs : List Event),
      S.OnData X st f header payload packet = some st' ∧
      st'.pit.entries = st.pit.entries.filter (fun x => !x.name.isPrefixOf header.name) ∧
      st'.cs = X.csAdd st.cs header payload ∧
      st'.log = st.log ++ .inData header payload f :: .csAdd header payload :: evs := by
  obtain ⟨p1, p2, p3, p4⟩ := lookupContent_prefix st.pit header.name
  obtain ⟨-, he⟩ := p2 e hlk
  obtain ⟨st', hrun, hent⟩ := satisfyAll_prefix X f header payload packet
    (PitImpl.GetSize (PitImpl.LookupContent st.pit header.name).2)
    { st with pit := (PitImpl.LookupContent st.pit header.name).2
              cs := X.csAdd st.cs header payload
              log := st.log ++ [.inData header payload f] ++ [.csAdd header payload] }
    (some e) (by simp) (fun e' he' => p2 e' (by rw [hlk]; exact he'))
    (List.countP_le_length _)
  obtain ⟨st'', oks, evs, hrun', -, hlog, hcs, -⟩ := satisfyAll_some X f header payload packet
    (PitImpl.GetSize (PitImpl.LookupContent st.pit header.name).2)
    { st with pit := (PitImpl.LookupContent st.pit header.name).2
              cs := X.csAdd st.cs header payload
              log := st.log ++ [.inData header payload f] ++ [.csAdd header payload] }
    e (p2 e hlk).1 (le_refl _)
  rw [hrun] at hrun'
  have hst : st' = st'' := Option.some.inj hrun'
  subst hst
  refine ⟨st', satisfyEvents (some f) header payload packet (e.RemoveIncoming f).incoming oks
    ++ evs, ?_, ?_, hcs, ?_⟩
  · simp only [OnData, State.trace, hlk]
    exact hrun
  · rw [hent]; exact p3
  · rw [hlog]
    simp only [List.append_assoc, List.singleton_append, List.cons_append, List.nil_append]

theorem lookup_none_of_filter (l : List Entry) (n : Name) (p : Pit)
    (h : p.entries = l.filter (fun x => !x.name.isPrefixOf n)) :
    PitImpl.Lookup p n = none := by
  unfold PitImpl.Lookup
  rw [List.find?_eq_none]
  intro x hx
  rw [h] at hx
  have := (List.mem_filter.mp hx).2
  simp only [Bool.not_eq_true'] at this
  have hnp := (isPrefixOf_false _ _).mp this
  simp only [decide_eq_true_eq]
  intro hn
  exact hnp (hn ▸ List.prefix_refl _)

/-- C22 (as stated, refuted): an Interest for /10/1 with locator /20/5 is routed by the
locator, the Data for /10/1 comes back and is cached.  A second Interest for /10/1 without a
locator has no route, so no PIT entry can be created for it: it is dropped, the content
store, which holds the object, is never consulted and the requesting face is sent
nothing. -/
theorem cached_object_not_served_without_route :
    ∃ st1 st2 st3 : State (List Face) (List CsHit),
      (Flooding simpleCollab false true).OnInterest simpleCollab
        { faces := [], fib := [{ name := [20], faces := [{ face := 9 }] }], pit := {}, cs := [],
          now := 0 }
        1 { name := some [10, 1], locator := some [20, 5], nonce := 7, interestLifetime := 4 }
        {} = .ok st1 ∧
      (Flooding simpleCollab false true).OnData simpleCollab st1 9 { name := [10, 1] }
        { size := 5 } { size := 5 } = some st2 ∧
      st2.log.countP Event.isOutData = 1 ∧
      (SimpleCs.lookup st2.cs { name := some [10, 1], nonce := 8 }).1.isSome = true ∧
      (Flooding simpleCollab false true).OnInterest simpleCollab st2 2
        { name := some [10, 1], nonce := 8 } {} = .ok st3 ∧
      st3.log = st2.log ++ [.inInterests { name := some [10, 1], nonce := 8 } 2,
                            .dropInterests { name := some [10, 1], nonce := 8 } 2] ∧
      sendsOn 2 st3.log = 0 :=
  ⟨_, _, _, rfl, rfl, by decide, by decide, rfl, by decide, by decide⟩

/-- C22 (amended): `OnData` for a name matched a PIT entry, so the object went to the content
store and the PIT has no entry left for the name.  A later Interest for that name for
which a PIT entry can be created and whose content store lookup hits is answered from the
store: the requesting face, and no other, is sent the cached packet once, the new PIT entry
is erased again, and `DoPropagateInterest` is not reached. -/
theorem cache_round_trip (S : ForwardingStrategy σ κ) (X : Collab σ κ) (st st1 : State σ κ)
    (face_data : Face) (content : ContentObjectHeader) (payload packet : Packet)
    (t : Time) (face_in : Face) (header : InterestHeader) (packet' : Packet)
    (e0 : Entry) (pit1 : Pit) (hit : CsHit) (cs' : κ)
    (hmatch : ∃ x ∈ st.pit.entries, x.name <+: content.name)
    (hdata : S.OnData X st face_data content payload packet = some st1)
    (hname : header.name = some content.name)
    (hcreate : PitImpl.Create st1.fib st1.pit t header content.name = (some e0, pit1))
    (hhit : X.csLookup st1.cs header = (some hit, cs')) :
    st1.cs = X.csAdd st.cs content payload ∧
    PitImpl.Lookup st1.pit content.name = none ∧
    ∃ (st2 : State σ κ) (ok : Bool),
      S.OnInterest X { st1 with now := t } face_in header packet' = .ok st2 ∧
      st2.log = st1.log ++ [.inInterests header face_in, .csLookup header] ++
        satisfyEvents none hit.header hit.payload hit.packet [face_in] [ok] ∧
      (∀ g, sendsOn g st2.log = sendsOn g st1.log + (if g = face_in then 1 else 0)) ∧
      st2.log.countP Event.isDoPropagate = st1.log.countP Event.isDoPropagate ∧
      st2.cs = cs' ∧
      PitImpl.Lookup st2.pit content.name = none := by
  have hsome : ∃ e, (PitImpl.LookupContent st.pit content.name).1 = some e := by
    obtain ⟨x, hx, hp⟩ := hmatch
    obtain ⟨p1, -, -, -⟩ := lookupContent_prefix st.pit content.name
    obtain ⟨hperm, -⟩ := lookupContent_spec st.pit content.name
    cases h : (PitImpl.LookupContent st.pit content.name).1 with
    | none => exact absurd hp (p1 h x (hperm.mem_iff.mpr hx))
    | some e => exact ⟨e, rfl⟩
  obtain ⟨e, hlk⟩ := hsome
  obtain ⟨st1', evs, hrun, hent, hcs, -⟩ := onData_matched S X st face_data content payload
    packet e hlk
  rw [hdata] at hrun
  have hst : st1 = st1' := Option.some.inj hrun
  subst hst
  have hl : PitImpl.Lookup st1.pit content.name = none :=
    lookup_none_of_filter _ _ _ hent
  refine ⟨hcs, hl, ?_⟩
  obtain ⟨hinc0, hout0, hnon0⟩ := create_fresh _ _ _ _ _ _ _ hl hcreate
  obtain ⟨hn0, -⟩ := create_spec _ _ _ _ _ _ _ hcreate
  have hacq : acquire ({ st1 with now := t }.trace (.inInterests header face_in)) header
      content.name =
      some (e0, { { st1 with now := t }.trace (.inInterests header face_in) with
        pit := pit1 }) :=
    acquire_of_create _ header content.name e0 pit1 hl hcreate
  have hfresh : header.nonce ∉ e0.nonces := by rw [hnon0]; simp
  have hrun2 := onInterestNamed_hit S X _ _ face_in header content.name packet' e0 hit cs'
    hacq hfresh hhit
  have hinc : ((e0.AddSeenNonce header.nonce).AddIncoming face_in).incoming = [face_in] := by
    simp [Entry.AddIncoming, Entry.AddSeenNonce, hinc0]
  obtain ⟨oks, hlen, hlog, -, -⟩ := satisfy_log_of_run X
    { { { st1 with now := t }.trace (.inInterests header face_in) with pit := pit1 } with
      cs := cs'
      log := ({ st1 with now := t }.trace (.inInterests header face_in)).log ++
        [.csLookup header] }
    none hit.header hit.payload hit.packet
    ((e0.AddSeenNonce header.nonce).AddIncoming face_in)
    ((e0.AddSeenNonce header.nonce).AddIncoming face_in).incoming rfl
  obtain ⟨s1, -, s3, -⟩ := satisfy_state X
    { { { st1 with now := t }.trace (.inInterests header face_in) with pit := pit1 } with
      cs := cs'
      log := ({ st1 with now := t }.trace (.inInterests header face_in)).log ++
        [.csLookup header] }
    none hit.header hit.payload hit.packet
    ((e0.AddSeenNonce header.nonce).AddIncoming face_in)
  rw [hinc] at hlen hlog
  obtain ⟨ok, hoks⟩ : ∃ ok, oks = [ok] := by
    cases oks with
    | nil => simp at hlen
    | cons a rest =>
      cases rest with
      | nil => exact ⟨a, rfl⟩
      | cons b rest' => simp at hlen
  subst hoks
  have hlog2 : (S.onInterestNamed X ({ st1 with now := t }.trace (.inInterests header face_in))
      face_in header content.name packet').log =
      st1.log ++ [.inInterests header face_in, .csLookup header] ++
        satisfyEvents none hit.header hit.payload hit.packet [face_in] [ok] := by
    rw [hrun2, hlog]
    simp [State.trace]
  refine ⟨_, ok, onInterest_named S X _ face_in header content.name packet' hname, hlog2,
    ?_, ?_, ?_, ?_⟩
  · intro g
    rw [hlog2]
    simp only [sendsOn, List.countP_append]
    have := sendsOn_satisfyEvents none hit.header hit.payload hit.packet g [face_in] [ok] rfl
    simp only [sendsOn] at this
    rw [this]
    by_cases hg : g = face_in
    · subst hg; simp [Event.isSendOn]
    · have hg' : ¬ face_in = g := fun h => hg h.symm
      simp [Event.isSendOn, hg, hg']
  · rw [hlog2]
    simp only [List.countP_append]
    have : (satisfyEvents none hit.header hit.payload hit.packet [face_in] [ok]).countP
        Event.isDoPropagate = 0 := by
      cases ok <;> rfl
    rw [this]
    simp [Event.isDoPropagate]
  · rw [hrun2]; exact s3
  · rw [hrun2]
    unfold PitImpl.Lookup
    rw [s1, List.find?_eq_none]
    intro x hx
    have := (List.mem_filter.mp hx).2
    simp only [decide_eq_true_eq] at this ⊢
    intro hxn
    apply this
    rw [hxn]
    exact hn0.symm

/-- Witness of C22: the PIT holds an entry for /10/1 from face 1, the Data comes back on face
9 and is cached; face 2 then asks for /10/1 and is served from the store. -/
theorem cache_round_trip_witness :
    ∃ st1 st2 : State (List Face) (List CsHit),
      (Flooding simpleCollab false true).OnData simpleCollab
        { faces := [], fib := [{ name := [10], faces := [{ face := 9 }] }],
          pit := { entries := [{ name := [10, 1], fibEntry := [10], incoming := [1],
                                 nonces := [7] }] },
          cs := [], now := 0 }
        9 { name := [10, 1] } { size := 5 } { size := 5 } = some st1 ∧
      (Flooding simpleCollab false true).OnInterest simpleCollab { st1 with now := 3 } 2
        { name := some [10, 1], nonce := 8 } {} = .ok st2 ∧
      (∀ g, sendsOn g st2.log = sendsOn g st1.log + (if g = 2 then 1 else 0)) ∧
      st2.log.countP Event.isDoPropagate = st1.log.countP Event.isDoPropagate := by
  obtain ⟨-, -, st2, -, hrun, -, hsend, hprop, -, -⟩ := cache_round_trip
    (Flooding simpleCollab false true) simpleCollab
    { faces := [], fib := [{ name := [10], faces := [{ face := 9 }] }],
      pit := { entries := [{ name := [10, 1], fibEntry := [10], incoming := [1],
                             nonces := [7] }] },
      cs := [], now := 0 }
    _ 9 { name := [10, 1] } { size := 5 } { size := 5 } 3 2
    { name := some [10, 1], nonce := 8 } {} _ _ _ _
    ⟨_, List.mem_singleton.mpr rfl, by decide⟩ rfl rfl rfl rfl
  exact ⟨_, st2, rfl, hrun, hsend, hprop⟩

theorem lookup_none_of_no_prefix (p : Pit) (n : Name)
    (h : ∀ x ∈ p.entries, ¬ x.name <+: n) : PitImpl.Lookup p n = none := by
  unfold PitImpl.Lookup
  rw [List.find?_eq_none]
  intro x hx
  simp only [decide_eq_true_eq]
  intro hn
  exact h x hx (hn ▸ List.prefix_refl _)

/-- With room in the PIT, `Create` for a name that has no entry appends the new entry. -/
theorem create_room (fib : Fib) (p p' : Pit) (now : Time) (header : InterestHeader) (n : Name)
    (e : Entry) (hl : PitImpl.Lookup p n = none)
    (hroom : p.maxSize = 0 ∨ p.entries.length < p.maxSize)
    (h : PitImpl.Create fib p now header n = (some e, p')) :
    p'.entries = p.entries ++ [e] := by
  have hins : ∀ fibName : Name,
      p.insert (Entry.create n header.GetInterestLifetime fibName now) =
        (some (Entry.create n header.GetInterestLifetime fibName now, true),
          { p with entries := p.entries ++
              [Entry.create n header.GetInterestLifetime fibName now] }) := by
    intro fibName
    have hn : (Entry.create n header.GetInterestLifetime fibName now).name = n := rfl
    have hcond : ¬ (p.maxSize ≠ 0 ∧ p.maxSize ≤ p.entries.length) := by
      rcases hroom with h0 | hlt
      · simp [h0]
      · intro hc; omega
    simp only [Pit.insert, hn, hl, Pit.policyInsert, if_neg hcond]
  unfold PitImpl.Create at h
  split at h
  · cases hf : fib.LongestPrefixMatchOfLocator (header.locator.getD []) with
    | none => rw [hf] at h; simp at h
    | some fe =>
      rw [hf] at h
      simp only [hins fe.name, Prod.mk.injEq, Option.some.injEq] at h
      obtain ⟨h1, h2⟩ := h
      rw [← h2, ← h1]
  · cases hf : fib.LongestPrefixMatch n with
    | none => rw [hf] at h; simp at h
    | some fe =>
      rw [hf] at h
      simp only [hins fe.name, Prod.mk.injEq, Option.some.injEq] at h
      obtain ⟨h1, h2⟩ := h
      rw [← h2, ← h1]

/-- C23 (as stated, refuted): the PIT has no entry for /10/1 but one for its prefix /10.  The
Interest for /10/1 creates an entry and is sent upstream once; the Data for /10/1 then
satisfies and erases both entries, so the PIT goes from one entry to none. -/
theorem satisfy_erases_prefix_entries_too :
    ∃ st1 st2 : State (List Face) (List CsHit),
      PitImpl.Lookup
        ({ entries := [{ name := [10], fibEntry := [10], incoming := [3], nonces := [5],
                         expireTime := 9 }] } : Pit) [10, 1] = none ∧
      (Flooding simpleCollab false true).OnInterest simpleCollab
        { faces := [], fib := [{ name := [10], faces := [{ face := 9 }] }],
          pit := { entries := [{ name := [10], fibEntry := [10], incoming := [3],
                                 nonces := [5], expireTime := 9 }] },
          cs := [], now := 0 }
        1 { name := some [10, 1], nonce := 7, interestLifetime := 4 } {} = .ok st1 ∧
      st1.log.countP Event.isOutInterests = 1 ∧ PitImpl.GetSize st1.pit = 2 ∧
      (Flooding simpleCollab false true).OnData simpleCollab st1 9 { name := [10, 1] }
        { size := 5 } { size := 5 } = some st2 ∧
      PitImpl.GetSize st2.pit = 0 ∧ st2.cs.length = 1 :=
  ⟨_, _, by decide, rfl, by decide, by decide, rfl, by decide, by decide⟩

/-- C23 (amended): the PIT has no entry whose name is a prefix of the name (so none for the
name itself) and has room for one more entry, and the content store has no object for the
Interest.  `OnInterest` of the flooding strategy creates the entry (the PIT grows by one);
`OnData` for the same name, at any later time and from any face, erases it again: the PIT
is as it was before the Interest, and the content store is the one left by the lookup
with the object added to it. -/
theorem satisfy_symmetry (X : Collab σ κ) (c d : Bool) (st : State σ κ) (face_in : Face)
    (header : InterestHeader) (n : Name) (packet : Packet) (e0 : Entry) (pit1 : Pit) (cs1 : κ)
    (t : Time) (face_data : Face) (content : ContentObjectHeader) (payload packet' : Packet)
    (hname : header.name = some n) (hcontent : content.name = n)
    (hnone : ∀ x ∈ st.pit.entries, ¬ x.name <+: n)
    (hroom : st.pit.maxSize = 0 ∨ PitImpl.GetSize st.pit < st.pit.maxSize)
    (hcreate : PitImpl.Create st.fib st.pit st.now header n = (some e0, pit1))
    (hmiss : X.csLookup st.cs header = (none, cs1)) :
    ∃ st1 st2 : State σ κ,
      (Flooding X c d).OnInterest X st face_in header packet = .ok st1 ∧
      PitImpl.GetSize st1.pit = PitImpl.GetSize st.pit + 1 ∧
      (Flooding X c d).OnData X { st1 with now := t } face_data content payload packet' =
        some st2 ∧
      st2.pit.entries = st.pit.entries ∧
      PitImpl.GetSize st2.pit = PitImpl.GetSize st.pit ∧
      st2.cs = X.csAdd cs1 content payload := by
  subst hcontent
  have hl := lookup_none_of_no_prefix st.pit content.name hnone
  obtain ⟨st1, e1, evs, hrun, -, -, -, -, -, hn1, -, -, -, hcs1, -, hpit1⟩ :=
    first_arrival X c d st face_in header content.name packet e0 pit1 cs1 hname hl hcreate hmiss
  obtain ⟨hn0, -⟩ := create_spec _ _ _ _ _ _ _ hcreate
  have hent1 : st1.pit.entries = st.pit.entries ++ [e1] := by
    rw [hpit1]
    simp only [Pit.store, create_room _ _ _ _ _ _ _ hl hroom hcreate, List.map_append,
      List.map_cons, List.map_nil, hn0, hn1, if_true]
    congr 1
    have hmap : st.pit.entries.map (fun x => if x.name = content.name then e1 else x) =
        st.pit.entries.map id := by
      apply List.map_congr_left
      intro x hm
      have hx : x.name ≠ content.name := fun hx => hnone x hm (hx ▸ List.prefix_refl _)
      simp [hx]
    rw [hmap, List.map_id]
  have hsize1 : PitImpl.GetSize st1.pit = PitImpl.GetSize st.pit + 1 := by
    simp [PitImpl.GetSize, hent1]
  have hmatch : ∃ e, (PitImpl.LookupContent st1.pit content.name).1 = some e := by
    obtain ⟨p1, -, -, -⟩ := lookupContent_prefix st1.pit content.name
    obtain ⟨hperm, -⟩ := lookupContent_spec st1.pit content.name
    cases h : (PitImpl.LookupContent st1.pit content.name).1 with
    | none =>
      have hmem : e1 ∈ st1.pit.entries := by rw [hent1]; simp
      exact absurd (hn1 ▸ List.prefix_refl _) (p1 h e1 (hperm.mem_iff.mpr hmem))
    | some e => exact ⟨e, rfl⟩
  obtain ⟨e, hlk⟩ := hmatch
  obtain ⟨st2, evs2, hrun2, hent2, hcs2, -⟩ := onData_matched (Flooding X c d) X
    { st1 with now := t } face_data content payload packet' e hlk
  have hfinal : st2.pit.entries = st.pit.entries := by
    rw [hent2]
    show st1.pit.entries.filter _ = _
    rw [hent1, List.filter_append]
    have h1 : st.pit.entries.filter (fun x => !x.name.isPrefixOf content.name) =
        st.pit.entries := by
      rw [List.filter_eq_self]
      intro x hx
      simp only [Bool.not_eq_true']
      exact (isPrefixOf_false _ _).mpr (hnone x hx)
    have h2 : [e1].filter (fun x => !x.name.isPrefixOf content.name) = [] := by
      rw [List.filter_eq_nil_iff]
      intro x hx
      simp only [List.mem_singleton] at hx
      subst hx
      have : x.name.isPrefixOf content.name = true :=
        List.isPrefixOf_iff_prefix.mpr (hn1 ▸ List.prefix_refl _)
      simp [this]
    rw [h1, h2, List.append_nil]
  refine ⟨st1, st2, hrun, hsize1, hrun2, hfinal, ?_, ?_⟩
  · simp [PitImpl.GetSize, hfinal]
  · rw [hcs2]
    show X.csAdd st1.cs content payload = _
    rw [hcs1]

/-- Witness of C23: from an empty PIT and an empty content store, an Interest for /10/1 from
face 1 and the Data for it from face 9. -/
theorem satisfy_symmetry_witness :
    ∃ st1 st2 : State (List Face) (List CsHit),
      (Flooding simpleCollab false true).OnInterest simpleCollab
        { faces := [], fib := [{ name := [10], faces := [{ face := 9 }] }], pit := {}, cs := [],
          now := 0 }
        1 { name := some [10, 1], nonce := 7, interestLifetime := 4 } {} = .ok st1 ∧
      PitImpl.GetSize st1.pit = 0 + 1 ∧
      (Flooding simpleCollab false true).OnData simpleCollab { st1 with now := 2 } 9
        { name := [10, 1] } { size := 5 } { size := 5 } = some st2 ∧
      st2.pit.entries = [] ∧
      PitImpl.GetSize st2.pit = 0 ∧
      st2.cs = SimpleCs.add [] { name := [10, 1] } { size := 5 } :=
  satisfy_symmetry simpleCollab false true
    { faces := [], fib := [{ name := [10], faces := [{ face := 9 }] }], pit := {}, cs := [],
      now := 0 }
    1 { name := some [10, 1], nonce := 7, interestLifetime := 4 } [10, 1] {} _ _ _ 2 9
    { name := [10, 1] } { size := 5 } { size := 5 } rfl rfl (by decide) (Or.inl rfl) rfl rfl

/-! ## Claims on the PIT -/

theorem trieWalk_spec (entries : List Entry) (rest : Name) :
    ∀ node : Name,
      ((trieWalk entries node rest).2 = true → (trieWalk entries node rest).1 = node ++ rest) ∧
      ((trieWalk entries node rest).2 = false →
        ∀ e ∈ entries, ¬ (node ++ rest) <+: e.name) := by
  induction rest with
  | nil =>
    intro node
    simp [trieWalk]
  | cons c rest ih =>
    intro node
    simp only [trieWalk]
    by_cases hany : entries.any (fun e => (node ++ [c]).isPrefixOf e.name) = true
    · simp only [hany, if_true]
      obtain ⟨h1, h2⟩ := ih (node ++ [c])
      refine ⟨?_, ?_⟩
      · intro h; rw [h1 h]; simp
      · intro h e he hp
        apply h2 h e he
        simpa using hp
    · simp only [hany, if_false]
      refine ⟨by simp, ?_⟩
      intro _ e he hp
      apply hany
      rw [List.any_eq_true]
      refine ⟨e, he, List.isPrefixOf_iff_prefix.mpr ?_⟩
      have : node ++ [c] <+: node ++ c :: rest :=
        ⟨rest, by simp⟩
      exact this.trans hp

theorem lookupByFind_eq (p : Pit) (n : Name) : PitImpl.lookupByFind p n = PitImpl.Lookup p n := by
  obtain ⟨h1, h2⟩ := trieWalk_spec p.entries n []
  unfold PitImpl.lookupByFind trieFind PitImpl.Lookup
  dsimp only
  cases hr : (trieWalk p.entries [] n).2
  · simp only [Bool.not_false, if_true]
    symm
    rw [List.find?_eq_none]
    intro x hx
    simp only [decide_eq_true_eq]
    intro hn
    have := h2 hr x hx
    rw [List.nil_append] at this
    exact this (hn ▸ List.prefix_refl _)
  · simp only [Bool.not_true, Bool.false_eq_true, if_false]
    rw [h1 hr, List.nil_append]

/-- C24: `Lookup` for an Interest returns an entry exactly when the trie reached the name
in full and an entry is stored at that very name; the entry returned is stored under the
name of the Interest, never under a proper prefix or a proper extension of it, and with
one entry per name it is the entry stored there. -/
theorem lookup_interest_is_exact_match (p : Pit) (n : Name) :
    PitImpl.lookupByFind p n = PitImpl.Lookup p n ∧
    ((∃ e, PitImpl.Lookup p n = some e) ↔
      (trieFind p.entries n).1 = true ∧ ∃ x ∈ p.entries, x.name = n) ∧
    (PitImpl.Lookup p n = none ↔ ∀ x ∈ p.entries, x.name ≠ n) ∧
    (∀ e, PitImpl.Lookup p n = some e →
      e ∈ p.entries ∧ e.name = n ∧
      ¬ (e.name <+: n ∧ e.name ≠ n) ∧ ¬ (n <+: e.name ∧ e.name ≠ n)) ∧
    (p.WF → ∀ x ∈ p.entries, x.name = n → PitImpl.Lookup p n = some x) := by
  refine ⟨lookupByFind_eq p n, ?_, ?_, ?_, ?_⟩
  · constructor
    · rintro ⟨e, he⟩
      have hmem := List.mem_of_find?_eq_some he
      have hname : e.name = n := by
        have := List.find?_some he
        simpa using this
      refine ⟨?_, e, hmem, hname⟩
      obtain ⟨-, h2⟩ := trieWalk_spec p.entries n []
      cases hr : (trieWalk p.entries [] n).2 with
      | true => exact hr
      | false =>
        have := h2 hr e hmem
        rw [List.nil_append] at this
        exact absurd (hname ▸ List.prefix_refl _) this
    · rintro ⟨-, x, hx, hn⟩
      exact (lookup_isSome_iff p n).mp ⟨x, hx, hn⟩
  · unfold PitImpl.Lookup
    rw [List.find?_eq_none]
    simp
  · intro e he
    have hmem := List.mem_of_find?_eq_some he
    have hname : e.name = n := by
      have := List.find?_some he
      simpa using this
    exact ⟨hmem, hname, fun h => h.2 hname, fun h => h.2 hname⟩
  · intro hwf x hx hn
    rw [← hn]
    exact lookup_of_mem p hwf x hx

/-- C25: `Lookup` for a Content Object returns a stored entry whose name is a prefix of the
content name and is at least as long as every stored name that is such a prefix; it
returns nothing exactly when no stored name is a prefix of the content name.  The stored
entries stay the same (the policy may reorder them). -/
theorem lookup_content_is_longest_prefix_match (p : Pit) (n : Name) :
    (∀ e, (PitImpl.LookupContent p n).1 = some e →
      e ∈ p.entries ∧ e.name <+: n ∧
      ∀ x ∈ p.entries, x.name <+: n → x.name.length ≤ e.name.length) ∧
    ((PitImpl.LookupContent p n).1 = none ↔ ∀ x ∈ p.entries, ¬ x.name <+: n) ∧
    (p.WF → ∀ e x, (PitImpl.LookupContent p n).1 = some e → x ∈ p.entries → x.name <+: n →
      x.name.length = e.name.length → x = e) ∧
    (PitImpl.LookupContent p n).2.entries.Perm p.entries := by
  obtain ⟨l1, l2⟩ := lpm_spec Entry.name p.entries n
  have hfst : (PitImpl.LookupContent p n).1 = longestPrefixMatch Entry.name p.entries n := by
    unfold PitImpl.LookupContent
    cases longestPrefixMatch Entry.name p.entries n <;> rfl
  refine ⟨?_, ?_, ?_, (lookupContent_spec p n).1⟩
  · intro e he
    rw [hfst] at he
    exact l2 e he
  · rw [hfst]
    constructor
    · exact l1
    · intro h
      cases hl : longestPrefixMatch Entry.name p.entries n with
      | none => rfl
      | some e => exact absurd (l2 e hl).2.1 (h e (l2 e hl).1)
  · intro hwf e x he hx hp hlen
    rw [hfst] at he
    obtain ⟨hmem, hpe, -⟩ := l2 e he
    have hname : x.name = e.name := by
      obtain ⟨s1, hs1⟩ := hp
      obtain ⟨s2, hs2⟩ := hpe
      have := congrArg (List.take x.name.length) (hs1.trans hs2.symm)
      rw [List.take_left' rfl, hlen, List.take_left' rfl] at this
      exact this
    exact wf_mem_unique p hwf x e hx hmem hname

theorem create_eq_createFrom (fib : Fib) (p : Pit) (now : Time) (header : InterestHeader)
    (n : Name) :
    PitImpl.Create fib p now header n =
      PitImpl.createFrom
        (if header.IsEnabledLocator && decide ((header.locator.getD []).length > 0) then
          fib.LongestPrefixMatchOfLocator (header.locator.getD [])
        else fib.LongestPrefixMatch n) p now header n := by
  unfold PitImpl.Create PitImpl.createFrom
  split
  · cases fib.LongestPrefixMatchOfLocator (header.locator.getD []) <;> rfl
  · cases fib.LongestPrefixMatch n <;> rfl

theorem createOriginal_eq_createFrom (fib : Fib) (p : Pit) (now : Time)
    (header : InterestHeader) (n : Name) :
    PitImpl.CreateOriginal fib p now header n =
      PitImpl.createFrom (fib.LongestPrefixMatch n) p now header n := by
  unfold PitImpl.CreateOriginal PitImpl.createFrom
  cases fib.LongestPrefixMatch n <;> rfl

/-- C26: `Create` takes the FIB entry from the longest-prefix match on the locator exactly
when the locator of the Interest is set and not empty, and from the match on the name
otherwise, also for a locator that is set but empty.  Without a FIB entry it returns no
entry and leaves the PIT as it is.  The entry it returns has the name of the Interest and
is what a lookup of that name finds afterwards.  For an Interest without a non-empty
locator it is the original, name-based `Create`. -/
theorem create_resolves_fib_entry_by_locator_or_name (fib : Fib) (p : Pit) (now : Time)
    (header : InterestHeader) (n : Name) :
    (∀ l, header.locator = some l → l ≠ [] →
      PitImpl.Create fib p now header n =
        PitImpl.createFrom (fib.LongestPrefixMatchOfLocator l) p now header n) ∧
    ((header.locator = none ∨ header.locator = some []) →
      PitImpl.Create fib p now header n =
        PitImpl.createFrom (fib.LongestPrefixMatch n) p now header n ∧
      PitImpl.Create fib p now header n = PitImpl.CreateOriginal fib p now header n) ∧
    PitImpl.createFrom none p now header n = (none, p) ∧
    (∀ e p', PitImpl.Create fib p now header n = (some e, p') →
      e.name = n ∧ e ∈ p'.entries ∧ (p.WF → PitImpl.Lookup p' n = some e)) := by
  refine ⟨?_, ?_, rfl, ?_⟩
  · intro l hl hne
    rw [create_eq_createFrom]
    have hlen : 0 < l.length := List.length_pos.mpr hne
    simp [InterestHeader.IsEnabledLocator, hl, hlen]
  · intro h
    have heq : PitImpl.Create fib p now header n =
        PitImpl.createFrom (fib.LongestPrefixMatch n) p now header n := by
      rw [create_eq_createFrom]
      rcases h with h | h <;> simp [InterestHeader.IsEnabledLocator, h]
    exact ⟨heq, by rw [heq, createOriginal_eq_createFrom]⟩
  · intro e p' h
    obtain ⟨hn, hmem⟩ := create_spec _ _ _ _ _ _ _ h
    refine ⟨hn, hmem, ?_⟩
    intro hwf
    have hwf' := create_wf fib p p' now header n (some e) hwf h
    rw [← hn]
    exact lookup_of_mem p' hwf' e hmem

/-- Witness of C26: the FIB routes /20 to face 8 and /10 to face 9.  An Interest for /10/1
with locator /20/5 gets the FIB entry /20, one with an empty locator gets /10; both entries
are stored under /10/1. -/
theorem create_resolves_fib_entry_by_locator_or_name_witness :
    PitImpl.Create
        [{ name := [20], faces := [{ face := 8 }] }, { name := [10], faces := [{ face := 9 }] }]
        {} 0 { name := some [10, 1], locator := some [20, 5], interestLifetime := 4 } [10, 1] =
      (some { name := [10, 1], fibEntry := [20], expireTime := 4 },
       { entries := [{ name := [10, 1], fibEntry := [20], expireTime := 4 }] }) ∧
    PitImpl.Create
        [{ name := [20], faces := [{ face := 8 }] }, { name := [10], faces := [{ face := 9 }] }]
        {} 0 { name := some [10, 1], locator := some [], interestLifetime := 4 } [10, 1] =
      (some { name := [10, 1], fibEntry := [10], expireTime := 4 },
       { entries := [{ name := [10, 1], fibEntry := [10], expireTime := 4 }] }) := by
  have h := create_resolves_fib_entry_by_locator_or_name
    [{ name := [20], faces := [{ face := 8 }] }, { name := [10], faces := [{ face := 9 }] }]
    {} 0 { name := some [10, 1], locator := some [20, 5], interestLifetime := 4 } [10, 1]
  have h' := create_resolves_fib_entry_by_locator_or_name
    [{ name := [20], faces := [{ face := 8 }] }, { name := [10], faces := [{ face := 9 }] }]
    {} 0 { name := some [10, 1], locator := some [], interestLifetime := 4 } [10, 1]
  refine ⟨?_, ?_⟩
  · rw [h.1 [20, 5] rfl (by decide)]
    decide
  · rw [(h'.2.1 (Or.inr rfl)).1]
    decide

/-! ## Claims on the expiry of PIT entries -/

theorem cleanLoop_calls (now : Time) (idx : List Entry) :
    ∀ (p : Pit) (calls : List PitCall),
      (PitImpl.cleanLoop now idx p calls).2.2 =
        calls ++ (idx.takeWhile (fun e => e.expireTime ≤ now)).flatMap
          (fun e => [.willErase e, .erase e]) ∧
      (PitImpl.cleanLoop now idx p calls).2.1 =
        idx.dropWhile (fun e => e.expireTime ≤ now) := by
  induction idx with
  | nil => intro p calls; simp [PitImpl.cleanLoop]
  | cons e rest ih =>
    intro p calls
    simp only [PitImpl.cleanLoop]
    by_cases hst : e.expireTime ≤ now
    · simp only [hst, if_true]
      obtain ⟨h1, h2⟩ := ih (PitImpl.MarkErased p e) (calls ++ [.willErase e, .erase e])
      rw [h1, h2]
      simp [List.takeWhile_cons, List.dropWhile_cons, hst]
    · simp [hst, List.takeWhile_cons, List.dropWhile_cons]

theorem sorted_takeWhile (now : Time) (idx : List Entry)
    (hsorted : idx.Pairwise (fun a b => a.expireTime ≤ b.expireTime)) :
    idx.takeWhile (fun e => e.expireTime ≤ now) = idx.filter (fun e => e.expireTime ≤ now) ∧
    idx.dropWhile (fun e => e.expireTime ≤ now) = idx.filter (fun e => now < e.expireTime) := by
  induction idx with
  | nil => simp
  | cons e rest ih =>
    obtain ⟨hhead, htail⟩ := List.pairwise_cons.mp hsorted
    obtain ⟨ih1, ih2⟩ := ih htail
    by_cases hst : e.expireTime ≤ now
    · have hnot : ¬ now < e.expireTime := not_lt.mpr hst
      simp [List.takeWhile_cons, List.dropWhile_cons, List.filter_cons, hst, hnot, ih1, ih2]
    · have hlt : now < e.expireTime := not_le.mp hst
      have hall : ∀ x ∈ rest, now < x.expireTime := fun x hx =>
        lt_of_lt_of_le hlt (hhead x hx)
      have hf1 : rest.filter (fun e => decide (e.expireTime ≤ now)) = [] := by
        rw [List.filter_eq_nil_iff]
        intro x hx
        simp only [decide_eq_true_eq]
        exact not_le.mpr (hall x hx)
      have hf2 : rest.filter (fun e => decide (now < e.expireTime)) = rest := by
        rw [List.filter_eq_self]
        intro x hx
        simpa using hall x hx
      simp [List.takeWhile_cons, List.dropWhile_cons, List.filter_cons, hst, hlt, hf1, hf2]

theorem cleanLoop_pit (now : Time) (idx : List Entry) :
    ∀ (p : Pit) (calls : List PitCall),
      (PitImpl.cleanLoop now idx p calls).1.entries =
        p.entries.filter (fun x =>
          (idx.takeWhile (fun e => e.expireTime ≤ now)).all (fun e => x.name ≠ e.name)) ∧
      (PitImpl.cleanLoop now idx p calls).1.maxSize = p.maxSize ∧
      (PitImpl.cleanLoop now idx p calls).1.policy = p.policy ∧
      (PitImpl.cleanLoop now idx p calls).1.draws = p.draws := by
  induction idx with
  | nil =>
    intro p calls
    simp [PitImpl.cleanLoop]
  | cons e rest ih =>
    intro p calls
    simp only [PitImpl.cleanLoop]
    by_cases hst : e.expireTime ≤ now
    · simp only [hst, if_true]
      obtain ⟨h1, h2, h3, h4⟩ := ih (PitImpl.MarkErased p e)
        (calls ++ [.willErase e, .erase e])
      refine ⟨?_, h2, h3, h4⟩
      rw [h1]
      simp only [PitImpl.MarkErased, List.filter_filter]
      apply List.filter_congr
      intro x _
      simp only [List.takeWhile_cons, hst, decide_True, if_true, List.all_cons, Bool.and_comm]
    · simp [hst, List.takeWhile_cons]

theorem count_willErase (l : List Entry) (x : Entry) :
    (l.flatMap (fun e => [PitCall.willErase e, PitCall.erase e])).count (.willErase x) =
      l.count x := by
  induction l with
  | nil => rfl
  | cons e rest ih =>
    simp only [List.flatMap_cons, List.count_append, ih, List.count_cons, List.count_nil]
    by_cases h : e = x
    · subst h; simp [Nat.add_comm]
    · have h' : ¬ PitCall.willErase e = PitCall.willErase x := fun hc => h (by injection hc)
      simp [h, h']

/-- C28: the time index holds the stored entries, ordered by expiry time, one entry per
name.  `CleanExpired` at time `now` (its loop ends, one entry leaving the index per
iteration) leaves in the PIT and in the index exactly the entries with `expire_at > now`;
every entry with `expire_at ≤ now` is announced once through
`WillErasePendingInterest`, right before its erasure, and no other entry is. -/
theorem cleanExpired_removes_exactly_the_stale_entries (now : Time) (p : Pit) (c : Cleaning)
    (hperm : c.i_time.Perm p.entries) (hwf : p.WF)
    (hsorted : c.i_time.Pairwise (fun a b => a.expireTime ≤ b.expireTime)) :
    (PitImpl.CleanExpired now p c).1 = (PitImpl.cleanLoop now c.i_time p c.calls).1 ∧
    (PitImpl.CleanExpired now p c).1.entries = p.entries.filter (fun e => now < e.expireTime) ∧
    (PitImpl.CleanExpired now p c).2.i_time = c.i_time.filter (fun e => now < e.expireTime) ∧
    (PitImpl.cleanLoop now c.i_time p c.calls).2.2 =
      c.calls ++ (c.i_time.filter (fun e => e.expireTime ≤ now)).flatMap
        (fun e => [.willErase e, .erase e]) ∧
    (∀ e, ((c.i_time.filter (fun e => e.expireTime ≤ now)).flatMap
        (fun e => [PitCall.willErase e, PitCall.erase e])).count (.willErase e) =
      if e ∈ p.entries ∧ e.expireTime ≤ now then 1 else 0) := by
  obtain ⟨hc1, hc2⟩ := cleanLoop_calls now c.i_time p c.calls
  obtain ⟨hp1, -, -, -⟩ := cleanLoop_pit now c.i_time p c.calls
  obtain ⟨ht1, ht2⟩ := sorted_takeWhile now c.i_time hsorted
  have hnd : c.i_time.Nodup := hperm.nodup_iff.mpr (List.Nodup.of_map _ hwf)
  refine ⟨rfl, ?_, ?_, ?_, ?_⟩
  · show (PitImpl.cleanLoop now c.i_time p c.calls).1.entries = _
    rw [hp1, ht1]
    apply List.filter_congr
    intro x hx
    by_cases hst : x.expireTime ≤ now
    · have hnot : ¬ now < x.expireTime := not_lt.mpr hst
      have hmem : x ∈ c.i_time.filter (fun e => decide (e.expireTime ≤ now)) :=
        List.mem_filter.mpr ⟨hperm.mem_iff.mpr hx, by simpa using hst⟩
      have : (c.i_time.filter (fun e => decide (e.expireTime ≤ now))).all
          (fun e => decide (x.name ≠ e.name)) = false := by
        rw [Bool.eq_false_iff]
        intro hall
        have := List.all_eq_true.mp hall x hmem
        simp at this
      rw [this]
      simp [hnot]
    · have hlt : now < x.expireTime := not_le.mp hst
      have : (c.i_time.filter (fun e => decide (e.expireTime ≤ now))).all
          (fun e => decide (x.name ≠ e.name)) = true := by
        rw [List.all_eq_true]
        intro e he
        obtain ⟨he1, he2⟩ := List.mem_filter.mp he
        simp only [decide_eq_true_eq] at he2 ⊢
        intro hn
        have := wf_mem_unique p hwf x e hx (hperm.mem_iff.mp he1) hn
        subst this
        exact hst he2
      rw [this]
      simp [hlt]
  · show (PitImpl.RescheduleCleaning now _).i_time = _
    have hre : ∀ c' : Cleaning, (PitImpl.RescheduleCleaning now c').i_time = c'.i_time := by
      intro c'
      unfold PitImpl.RescheduleCleaning
      dsimp only
      cases c'.i_time <;> rfl
    rw [hre]
    show (PitImpl.cleanLoop now c.i_time p c.calls).2.1 = _
    rw [hc2, ht2]
  · rw [hc1, ht1]
  · intro e
    rw [count_willErase]
    by_cases h : e ∈ p.entries ∧ e.expireTime ≤ now
    · rw [if_pos h]
      exact List.count_eq_one_of_mem (hnd.filter _)
        (List.mem_filter.mpr ⟨hperm.mem_iff.mpr h.1, by simpa using h.2⟩)
    · rw [if_neg h]
      apply List.count_eq_zero_of_not_mem
      intro hmem
      obtain ⟨h1, h2⟩ := List.mem_filter.mp hmem
      exact h ⟨hperm.mem_iff.mp h1, by simpa using h2⟩

/-- Witness of C28: an entry created at t = 0 with a lifetime of 1000 ticks (one second) is
the only entry; the cleaner runs at t = 1000, announces it and the PIT is empty. -/
theorem cleanExpired_removes_exactly_the_stale_entries_witness :
    (PitImpl.Create [{ name := [10], faces := [{ face := 9 }] }] {} 0
        { name := some [10, 1], interestLifetime := 1000 } [10, 1]).2.entries =
      [{ name := [10, 1], fibEntry := [10], expireTime := 1000 }] ∧
    PitImpl.GetSize (PitImpl.CleanExpired 1000
      { entries := [{ name := [10, 1], fibEntry := [10], expireTime := 1000 }] }
      { i_time := [{ name := [10, 1], fibEntry := [10], expireTime := 1000 }] }).1 = 0 ∧
    (PitImpl.cleanLoop 1000 [{ name := [10, 1], fibEntry := [10], expireTime := 1000 }]
      { entries := [{ name := [10, 1], fibEntry := [10], expireTime := 1000 }] } []).2.2 =
      [.willErase { name := [10, 1], fibEntry := [10], expireTime := 1000 },
       .erase { name := [10, 1], fibEntry := [10], expireTime := 1000 }] := by
  have h := cleanExpired_removes_exactly_the_stale_entries 1000
    { entries := [{ name := [10, 1], fibEntry := [10], expireTime := 1000 }] }
    { i_time := [{ name := [10, 1], fibEntry := [10], expireTime := 1000 }] }
    (List.Perm.refl _) (by decide) (by decide)
  refine ⟨by decide, ?_, ?_⟩
  · unfold PitImpl.GetSize
    rw [h.2.1]
    decide
  · rw [h.2.2.2.1]
    decide

theorem reschedule_empty (now : Time) (c : Cleaning) (h : c.i_time = []) :
    PitImpl.RescheduleCleaning now c =
      { c with pending := c.pending.filter (fun ev => some ev.1 ≠ c.m_cleanEvent)
               calls := c.calls ++ [PitCall.simRemove c.m_cleanEvent] } := by
  unfold PitImpl.RescheduleCleaning
  dsimp only
  rw [h]

theorem reschedule_cons (now : Time) (c : Cleaning) (first : Entry) (rest : List Entry)
    (h : c.i_time = first :: rest) :
    PitImpl.RescheduleCleaning now c =
      { c with m_cleanEvent := some c.nextUid
               pending := c.pending.filter (fun ev => some ev.1 ≠ c.m_cleanEvent) ++
                 [(c.nextUid, now + max 0 (first.expireTime - now))]
               nextUid := c.nextUid + 1
               calls := c.calls ++ [PitCall.simRemove c.m_cleanEvent,
                 PitCall.simSchedule (max 0 (first.expireTime - now))] } := by
  have hmax : (if first.expireTime - now ≤ 0 then (0 : Time) else first.expireTime - now) =
      max 0 (first.expireTime - now) := by
    by_cases hle : first.expireTime - now ≤ 0
    · rw [if_pos hle, max_eq_left hle]
    · rw [if_neg hle, max_eq_right (le_of_lt (not_le.mp hle))]
  unfold PitImpl.RescheduleCleaning
  dsimp only
  rw [h]
  simp only [hmax, List.append_assoc, List.singleton_append]

theorem tracked_filter (c : Cleaning) (h : c.Tracked) :
    c.pending.filter (fun ev => some ev.1 ≠ c.m_cleanEvent) = [] := by
  rw [List.filter_eq_nil_iff]
  intro ev hev
  simp [h ev hev]

/-- C29: in a state where the only events of the queue that run `CleanExpired` are the one
held in `m_cleanEvent` (so it is at the start, and so it stays after `RescheduleCleaning`
and after the event has run), `RescheduleCleaning` first removes the pending event, then
schedules nothing when the time index is empty and otherwise one event, with the delay
`max (0, expire_at − now)` of the first entry of the index, the least expiry time when
the index is ordered.  The delay is not negative and at most one event is pending. -/
theorem rescheduleCleaning_keeps_one_pending_event (now : Time) (c : Cleaning)
    (htracked : c.Tracked) :
    (PitImpl.RescheduleCleaning now c).pending.length ≤ 1 ∧
    (PitImpl.RescheduleCleaning now c).Tracked ∧
    (PitImpl.RescheduleCleaning now c).i_time = c.i_time ∧
    (c.i_time = [] →
      (PitImpl.RescheduleCleaning now c).pending = [] ∧
      (PitImpl.RescheduleCleaning now c).calls = c.calls ++ [.simRemove c.m_cleanEvent]) ∧
    (∀ first rest, c.i_time = first :: rest →
      (PitImpl.RescheduleCleaning now c).pending =
        [(c.nextUid, now + max 0 (first.expireTime - now))] ∧
      (PitImpl.RescheduleCleaning now c).calls =
        c.calls ++ [.simRemove c.m_cleanEvent,
          .simSchedule (max 0 (first.expireTime - now))] ∧
      (0 : Time) ≤ max 0 (first.expireTime - now) ∧
      (c.i_time.Pairwise (fun a b => a.expireTime ≤ b.expireTime) →
        ∀ e ∈ c.i_time, first.expireTime ≤ e.expireTime)) ∧
    (({} : Cleaning).Tracked ∧
      ∀ (uid : Nat) (p : Pit), ({ c with pending := c.pending.filter (fun ev => ev.1 ≠ uid) }
        : Cleaning).Tracked ∧ (PitImpl.fire uid now p c).2.Tracked ∧
        (PitImpl.fire uid now p c).2.pending.length ≤ 1) := by
  have hfil := tracked_filter c htracked
  have hres : ∀ c' : Cleaning, c'.Tracked →
      (PitImpl.RescheduleCleaning now c').Tracked ∧
      (PitImpl.RescheduleCleaning now c').pending.length ≤ 1 := by
    intro c' h'
    have hfil' := tracked_filter c' h'
    cases hidx : c'.i_time with
    | nil =>
      rw [reschedule_empty now c' hidx]
      refine ⟨?_, ?_⟩
      · intro ev hev
        have hev' : ev ∈ c'.pending.filter (fun ev => some ev.1 ≠ c'.m_cleanEvent) := hev
        rw [hfil'] at hev'
        cases hev'
      · show (c'.pending.filter (fun ev => some ev.1 ≠ c'.m_cleanEvent)).length ≤ 1
        rw [hfil']
        exact Nat.zero_le _
    | cons first rest =>
      rw [reschedule_cons now c' first rest hidx]
      refine ⟨?_, ?_⟩
      · intro ev hev
        have hev' : ev ∈ c'.pending.filter (fun ev => some ev.1 ≠ c'.m_cleanEvent) ++
            [(c'.nextUid, now + max 0 (first.expireTime - now))] := hev
        rw [hfil', List.nil_append, List.mem_singleton] at hev'
        rw [hev']
      · show (c'.pending.filter (fun ev => some ev.1 ≠ c'.m_cleanEvent) ++
            [(c'.nextUid, now + max 0 (first.expireTime - now))]).length ≤ 1
        rw [hfil']
        exact Nat.le_refl _
  refine ⟨(hres c htracked).2, (hres c htracked).1, ?_, ?_, ?_, ?_, ?_⟩
  · cases hidx : c.i_time with
    | nil => rw [reschedule_empty now c hidx]; exact hidx
    | cons first rest => rw [reschedule_cons now c first rest hidx]; exact hidx
  · intro hidx
    rw [reschedule_empty now c hidx]
    exact ⟨hfil, rfl⟩
  · intro first rest hidx
    rw [reschedule_cons now c first rest hidx]
    refine ⟨?_, rfl, le_max_left _ _, ?_⟩
    · show c.pending.filter (fun ev => some ev.1 ≠ c.m_cleanEvent) ++
          [(c.nextUid, now + max 0 (first.expireTime - now))] = _
      rw [hfil, List.nil_append]
    intro hsorted e he
    rw [hidx] at hsorted he
    rcases List.mem_cons.mp he with rfl | h
    · exact le_refl _
    · exact (List.pairwise_cons.mp hsorted).1 e h
  · intro ev hev
    simp at hev
  · intro uid p
    have hf : ({ c with pending := c.pending.filter (fun ev => ev.1 ≠ uid) } :
        Cleaning).Tracked := by
      intro ev hev
      exact htracked ev (List.mem_filter.mp hev).1
    refine ⟨hf, ?_⟩
    have hloop : ({ ({ c with pending := c.pending.filter (fun ev => ev.1 ≠ uid) } : Cleaning)
        with
        i_time := (PitImpl.cleanLoop now c.i_time p c.calls).2.1
        calls := (PitImpl.cleanLoop now c.i_time p c.calls).2.2 } : Cleaning).Tracked := hf
    exact hres _ hloop

/-- Witness of C29: the event with uid 4 is pending for time 20 and the first entry of the
index expires at 30; at time 12 the event is replaced by one 18 ticks ahead. -/
theorem rescheduleCleaning_keeps_one_pending_event_witness :
    (PitImpl.RescheduleCleaning 12
      { i_time := [{ name := [10, 1], fibEntry := [10], expireTime := 30 }]
        m_cleanEvent := some 4, pending := [(4, 20)], nextUid := 5 }).pending = [(5, 12 + 18)] ∧
    (PitImpl.RescheduleCleaning 12
      { i_time := [{ name := [10, 1], fibEntry := [10], expireTime := 30 }]
        m_cleanEvent := some 4, pending := [(4, 20)], nextUid := 5 }).calls =
      [] ++ [.simRemove (some 4), .simSchedule 18] :=
  have h := (rescheduleCleaning_keeps_one_pending_event 12
    { i_time := [{ name := [10, 1], fibEntry := [10], expireTime := 30 }]
      m_cleanEvent := some 4, pending := [(4, 20)], nextUid := 5 }
    (by decide)).2.2.2.2.1 { name := [10, 1], fibEntry := [10], expireTime := 30 } [] rfl
  ⟨h.1, h.2.1⟩

/-! ## Claims on the size of the PIT -/

theorem create_bounded (fib : Fib) (p : Pit) (now : Time) (header : InterestHeader) (n : Name)
    (hpol : p.policy = .persistent) (hmax : 0 < p.maxSize)
    (hsize : PitImpl.GetSize p ≤ p.maxSize) :
    PitImpl.GetSize (PitImpl.Create fib p now header n).2 ≤ p.maxSize ∧
    (PitImpl.Create fib p now header n).2.maxSize = p.maxSize ∧
    (PitImpl.Create fib p now header n).2.policy = p.policy := by
  have hfrom : ∀ fe : Option FibEntry,
      PitImpl.GetSize (PitImpl.createFrom fe p now header n).2 ≤ p.maxSize ∧
      (PitImpl.createFrom fe p now header n).2.maxSize = p.maxSize ∧
      (PitImpl.createFrom fe p now header n).2.policy = p.policy := by
    intro fe
    cases fe with
    | none => exact ⟨hsize, rfl, rfl⟩
    | some fibEntry =>
      simp only [PitImpl.createFrom, Pit.insert]
      cases PitImpl.Lookup p (Entry.create n header.GetInterestLifetime fibEntry.name now).name with
      | some old => exact ⟨hsize, rfl, rfl⟩
      | none =>
        dsimp only
        cases hpi : p.policyInsert (Entry.create n header.GetInterestLifetime fibEntry.name now) with
        | none => exact ⟨hsize, rfl, rfl⟩
        | some p' =>
          dsimp only
          have hp' : p' = { p with entries := p.entries ++
              [Entry.create n header.GetInterestLifetime fibEntry.name now] } ∧
              ¬ (p.maxSize ≠ 0 ∧ p.maxSize ≤ p.entries.length) := by
            unfold Pit.policyInsert at hpi
            by_cases hfull : p.maxSize ≠ 0 ∧ p.maxSize ≤ p.entries.length
            · rw [if_pos hfull, hpol] at hpi
              cases hpi
            · rw [if_neg hfull] at hpi
              exact ⟨(Option.some.inj hpi).symm, hfull⟩
          obtain ⟨hp', hfull⟩ := hp'
          subst hp'
          refine ⟨?_, rfl, rfl⟩
          simp only [PitImpl.GetSize, List.length_append, List.length_singleton]
          have : ¬ p.maxSize ≤ p.entries.length := fun h =>
            hfull ⟨Nat.pos_iff_ne_zero.mp hmax, h⟩
          omega
  rw [create_eq_createFrom]
  exact hfrom _

theorem apply_bounded (p : Pit) (op : PitOp) (hpol : p.policy = .persistent)
    (hmax : 0 < p.maxSize) (hsize : PitImpl.GetSize p ≤ p.maxSize) :
    PitImpl.GetSize (op.apply p) ≤ p.maxSize ∧ (op.apply p).maxSize = p.maxSize ∧
    (op.apply p).policy = p.policy := by
  cases op with
  | create fib now header n => exact create_bounded fib p now header n hpol hmax hsize
  | markErased e =>
    refine ⟨?_, rfl, rfl⟩
    exact le_trans (List.length_filter_le _ _) hsize
  | cleanExpired now c =>
    obtain ⟨h1, h2, h3, -⟩ := cleanLoop_pit now c.i_time p c.calls
    refine ⟨?_, h2, h3⟩
    show (PitImpl.cleanLoop now c.i_time p c.calls).1.entries.length ≤ _
    rw [h1]
    exact le_trans (List.length_filter_le _ _) hsize

theorem after_bounded (ops : List PitOp) :
    ∀ p : Pit, p.policy = .persistent → 0 < p.maxSize → PitImpl.GetSize p ≤ p.maxSize →
      PitImpl.GetSize (p.after ops) ≤ p.maxSize ∧ (p.after ops).maxSize = p.maxSize ∧
      (p.after ops).policy = p.policy := by
  induction ops with
  | nil => intro p _ _ hsize; exact ⟨hsize, rfl, rfl⟩
  | cons op rest ih =>
    intro p hpol hmax hsize
    obtain ⟨h1, h2, h3⟩ := apply_bounded p op hpol hmax hsize
    obtain ⟨i1, i2, i3⟩ := ih (op.apply p) (h3.trans hpol) (h2 ▸ hmax) (h2 ▸ h1)
    exact ⟨h2 ▸ i1, i2.trans h2, i3.trans h3⟩

/-- C27: a PIT with the persistent policy and the bound `max_size > 0` that starts empty
holds at most `max_size` entries after any sequence of `Create`, `MarkErased` and
`CleanExpired`; in such a PIT with `max_size` entries, `Create` for a name that has no
entry returns no entry and leaves the PIT as it is. -/
theorem persistent_pit_is_bounded (maxSize : Nat) (hmax : 0 < maxSize) (ops : List PitOp) :
    PitImpl.GetSize (({ maxSize := maxSize, policy := .persistent } : Pit).after ops) ≤
      maxSize ∧
    (({ maxSize := maxSize, policy := .persistent } : Pit).after ops).maxSize = maxSize ∧
    (({ maxSize := maxSize, policy := .persistent } : Pit).after ops).policy = .persistent ∧
    ∀ (fib : Fib) (now : Time) (header : InterestHeader) (n : Name),
      PitImpl.GetSize (({ maxSize := maxSize, policy := .persistent } : Pit).after ops) =
        maxSize →
      PitImpl.Lookup (({ maxSize := maxSize, policy := .persistent } : Pit).after ops) n =
        none →
      PitImpl.Create fib (({ maxSize := maxSize, policy := .persistent } : Pit).after ops)
        now header n =
        (none, ({ maxSize := maxSize, policy := .persistent } : Pit).after ops) := by
  obtain ⟨h1, h2, h3⟩ := after_bounded ops { maxSize := maxSize, policy := .persistent } rfl
    hmax (Nat.zero_le _)
  refine ⟨h1, h2, h3, ?_⟩
  intro fib now header n hfull hl
  apply create_full_persistent fib _ now header n hl h3
  · rw [h2]; exact Nat.pos_iff_ne_zero.mp hmax
  · rw [h2, hfull]

/-- Witness of C27: with `max_size = 1`, `Create` for /10/1 succeeds and the following
`Create` for /10/2 returns no entry and leaves the PIT as it is. -/
theorem persistent_pit_is_bounded_witness :
    PitImpl.Create [{ name := [10], faces := [{ face := 9 }] }]
        { maxSize := 1, policy := .persistent } 0 { name := some [10, 1] } [10, 1] =
      (some { name := [10, 1], fibEntry := [10] },
       { entries := [{ name := [10, 1], fibEntry := [10] }], maxSize := 1,
         policy := .persistent }) ∧
    PitImpl.Create [{ name := [10], faces := [{ face := 9 }] }]
        (({ maxSize := 1, policy := .persistent } : Pit).after
          [.create [{ name := [10], faces := [{ face := 9 }] }] 0 { name := some [10, 1] }
            [10, 1]])
        0 { name := some [10, 2] } [10, 2] =
      (none, ({ maxSize := 1, policy := .persistent } : Pit).after
          [.create [{ name := [10], faces := [{ face := 9 }] }] 0 { name := some [10, 1] }
            [10, 1]]) ∧
    PitImpl.GetSize (({ maxSize := 1, policy := .persistent } : Pit).after
      [.create [{ name := [10], faces := [{ face := 9 }] }] 0 { name := some [10, 1] } [10, 1],
       .create [{ name := [10], faces := [{ face := 9 }] }] 0 { name := some [10, 2] } [10, 2]])
      ≤ 1 :=
  ⟨by decide,
   (persistent_pit_is_bounded 1 (by decide)
      [.create [{ name := [10], faces := [{ face := 9 }] }] 0 { name := some [10, 1] }
        [10, 1]]).2.2.2
      [{ name := [10], faces := [{ face := 9 }] }] 0 { name := some [10, 2] } [10, 2]
      (by decide) (by decide),
   (persistent_pit_is_bounded 1 (by decide)
      [.create [{ name := [10], faces := [{ face := 9 }] }] 0 { name := some [10, 1] } [10, 1],
       .create [{ name := [10], faces := [{ face := 9 }] }] 0 { name := some [10, 2] }
         [10, 2]]).1⟩

/-! ## Claims on the nonces of PIT entries -/

theorem mem_store (p : Pit) (e x : Entry) (hx : x ∈ (p.store e).entries) :
    x = e ∨ (x ∈ p.entries ∧ x.name ≠ e.name) := by
  simp only [Pit.store, List.mem_map] at hx
  obtain ⟨y, hy, hxy⟩ := hx
  by_cases hn : y.name = e.name
  · rw [if_pos hn] at hxy; exact Or.inl hxy.symm
  · rw [if_neg hn] at hxy; exact Or.inr (hxy ▸ ⟨hy, hn⟩)

theorem stored_after (p : Pit) (e e1 : Entry) (he : e ∈ p.entries) (hn : e1.name = e.name) :
    PitImpl.Lookup (p.store e1) e.name = some e1 := by
  obtain ⟨x, hx⟩ := (lookup_isSome_iff p e1.name).mp ⟨e, he, hn.symm⟩
  rw [← hn]
  exact lookup_store p e1 x hx

theorem policyInsert_mem_old (p p' : Pit) (e x : Entry) (h : p.policyInsert e = some p')
    (hx : x ∈ p'.entries) : x = e ∨ x ∈ p.entries := by
  unfold Pit.policyInsert at h
  split at h
  · cases hpol : p.policy with
    | persistent => rw [hpol] at h; cases h
    | lru =>
      rw [hpol] at h
      simp only [Option.some.injEq] at h
      subst h
      rcases List.mem_append.mp hx with h1 | h1
      · exact Or.inr (List.mem_of_mem_tail h1)
      · exact Or.inl (List.mem_singleton.mp h1)
    | random =>
      rw [hpol] at h
      simp only [Option.some.injEq] at h
      subst h
      rcases List.mem_append.mp hx with h1 | h1
      · exact Or.inr ((List.eraseIdx_sublist _ _).subset h1)
      · exact Or.inl (List.mem_singleton.mp h1)
  · simp only [Option.some.injEq] at h
    subst h
    rcases List.mem_append.mp hx with h1 | h1
    · exact Or.inr h1
    · exact Or.inl (List.mem_singleton.mp h1)

theorem createFrom_mem (fe : Option FibEntry) (p : Pit) (now : Time) (header : InterestHeader)
    (n : Name) (x : Entry) (hx : x ∈ (PitImpl.createFrom fe p now header n).2.entries) :
    x.nonces = [] ∨ x ∈ p.entries := by
  cases fe with
  | none => exact Or.inr hx
  | some fibEntry =>
    simp only [PitImpl.createFrom, Pit.insert] at hx
    cases hl : PitImpl.Lookup p (Entry.create n header.GetInterestLifetime fibEntry.name
        now).name with
    | some old => rw [hl] at hx; exact Or.inr hx
    | none =>
      rw [hl] at hx
      dsimp only at hx
      cases hpi : p.policyInsert (Entry.create n header.GetInterestLifetime fibEntry.name
          now) with
      | none => rw [hpi] at hx; exact Or.inr hx
      | some p' =>
        rw [hpi] at hx
        rcases policyInsert_mem_old p p' _ x hpi hx with h | h
        · left; rw [h]; rfl
        · exact Or.inr h

theorem acquire_nonces (st st1 : State σ κ) (header : InterestHeader) (n : Name) (e : Entry)
    (hinv : ∀ x ∈ st.pit.entries, x.nonces.Nodup)
    (h : acquire st header n = some (e, st1)) :
    ∀ x ∈ st1.pit.entries, x.nonces.Nodup := by
  unfold acquire at h
  cases hl : PitImpl.Lookup st.pit n with
  | some old =>
    rw [hl] at h
    simp only [Option.some.injEq, Prod.mk.injEq] at h
    rw [← h.2]
    exact hinv
  | none =>
    rw [hl] at h
    dsimp only at h
    have hmem := createFrom_mem
      (if header.IsEnabledLocator && decide ((header.locator.getD []).length > 0) then
        st.fib.LongestPrefixMatchOfLocator (header.locator.getD [])
      else st.fib.LongestPrefixMatch n) st.pit st.now header n
    rw [← create_eq_createFrom] at hmem
    cases hc : PitImpl.Create st.fib st.pit st.now header n with
    | mk r pit1 =>
      rw [hc] at h hmem
      cases r with
      | none => simp at h
      | some e0 =>
        simp only [Option.some.injEq, Prod.mk.injEq, DidCreatePitEntry] at h
        rw [← h.2]
        intro x hx
        rcases hmem x hx with h0 | h0
        · rw [h0]; exact List.nodup_nil
        · exact hinv x h0

theorem addSeenNonce_nodup (e : Entry) (nonce : Nat) (h : e.nonces.Nodup) :
    (e.AddSeenNonce nonce).nonces.Nodup := by
  simp only [Entry.AddSeenNonce]
  split
  · exact h
  · rename_i hn
    exact List.nodup_append.mpr ⟨h, List.nodup_singleton _, by
      intro a ha hb
      rw [List.mem_singleton] at hb
      exact hn (hb ▸ ha)⟩

/-- What one call of `OnInterest` of the flooding strategy does to the PIT, by the way it
takes: every entry left is an old entry or the entry of the Interest with the nonces as
described. -/
theorem onInterestNamed_entries (X : Collab σ κ) (c d : Bool) (st st1 : State σ κ) (f : Face)
    (header : InterestHeader) (n : Name) (packet : Packet) (e : Entry)
    (hacq : acquire st header n = some (e, st1)) :
    (∀ x ∈ ((Flooding X c d).onInterestNamed X st f header n packet).pit.entries,
      (x ∈ st1.pit.entries ∧ x.name ≠ n) ∨
        (x.name = n ∧ x.nonces =
          if header.nonce ∈ e.nonces then e.nonces else e.nonces ++ [header.nonce])) ∧
    (header.nonce ∈ e.nonces →
      ((Flooding X c d).onInterestNamed X st f header n packet).log =
        st.log ++ [.dropInterests header f]) ∧
    (header.nonce ∉ e.nonces →
      ∃ evs, ((Flooding X c d).onInterestNamed X st f header n packet).log =
        st.log ++ .csLookup header :: evs) := by
  obtain ⟨hen, hmem, -, -, -, -, hlog1⟩ := acquire_spec st st1 header n e hacq
  by_cases hseen : header.nonce ∈ e.nonces
  · have hrun := onInterestNamed_duplicate (Flooding X c d) X st st1 f header n packet e hacq
      hseen
    refine ⟨?_, ?_, fun h => absurd hseen h⟩
    · intro x hx
      rw [hrun] at hx
      rcases mem_store _ _ _ hx with h | h
      · right
        rw [h, if_pos hseen]
        exact ⟨hen, rfl⟩
      · exact Or.inl ⟨h.1, fun hc => h.2 (hc.trans hen.symm)⟩
    · intro _
      rw [hrun]
      simp [State.trace, hlog1]
  · have hnon : (e.AddSeenNonce header.nonce).nonces = e.nonces ++ [header.nonce] := by
      simp only [Entry.AddSeenNonce]
      rw [if_neg hseen]
    cases hcs : X.csLookup st1.cs header with
    | mk r cs' =>
      cases r with
      | some hit =>
        have hrun := onInterestNamed_hit (Flooding X c d) X st st1 f header n packet e hit cs'
          hacq hseen hcs
        obtain ⟨s1, -, -, -⟩ := satisfy_state X
          { st1 with cs := cs', log := st1.log ++ [.csLookup header] }
          none hit.header hit.payload hit.packet
          ((e.AddSeenNonce header.nonce).AddIncoming f)
        obtain ⟨oks, -, hlog, -, -⟩ := satisfy_log_of_run X
          { st1 with cs := cs', log := st1.log ++ [.csLookup header] }
          none hit.header hit.payload hit.packet
          ((e.AddSeenNonce header.nonce).AddIncoming f)
          ((e.AddSeenNonce header.nonce).AddIncoming f).incoming rfl
        refine ⟨?_, fun h => absurd h hseen, fun _ =>
          ⟨satisfyEvents none hit.header hit.payload hit.packet
            ((e.AddSeenNonce header.nonce).AddIncoming f).incoming oks, ?_⟩⟩
        · intro x hx
          rw [hrun, s1] at hx
          obtain ⟨h1, h2⟩ := List.mem_filter.mp hx
          simp only [decide_eq_true_eq] at h2
          exact Or.inl ⟨h1, fun hc => h2 (hc.trans hen.symm)⟩
        · rw [hrun, hlog, hlog1]
          simp only [List.append_assoc, List.singleton_append]
      | none =>
        cases hsup : (Flooding X c d).ShouldSuppressIncomingInterest f
            (e.AddSeenNonce header.nonce) with
        | true =>
          have hrun := onInterestNamed_suppress (Flooding X c d) X st st1 f header n packet e
            cs' hacq hseen hcs hsup
          refine ⟨?_, fun h => absurd h hseen, fun _ => ⟨[.dropInterests header f], ?_⟩⟩
          · intro x hx
            rw [hrun] at hx
            rcases mem_store _ _ _ hx with h | h
            · right
              rw [h, if_neg hseen]
              exact ⟨hen, hnon⟩
            · exact Or.inl ⟨h.1, fun hc => h.2 (hc.trans hen.symm)⟩
          · rw [hrun, hlog1]
        | false =>
          have hrun := onInterestNamed_propagate (Flooding X c d) X st st1 f header n packet e
            cs' hacq hseen hcs hsup
          obtain ⟨ppit, plog, -, -, -⟩ := propagate_state X c d
            { st1 with cs := cs', log := st1.log ++ [.csLookup header] } f header packet
            (e.AddSeenNonce header.nonce)
          obtain ⟨a1, -, -, -, aname, -, anon, -, evs, alog, -⟩ := attempts_spec X c d
            { st1 with cs := cs', log := st1.log ++ [.csLookup header] } f header packet
            (e.AddSeenNonce header.nonce) _ rfl
          refine ⟨?_, fun h => absurd h hseen, fun _ => ⟨evs ++
            (if ((Flooding X c d).propagateAttempts
                  { st1 with cs := cs', log := st1.log ++ [.csLookup header] } f header packet
                  (e.AddSeenNonce header.nonce)).ok = false ∧
                ((Flooding X c d).propagateAttempts
                  { st1 with cs := cs', log := st1.log ++ [.csLookup header] } f header packet
                  (e.AddSeenNonce header.nonce)).entry.outgoing = [] then
              [.dropInterests ((Flooding X c d).propagateAttempts
                  { st1 with cs := cs', log := st1.log ++ [.csLookup header] } f header packet
                  (e.AddSeenNonce header.nonce)).header f]
            else []), ?_⟩⟩
          · intro x hx
            rw [hrun, ppit, a1] at hx
            rcases mem_store _ _ _ hx with h | h
            · right
              rw [h, if_neg hseen, aname, anon]
              exact ⟨hen, hnon⟩
            · exact Or.inl ⟨h.1, fun hc => h.2 (hc.trans (aname.trans hen).symm)⟩
          · rw [hrun, plog, alog, hlog1]
            simp only [List.append_assoc, List.singleton_append, List.cons_append,
              List.nil_append]

theorem onInterest_step_nonces (X : Collab σ κ) (c d : Bool) (st st' : State σ κ) (f : Face)
    (header : InterestHeader) (packet : Packet)
    (hinv : ∀ x ∈ st.pit.entries, x.nonces.Nodup)
    (hrun : (Flooding X c d).OnInterest X st f header packet = .ok st') :
    ∀ x ∈ st'.pit.entries, x.nonces.Nodup := by
  cases hname : header.name with
  | none =>
    have : (Flooding X c d).OnInterest X st f header packet =
        .error (.mk, st.trace (.inInterests header f)) := by
      simp [OnInterest, InterestHeader.GetName, hname]
    rw [this] at hrun
    cases hrun
  | some n =>
    rw [onInterest_named _ X st f header n packet hname] at hrun
    have hst : (Flooding X c d).onInterestNamed X (st.trace (.inInterests header f)) f header n
        packet = st' := by
      injection hrun
    subst hst
    cases hacq : acquire (st.trace (.inInterests header f)) header n with
    | none =>
      rw [onInterestNamed_failed _ X _ f header n packet hacq]
      exact hinv
    | some r =>
      obtain ⟨e, st1⟩ := r
      have hold := acquire_nonces (st.trace (.inInterests header f)) st1 header n e hinv hacq
      obtain ⟨-, hmem, -⟩ := acquire_spec _ st1 header n e hacq
      obtain ⟨hent, -, -⟩ := onInterestNamed_entries X c d _ st1 f header n packet e hacq
      intro x hx
      rcases hent x hx with h | ⟨-, h⟩
      · exact hold x h.1
      · rw [h]
        split
        · exact hold e hmem
        · rename_i hn
          exact List.nodup_append.mpr ⟨hold e hmem, List.nodup_singleton _, by
            intro a ha hb
            rw [List.mem_singleton] at hb
            exact hn (hb ▸ ha)⟩

/-- C30: in every state reached from an empty PIT through `OnInterest` calls of the
flooding strategy, no PIT entry has a nonce twice.  For the entry of an arriving Interest
(found or created): when the nonce is among its nonces the Interest is treated as a
duplicate (`drop_interests` right after `in_interests`) and the nonces stay as they are;
when it is not, the handler goes on to the content store and the nonce is added once, at
the end of the nonces of the entry kept under the name. -/
theorem nonces_seen_has_no_duplicates (X : Collab σ κ) (c d : Bool) (st : State σ κ)
    (hreach : (Flooding X c d).ReachedByInterests X st) :
    (∀ x ∈ st.pit.entries, x.nonces.Nodup) ∧
    ∀ (face_in : Face) (header : InterestHeader) (n : Name) (packet : Packet) (e : Entry)
      (st1 : State σ κ),
      header.name = some n → acquire st header n = some (e, st1) →
      ∃ st' : State σ κ,
        (Flooding X c d).OnInterest X st face_in header packet = .ok st' ∧
        (∀ e', PitImpl.Lookup st'.pit n = some e' →
          e'.nonces = if header.nonce ∈ e.nonces then e.nonces
            else e.nonces ++ [header.nonce]) ∧
        (header.nonce ∈ e.nonces →
          st'.log = st.log ++ [.inInterests header face_in, .dropInterests header face_in]) ∧
        (header.nonce ∉ e.nonces →
          ∃ evs, st'.log = st.log ++ .inInterests header face_in :: .csLookup header :: evs) := by
  refine ⟨?_, ?_⟩
  · induction hreach with
    | start st hpit =>
      intro x hx
      rw [hpit] at hx
      cases hx
    | onInterest st st' f header packet _ hrun ih =>
      exact onInterest_step_nonces X c d st st' f header packet ih hrun
    | later st t _ ih => exact ih
  · intro face_in header n packet e st1 hname hacq
    have hacq' := acquire_trace st header n (.inInterests header face_in)
    rw [hacq] at hacq'
    simp only [Option.map_some'] at hacq'
    obtain ⟨hen, hmem, -⟩ := acquire_spec st st1 header n e hacq
    obtain ⟨hent, hdup, hnew⟩ := onInterestNamed_entries X c d
      (st.trace (.inInterests header face_in)) (st1.trace (.inInterests header face_in))
      face_in header n packet e hacq'
    refine ⟨_, onInterest_named _ X st face_in header n packet hname, ?_, ?_, ?_⟩
    · intro e' hlk
      have hmem' := lookup_mem _ _ _ hlk
      have hname' := lookup_name _ _ _ hlk
      rcases hent e' hmem' with h | ⟨-, h⟩
      · exact absurd hname' h.2
      · exact h
    · intro hseen
      rw [hdup hseen]
      simp [State.trace]
    · intro hfresh
      obtain ⟨evs, hlog⟩ := hnew hfresh
      refine ⟨evs, ?_⟩
      rw [hlog]
      simp [State.trace]

/-- Witness of C30: from an empty PIT, an Interest for /10/1 with nonce 7 arrives on face 1
and the same Interest arrives again on face 2; the entry holds the nonce once. -/
theorem nonces_seen_has_no_duplicates_witness :
    ∃ st1 st2 : State (List Face) (List CsHit),
      (Flooding simpleCollab false true).OnInterest simpleCollab
        { faces := [], fib := [{ name := [10], faces := [{ face := 9 }] }], pit := {}, cs := [],
          now := 0 }
        1 { name := some [10, 1], nonce := 7, interestLifetime := 4 } {} = .ok st1 ∧
      (Flooding simpleCollab false true).OnInterest simpleCollab st1
        2 { name := some [10, 1], nonce := 7, interestLifetime := 4 } {} = .ok st2 ∧
      (st2.pit.entries.map Entry.nonces) = [[7]] ∧
      ∀ x ∈ st2.pit.entries, x.nonces.Nodup :=
  ⟨_, _, rfl, rfl, by decide,
    (nonces_seen_has_no_duplicates simpleCollab false true _
      (.onInterest _ _ 2 { name := some [10, 1], nonce := 7, interestLifetime := 4 } {}
        (.onInterest
          { faces := [], fib := [{ name := [10], faces := [{ face := 9 }] }], pit := {},
            cs := [], now := 0 }
          _ 1 { name := some [10, 1], nonce := 7, interestLifetime := 4 } {}
          (.start _ rfl) rfl) rfl)).1⟩

/-! ## Claims on the effects of forwarding an Interest -/

theorem find_map_face (l : List OutgoingFace) (f : Face) (g : OutgoingFace → OutgoingFace)
    (hg : ∀ o, (g o).face = o.face) :
    (l.map g).find? (fun o => o.face = f) = (l.find? (fun o => o.face = f)).map g := by
  induction l with
  | nil => rfl
  | cons a rest ih =>
    simp only [List.map_cons, List.find?_cons, hg]
    by_cases ha : a.face = f
    · simp [ha]
    · simp [ha, ih]

theorem addOutgoing_outgoing (e : Entry) (f : Face) (now : Time) :
    (e.findOutgoing f = none →
      (e.AddOutgoing f now).outgoing =
        e.outgoing ++ [{ face := f, sendTime := now, retxCount := 0 }]) ∧
    (∀ o, e.findOutgoing f = some o →
      (e.AddOutgoing f now).findOutgoing f =
        some { o with sendTime := now, retxCount := (o.retxCount + 1) % 2 ^ 32 } ∧
      (e.AddOutgoing f now).outgoing.map (fun r => r.face) =
        e.outgoing.map (fun r => r.face)) ∧
    (∀ g, g ≠ f →
      (e.AddOutgoing f now).outgoing.filter (fun r => r.face = g) =
        e.outgoing.filter (fun r => r.face = g)) := by
  refine ⟨?_, ?_, ?_⟩
  · intro h
    simp only [Entry.AddOutgoing, h]
  · intro o h
    have hface : ∀ r : OutgoingFace,
        (if r.face = f then
          ({ r with sendTime := now, retxCount := (r.retxCount + 1) % 2 ^ 32 } : OutgoingFace)
        else r).face = r.face := by
      intro r; split <;> rfl
    have hof : o.face = f := by
      have := List.find?_some h
      simpa using this
    have hadd : (e.AddOutgoing f now).outgoing = e.outgoing.map (fun r =>
        if r.face = f then
          ({ r with sendTime := now, retxCount := (r.retxCount + 1) % 2 ^ 32 } : OutgoingFace)
        else r) := by
      simp only [Entry.AddOutgoing, h]
    refine ⟨?_, ?_⟩
    · unfold Entry.findOutgoing at h ⊢
      rw [hadd, find_map_face _ _ _ hface, h]
      simp [hof]
    · rw [hadd, List.map_map]
      apply List.map_congr_left
      intro r _
      exact hface r
  · intro g hg
    unfold Entry.AddOutgoing
    cases h : e.findOutgoing f with
    | none =>
      have hgf : ¬ f = g := fun hc => hg hc.symm
      simp [List.filter_append, List.filter_cons, hgf]
    | some o =>
      dsimp only
      rw [List.filter_map]
      have : e.outgoing.filter ((fun r => decide (r.face = g)) ∘ fun o =>
          if o.face = f then
            ({ o with sendTime := now, retxCount := (o.retxCount + 1) % 2 ^ 32 } : OutgoingFace)
          else o) = e.outgoing.filter (fun r => decide (r.face = g)) := by
        apply List.filter_congr
        intro r _
        simp only [Function.comp]
        split <;> rfl
      rw [this]
      have hid : ∀ r ∈ e.outgoing.filter (fun r => decide (r.face = g)),
          (if r.face = f then
            ({ r with sendTime := now, retxCount := (r.retxCount + 1) % 2 ^ 32 } : OutgoingFace)
          else r) = id r := by
        intro r hr
        have hrg : r.face = g := by simpa using (List.mem_filter.mp hr).2
        have : ¬ r.face = f := fun hc => hg (hrg.symm.trans hc)
        rw [if_neg this]; rfl
      rw [List.map_congr_left hid, List.map_id]

/-- C33: `WillSendOutInterest` leaves the PIT entry as it is when it rejects.  When it
accepts, the outgoing set gets a new record for `face_out` (sent now, no retransmission)
if it had none, and otherwise the record of `face_out` gets its retransmission count
increased by one (a `u32`; no wrap-around for a bound below 2^32) and its send time
refreshed; the records of every other face, the incoming set, the nonces and
`max_retx_allowed` are unchanged. -/
theorem willSendOutInterest_changes_entry_only_on_accept (X : Collab σ κ) (st : State σ κ)
    (face_out : Face) (e : Entry) :
    ((WillSendOutInterest X st face_out e).1 = false →
      (WillSendOutInterest X st face_out e).2.2 = e) ∧
    ((WillSendOutInterest X st face_out e).1 = true →
      (WillSendOutInterest X st face_out e).2.2.incoming = e.incoming ∧
      (WillSendOutInterest X st face_out e).2.2.nonces = e.nonces ∧
      (WillSendOutInterest X st face_out e).2.2.maxRetxCount = e.maxRetxCount ∧
      (WillSendOutInterest X st face_out e).2.2.name = e.name ∧
      (WillSendOutInterest X st face_out e).2.2.expireTime = e.expireTime ∧
      (e.findOutgoing face_out = none →
        (WillSendOutInterest X st face_out e).2.2.outgoing =
          e.outgoing ++ [{ face := face_out, sendTime := st.now, retxCount := 0 }]) ∧
      (∀ o, e.findOutgoing face_out = some o →
        o.retxCount < e.maxRetxCount ∧
        (WillSendOutInterest X st face_out e).2.2.findOutgoing face_out =
          some { o with sendTime := st.now, retxCount := (o.retxCount + 1) % 2 ^ 32 } ∧
        (e.maxRetxCount < 2 ^ 32 → (o.retxCount + 1) % 2 ^ 32 = o.retxCount + 1) ∧
        (WillSendOutInterest X st face_out e).2.2.outgoing.map (fun r => r.face) =
          e.outgoing.map (fun r => r.face)) ∧
      (∀ g, g ≠ face_out →
        (WillSendOutInterest X st face_out e).2.2.outgoing.filter (fun r => r.face = g) =
          e.outgoing.filter (fun r => r.face = g))) := by
  obtain ⟨-, -, -, -, -, hrej, hacc⟩ := willSend_spec X st face_out e
  refine ⟨hrej, ?_⟩
  intro h
  obtain ⟨a1, a2, a3, a4, a5, a6, -⟩ := addOutgoing_frame e face_out st.now
  obtain ⟨o1, o2, o3⟩ := addOutgoing_outgoing e face_out st.now
  rw [hacc h]
  refine ⟨a3, a4, a6, a1, a5, o1, ?_, o3⟩
  intro o ho
  have hlt : o.retxCount < e.maxRetxCount := by
    by_contra hge
    have hge' : o.retxCount ≥ e.maxRetxCount := Nat.le_of_not_lt hge
    have : (WillSendOutInterest X st face_out e).1 = false := by
      simp [WillSendOutInterest, ho, hge']
    rw [this] at h
    cases h
  refine ⟨hlt, (o2 o ho).1, ?_, (o2 o ho).2⟩
  intro hmax
  exact Nat.mod_eq_of_lt (by omega)

/-- The log of `WillSendOutInterest` holds one accepting query exactly when it accepts. -/
theorem willSend_accepted (X : Collab σ κ) (st : State σ κ) (f : Face) (e : Entry) :
    ∃ evs, (WillSendOutInterest X st f e).2.1.log = st.log ++ evs ∧
      evs.countP Event.isAccepted = (if (WillSendOutInterest X st f e).1 = true then 1 else 0) ∧
      evs.countP Event.isSend = 0 ∧ evs.countP Event.isOutInterests = 0 := by
  unfold WillSendOutInterest
  split
  · split
    · exact ⟨[], by simp, by simp, rfl, rfl⟩
    · dsimp only
      generalize X.isBelowLimit st.faces f = r
      obtain ⟨b, s⟩ := r
      cases b
      · exact ⟨[.isBelowLimit f false], rfl, rfl, rfl, rfl⟩
      · exact ⟨[.isBelowLimit f true], rfl, rfl, rfl, rfl⟩
  · dsimp only
    generalize X.isBelowLimit st.faces f = r
    obtain ⟨b, s⟩ := r
    cases b
    · exact ⟨[.isBelowLimit f false], rfl, rfl, rfl, rfl⟩
    · exact ⟨[.isBelowLimit f true], rfl, rfl, rfl, rfl⟩

theorem floodFaces_counts (X : Collab σ κ) (inc : Face) (packet : Packet)
    (faces : List FaceMetric) :
    ∀ (st : State σ κ) (header : InterestHeader) (e : Entry) (cnt : Nat),
      ∃ evs, (Flooding.floodFaces X inc packet faces st header e cnt).1.log = st.log ++ evs ∧
        evs.countP Event.isAccepted + cnt =
          (Flooding.floodFaces X inc packet faces st header e cnt).2.2.2 ∧
        evs.countP Event.isSend + cnt =
          (Flooding.floodFaces X inc packet faces st header e cnt).2.2.2 ∧
        evs.countP Event.isOutInterests + cnt =
          (Flooding.floodFaces X inc packet faces st header e cnt).2.2.2 := by
  induction faces with
  | nil =>
    intro st header e cnt
    exact ⟨[], by simp [Flooding.floodFaces], by simp [Flooding.floodFaces],
      by simp [Flooding.floodFaces], by simp [Flooding.floodFaces]⟩
  | cons m rest ih =>
    intro st header e cnt
    simp only [Flooding.floodFaces]
    by_cases hred : m.status = .red
    · simp only [hred, if_true]
      exact ⟨[], by simp, by simp, by simp, by simp⟩
    · simp only [hred, if_false]
      by_cases hinc : m.face = inc
      · simp only [hinc, if_true]
        exact ih st header e cnt
      · simp only [hinc, if_false]
        obtain ⟨wevs, wlog, wacc, wsend, wout⟩ := willSend_accepted X st m.face e
        cases hw : (WillSendOutInterest X st m.face e).1
        · simp only [Bool.not_false, if_true]
          rw [hw] at wacc
          obtain ⟨evs, hlog, h1, h2, h3⟩ := ih (WillSendOutInterest X st m.face e).2.1 header
            (WillSendOutInterest X st m.face e).2.2 cnt
          refine ⟨wevs ++ evs, by rw [hlog, wlog, List.append_assoc], ?_, ?_, ?_⟩
          · rw [List.countP_append, wacc]; simpa using h1
          · rw [List.countP_append, wsend]; simpa using h2
          · rw [List.countP_append, wout]; simpa using h3
        · simp only [Bool.not_true, Bool.false_eq_true, if_false]
          rw [hw] at wacc
          generalize (if header.agent = 1 then ({ header with agent := 2 } : InterestHeader)
            else header) = h'
          generalize (if header.agent = 1 then ({} : Packet).AddHeader (.interest h')
            else packet.Copy) = pk
          obtain ⟨evs, hlog, h1, h2, h3⟩ := ih
            (DidSendOutInterest (faceSend X (WillSendOutInterest X st m.face e).2.1 m.face pk).2
              m.face h')
            h' (WillSendOutInterest X st m.face e).2.2 (cnt + 1)
          refine ⟨wevs ++ (Event.send m.face pk
                (X.send (WillSendOutInterest X st m.face e).2.1.faces m.face pk).1 ::
              Event.outInterests h' m.face :: evs), ?_, ?_, ?_, ?_⟩
          · rw [hlog]
            simp only [DidSendOutInterest, State.trace, faceSend, wlog, List.append_assoc,
              List.singleton_append, List.cons_append, List.nil_append]
          · rw [← h1, List.countP_append, wacc]
            simp [List.countP_cons, Event.isAccepted]
            omega
          · rw [← h2, List.countP_append, wsend]
            simp [List.countP_cons, Event.isSend]
            omega
          · rw [← h3, List.countP_append, wout]
            simp [List.countP_cons, Event.isOutInterests]
            omega

/-- C34: `Flooding::DoPropagateInterest` returns true exactly when it called `Send` at
least once; the `out_interests` traces it fires, the `Send` calls it makes and the faces
that `WillSendOutInterest` accepted (one accepting limit query each) are equal in
number. -/
theorem flooding_returns_true_iff_it_sent (X : Collab σ κ) (st : State σ κ) (face_in : Face)
    (header : InterestHeader) (packet : Packet) (pitEntry : Entry) :
    ∃ evs,
      (Flooding.DoPropagateInterest X st face_in header packet pitEntry).st.log =
        st.log ++ evs ∧
      ((Flooding.DoPropagateInterest X st face_in header packet pitEntry).ok = true ↔
        0 < evs.countP Event.isSend) ∧
      evs.countP Event.isOutInterests = evs.countP Event.isSend ∧
      evs.countP Event.isSend = evs.countP Event.isAccepted ∧
      (∀ (st1 : State σ κ) (g : Face) (e : Entry), ∃ wevs,
        (WillSendOutInterest X st1 g e).2.1.log = st1.log ++ wevs ∧
        wevs.countP Event.isAccepted =
          (if (WillSendOutInterest X st1 g e).1 = true then 1 else 0)) := by
  obtain ⟨evs, hlog, h1, h2, h3⟩ := floodFaces_counts X face_in packet
    (Flooding.facesOf st.fib pitEntry) st header pitEntry 0
  refine ⟨evs, ?_, ?_, ?_, ?_, ?_⟩
  · rw [doPropagate_eq]; exact hlog
  · rw [doPropagate_eq]
    simp only [decide_eq_true_eq]
    rw [← h2]
    simp
  · omega
  · omega
  · intro st1 g e
    obtain ⟨wevs, wlog, wacc, -, -⟩ := willSend_accepted X st1 g e
    exact ⟨wevs, wlog, wacc⟩

/-! ## Claims on `Create` for a name that is stored -/

theorem find_append_new (l : List Entry) (e : Entry)
    (hl : ∀ x ∈ l, x.name ≠ e.name) :
    (l ++ [e]).find? (fun x => x.name = e.name) = some e := by
  rw [List.find?_append]
  have : l.find? (fun x => decide (x.name = e.name)) = none := by
    rw [List.find?_eq_none]
    intro x hx
    simpa using hl x hx
  rw [this]
  simp

theorem policyInsert_lookup (p p' : Pit) (e : Entry) (hl : PitImpl.Lookup p e.name = none)
    (h : p.policyInsert e = some p') : PitImpl.Lookup p' e.name = some e := by
  have hne : ∀ x ∈ p.entries, x.name ≠ e.name := by
    intro x hx hn
    have := (lookup_isSome_iff p e.name).mp ⟨x, hx, hn⟩
    rw [hl] at this
    obtain ⟨y, hy⟩ := this
    cases hy
  unfold Pit.policyInsert at h
  unfold PitImpl.Lookup
  split at h
  · cases hpol : p.policy with
    | persistent => rw [hpol] at h; cases h
    | lru =>
      rw [hpol] at h
      simp only [Option.some.injEq] at h
      subst h
      exact find_append_new _ e (fun x hx => hne x (List.mem_of_mem_tail hx))
    | random =>
      rw [hpol] at h
      simp only [Option.some.injEq] at h
      subst h
      exact find_append_new _ e
        (fun x hx => hne x ((List.eraseIdx_sublist _ _).subset hx))
  · simp only [Option.some.injEq] at h
    subst h
    exact find_append_new _ e hne

theorem createFrom_existing (fe : FibEntry) (p : Pit) (now : Time) (header : InterestHeader)
    (n : Name) (old : Entry) (hl : PitImpl.Lookup p n = some old) :
    PitImpl.createFrom (some fe) p now header n = (some old, p) := by
  have hn : (Entry.create n header.GetInterestLifetime fe.name now).name = n := rfl
  simp only [PitImpl.createFrom, Pit.insert, hn, hl]

theorem createFrom_lookup (fe : Option FibEntry) (p p' : Pit) (now : Time)
    (header : InterestHeader) (n : Name) (e : Entry)
    (h : PitImpl.createFrom fe p now header n = (some e, p')) :
    PitImpl.Lookup p' n = some e ∧ ∃ fibEntry, fe = some fibEntry := by
  cases fe with
  | none => simp [PitImpl.createFrom] at h
  | some fibEntry =>
    refine ⟨?_, fibEntry, rfl⟩
    have hn : (Entry.create n header.GetInterestLifetime fibEntry.name now).name = n := rfl
    cases hl : PitImpl.Lookup p n with
    | some old =>
      rw [createFrom_existing fibEntry p now header n old hl] at h
      simp only [Prod.mk.injEq, Option.some.injEq] at h
      rw [← h.1, ← h.2]
      exact hl
    | none =>
      simp only [PitImpl.createFrom, Pit.insert, hn, hl] at h
      cases hpi : p.policyInsert (Entry.create n header.GetInterestLifetime fibEntry.name
          now) with
      | none => rw [hpi] at h; simp at h
      | some p1 =>
        rw [hpi] at h
        simp only [Prod.mk.injEq, Option.some.injEq] at h
        have := policyInsert_lookup p p1 _ (hn ▸ hl) hpi
        rw [hn, h.1, h.2] at this
        exact this

/-- C35: when an entry is stored under the name of the Interest and the FIB has a match,
`Create` returns the stored entry itself, with all its fields, and the PIT is unchanged.
After a `Create` that returned an entry, another `Create` for the same Interest, at any
time, returns the same entry and leaves the PIT as the first one left it. -/
theorem create_is_idempotent_on_the_name (fib : Fib) (p : Pit) (now : Time)
    (header : InterestHeader) (n : Name) :
    (∀ old fibEntry, PitImpl.Lookup p n = some old →
      (if header.IsEnabledLocator && decide ((header.locator.getD []).length > 0) then
        fib.LongestPrefixMatchOfLocator (header.locator.getD [])
      else fib.LongestPrefixMatch n) = some fibEntry →
      PitImpl.Create fib p now header n = (some old, p) ∧
      PitImpl.GetSize (PitImpl.Create fib p now header n).2 = PitImpl.GetSize p) ∧
    (∀ e p' now', PitImpl.Create fib p now header n = (some e, p') →
      PitImpl.Lookup p' n = some e ∧
      PitImpl.Create fib p' now' header n = (some e, p')) := by
  refine ⟨?_, ?_⟩
  · intro old fibEntry hl hfib
    have : PitImpl.Create fib p now header n = (some old, p) := by
      rw [create_eq_createFrom, hfib]
      exact createFrom_existing fibEntry p now header n old hl
    exact ⟨this, by rw [this]⟩
  · intro e p' now' h
    rw [create_eq_createFrom] at h
    obtain ⟨hlk, fibEntry, hfib⟩ := createFrom_lookup _ p p' now header n e h
    refine ⟨hlk, ?_⟩
    rw [create_eq_createFrom, hfib]
    exact createFrom_existing fibEntry p' now' header n e hlk

/-- Witness of C35: the PIT holds an entry for /10/1 with face 1 incoming, face 9 outgoing
and nonce 7; `Create` for /10/1 returns it and leaves the PIT as it is. -/
theorem create_is_idempotent_on_the_name_witness :
    PitImpl.Create [{ name := [10], faces := [{ face := 9 }] }]
        { entries := [{ name := [10, 1], fibEntry := [10], incoming := [1],
                        outgoing := [{ face := 9, sendTime := 0, retxCount := 0 }],
                        nonces := [7], expireTime := 4 }] }
        3 { name := some [10, 1], nonce := 8, interestLifetime := 4 } [10, 1] =
      (some { name := [10, 1], fibEntry := [10], incoming := [1],
              outgoing := [{ face := 9, sendTime := 0, retxCount := 0 }],
              nonces := [7], expireTime := 4 },
       { entries := [{ name := [10, 1], fibEntry := [10], incoming := [1],
                       outgoing := [{ face := 9, sendTime := 0, retxCount := 0 }],
                       nonces := [7], expireTime := 4 }] }) :=
  ((create_is_idempotent_on_the_name [{ name := [10], faces := [{ face := 9 }] }]
      { entries := [{ name := [10, 1], fibEntry := [10], incoming := [1],
                      outgoing := [{ face := 9, sendTime := 0, retxCount := 0 }],
                      nonces := [7], expireTime := 4 }] }
      3 { name := some [10, 1], nonce := 8, interestLifetime := 4 } [10, 1]).1
    _ { name := [10], faces := [{ face := 9 }] } rfl rfl).1

/-! ## Claims on the faces that are sent Data -/

theorem satisfy_sends (X : Collab σ κ) (st : State σ κ) (inc : Option Face)
    (header : ContentObjectHeader) (payload packet : Packet) (e : Entry) (g : Face) :
    sendsOn g (SatisfyPendingInterest X st inc header payload packet e).1.log =
      sendsOn g st.log +
        (match inc with
          | some f => (e.RemoveIncoming f).incoming.count g
          | none => e.incoming.count g) := by
  cases inc with
  | none =>
    obtain ⟨oks, hlen, hlog, -, -⟩ := satisfy_log_of_run X st none header payload packet e
      e.incoming rfl
    rw [hlog]
    simp only [sendsOn, List.countP_append]
    have := sendsOn_satisfyEvents none header payload packet g e.incoming oks hlen
    simp only [sendsOn] at this
    rw [this]
  | some f =>
    obtain ⟨oks, hlen, hlog, -, -⟩ := satisfy_log_of_run X st (some f) header payload packet e
      (e.RemoveIncoming f).incoming rfl
    rw [hlog]
    simp only [sendsOn, List.countP_append]
    have := sendsOn_satisfyEvents (some f) header payload packet g (e.RemoveIncoming f).incoming
      oks hlen
    simp only [sendsOn] at this
    rw [this]

theorem removeIncoming_count (e : Entry) (f : Face) :
    (e.RemoveIncoming f).incoming.count f = 0 := by
  apply List.count_eq_zero_of_not_mem
  intro h
  simp [Entry.RemoveIncoming] at h

theorem satisfyAll_arrival (X : Collab σ κ) (f : Face) (header : ContentObjectHeader)
    (payload packet : Packet) (fuel : Nat) :
    ∀ (st st' : State σ κ) (oe : Option Entry),
      satisfyAll X f header payload packet fuel st oe = some st' →
      sendsOn f st'.log = sendsOn f st.log := by
  induction fuel with
  | zero =>
    intro st st' oe h
    cases oe with
    | none =>
      simp only [satisfyAll, Option.some.injEq] at h
      rw [h]
    | some e => simp [satisfyAll] at h
  | succ k ih =>
    intro st st' oe h
    cases oe with
    | none =>
      simp only [satisfyAll, Option.some.injEq] at h
      rw [h]
    | some e =>
      simp only [satisfyAll] at h
      have := ih _ _ _ h
      rw [this]
      show sendsOn f (SatisfyPendingInterest X (WillSatisfyPendingInterest st (some f) e)
        (some f) header payload packet e).1.log = _
      rw [satisfy_sends, (willSatisfy_frame st (some f) e).2.2.1]
      simp only [removeIncoming_count, Nat.add_zero]

/-- C36: `OnData` for Data that arrived on `face_in` returns and calls `Send` on `face_in`
not once, also when `face_in` is in the incoming set of a matched entry:
`SatisfyPendingInterest` with a non-null arrival face sends once per incoming face other
than that face.  With the null arrival face of the content store hit of `OnInterest` it
sends once per incoming face, and the face that asked is among them. -/
theorem onData_never_sends_to_arrival_face (S : ForwardingStrategy σ κ) (X : Collab σ κ)
    (st : State σ κ) (face_in : Face) (header : ContentObjectHeader)
    (payload packet : Packet) :
    (∃ st' : State σ κ, S.OnData X st face_in header payload packet = some st' ∧
      sendsOn face_in st'.log = sendsOn face_in st.log) ∧
    (∀ (e : Entry) (g : Face),
      sendsOn g (SatisfyPendingInterest X st (some face_in) header payload packet e).1.log =
        sendsOn g st.log + (if g = face_in then 0 else e.incoming.count g)) ∧
    (∀ (e : Entry) (g : Face),
      sendsOn g (SatisfyPendingInterest X st none header payload packet e).1.log =
        sendsOn g st.log + e.incoming.count g) ∧
    (∀ (interest : InterestHeader) (n : Name) (packet' : Packet) (e : Entry)
        (st1 : State σ κ) (hit : CsHit) (cs' : κ),
      interest.name = some n → acquire st interest n = some (e, st1) →
      interest.nonce ∉ e.nonces → X.csLookup st.cs interest = (some hit, cs') →
      ∃ st' : State σ κ, S.OnInterest X st face_in interest packet' = .ok st' ∧
        sendsOn face_in st'.log =
          sendsOn face_in st.log + (e.AddIncoming face_in).incoming.count face_in ∧
        0 < (e.AddIncoming face_in).incoming.count face_in) := by
  refine ⟨?_, ?_, ?_, ?_⟩
  · obtain ⟨st', hrun⟩ := onData_returns S X st face_in header payload packet
    refine ⟨st', hrun, ?_⟩
    cases hlk : (PitImpl.LookupContent st.pit header.name).1 with
    | none =>
      simp only [OnData, State.trace, hlk, Option.some.injEq] at hrun
      rw [← hrun]
      unfold DidReceiveUnsolicitedData
      split <;> simp [sendsOn, State.trace, List.countP_append, Event.isSendOn]
    | some e =>
      simp only [OnData, State.trace, hlk] at hrun
      rw [satisfyAll_arrival X face_in header payload packet _ _ _ _ hrun]
      simp [sendsOn, List.countP_append, Event.isSendOn]
  · intro e g
    rw [satisfy_sends]
    by_cases hg : g = face_in
    · subst hg
      simp [removeIncoming_count]
    · simp only [if_neg hg, Entry.RemoveIncoming]
      congr 1
      rw [List.count_filter]
      simpa using hg
  · intro e g
    rw [satisfy_sends]
  · intro interest n packet' e st1 hit cs' hname hacq hfresh hhit
    obtain ⟨-, -, -, -, hcs, -, hlog1⟩ := acquire_spec st st1 interest n e hacq
    have hacq' := acquire_trace st interest n (.inInterests interest face_in)
    rw [hacq] at hacq'
    simp only [Option.map_some'] at hacq'
    have hhit' : X.csLookup (st1.trace (.inInterests interest face_in)).cs interest =
        (some hit, cs') := by
      simpa [State.trace, hcs] using hhit
    have hrun := onInterestNamed_hit S X _ _ face_in interest n packet' e hit cs' hacq' hfresh
      hhit'
    have hpos : 0 < (e.AddIncoming face_in).incoming.count face_in := by
      apply List.count_pos_iff.mpr
      simp only [Entry.AddIncoming]
      split <;> simp [*]
    refine ⟨_, onInterest_named S X st face_in interest n packet' hname, ?_, hpos⟩
    rw [hrun, satisfy_sends]
    simp [sendsOn, State.trace, List.countP_append, Event.isSendOn, hlog1, Entry.AddIncoming,
      Entry.AddSeenNonce]

/-- Witness of C36: the entry for /10/1 has faces 1 and 9 incoming; the Data arrives on
face 9 and is sent to face 1 only. -/
theorem onData_never_sends_to_arrival_face_witness :
    ∃ st' : State (List Face) (List CsHit),
      (Flooding simpleCollab false true).OnData simpleCollab
        { faces := [], fib := [{ name := [10], faces := [{ face := 9 }] }],
          pit := { entries := [{ name := [10, 1], fibEntry := [10], incoming := [1, 9],
                                 nonces := [7] }] },
          cs := [], now := 0 }
        9 { name := [10, 1] } { size := 5 } { size := 5 } = some st' ∧
      sendsOn 9 st'.log = 0 ∧ sendsOn 1 st'.log = 1 := by
  obtain ⟨st', hrun, hsend⟩ := (onData_never_sends_to_arrival_face
    (Flooding simpleCollab false true) simpleCollab
    { faces := [], fib := [{ name := [10], faces := [{ face := 9 }] }],
      pit := { entries := [{ name := [10, 1], fibEntry := [10], incoming := [1, 9],
                             nonces := [7] }] },
      cs := [], now := 0 }
    9 { name := [10, 1] } { size := 5 } { size := 5 }).1
  refine ⟨st', hrun, hsend, ?_⟩
  have hst : some st' = some _ := hrun.symm.trans rfl
  rw [Option.some.inj hst]
  decide

/-! ## Claims on the traces of `OnInterest` -/

theorem countP_zero_of (q : Event → Bool) (evs : List Event) (h : ∀ ev ∈ evs, q ev = false) :
    evs.countP q = 0 := by
  rw [List.countP_eq_zero]
  intro ev hev
  rw [h ev hev]
  simp

theorem countP_flood_in (evs : List Event) (hev : ∀ ev ∈ evs, ev.isFloodStep = true) :
    evs.countP Event.isInInterests = 0 :=
  countP_eq_zero_of_flood _ evs hev (fun ev h => by
    cases ev <;> simp_all [Event.isFloodStep, Event.isInInterests])

/-- The sends and traces of the attempts of the flooding strategy: as many `Send` calls as
`out_interests` traces, at least one when the last call returned true and none when it
returned false; in that case the outgoing records are those of before. -/
theorem attempts_sends (X : Collab σ κ) (c d : Bool) (st : State σ κ) (f : Face)
    (header : InterestHeader) (packet : Packet) (e : Entry) :
    ∃ evs, ((Flooding X c d).propagateAttempts st f header packet e).st.log = st.log ++ evs ∧
      evs.countP Event.isInInterests = 0 ∧ evs.countP Event.isDropInterests = 0 ∧
      evs.countP Event.isSend = evs.countP Event.isOutInterests ∧
      (((Flooding X c d).propagateAttempts st f header packet e).ok = true →
        0 < evs.countP Event.isOutInterests) ∧
      (((Flooding X c d).propagateAttempts st f header packet e).ok = false →
        evs.countP Event.isOutInterests = 0 ∧
        ((Flooding X c d).propagateAttempts st f header packet e).entry.outgoing =
          e.outgoing) := by
  obtain ⟨cnt, hspec, hok⟩ := doPropagate_spec X (st.trace (.doPropagate f header)) f header
    packet ((e.AddIncoming f).UpdateLifetime st.now header.GetInterestLifetime)
  have hrun : (Flooding X c d).propagateAttempts st f header packet e =
      (let r := Flooding.DoPropagateInterest X (st.trace (.doPropagate f header)) f header
          packet ((e.AddIncoming f).UpdateLifetime st.now header.GetInterestLifetime)
       if !r.ok && (d && decide (f ∈ e.incoming)) then
         Flooding.DoPropagateInterest X (r.st.trace (.doPropagate f r.header)) f r.header packet
           r.entry.IncreaseAllowedRetxCount
       else r) := rfl
  rw [hrun]
  dsimp only
  have hin : ((e.AddIncoming f).UpdateLifetime st.now header.GetInterestLifetime).outgoing =
      e.outgoing := by
    simp only [Entry.UpdateLifetime, Entry.AddIncoming]
  generalize Flooding.DoPropagateInterest X (st.trace (.doPropagate f header)) f header
    packet ((e.AddIncoming f).UpdateLifetime st.now header.GetInterestLifetime) = r
    at hspec hok ⊢
  obtain ⟨evs, hlog, hev, hc1, hs1⟩ := hspec.log
  obtain ⟨-, z2, -⟩ := countP_flood evs hev
  have z0 := countP_flood_in evs hev
  have hlog' : r.st.log = st.log ++ .doPropagate f header :: evs := by
    rw [hlog]; simp [State.trace]
  cases hretry : (!r.ok && (d && decide (f ∈ e.incoming)))
  · simp only [Bool.false_eq_true, if_false]
    refine ⟨.doPropagate f header :: evs, hlog', ?_, ?_, ?_, ?_, ?_⟩
    · simp [List.countP_cons, Event.isInInterests, z0]
    · simp [List.countP_cons, Event.isDropInterests, z2]
    · simp only [List.countP_cons, Event.isSend, Event.isOutInterests, Bool.false_eq_true,
        if_false, Nat.add_zero]
      omega
    · intro h
      rw [hok] at h
      simp only [List.countP_cons, Event.isOutInterests, Bool.false_eq_true, if_false,
        Nat.add_zero]
      simp at h
      omega
    · intro h
      rw [hok] at h
      have hcnt : cnt = 0 := by simpa using h
      refine ⟨?_, ?_⟩
      · simp only [List.countP_cons, Event.isOutInterests, Bool.false_eq_true, if_false,
          Nat.add_zero]
        omega
      · rw [hspec.same hcnt, hin]
  · simp only [if_true]
    have hokf : r.ok = false := by
      cases h : r.ok
      · rfl
      · rw [h] at hretry; simp at hretry
    have hcnt : cnt = 0 := by
      rw [hok] at hokf; simpa using hokf
    obtain ⟨cnt2, hspec2, hok2⟩ := doPropagate_spec X (r.st.trace (.doPropagate f r.header)) f
      r.header packet r.entry.IncreaseAllowedRetxCount
    generalize Flooding.DoPropagateInterest X (r.st.trace (.doPropagate f r.header)) f
      r.header packet r.entry.IncreaseAllowedRetxCount = r2 at hspec2 hok2 ⊢
    obtain ⟨evs2, hlog2, hev2, hc2, hs2⟩ := hspec2.log
    obtain ⟨-, y2, -⟩ := countP_flood evs2 hev2
    have y0 := countP_flood_in evs2 hev2
    refine ⟨.doPropagate f header :: (evs ++ .doPropagate f r.header :: evs2), ?_, ?_, ?_, ?_,
      ?_, ?_⟩
    · rw [hlog2]; simp [State.trace, hlog']
    · simp [List.countP_cons, List.countP_append, Event.isInInterests, z0, y0]
    · simp [List.countP_cons, List.countP_append, Event.isDropInterests, z2, y2]
    · simp only [List.countP_cons, List.countP_append, Event.isSend, Event.isOutInterests,
        Bool.false_eq_true, if_false, Nat.add_zero]
      omega
    · intro h
      rw [hok2] at h
      simp only [List.countP_cons, List.countP_append, Event.isOutInterests,
        Bool.false_eq_true, if_false, Nat.add_zero]
      simp at h
      omega
    · intro h
      rw [hok2] at h
      have hcnt2 : cnt2 = 0 := by simpa using h
      refine ⟨?_, ?_⟩
      · simp only [List.countP_cons, List.countP_append, Event.isOutInterests,
          Bool.false_eq_true, if_false, Nat.add_zero]
        omega
      · rw [hspec2.same hcnt2]
        simp only [Entry.IncreaseAllowedRetxCount]
        rw [hspec.same hcnt, hin]

/-- The outcome of `OnInterest` of the flooding strategy after the `in_interests` trace,
branch by branch. -/
theorem onInterestNamed_outcomes (X : Collab σ κ) (c d : Bool) (st : State σ κ) (f : Face)
    (header : InterestHeader) (n : Name) (packet : Packet) :
    ∃ evs, ((Flooding X c d).onInterestNamed X st f header n packet).log = st.log ++ evs ∧
      evs.countP Event.isInInterests = 0 ∧
      (acquire st header n = none → evs = [.dropInterests header f]) ∧
      (∀ e st1, acquire st header n = some (e, st1) →
        (header.nonce ∈ e.nonces → evs = [.dropInterests header f]) ∧
        (header.nonce ∉ e.nonces →
          (∀ hit cs', X.csLookup st1.cs header = (some hit, cs') →
            evs.countP Event.isDropInterests = 0 ∧ evs.countP Event.isOutInterests = 0 ∧
            0 < sendsOn f evs) ∧
          (∀ cs', X.csLookup st1.cs header = (none, cs') →
            ((Flooding X c d).ShouldSuppressIncomingInterest f
                (e.AddSeenNonce header.nonce) = true →
              evs = [.csLookup header, .dropInterests header f]) ∧
            ((Flooding X c d).ShouldSuppressIncomingInterest f
                (e.AddSeenNonce header.nonce) = false →
              0 < evs.countP Event.isDoPropagate ∧
              evs.countP Event.isSend = evs.countP Event.isOutInterests ∧
              (0 < evs.countP Event.isOutInterests → evs.countP Event.isDropInterests = 0) ∧
              (evs.countP Event.isOutInterests = 0 →
                evs.countP Event.isDropInterests = (if e.outgoing = [] then 1 else 0) ∧
                ∃ e', PitImpl.Lookup ((Flooding X c d).onInterestNamed X st f header n
                    packet).pit n = some e' ∧
                  e'.outgoing = e.outgoing ∧ f ∈ e'.incoming))))) := by
  cases hacq : acquire st header n with
  | none =>
    rw [onInterestNamed_failed _ X st f header n packet hacq]
    refine ⟨[.dropInterests header f], rfl, rfl, fun _ => rfl, ?_⟩
    intro e st1 h
    cases h
  | some r =>
    obtain ⟨e, st1⟩ := r
    obtain ⟨hen, hmem, -, -, -, -, hlog1⟩ := acquire_spec st st1 header n e hacq
    by_cases hseen : header.nonce ∈ e.nonces
    · rw [onInterestNamed_duplicate _ X st st1 f header n packet e hacq hseen]
      refine ⟨[.dropInterests header f], by simp [State.trace, hlog1], rfl, ?_, ?_⟩
      · intro h; cases h
      · intro e2 st2 h
        simp only [Option.some.injEq, Prod.mk.injEq] at h
        obtain ⟨rfl, rfl⟩ := h
        exact ⟨fun _ => rfl, fun h => absurd hseen h⟩
    · cases hcs : X.csLookup st1.cs header with
      | mk r cs' =>
        cases r with
        | some hit =>
          rw [onInterestNamed_hit _ X st st1 f header n packet e hit cs' hacq hseen hcs]
          obtain ⟨oks, hlen, hlog, -, -⟩ := satisfy_log_of_run X
            { st1 with cs := cs', log := st1.log ++ [.csLookup header] }
            none hit.header hit.payload hit.packet
            ((e.AddSeenNonce header.nonce).AddIncoming f)
            ((e.AddSeenNonce header.nonce).AddIncoming f).incoming rfl
          have hmem2 : ∀ ev ∈ satisfyEvents none hit.header hit.payload hit.packet
              ((e.AddSeenNonce header.nonce).AddIncoming f).incoming oks,
              ev.isInInterests = false ∧ ev.isDropInterests = false ∧
              ev.isOutInterests = false := by
            intro ev hev
            rcases satisfyEvents_mem _ _ _ _ _ _ ev hev with h | h | h <;>
              cases ev <;> simp_all [Event.isSend, Event.isOutData, Event.isDropData,
                Event.isInInterests, Event.isDropInterests, Event.isOutInterests]
          have z1 := countP_zero_of Event.isInInterests _ (fun ev h => (hmem2 ev h).1)
          have z2 := countP_zero_of Event.isDropInterests _ (fun ev h => (hmem2 ev h).2.1)
          have z3 := countP_zero_of Event.isOutInterests _ (fun ev h => (hmem2 ev h).2.2)
          have hsend := sendsOn_satisfyEvents none hit.header hit.payload hit.packet f
            ((e.AddSeenNonce header.nonce).AddIncoming f).incoming oks hlen
          have hin : f ∈ ((e.AddSeenNonce header.nonce).AddIncoming f).incoming := by
            simp only [Entry.AddIncoming, Entry.AddSeenNonce]
            split <;> simp [*]
          refine ⟨.csLookup header :: satisfyEvents none hit.header hit.payload hit.packet
            ((e.AddSeenNonce header.nonce).AddIncoming f).incoming oks, ?_, ?_, ?_, ?_⟩
          · rw [hlog, hlog1]
            simp only [List.append_assoc, List.singleton_append]
          · simp [List.countP_cons, Event.isInInterests, z1]
          · intro h; cases h
          · intro e2 st2 h
            simp only [Option.some.injEq, Prod.mk.injEq] at h
            obtain ⟨rfl, rfl⟩ := h
            refine ⟨fun h => absurd h hseen, fun _ => ⟨?_, ?_⟩⟩
            · intro hit2 cs2 _
              refine ⟨?_, ?_, ?_⟩
              · simp [List.countP_cons, Event.isDropInterests, z2]
              · simp [List.countP_cons, Event.isOutInterests, z3]
              · have : sendsOn f (.csLookup header :: satisfyEvents none hit.header hit.payload
                    hit.packet ((e.AddSeenNonce header.nonce).AddIncoming f).incoming oks) =
                    sendsOn f (satisfyEvents none hit.header hit.payload
                    hit.packet ((e.AddSeenNonce header.nonce).AddIncoming f).incoming oks) := by
                  simp [sendsOn, List.countP_cons, Event.isSendOn]
                rw [this, hsend]
                exact List.count_pos_iff.mpr hin
            · intro cs2 h2
              rw [hcs] at h2
              cases h2
        | none =>
          cases hsup : (Flooding X c d).ShouldSuppressIncomingInterest f
              (e.AddSeenNonce header.nonce)
          · rw [onInterestNamed_propagate _ X st st1 f header n packet e cs' hacq hseen hcs hsup]
            generalize hSt : ({ st1 with cs := cs', log := st1.log ++ [.csLookup header] } :
              State σ κ) = stp
            have hstp_pit : stp.pit = st1.pit := by rw [← hSt]
            have hstp_log : stp.log = st.log ++ [.csLookup header] := by
              rw [← hSt]; simp [hlog1]
            obtain ⟨hpit, plog, -⟩ := propagate_state X c d stp f header packet
              (e.AddSeenNonce header.nonce)
            obtain ⟨a1, -, -, -, aname, ainc, -, -, evs0, alog0, acnt, -⟩ :=
              attempts_spec X c d stp f header packet (e.AddSeenNonce header.nonce) _ rfl
            obtain ⟨evs, alog, ain, adrop, asend, aok, anok⟩ :=
              attempts_sends X c d stp f header packet (e.AddSeenNonce header.nonce)
            have hsame : evs0 = evs := List.append_cancel_left (alog0.symm.trans alog)
            subst hsame
            have hdo : 0 < evs0.countP Event.isDoPropagate := by
              rw [acnt]; split <;> decide
            generalize (Flooding X c d).propagateAttempts stp f header packet
              (e.AddSeenNonce header.nonce) = a at hpit plog a1 aname ainc alog aok anok
            have haname : a.entry.name = n := aname.trans hen
            refine ⟨.csLookup header :: (evs0 ++
              (if a.ok = false ∧ a.entry.outgoing = [] then [.dropInterests a.header f]
                else [])), ?_, ?_, ?_, ?_⟩
            · rw [plog, alog, hstp_log]
              simp
            · rw [List.countP_cons, List.countP_append, ain]
              split <;> simp [Event.isInInterests]
            · intro h; cases h
            · intro e2 st2 h
              simp only [Option.some.injEq, Prod.mk.injEq] at h
              obtain ⟨rfl, rfl⟩ := h
              refine ⟨fun h => absurd h hseen, fun _ => ⟨?_, ?_⟩⟩
              · intro hit2 cs2 h2
                rw [hcs] at h2
                cases h2
              · intro cs2 _
                refine ⟨fun h => ?_, fun _ => ⟨?_, ?_, ?_, ?_⟩⟩
                · rw [hsup] at h; cases h
                · rw [List.countP_cons, List.countP_append]
                  omega
                · rw [List.countP_cons, List.countP_cons, List.countP_append,
                    List.countP_append, asend]
                  split <;> simp [Event.isSend, Event.isOutInterests]
                · intro hpos
                  have hout : 0 < evs0.countP Event.isOutInterests := by
                    rw [List.countP_cons, List.countP_append] at hpos
                    split at hpos <;>
                      simpa [Event.isOutInterests] using hpos
                  have hok : a.ok = true := by
                    cases h : a.ok
                    · have := (anok h).1; omega
                    · rfl
                  rw [List.countP_cons, List.countP_append, adrop]
                  simp [hok, Event.isDropInterests]
                · intro hzero
                  have hout : evs0.countP Event.isOutInterests = 0 := by
                    rw [List.countP_cons, List.countP_append] at hzero
                    omega
                  have hok : a.ok = false := by
                    cases h : a.ok
                    · rfl
                    · have := aok h; omega
                  have hog : a.entry.outgoing = e.outgoing := (anok hok).2
                  refine ⟨?_, a.entry, ?_, hog, ?_⟩
                  · rw [List.countP_cons, List.countP_append, adrop, hog]
                    by_cases ho : e.outgoing = []
                    · simp [hok, ho, Event.isDropInterests]
                    · simp [hok, ho, Event.isDropInterests]
                  · rw [hpit, a1, hstp_pit]
                    obtain ⟨x, hx⟩ := (lookup_isSome_iff st1.pit a.entry.name).mp
                      ⟨e, hmem, hen.trans haname.symm⟩
                    have := lookup_store st1.pit a.entry x hx
                    rw [haname] at this
                    exact this
                  · rw [ainc]
                    simp only [Entry.AddIncoming, Entry.AddSeenNonce]
                    split <;> simp [*]
          · rw [onInterestNamed_suppress _ X st st1 f header n packet e cs' hacq hseen hcs hsup]
            refine ⟨[.csLookup header, .dropInterests header f], by simp [hlog1], rfl, ?_, ?_⟩
            · intro h; cases h
            · intro e2 st2 h
              simp only [Option.some.injEq, Prod.mk.injEq] at h
              obtain ⟨rfl, rfl⟩ := h
              refine ⟨fun h => absurd h hseen, fun _ => ⟨?_, ?_⟩⟩
              · intro hit2 cs2 h2
                rw [hcs] at h2
                cases h2
              · intro cs2 _
                refine ⟨fun _ => rfl, fun h => ?_⟩
                rw [hsup] at h; cases h

theorem sendsOn_le_sends (f : Face) (evs : List Event) :
    sendsOn f evs ≤ evs.countP Event.isSend := by
  unfold sendsOn
  apply List.countP_mono_left
  intro ev _ h
  cases ev <;> simp_all [Event.isSendOn, Event.isSend]

/-- C37 (as stated, refuted): face 1 sends again, with a new nonce, an Interest for /10/1
that was forwarded to face 9 before; face 9 is above its limit.  The call returns after
two attempts that send nothing: no `drop_interests`, no `out_interests`, no `Send`, and
the content store (empty) has no answer.  The arrival is neither dropped, nor answered,
nor forwarded. -/
theorem onInterest_neither_drops_nor_forwards :
    ∃ st' : State (List Face) (List CsHit),
      (Flooding simpleCollab false true).OnInterest simpleCollab
        { faces := [9], fib := [{ name := [10], faces := [{ face := 9 }] }],
          pit := { entries := [{ name := [10, 1], fibEntry := [10], incoming := [1],
                                 outgoing := [{ face := 9, sendTime := 0, retxCount := 0 }],
                                 nonces := [7] }] },
          cs := [], now := 0 }
        1 { name := some [10, 1], nonce := 8 } {} = .ok st' ∧
      st'.log =
        [.inInterests { name := some [10, 1], nonce := 8 } 1,
         .csLookup { name := some [10, 1], nonce := 8 },
         .doPropagate 1 { name := some [10, 1], nonce := 8 },
         .isBelowLimit 9 false,
         .doPropagate 1 { name := some [10, 1], nonce := 8 },
         .isBelowLimit 9 false] ∧
      st'.log.countP Event.isDropInterests = 0 ∧ st'.log.countP Event.isOutInterests = 0 ∧
      st'.log.countP Event.isSend = 0 ∧ st'.cs = [] :=
  ⟨_, rfl, by decide, by decide, by decide, by decide, by decide⟩

/-- C37 (amended): a call of `OnInterest` of the flooding strategy traces `in_interests`
once, before anything else.  For a header without a name the exception of `GetName` then
leaves the handler.  For a header with a name the call returns; it traces
`drop_interests` at most once and never together with `out_interests`, and it has one of
four outcomes: dropped (one `drop_interests`, nothing sent: no PIT entry could be
created, the nonce was seen, the Interest was suppressed, or no face was sent to and the
entry had no outgoing record), answered from the content store (the object is sent to
`face_in`, no `drop_interests`, no `out_interests`), forwarded (at least one
`out_interests`, one per `Send`, no `drop_interests`), or left pending (no face was sent
to but the entry has an outgoing record from before: no `drop_interests`, no
`out_interests`, no `Send`; the entry stays in the PIT with its outgoing records and with
`face_in` among its incoming faces). -/
theorem onInterest_outcomes (X : Collab σ κ) (c d : Bool) (st : State σ κ)
    (face_in : Face) (header : InterestHeader) (packet : Packet) :
    (header.name = none →
      ∃ thrown : State σ κ,
        (Flooding X c d).OnInterest X st face_in header packet = .error (.mk, thrown) ∧
        thrown.log = st.log ++ [.inInterests header face_in]) ∧
    (∀ n, header.name = some n →
      ∃ (st' : State σ κ) (evs : List Event),
        (Flooding X c d).OnInterest X st face_in header packet = .ok st' ∧
        st'.log = st.log ++ .inInterests header face_in :: evs ∧
        evs.countP Event.isInInterests = 0 ∧
        evs.countP Event.isDropInterests ≤ 1 ∧
        ¬ (0 < evs.countP Event.isDropInterests ∧ 0 < evs.countP Event.isOutInterests) ∧
        ((evs.countP Event.isDropInterests = 1 ∧ evs.countP Event.isOutInterests = 0 ∧
            evs.countP Event.isSend = 0) ∨
          (evs.countP Event.isDropInterests = 0 ∧ evs.countP Event.isOutInterests = 0 ∧
            0 < evs.countP Event.isSend ∧ 0 < sendsOn face_in evs) ∨
          (evs.countP Event.isDropInterests = 0 ∧ 0 < evs.countP Event.isOutInterests ∧
            evs.countP Event.isSend = evs.countP Event.isOutInterests) ∨
          (evs.countP Event.isDropInterests = 0 ∧ evs.countP Event.isOutInterests = 0 ∧
            evs.countP Event.isSend = 0 ∧ 0 < evs.countP Event.isDoPropagate)) ∧
        (acquire st header n = none → evs = [.dropInterests header face_in]) ∧
        (∀ e st1, acquire st header n = some (e, st1) →
          (header.nonce ∈ e.nonces → evs = [.dropInterests header face_in]) ∧
          (header.nonce ∉ e.nonces →
            (∀ hit cs', X.csLookup st.cs header = (some hit, cs') →
              evs.countP Event.isDropInterests = 0 ∧ evs.countP Event.isOutInterests = 0 ∧
              0 < sendsOn face_in evs) ∧
            (∀ cs', X.csLookup st.cs header = (none, cs') →
              ((Flooding X c d).ShouldSuppressIncomingInterest face_in
                  (e.AddSeenNonce header.nonce) = true →
                evs = [.csLookup header, .dropInterests header face_in]) ∧
              ((Flooding X c d).ShouldSuppressIncomingInterest face_in
                  (e.AddSeenNonce header.nonce) = false →
                0 < evs.countP Event.isDoPropagate ∧
                evs.countP Event.isSend = evs.countP Event.isOutInterests ∧
                (0 < evs.countP Event.isOutInterests →
                  evs.countP Event.isDropInterests = 0) ∧
                (evs.countP Event.isOutInterests = 0 →
                  evs.countP Event.isDropInterests = (if e.outgoing = [] then 1 else 0) ∧
                  ∃ e', PitImpl.Lookup st'.pit n = some e' ∧
                    e'.outgoing = e.outgoing ∧ face_in ∈ e'.incoming)))))) := by
  refine ⟨?_, ?_⟩
  · intro hname
    exact ⟨st.trace (.inInterests header face_in),
      by simp [OnInterest, InterestHeader.GetName, hname], rfl⟩
  · intro n hname
    obtain ⟨evs, hlog, hin, hnone, hsome⟩ := onInterestNamed_outcomes X c d
      (st.trace (.inInterests header face_in)) face_in header n packet
    have hacq := acquire_trace st header n (.inInterests header face_in)
    have hdrop1 : [Event.dropInterests header face_in].countP Event.isDropInterests = 1 ∧
        [Event.dropInterests header face_in].countP Event.isOutInterests = 0 ∧
        [Event.dropInterests header face_in].countP Event.isSend = 0 := by
      simp [List.countP_cons, Event.isDropInterests, Event.isOutInterests, Event.isSend]
    have hdrop2 : [Event.csLookup header, Event.dropInterests header face_in].countP
          Event.isDropInterests = 1 ∧
        [Event.csLookup header, Event.dropInterests header face_in].countP
          Event.isOutInterests = 0 ∧
        [Event.csLookup header, Event.dropInterests header face_in].countP
          Event.isSend = 0 := by
      simp [List.countP_cons, Event.isDropInterests, Event.isOutInterests, Event.isSend]
    have hfour : (evs.countP Event.isDropInterests = 1 ∧ evs.countP Event.isOutInterests = 0 ∧
            evs.countP Event.isSend = 0) ∨
          (evs.countP Event.isDropInterests = 0 ∧ evs.countP Event.isOutInterests = 0 ∧
            0 < evs.countP Event.isSend ∧ 0 < sendsOn face_in evs) ∨
          (evs.countP Event.isDropInterests = 0 ∧ 0 < evs.countP Event.isOutInterests ∧
            evs.countP Event.isSend = evs.countP Event.isOutInterests) ∨
          (evs.countP Event.isDropInterests = 0 ∧ evs.countP Event.isOutInterests = 0 ∧
            evs.countP Event.isSend = 0 ∧ 0 < evs.countP Event.isDoPropagate) := by
      cases ha : acquire st header n with
      | none =>
        rw [ha] at hacq
        rw [hnone hacq]
        exact Or.inl hdrop1
      | some r =>
        obtain ⟨e, st1⟩ := r
        rw [ha] at hacq
        obtain ⟨hdup, hfresh⟩ := hsome e _ hacq
        by_cases hseen : header.nonce ∈ e.nonces
        · rw [hdup hseen]
          exact Or.inl hdrop1
        · obtain ⟨hhit, hmiss⟩ := hfresh hseen
          cases hcs : X.csLookup (st1.trace (.inInterests header face_in)).cs header with
          | mk r cs' =>
            cases r with
            | some hit =>
              obtain ⟨h1, h2, h3⟩ := hhit hit cs' hcs
              exact Or.inr (Or.inl ⟨h1, h2,
                lt_of_lt_of_le h3 (sendsOn_le_sends face_in evs), h3⟩)
            | none =>
              obtain ⟨hs, hp⟩ := hmiss cs' hcs
              cases hsup : (Flooding X c d).ShouldSuppressIncomingInterest face_in
                  (e.AddSeenNonce header.nonce)
              · obtain ⟨p1, p2, p3, p4⟩ := hp hsup
                by_cases hout : evs.countP Event.isOutInterests = 0
                · obtain ⟨q1, -⟩ := p4 hout
                  by_cases ho : e.outgoing = []
                  · rw [if_pos ho] at q1
                    exact Or.inl ⟨q1, hout, by omega⟩
                  · rw [if_neg ho] at q1
                    exact Or.inr (Or.inr (Or.inr ⟨q1, hout, by omega, p1⟩))
                · have hpos : 0 < evs.countP Event.isOutInterests := Nat.pos_of_ne_zero hout
                  exact Or.inr (Or.inr (Or.inl ⟨p3 hpos, hpos, p2⟩))
              · rw [hs hsup]
                exact Or.inl hdrop2
    refine ⟨_, evs, onInterest_named _ X st face_in header n packet hname, ?_, hin, ?_, ?_,
      hfour, ?_, ?_⟩
    · rw [hlog]
      simp [State.trace]
    · rcases hfour with h | h | h | h <;> omega
    · rcases hfour with h | h | h | h <;> omega
    · intro ha
      rw [ha] at hacq
      exact hnone hacq
    · intro e st1 ha
      rw [ha] at hacq
      obtain ⟨-, -, -, -, hcs1, -, -⟩ := acquire_spec st st1 header n e ha
      have hcs2 : (st1.trace (.inInterests header face_in)).cs = st.cs := hcs1
      obtain ⟨hdup, hfresh⟩ := hsome e _ hacq
      rw [hcs2] at hfresh
      exact ⟨hdup, hfresh⟩

/-- Witness of C37 (amended): an Interest for /10/1 arrives on face 1 and is forwarded to
face 9: `in_interests` first, then one `out_interests` for the one `Send`, and no
`drop_interests`. -/
theorem onInterest_outcomes_witness :
    ∃ (st' : State (List Face) (List CsHit)) (evs : List Event),
      (Flooding simpleCollab false true).OnInterest simpleCollab
        { faces := [], fib := [{ name := [10], faces := [{ face := 9 }] }], pit := {}, cs := [],
          now := 0 }
        1 { name := some [10, 1], nonce := 7, interestLifetime := 4 } {} = .ok st' ∧
      st'.log = [] ++ .inInterests { name := some [10, 1], nonce := 7, interestLifetime := 4 } 1
        :: evs ∧
      evs.countP Event.isDropInterests ≤ 1 ∧
      ¬ (0 < evs.countP Event.isDropInterests ∧ 0 < evs.countP Event.isOutInterests) := by
  obtain ⟨st', evs, hrun, hlog, -, hdrop, hex, -⟩ := (onInterest_outcomes simpleCollab
    false true
    { faces := [], fib := [{ name := [10], faces := [{ face := 9 }] }], pit := {}, cs := [],
      now := 0 }
    1 { name := some [10, 1], nonce := 7, interestLifetime := 4 } {}).2 [10, 1] rfl
  exact ⟨st', evs, hrun, hlog, hdrop, hex⟩

/-! ## Claims on the locator and on the producer -/

theorem carriesLocator_eq (h : InterestHeader) :
    h.carriesLocator =
      .ok (h.IsEnabledLocator && decide ((h.locator.getD []).length > 0)) := by
  unfold InterestHeader.carriesLocator InterestHeader.IsEnabledLocator
    InterestHeader.GetLocator
  cases h.locator <;> simp

/-- C38: `GetLocator` dereferences the locator unchecked, so it fails on an unset locator
where `GetName` and `GetExclude` throw `InterestHeaderException`.  The condition
`IsEnabledLocator () && GetLocator ().size () > 0` never reaches that failure, and so
neither do `PitImpl::Create`, `Producer::OnInterest` nor the locator statement of
`Print` (which stands after the `return` of `Print`): `Create` is what the development
uses, and the producer and `Print` fail only with the exception of `GetName`. -/
theorem getLocator_is_guarded_by_isEnabledLocator (h : InterestHeader) :
    (h.GetLocator = .error .nullDereference ↔ h.IsEnabledLocator = false) ∧
    (h.GetName = .error .mk ↔ h.name = none) ∧
    (h.GetExclude = .error .interestHeaderException ↔ h.IsEnabledExclude = false) ∧
    h.carriesLocator =
      .ok (h.IsEnabledLocator && decide ((h.locator.getD []).length > 0)) ∧
    (∀ (fib : Fib) (p : Pit) (now : Time) (n : Name),
      PitImpl.createChecked fib p now h n = .ok (PitImpl.Create fib p now h n)) ∧
    (∀ (P : Producer) (now : Time) (origPacket : Packet),
      P.OnInterest now h origPacket ≠ .error .nullDereference) ∧
    h.Print ≠ .error .nullDereference ∧
    h.printLocator ≠ .error .nullDereference := by
  refine ⟨?_, ?_, ?_, carriesLocator_eq h, ?_, ?_, ?_, ?_⟩
  · unfold InterestHeader.GetLocator InterestHeader.IsEnabledLocator
    cases h.locator <;> simp
  · unfold InterestHeader.GetName
    cases h.name <;> simp
  · unfold InterestHeader.GetExclude InterestHeader.IsEnabledExclude
    cases h.exclude <;> simp
  · intro fib p now n
    unfold PitImpl.createChecked
    rw [carriesLocator_eq, create_eq_createFrom]
  · intro P now origPacket
    unfold Producer.OnInterest
    rw [carriesLocator_eq]
    dsimp only
    split
    · simp
    · cases h.GetName <;> simp
  · unfold InterestHeader.Print
    cases h.GetName <;> simp
  · unfold InterestHeader.printLocator
    rw [carriesLocator_eq]
    unfold InterestHeader.IsEnabledLocator InterestHeader.GetLocator
    cases h.locator with
    | none => simp
    | some l =>
      by_cases hl : 0 < l.length <;> simp [hl]

/-- C39: an active producer that is delivered an Interest with a name hands one packet to
the protocol handler: the Content Object header has the name of the Interest, position 1
when the Interest carries a non-empty locator and -1 otherwise, the configured locator
exactly when the Interest carries a non-empty locator and the configured locator is not
empty, the time of the call as timestamp and the configured signature bits; the packet
has a payload of the configured size, this header and the tail.  An inactive producer
hands over nothing.  (An Interest without a name makes `GetName` throw.) -/
theorem producer_answers_with_the_name_of_the_interest (P : Producer) (now : Time)
    (interest : InterestHeader) (origPacket : Packet) :
    (P.active = false →
      P.OnInterest now interest origPacket = .ok (P, [.receivedInterest interest])) ∧
    (P.active = true → interest.name = none →
      P.OnInterest now interest origPacket = .error .interestHeaderException) ∧
    (∀ n, P.active = true → interest.name = some n →
      ∃ (header : ContentObjectHeader) (packet : Packet) (P' : Producer),
        P.OnInterest now interest origPacket =
          .ok (P', [.receivedInterest interest, .protocolHandler packet,
            .transmittedContentObject header packet]) ∧
        header.name = n ∧
        header.position =
          (if (∃ l, interest.locator = some l ∧ l ≠ []) then 1 else -1) ∧
        header.locator =
          (if (∃ l, interest.locator = some l ∧ l ≠ []) ∧ P.locatorName ≠ [] then
            some P.locatorName else none) ∧
        header.timestamp = now ∧
        header.signatureBits = P.signatureBits ∧
        packet = { headers := [.content header], size := P.virtualPayloadSize,
                   trailers := [.contentObjectTail] } ∧
        P' = { P with positionPoint := header.position }) := by
  refine ⟨?_, ?_, ?_⟩
  · intro hact
    simp [Producer.OnInterest, hact]
  · intro hact hname
    simp [Producer.OnInterest, hact, InterestHeader.GetName, hname]
  · intro n hact hname
    have hcond : (interest.IsEnabledLocator && decide ((interest.locator.getD []).length > 0))
        = decide (∃ l, interest.locator = some l ∧ l ≠ []) := by
      unfold InterestHeader.IsEnabledLocator
      cases interest.locator with
      | none => simp
      | some l => cases l <;> simp
    by_cases hloc : ∃ l, interest.locator = some l ∧ l ≠ []
    · have hc : (interest.IsEnabledLocator &&
          decide ((interest.locator.getD []).length > 0)) = true := by
        rw [hcond]; simpa using hloc
      by_cases hP : P.locatorName = []
      · refine ⟨{ name := n, position := 1, timestamp := now,
                  signatureBits := P.signatureBits },
          { headers := [.content { name := n, position := 1, timestamp := now,
                                   signatureBits := P.signatureBits }],
            size := P.virtualPayloadSize, trailers := [.contentObjectTail] },
          { P with positionPoint := 1 }, ?_, ?_⟩
        · simp [Producer.OnInterest, hact, InterestHeader.GetName, hname,
            carriesLocator_eq, hc, hP, Packet.AddHeader, Packet.AddTrailer]
        · simp [hloc, hP]
      · have hlen : P.locatorName.length > 0 := List.length_pos.mpr hP
        refine ⟨{ name := n, locator := some P.locatorName, position := 1, timestamp := now,
                  signatureBits := P.signatureBits },
          { headers := [.content { name := n, locator := some P.locatorName, position := 1,
                                   timestamp := now, signatureBits := P.signatureBits }],
            size := P.virtualPayloadSize, trailers := [.contentObjectTail] },
          { P with positionPoint := 1 }, ?_, ?_⟩
        · simp [Producer.OnInterest, hact, InterestHeader.GetName, hname,
            carriesLocator_eq, hc, hlen, Packet.AddHeader, Packet.AddTrailer]
        · simp [hloc, hP]
    · have hc : (interest.IsEnabledLocator &&
          decide ((interest.locator.getD []).length > 0)) = false := by
        rw [hcond]; simpa using hloc
      refine ⟨{ name := n, position := -1, timestamp := now,
                signatureBits := P.signatureBits },
        { headers := [.content { name := n, position := -1, timestamp := now,
                                 signatureBits := P.signatureBits }],
          size := P.virtualPayloadSize, trailers := [.contentObjectTail] },
        { P with positionPoint := -1 }, ?_, ?_⟩
      · simp [Producer.OnInterest, hact, InterestHeader.GetName, hname,
          carriesLocator_eq, hc, Packet.AddHeader, Packet.AddTrailer]
      · simp [hloc]

/-- Witness of C39: a producer with locator /30 and payload size 1024 answers an Interest
for /10/1 that carries the locator /20/5. -/
theorem producer_answers_with_the_name_of_the_interest_witness :
    (({ active := true, locatorName := [30] } : Producer).OnInterest 6
        { name := some [10, 1], locator := some [20, 5], nonce := 7 } {}) =
      .ok ({ active := true, locatorName := [30], positionPoint := 1 },
        [.receivedInterest { name := some [10, 1], locator := some [20, 5], nonce := 7 },
         .protocolHandler
           { headers := [.content { name := [10, 1], locator := some [30], position := 1, timestamp := 6 }], size := 1024, trailers := [.contentObjectTail] },
         .transmittedContentObject
           { name := [10, 1], locator := some [30], position := 1, timestamp := 6 }
           { headers := [.content { name := [10, 1], locator := some [30], position := 1, timestamp := 6 }], size := 1024, trailers := [.contentObjectTail] }]) := by
  obtain ⟨header, packet, P', hrun, -⟩ :=
    (producer_answers_with_the_name_of_the_interest
      { active := true, locatorName := [30] } 6
      { name := some [10, 1], locator := some [20, 5], nonce := 7 } {}).2.2 [10, 1] rfl rfl
  rw [hrun]
  have : (Except.ok (P', [AppEvent.receivedInterest
      { name := some [10, 1], locator := some [20, 5], nonce := 7 },
      .protocolHandler packet, .transmittedContentObject header packet]) :
      Except Fault (Producer × List AppEvent)) = _ := hrun.symm.trans rfl
  exact this

/-! ## Claims on the stack helper -/

theorem installDevices_spec (h : StackHelper) (devices : List NetDevice) :
    ∀ (ndn : L3Protocol) (faces : List NetDeviceFace),
      (h.installDevices devices ndn faces).2 =
        faces ++ devices.map (fun device => h.setupFace { device := device }) ∧
      (h.installDevices devices ndn faces).1.faces =
        ndn.faces ++ devices.map (fun device => h.setupFace { device := device }) ∧
      (h.installDevices devices ndn faces).1.aggregated = ndn.aggregated := by
  induction devices with
  | nil => intro ndn faces; simp [StackHelper.installDevices]
  | cons device rest ih =>
    intro ndn faces
    simp only [StackHelper.installDevices]
    obtain ⟨h1, h2, h3⟩ := ih
      { (if h.needSetDefaultRoutes then
          { ndn with routes := ndn.routes ++ [([], ndn.faces.length, 2147483647)] }
        else ndn) with
        faces := (if h.needSetDefaultRoutes then
            { ndn with routes := ndn.routes ++ [([], ndn.faces.length, 2147483647)] }
          else ndn).faces ++ [h.setupFace { device := device }] }
      (faces ++ [h.setupFace { device := device }])
    refine ⟨?_, ?_, ?_⟩
    · rw [h1]; simp
    · rw [h2]
      split <;> simp
    · rw [h3]
      split <;> rfl

theorem install_ok (h : StackHelper) (node : Node) (hnone : node.ndn = none) :
    ∃ (node' : Node) (ndn : L3Protocol),
      h.Install node =
        (node', .ok (node.devices.map (fun device => h.setupFace { device := device }))) ∧
      node'.devices = node.devices ∧ node'.ndn = some ndn ∧
      ndn.faces = node.devices.map (fun device => h.setupFace { device := device }) ∧
      ndn.aggregated = [.fib, .pit, .forwardingStrategy, .contentStore] := by
  obtain ⟨h1, h2, h3⟩ := installDevices_spec h node.devices
    { aggregated := [.fib, .pit, .forwardingStrategy, .contentStore] } []
  simp only [List.nil_append] at h1 h2
  have hrun : h.Install node =
      ({ node with ndn := some (h.installDevices node.devices
              { aggregated := [.fib, .pit, .forwardingStrategy, .contentStore] } []).1 },
        .ok (h.installDevices node.devices
          { aggregated := [.fib, .pit, .forwardingStrategy, .contentStore] } []).2) := by
    simp [StackHelper.Install, hnone]
  refine ⟨{ node with ndn := some (h.installDevices node.devices
      { aggregated := [.fib, .pit, .forwardingStrategy, .contentStore] } []).1 },
    (h.installDevices node.devices
      { aggregated := [.fib, .pit, .forwardingStrategy, .contentStore] } []).1,
    ?_, rfl, rfl, h2, h3⟩
  rw [hrun, h1]

/-- C31: `EnableLimits` accepts the average sizes 4294967295 and 41, and `Install` adds
them as `uint32_t`: the sum wraps to 40.  On a point-to-point link of 8000 bit/s with an
average RTT of 0.1 s the leak is set to 8000 / 8 / 40 = 25 Interests per second and the
bucket max to 0.1 × 25 = 2.5, not to 8000 / 8 / 4294967336 and 0.1 times that, as the
formula with the integer sum gives. -/
theorem bucket_leak_uses_the_wrapped_sum :
    ∃ (node' : Node) (face : NetDeviceFace),
      (({} : StackHelper).EnableLimits true (1 / 10) 4294967295 41).Install
        { devices := [{ isPointToPoint := true, bitRate := 8000 }] } = (node', .ok [face]) ∧
      face.bucketLeak = some (some 25) ∧
      face.bucketMax = some (some (5 / 2)) ∧
      some (some ((8000 : ℚ) / 8 / ((4294967295 + 41 : Nat) : ℚ))) ≠ face.bucketLeak ∧
      some (some ((1 / 10 : ℚ) * ((8000 : ℚ) / 8 / ((4294967295 + 41 : Nat) : ℚ)))) ≠
        face.bucketMax := by
  obtain ⟨node', -, hrun, -⟩ := install_ok
    (({} : StackHelper).EnableLimits true (1 / 10) 4294967295 41)
    { devices := [{ isPointToPoint := true, bitRate := 8000 }] } rfl
  have hleak : ((({} : StackHelper).EnableLimits true (1 / 10) 4294967295 41).setupFace
      { device := { isPointToPoint := true, bitRate := 8000 } }).bucketLeak =
      some (some 25) := by
    simp [StackHelper.setupFace, StackHelper.EnableLimits, Double.div, Double.mul]
    norm_num
  have hmax : ((({} : StackHelper).EnableLimits true (1 / 10) 4294967295 41).setupFace
      { device := { isPointToPoint := true, bitRate := 8000 } }).bucketMax =
      some (some (5 / 2)) := by
    simp [StackHelper.setupFace, StackHelper.EnableLimits, Double.div, Double.mul]
    norm_num
  refine ⟨node', _, hrun, hleak, hmax, ?_, ?_⟩
  · rw [hleak]
    norm_num
  · rw [hmax]
    norm_num

/-- Bucket sizing within the range of `uint32_t`: when the two average sizes add up to a
positive number below 2^32, `Install` on a node without a stack returns, for each device,
a face that is up; with the limits enabled the face of a point-to-point device has its
bucket leak set to `bit rate / 8 / (avg_content_size + avg_interest_size)` and its bucket
max to `avg_rtt_seconds` times that; with the limits disabled, or for another kind of
device, neither is set. -/
theorem install_sets_buckets_from_link_rate (h : StackHelper) (node : Node)
    (hnone : node.ndn = none)
    (hpos : 0 < h.avgContentObjectSize + h.avgInterestSize)
    (hsum : h.avgContentObjectSize + h.avgInterestSize < 2 ^ 32) :
    ∃ node' : Node,
      h.Install node =
        (node', .ok (node.devices.map (fun device => h.setupFace { device := device }))) ∧
      ∀ device : NetDevice,
        (h.setupFace { device := device }).device = device ∧
        (h.setupFace { device := device }).isUp = true ∧
        (h.limitsEnabled = true → device.isPointToPoint = true →
          (h.setupFace { device := device }).bucketLeak =
            some (some ((device.bitRate : ℚ) / 8 /
              ((h.avgContentObjectSize + h.avgInterestSize : Nat) : ℚ))) ∧
          (h.setupFace { device := device }).bucketMax =
            some (some (h.avgRtt * ((device.bitRate : ℚ) / 8 /
              ((h.avgContentObjectSize + h.avgInterestSize : Nat) : ℚ))))) ∧
        ((h.limitsEnabled = false ∨ device.isPointToPoint = false) →
          (h.setupFace { device := device }).bucketLeak = none ∧
          (h.setupFace { device := device }).bucketMax = none) := by
  obtain ⟨node', -, hrun, -⟩ := install_ok h node hnone
  refine ⟨node', hrun, ?_⟩
  intro device
  have hmod : (h.avgContentObjectSize + h.avgInterestSize) % 2 ^ 32 =
      h.avgContentObjectSize + h.avgInterestSize := Nat.mod_eq_of_lt hsum
  have hne : ((h.avgContentObjectSize + h.avgInterestSize : Nat) : ℚ) ≠ 0 := by
    exact_mod_cast Nat.pos_iff_ne_zero.mp hpos
  refine ⟨?_, ?_, ?_, ?_⟩
  · unfold StackHelper.setupFace
    dsimp only
    split
    · split <;> rfl
    · rfl
  · rfl
  · intro hl hp
    have hne' : (h.avgContentObjectSize : ℚ) + (h.avgInterestSize : ℚ) ≠ 0 := by
      exact_mod_cast hne
    simp only [StackHelper.setupFace, hl, hp, if_true, hmod, Double.div, Double.mul]
    simp [hne']
  · intro hor
    rcases hor with hl | hp
    · simp [StackHelper.setupFace, hl]
    · simp [StackHelper.setupFace, hp]

/-- Bucket sizing at the defaults: the sizes 1100 and 40 and an average RTT of 0.1 s on a
point-to-point link of 1140000 bit/s give a leak of 125 Interests per second and a bucket
of 12.5. -/
theorem install_sets_buckets_from_link_rate_witness :
    ∃ node' : Node,
      (({} : StackHelper).EnableLimits true (1 / 10) 1100 40).Install
        { devices := [{ isPointToPoint := true, bitRate := 1140000 }] } =
        (node', .ok [{ device := { isPointToPoint := true, bitRate := 1140000 },
                       bucketMax := some (some (25 / 2)), bucketLeak := some (some 125),
                       isUp := true }]) := by
  obtain ⟨node', hrun, hface⟩ := install_sets_buckets_from_link_rate
    (({} : StackHelper).EnableLimits true (1 / 10) 1100 40)
    { devices := [{ isPointToPoint := true, bitRate := 1140000 }] } rfl (by decide) (by decide)
  refine ⟨node', ?_⟩
  rw [hrun]
  obtain ⟨h1, h2, h3, -⟩ := hface { isPointToPoint := true, bitRate := 1140000 }
  obtain ⟨h4, h5⟩ := h3 rfl rfl
  have hface' : (({} : StackHelper).EnableLimits true (1 / 10) 1100 40).setupFace
      { device := { isPointToPoint := true, bitRate := 1140000 } } =
      { device := { isPointToPoint := true, bitRate := 1140000 },
        bucketMax := some (some (25 / 2)), bucketLeak := some (some 125), isUp := true } := by
    generalize (({} : StackHelper).EnableLimits true (1 / 10) 1100 40).setupFace
      { device := { isPointToPoint := true, bitRate := 1140000 } } = face at h1 h2 h4 h5
    cases face
    simp only at h1 h2 h4 h5
    subst h1 h2 h4 h5
    simp [StackHelper.EnableLimits]
    norm_num
  simp only [List.map_cons, List.map_nil, hface']

/-- C32: `Install` on a node that has an NDN stack ends with the fatal error of the
installer at its first check and leaves the node as it was: nothing is created or
aggregated.  On a node without
a stack it returns one face per net device, in the order of the devices; the node then
carries the stack with a FIB, a PIT, a strategy and a content store aggregated to it and
with these faces. -/
theorem install_is_fatal_on_a_node_with_a_stack (h : StackHelper) (node : Node) :
    (node.ndn.isSome = true → h.Install node = (node, .error .fatal)) ∧
    (node.ndn = none →
      ∃ (node' : Node) (faces : List NetDeviceFace) (ndn : L3Protocol),
        h.Install node = (node', .ok faces) ∧
        faces.length = node.devices.length ∧
        faces.map (fun face => face.device) = node.devices ∧
        (∀ face ∈ faces, face.isUp = true) ∧
        node'.devices = node.devices ∧ node'.ndn = some ndn ∧ ndn.faces = faces ∧
        ndn.aggregated = [.fib, .pit, .forwardingStrategy, .contentStore]) := by
  refine ⟨?_, ?_⟩
  · intro hsome
    simp [StackHelper.Install, hsome]
  · intro hnone
    have hdev : ∀ device : NetDevice, (h.setupFace { device := device }).device = device := by
      intro device
      unfold StackHelper.setupFace
      dsimp only
      split
      · split <;> rfl
      · rfl
    obtain ⟨node', ndn, hrun, hd, hn, hf, ha⟩ := install_ok h node hnone
    refine ⟨node', _, ndn, hrun, ?_, ?_, ?_, hd, hn, hf, ha⟩
    · simp
    · rw [List.map_map]
      have : ((fun face : NetDeviceFace => face.device) ∘
          fun device => h.setupFace { device := device }) = id := by
        funext device
        exact hdev device
      rw [this, List.map_id]
    · intro face hface
      obtain ⟨device, -, rfl⟩ := List.mem_map.mp hface
      rfl

/-- Witness of C32: a node with two devices and no stack gets two faces; a node that has
a stack gets the fatal error. -/
theorem install_is_fatal_on_a_node_with_a_stack_witness :
    ({} : StackHelper).Install { devices := [{}, {}], ndn := some {} } =
      ({ devices := [{}, {}], ndn := some {} }, .error .fatal) ∧
    ∃ (node' : Node) (faces : List NetDeviceFace),
      ({} : StackHelper).Install { devices := [{}, { isPointToPoint := true }] } =
        (node', .ok faces) ∧ faces.length = 2 := by
  obtain ⟨h1, -⟩ := install_is_fatal_on_a_node_with_a_stack {}
    { devices := [{}, {}], ndn := some {} }
  obtain ⟨-, h2⟩ := install_is_fatal_on_a_node_with_a_stack {}
    { devices := [{}, { isPointToPoint := true }] }
  obtain ⟨node', faces, -, hrun, hlen, -⟩ := h2 rfl
  exact ⟨h1 rfl, node', faces, hrun, hlen⟩

end Proofs

end Ndn
